import Mathlib

/-!
The detection engine of vibector

A shallow embedding of the Go packages `internal/git` (data types, pairing),
`internal/metrics` (velocity, statistics) and `internal/detector` (thresholds,
detector).

Conventions of the embedding

* `int64` and `int` values are integers (`Int`). `CalculateStats` adds line
  counts up as unbounded integers; `CalculateStatsInt64` is the same function
  with the sums of its `int64` fields wrapping around modulo `2^64`, and
  `CalculateStatsInt64_eq_map` relates the two results.
* `float64` values are rationals (`ℚ`). The definitions named after the source
  (`CalculateVelocity`, `percentile`, ...) take every `float64` operation as the
  exact operation on rationals ("exact arithmetic"); the definitions under
  `Binary64` are the same functions with every operation rounded to the
  nearest `float64`, ties to even. NaN and ±Inf have no representation.
* `time.Duration` is its underlying count of nanoseconds, and `time.Time` a
  count of nanoseconds from the zero time value, which is not bounded by the
  range of an `int64`; `Time.Sub` saturates at the least and the greatest
  `Duration` as in package time.
* A Go map is an association list with distinct keys, in insertion order.
* A Go result `(value, error)` is a pair whose second component is
  `none` for a `nil` error; a `nil` pointer result is `none`.
* `fmt.Sprintf` / `fmt.Errorf` calls are recorded as the format string with
  its arguments; the rendering to text is not interpreted.
-/

namespace Vibector

/-! ## Go runtime: durations, formatting, errors -/

/-- Go `time.Duration`: a signed count of nanoseconds. -/
abbrev Duration := Int

/-- Go `time.Time`, counted in nanoseconds from the zero time value. -/
abbrev Time := Int

/-- Constant `time.Second`. -/
def Second : Duration := 1000000000

/-- Constant `time.Minute`. -/
def Minute : Duration := 60 * Second

/-- Method `Duration.Seconds`: `sec := d / Second; nsec := d % Second;
return float64(sec) + float64(nsec)/1e9` (Go integer division truncates). -/
def Duration.Seconds (d : Duration) : ℚ :=
  let sec := Int.tdiv d Second
  let nsec := Int.tmod d Second
  (sec : ℚ) + (nsec : ℚ) / 1000000000

/-- Method `Duration.Minutes`: `min := d / Minute; nsec := d % Minute;
return float64(min) + float64(nsec)/(60*1e9)`. -/
def Duration.Minutes (d : Duration) : ℚ :=
  let min := Int.tdiv d Minute
  let nsec := Int.tmod d Minute
  (min : ℚ) + (nsec : ℚ) / (60 * 1000000000)

/-- One argument of a formatting call. -/
inductive FmtArg where
  | int (v : Int)
  | float (v : ℚ)
  | duration (v : Duration)
deriving DecidableEq

/-- The string built by `fmt.Sprintf(format, args...)`, kept as the call. -/
structure FmtString where
  format : String
  args : List FmtArg
deriving DecidableEq

/-- Function `fmt.Sprintf`. -/
def Sprintf (format : String) (args : List FmtArg) : FmtString :=
  { format := format, args := args }

/-- A Go `error` value: built by `fmt.Errorf` from a format and arguments, or
wrapping another error with the `%w` verb. -/
inductive GoError where
  | errorf (format : String) (args : List FmtArg)
  | wrap (format : String) (inner : GoError)
deriving DecidableEq

/-! ## Package git: data types -/

/-- Struct `git.Commit`. -/
structure Commit where
  Hash : String
  Author : String
  Email : String
  Timestamp : Time
  Message : String
  Parents : List String
deriving DecidableEq

/-- Struct `git.DiffStats`. -/
structure DiffStats where
  FilesChanged : Int
  Additions : Int
  Deletions : Int
  TotalAdditions : Int
  TotalDeletions : Int
  FilesChangedTotal : Int
deriving DecidableEq

/-- Struct `git.CommitPair` (its pointer fields are taken non-nil). -/
structure CommitPair where
  Previous : Commit
  Current : Commit
  TimeDelta : Duration
  Stats : DiffStats
deriving DecidableEq

/-! ## Package metrics: velocity -/

/-- Struct `metrics.VelocityMetrics`. -/
structure VelocityMetrics where
  LOCPerMinute : ℚ
deriving DecidableEq

/-- Struct `metrics.Percentiles`. -/
structure Percentiles where
  P50 : ℚ
  P75 : ℚ
  P90 : ℚ
  P95 : ℚ
  P99 : ℚ
deriving DecidableEq

/-- Struct `metrics.AuthorStats`. -/
structure AuthorStats where
  Name : String
  Email : String
  CommitCount : Int
  LOCAdded : Int
  LOCDeleted : Int
  AvgVelocity : ℚ
  MaxVelocity : ℚ
  FirstCommit : Time
  LastCommit : Time
deriving DecidableEq

/-- Struct `metrics.RepositoryStats`; the `Authors` map is an association list
keyed by author email. -/
structure RepositoryStats where
  TotalCommits : Int
  TotalCommitPairs : Int
  UniqueAuthors : Int
  Authors : List (String × AuthorStats)
  TimeSpan : Duration
  FirstCommit : Time
  LastCommit : Time
  TotalLOCAdded : Int
  TotalLOCDeleted : Int
  UnfilteredLOCAdded : Int
  UnfilteredLOCDeleted : Int
  AverageVelocity : ℚ
  MedianVelocity : ℚ
  VelocityPercentile : Option Percentiles
deriving DecidableEq

/-- Function `metrics.CalculateVelocity`, returning `(*VelocityMetrics, error)`. -/
def CalculateVelocity (loc : Int) (timeDelta : Duration) :
    Option VelocityMetrics × Option GoError :=
  if timeDelta ≤ 0 then
    (none, some (GoError.errorf "invalid time delta: %v (must be positive)"
      [FmtArg.duration timeDelta]))
  else
    let minutes := Duration.Minutes timeDelta
    let locFloat : ℚ := (loc : ℚ)
    (some { LOCPerMinute := locFloat / minutes }, none)

/-- Function `metrics.CalculateVelocityPerMinute`, returning `(float64, error)`. -/
def CalculateVelocityPerMinute (loc : Int) (timeDelta : Duration) :
    ℚ × Option GoError :=
  if timeDelta ≤ 0 then
    (0, some (GoError.errorf "invalid time delta: %v (must be positive)"
      [FmtArg.duration timeDelta]))
  else
    ((loc : ℚ) / Duration.Minutes timeDelta, none)

/-! ## Package detector -/

/-- Struct `detector.Thresholds`. -/
structure Thresholds where
  SuspiciousAdditions : Int
  SuspiciousDeletions : Int
  MaxAdditionsPerMin : ℚ
  MaxDeletionsPerMin : ℚ
  MinTimeDeltaSeconds : Int
deriving DecidableEq

/-- Method `Thresholds.Validate`; `none` is the `nil` error. -/
def Thresholds.Validate (t : Thresholds) : Option GoError :=
  if t.SuspiciousAdditions < 0 then
    some (GoError.errorf "SuspiciousAdditions cannot be negative" [])
  else if t.SuspiciousDeletions < 0 then
    some (GoError.errorf "SuspiciousDeletions cannot be negative" [])
  else if t.MaxAdditionsPerMin < 0 then
    some (GoError.errorf "MaxAdditionsPerMin cannot be negative" [])
  else if t.MaxDeletionsPerMin < 0 then
    some (GoError.errorf "MaxDeletionsPerMin cannot be negative" [])
  else if t.MinTimeDeltaSeconds < 0 then
    some (GoError.errorf "MinTimeDeltaSeconds cannot be negative" [])
  else if t.SuspiciousAdditions = 0 ∧
      t.SuspiciousDeletions = 0 ∧
      t.MaxAdditionsPerMin = 0 ∧
      t.MaxDeletionsPerMin = 0 ∧
      t.MinTimeDeltaSeconds = 0 then
    some (GoError.errorf "at least one threshold must be configured" [])
  else
    none

/-- Method `Thresholds.IsZero`. -/
def Thresholds.IsZero (t : Thresholds) : Bool :=
  decide (t.SuspiciousAdditions = 0 ∧
    t.SuspiciousDeletions = 0 ∧
    t.MaxAdditionsPerMin = 0 ∧
    t.MaxDeletionsPerMin = 0 ∧
    t.MinTimeDeltaSeconds = 0)

/-- Struct `detector.SuspiciousCommit`. -/
structure SuspiciousCommit where
  Pair : CommitPair
  AdditionVelocity : Option VelocityMetrics
  DeletionVelocity : Option VelocityMetrics
  Reasons : List FmtString
deriving DecidableEq

/-- Struct `detector.Detector`. -/
structure Detector where
  thresholds : Thresholds
deriving DecidableEq

/-- Function `detector.New`, returning `(*Detector, error)`. -/
def New (thresholds : Thresholds) : Option Detector × Option GoError :=
  match thresholds.Validate with
  | some err => (none, some (GoError.wrap "invalid thresholds: %w" err))
  | none => (some { thresholds := thresholds }, none)

/-- Lines 46-57 of `DetectSuspicious`: the two velocities of a pair. The outer
`none` is the `continue` taken when a velocity computation fails; otherwise
both variables are returned (`nil` when neither velocity threshold is set). -/
def DetectSuspicious.velocities (d : Detector) (pair : CommitPair) :
    Option (Option VelocityMetrics × Option VelocityMetrics) :=
  if d.thresholds.MaxAdditionsPerMin > 0 ∨ d.thresholds.MaxDeletionsPerMin > 0 then
    match CalculateVelocity pair.Stats.Additions pair.TimeDelta with
    | (_, some _) => none
    | (additionVelocity, none) =>
      match CalculateVelocity pair.Stats.Deletions pair.TimeDelta with
      | (_, some _) => none
      | (deletionVelocity, none) => some (additionVelocity, deletionVelocity)
  else
    some (none, none)

/-- Lines 59-67: the short-time-delta criterion. -/
def DetectSuspicious.checkTimeDelta (d : Detector) (pair : CommitPair)
    (reasons : List FmtString) : List FmtString :=
  if d.thresholds.MinTimeDeltaSeconds > 0 then
    if Duration.Seconds pair.TimeDelta < (d.thresholds.MinTimeDeltaSeconds : ℚ) then
      reasons ++ [Sprintf
        "Time between commits too short: %.1f seconds (threshold: %d seconds)"
        [FmtArg.float (Duration.Seconds pair.TimeDelta),
         FmtArg.int d.thresholds.MinTimeDeltaSeconds]]
    else reasons
  else reasons

/-- Lines 69-77: the addition-count criterion. -/
def DetectSuspicious.checkAdditions (d : Detector) (pair : CommitPair)
    (reasons : List FmtString) : List FmtString :=
  if d.thresholds.SuspiciousAdditions > 0 then
    if pair.Stats.Additions > d.thresholds.SuspiciousAdditions then
      reasons ++ [Sprintf
        "Suspicious commit size: %d additions (threshold: %d lines)"
        [FmtArg.int pair.Stats.Additions,
         FmtArg.int d.thresholds.SuspiciousAdditions]]
    else reasons
  else reasons

/-- Lines 79-87: the deletion-count criterion. -/
def DetectSuspicious.checkDeletions (d : Detector) (pair : CommitPair)
    (reasons : List FmtString) : List FmtString :=
  if d.thresholds.SuspiciousDeletions > 0 then
    if pair.Stats.Deletions > d.thresholds.SuspiciousDeletions then
      reasons ++ [Sprintf
        "Suspicious commit size: %d deletions (threshold: %d lines)"
        [FmtArg.int pair.Stats.Deletions,
         FmtArg.int d.thresholds.SuspiciousDeletions]]
    else reasons
  else reasons

/-- Lines 89-97: the addition-velocity criterion. -/
def DetectSuspicious.checkAdditionVelocity (d : Detector)
    (additionVelocity : Option VelocityMetrics)
    (reasons : List FmtString) : List FmtString :=
  match additionVelocity with
  | some v =>
    if d.thresholds.MaxAdditionsPerMin > 0 then
      if v.LOCPerMinute > d.thresholds.MaxAdditionsPerMin then
        reasons ++ [Sprintf
          "Addition velocity too high: %.1f additions/min (threshold: %.1f additions/min)"
          [FmtArg.float v.LOCPerMinute,
           FmtArg.float d.thresholds.MaxAdditionsPerMin]]
      else reasons
    else reasons
  | none => reasons

/-- Lines 99-107: the deletion-velocity criterion. -/
def DetectSuspicious.checkDeletionVelocity (d : Detector)
    (deletionVelocity : Option VelocityMetrics)
    (reasons : List FmtString) : List FmtString :=
  match deletionVelocity with
  | some v =>
    if d.thresholds.MaxDeletionsPerMin > 0 then
      if v.LOCPerMinute > d.thresholds.MaxDeletionsPerMin then
        reasons ++ [Sprintf
          "Deletion velocity too high: %.1f deletions/min (threshold: %.1f deletions/min)"
          [FmtArg.float v.LOCPerMinute,
           FmtArg.float d.thresholds.MaxDeletionsPerMin]]
      else reasons
    else reasons
  | none => reasons

/-- Lines 44 and 59-107: the reasons collected for a pair, in source order. -/
def DetectSuspicious.reasons (d : Detector) (pair : CommitPair)
    (additionVelocity deletionVelocity : Option VelocityMetrics) : List FmtString :=
  let reasons : List FmtString := []
  let reasons := DetectSuspicious.checkTimeDelta d pair reasons
  let reasons := DetectSuspicious.checkAdditions d pair reasons
  let reasons := DetectSuspicious.checkDeletions d pair reasons
  let reasons := DetectSuspicious.checkAdditionVelocity d additionVelocity reasons
  let reasons := DetectSuspicious.checkDeletionVelocity d deletionVelocity reasons
  reasons

/-- The body of the loop of `DetectSuspicious` for one pair (lines 40-116), up
to the final append: `none` when the iteration leaves `suspicious` unchanged
(either `continue`, or no reason collected), otherwise the record appended. -/
def DetectSuspicious.evaluate (d : Detector) (pair : CommitPair) :
    Option SuspiciousCommit :=
  if pair.Stats.Additions = 0 ∧ pair.Stats.Deletions = 0 then
    none
  else
    match DetectSuspicious.velocities d pair with
    | none => none
    | some (additionVelocity, deletionVelocity) =>
      let reasons := DetectSuspicious.reasons d pair additionVelocity deletionVelocity
      if reasons.length > 0 then
        some { Pair := pair
               AdditionVelocity := additionVelocity
               DeletionVelocity := deletionVelocity
               Reasons := reasons }
      else
        none

/-- One iteration of the loop of `DetectSuspicious` (lines 39-117): the
accumulator `suspicious` after visiting `pair`. -/
def DetectSuspicious.step (d : Detector) (suspicious : List SuspiciousCommit)
    (pair : CommitPair) : List SuspiciousCommit :=
  match DetectSuspicious.evaluate d pair with
  | none => suspicious
  | some record => suspicious ++ [record]

/-- Method `Detector.DetectSuspicious`. A `nil` and an empty `pairs` slice are
both the empty list; `repoStats` may be `nil`. -/
def Detector.DetectSuspicious (d : Detector) (pairs : List CommitPair)
    (repoStats : Option RepositoryStats) : List SuspiciousCommit :=
  let _ := repoStats
  pairs.foldl (DetectSuspicious.step d) []

/-! ## Package git: pairing -/

/-- Method `Time.IsZero`: the instant is the zero time value. -/
def Time.IsZero (t : Time) : Prop := t = 0

/-- Method `Time.Before`. -/
def Time.Before (t u : Time) : Prop := t < u

/-- Method `Time.After`. -/
def Time.After (t u : Time) : Prop := t > u

instance (t : Time) : Decidable (Time.IsZero t) := inferInstanceAs (Decidable (t = 0))

instance (t u : Time) : Decidable (Time.Before t u) := inferInstanceAs (Decidable (t < u))

instance (t u : Time) : Decidable (Time.After t u) := inferInstanceAs (Decidable (t > u))

/-- Constant `minDuration` of package time: the least `Duration`, `-1 << 63`. -/
def minDuration : Duration := -9223372036854775808

/-- Constant `maxDuration` of package time: the greatest `Duration`, `1<<63 - 1`. -/
def maxDuration : Duration := 9223372036854775807

/-- Method `Time.Sub` of package time, for instants without a monotonic clock
reading: the duration `t - u` when that is in the range of a `Duration`
(the case `u.Add(d).Equal(t)`), else `minDuration` when `t` is before `u` and
`maxDuration` otherwise. -/
def Time.Sub (t u : Time) : Duration :=
  let d : Duration := t - u
  if minDuration ≤ d ∧ d ≤ maxDuration then d
  else if Time.Before t u then minDuration
  else maxDuration

/-- The diff backend behind `gitRepository.getDiffStats(fromHash, toHash)`: every
return of that method is either `(nil, err)` or `(stats, nil)`. -/
abbrev DiffBackend := String → String → Except GoError DiffStats

/-- The body of the loop of `GetCommitPairs` (lines 120-142) for
`current = commits[i]` and `previous = commits[i+1]`: the accumulator `pairs`
after the iteration. -/
def GetCommitPairs.step (getDiffStats : DiffBackend) (pairs : List CommitPair)
    (adjacent : Commit × Commit) : List CommitPair :=
  let current := adjacent.1
  let previous := adjacent.2
  if current.Parents.length > 1 then
    pairs
  else
    let timeDelta := Time.Sub current.Timestamp previous.Timestamp
    if timeDelta ≤ 0 then
      pairs
    else
      match getDiffStats previous.Hash current.Hash with
      | Except.error _ => pairs
      | Except.ok stats =>
        pairs ++ [{ Previous := previous
                    Current := current
                    TimeDelta := timeDelta
                    Stats := stats }]

/-- Method `gitRepository.GetCommitPairs`, returning `([]*CommitPair, error)`.
The loop `for i := 0; i < len(commits)-1; i++` visits `(commits[i], commits[i+1])`
in increasing `i`, which is the list `commits.zip commits.tail`. -/
def GetCommitPairs (getDiffStats : DiffBackend) (commits : List Commit) :
    List CommitPair × Option GoError :=
  if commits.length < 2 then
    ([], none)
  else
    ((commits.zip commits.tail).foldl (GetCommitPairs.step getDiffStats) [], none)

/-! ## Package metrics: statistics -/

/-- Go slice indexing `xs[i]` with an `int` index; `none` is the run-time panic
on an index out of range. -/
def index (xs : List ℚ) (i : Int) : Option ℚ :=
  if 0 ≤ i then xs[i.toNat]? else none

/-- Function `sort.Float64s` on a copy of the values. -/
def sortFloat64s (values : List ℚ) : List ℚ :=
  values.insertionSort (fun a b => a ≤ b)

/-- Function `math.IsNaN`: no value of the model is NaN. -/
def IsNaN (_ : ℚ) : Bool := false

/-- The loop `sum := 0.0; for _, v := range values { sum += v }`. -/
def sumFloat64s (values : List ℚ) : ℚ :=
  values.foldl (fun sum v => sum + v) 0

/-- Function `metrics.calculateMedian`; `none` is a run-time panic. -/
def calculateMedian (values : List ℚ) : Option ℚ :=
  if values.length = 0 then
    some 0
  else
    let sorted := sortFloat64s values
    let mid : Int := (sorted.length : Int) / 2
    if (sorted.length : Int) % 2 = 0 then
      match index sorted (mid - 1), index sorted mid with
      | some a, some b => some ((a + b) / 2)
      | _, _ => none
    else
      index sorted mid

/-- Function `metrics.percentile`; `none` is a run-time panic. -/
def percentile (sorted : List ℚ) (p : ℚ) : Option ℚ :=
  if sorted.length = 0 then
    some 0
  else
    let rank : ℚ := (p / 100) * (((sorted.length : Int) - 1 : Int) : ℚ)
    let lowerIndex : Int := Int.floor rank
    let upperIndex : Int := Int.ceil rank
    if lowerIndex = upperIndex then
      index sorted lowerIndex
    else
      let weight : ℚ := rank - (lowerIndex : ℚ)
      match index sorted lowerIndex, index sorted upperIndex with
      | some lower, some upper => some (lower * (1 - weight) + upper * weight)
      | _, _ => none

/-- Function `metrics.calculatePercentiles`; `none` is a run-time panic (the
Go function never returns a nil pointer). -/
def calculatePercentiles (values : List ℚ) : Option Percentiles :=
  if values.length = 0 then
    some { P50 := 0, P75 := 0, P90 := 0, P95 := 0, P99 := 0 }
  else
    let sorted := sortFloat64s values
    match percentile sorted 50, percentile sorted 75, percentile sorted 90,
        percentile sorted 95, percentile sorted 99 with
    | some p50, some p75, some p90, some p95, some p99 =>
      some { P50 := p50, P75 := p75, P90 := p90, P95 := p95, P99 := p99 }
    | _, _, _, _, _ => none

/-- Go map read `m[key]` in the comma-ok form. -/
def Authors.get (m : List (String × AuthorStats)) (key : String) : Option AuthorStats :=
  (m.find? (fun entry => entry.1 = key)).map (fun entry => entry.2)

/-- Go map write `m[key] = value`. -/
def Authors.set (m : List (String × AuthorStats)) (key : String) (value : AuthorStats) :
    List (String × AuthorStats) :=
  if (Authors.get m key).isSome then
    m.map (fun entry => if entry.1 = key then (key, value) else entry)
  else
    m ++ [(key, value)]

/-- Go map write `authorSet[key] = true` on a `map[string]bool` used as a set,
kept as the list of its keys. -/
def authorSetAdd (authorSet : List String) (key : String) : List String :=
  if key ∈ authorSet then authorSet else authorSet ++ [key]

/-- The struct literal `&AuthorStats{Name: name, Email: email}`. -/
def AuthorStats.new (name email : String) : AuthorStats :=
  { Name := name, Email := email, CommitCount := 0, LOCAdded := 0, LOCDeleted := 0,
    AvgVelocity := 0, MaxVelocity := 0, FirstCommit := 0, LastCommit := 0 }

/-- The struct literal of lines 56-60 of `CalculateStats`. -/
def CalculateStats.init (commits : List Commit) (pairs : List CommitPair) :
    RepositoryStats :=
  { TotalCommits := (commits.length : Int)
    TotalCommitPairs := (pairs.length : Int)
    UniqueAuthors := 0
    Authors := []
    TimeSpan := 0
    FirstCommit := 0
    LastCommit := 0
    TotalLOCAdded := 0
    TotalLOCDeleted := 0
    UnfilteredLOCAdded := 0
    UnfilteredLOCDeleted := 0
    AverageVelocity := 0
    MedianVelocity := 0
    VelocityPercentile := none }

/-- The body of the first loop of `CalculateStats` (lines 67-84), on the state
`(authorSet, stats)`. -/
def CalculateStats.visitCommit (state : List String × RepositoryStats)
    (commit : Commit) : List String × RepositoryStats :=
  let authorSet := state.1
  let stats := state.2
  let authorKey := commit.Email
  let authorSet := authorSetAdd authorSet authorKey
  let stats :=
    if Time.IsZero stats.FirstCommit ∨ Time.Before commit.Timestamp stats.FirstCommit then
      { stats with FirstCommit := commit.Timestamp }
    else stats
  let stats :=
    if Time.IsZero stats.LastCommit ∨ Time.After commit.Timestamp stats.LastCommit then
      { stats with LastCommit := commit.Timestamp }
    else stats
  let stats :=
    if (Authors.get stats.Authors authorKey).isSome then stats
    else
      { stats with
        Authors := Authors.set stats.Authors authorKey
          (AuthorStats.new commit.Author commit.Email) }
  (authorSet, stats)

/-- The body of the second loop of `CalculateStats` (lines 91-133), on the
state `(stats, velocities)`. The author entry is a pointer in the source: it
is read (or created), updated, and written back to the map. -/
def CalculateStats.visitPair (state : RepositoryStats × List ℚ)
    (pair : CommitPair) : RepositoryStats × List ℚ :=
  let stats := state.1
  let velocities := state.2
  let stats := { stats with TotalLOCAdded := stats.TotalLOCAdded + pair.Stats.Additions }
  let stats := { stats with TotalLOCDeleted := stats.TotalLOCDeleted + pair.Stats.Deletions }
  let stats :=
    { stats with UnfilteredLOCAdded := stats.UnfilteredLOCAdded + pair.Stats.TotalAdditions }
  let stats :=
    { stats with UnfilteredLOCDeleted := stats.UnfilteredLOCDeleted + pair.Stats.TotalDeletions }
  let hasFilteredChanges : Bool :=
    decide (pair.Stats.Additions > 0) || decide (pair.Stats.Deletions > 0)
  if hasFilteredChanges then
    let result := CalculateVelocityPerMinute pair.Stats.Additions pair.TimeDelta
    let velocity := result.1
    let err := result.2
    let usable : Bool := err.isNone && !IsNaN velocity && decide (velocity ≥ 0)
    let velocities := if usable then velocities ++ [velocity] else velocities
    let authorKey := pair.Current.Email
    let authorStats :=
      match Authors.get stats.Authors authorKey with
      | some existing => existing
      | none => AuthorStats.new pair.Current.Author pair.Current.Email
    let authorStats := { authorStats with CommitCount := authorStats.CommitCount + 1 }
    let authorStats :=
      { authorStats with LOCAdded := authorStats.LOCAdded + pair.Stats.Additions }
    let authorStats :=
      { authorStats with LOCDeleted := authorStats.LOCDeleted + pair.Stats.Deletions }
    let authorStats :=
      if Time.IsZero authorStats.FirstCommit ∨
          Time.Before pair.Current.Timestamp authorStats.FirstCommit then
        { authorStats with FirstCommit := pair.Current.Timestamp }
      else authorStats
    let authorStats :=
      if Time.IsZero authorStats.LastCommit ∨
          Time.After pair.Current.Timestamp authorStats.LastCommit then
        { authorStats with LastCommit := pair.Current.Timestamp }
      else authorStats
    let authorStats :=
      if usable then
        if velocity > authorStats.MaxVelocity then
          { authorStats with MaxVelocity := velocity }
        else authorStats
      else authorStats
    ({ stats with Authors := Authors.set stats.Authors authorKey authorStats }, velocities)
  else
    (stats, velocities)

/-- The body of the inner loop of lines 148-159: the author's velocity samples
after visiting `pair`. -/
def CalculateStats.visitAuthorPair (email : String) (authorVelocities : List ℚ)
    (pair : CommitPair) : List ℚ :=
  if pair.Current.Email = email then
    if pair.Stats.Additions = 0 ∧ pair.Stats.Deletions = 0 then
      authorVelocities
    else
      let result := CalculateVelocityPerMinute pair.Stats.Additions pair.TimeDelta
      let velocity := result.1
      let err := result.2
      if err.isNone && !IsNaN velocity && decide (velocity ≥ 0) then
        authorVelocities ++ [velocity]
      else authorVelocities
  else authorVelocities

/-- The body of the last loop of `CalculateStats` (lines 145-169) for one map
entry: the entry after the iteration. -/
def CalculateStats.authorAverage (pairs : List CommitPair)
    (entry : String × AuthorStats) : String × AuthorStats :=
  let email := entry.1
  let authorStats := entry.2
  if authorStats.CommitCount > 0 then
    let authorVelocities := pairs.foldl (CalculateStats.visitAuthorPair email) []
    if authorVelocities.length > 0 then
      let sum := sumFloat64s authorVelocities
      (email, { authorStats with AvgVelocity := sum / (authorVelocities.length : ℚ) })
    else entry
  else entry

/-- Lines 135-143 of `CalculateStats`: mean, median and percentiles of the
velocity samples; `none` is a run-time panic. -/
def CalculateStats.summarize (stats : RepositoryStats) (velocities : List ℚ) :
    Option RepositoryStats :=
  if velocities.length > 0 then
    let sum := sumFloat64s velocities
    match calculateMedian velocities, calculatePercentiles velocities with
    | some median, some percentiles =>
      some { stats with
        AverageVelocity := sum / (velocities.length : ℚ)
        MedianVelocity := median
        VelocityPercentile := some percentiles }
    | _, _ => none
  else
    some stats

/-- Function `metrics.CalculateStats`; `none` is a run-time panic. A `nil` and
an empty slice are both the empty list. -/
def CalculateStats (commits : List Commit) (pairs : List CommitPair) :
    Option RepositoryStats :=
  let stats := CalculateStats.init commits pairs
  if commits.length = 0 then
    some stats
  else
    let first := commits.foldl CalculateStats.visitCommit ([], stats)
    let authorSet := first.1
    let stats := first.2
    let stats := { stats with UniqueAuthors := (authorSet.length : Int) }
    let stats := { stats with TimeSpan := Time.Sub stats.LastCommit stats.FirstCommit }
    let second := pairs.foldl CalculateStats.visitPair (stats, [])
    let stats := second.1
    let velocities := second.2
    match CalculateStats.summarize stats velocities with
    | none => none
    | some stats =>
      some { stats with Authors := stats.Authors.map (CalculateStats.authorAverage pairs) }

/-! ## Package metrics: statistics with `int64` sums -/

/-- The `int64` result of an integer operation whose exact result is `x`: the
integer of the range `-2^63 .. 2^63 - 1` with the same residue modulo `2^64`
(Go integer arithmetic wraps around in two's complement). -/
def wrapInt64 (x : Int) : Int :=
  (x + 9223372036854775808) % 18446744073709551616 - 9223372036854775808

/-- The body of the second loop of `CalculateStats` (lines 91-133) with the
six `+=` on `int64` fields done in `int64` arithmetic. `CommitCount++` is on an
`int` that counts iterations over the slice, which cannot wrap. -/
def CalculateStats.visitPairInt64 (state : RepositoryStats × List ℚ)
    (pair : CommitPair) : RepositoryStats × List ℚ :=
  let stats := state.1
  let velocities := state.2
  let stats :=
    { stats with TotalLOCAdded := wrapInt64 (stats.TotalLOCAdded + pair.Stats.Additions) }
  let stats :=
    { stats with TotalLOCDeleted := wrapInt64 (stats.TotalLOCDeleted + pair.Stats.Deletions) }
  let stats :=
    { stats with
      UnfilteredLOCAdded := wrapInt64 (stats.UnfilteredLOCAdded + pair.Stats.TotalAdditions) }
  let stats :=
    { stats with
      UnfilteredLOCDeleted :=
        wrapInt64 (stats.UnfilteredLOCDeleted + pair.Stats.TotalDeletions) }
  let hasFilteredChanges : Bool :=
    decide (pair.Stats.Additions > 0) || decide (pair.Stats.Deletions > 0)
  if hasFilteredChanges then
    let result := CalculateVelocityPerMinute pair.Stats.Additions pair.TimeDelta
    let velocity := result.1
    let err := result.2
    let usable : Bool := err.isNone && !IsNaN velocity && decide (velocity ≥ 0)
    let velocities := if usable then velocities ++ [velocity] else velocities
    let authorKey := pair.Current.Email
    let authorStats :=
      match Authors.get stats.Authors authorKey with
      | some existing => existing
      | none => AuthorStats.new pair.Current.Author pair.Current.Email
    let authorStats := { authorStats with CommitCount := authorStats.CommitCount + 1 }
    let authorStats :=
      { authorStats with LOCAdded := wrapInt64 (authorStats.LOCAdded + pair.Stats.Additions) }
    let authorStats :=
      { authorStats with
        LOCDeleted := wrapInt64 (authorStats.LOCDeleted + pair.Stats.Deletions) }
    let authorStats :=
      if Time.IsZero authorStats.FirstCommit ∨
          Time.Before pair.Current.Timestamp authorStats.FirstCommit then
        { authorStats with FirstCommit := pair.Current.Timestamp }
      else authorStats
    let authorStats :=
      if Time.IsZero authorStats.LastCommit ∨
          Time.After pair.Current.Timestamp authorStats.LastCommit then
        { authorStats with LastCommit := pair.Current.Timestamp }
      else authorStats
    let authorStats :=
      if usable then
        if velocity > authorStats.MaxVelocity then
          { authorStats with MaxVelocity := velocity }
        else authorStats
      else authorStats
    ({ stats with Authors := Authors.set stats.Authors authorKey authorStats }, velocities)
  else
    (stats, velocities)

/-- Function `metrics.CalculateStats` with the sums of its `int64` fields done in
`int64` arithmetic: the second loop is `CalculateStats.visitPairInt64`, every
other step is that of `CalculateStats`; `none` is a run-time panic. -/
def CalculateStatsInt64 (commits : List Commit) (pairs : List CommitPair) :
    Option RepositoryStats :=
  let stats := CalculateStats.init commits pairs
  if commits.length = 0 then
    some stats
  else
    let first := commits.foldl CalculateStats.visitCommit ([], stats)
    let authorSet := first.1
    let stats := first.2
    let stats := { stats with UniqueAuthors := (authorSet.length : Int) }
    let stats := { stats with TimeSpan := Time.Sub stats.LastCommit stats.FirstCommit }
    let second := pairs.foldl CalculateStats.visitPairInt64 (stats, [])
    let stats := second.1
    let velocities := second.2
    match CalculateStats.summarize stats velocities with
    | none => none
    | some stats =>
      some { stats with Authors := stats.Authors.map (CalculateStats.authorAverage pairs) }

/-! ## Binary64 arithmetic: `float64` operations with their rounding -/

/-- The integer nearest to a rational, the even one of the two when it is half
way between them. -/
def roundHalfEven (x : ℚ) : Int :=
  let f := Int.floor x
  if x - (f : ℚ) < 1 / 2 then f
  else if 1 / 2 < x - (f : ℚ) then f + 1
  else if f % 2 = 0 then f else f + 1

/-- The `float64` nearest to the real number `x`, the one with even significand
when `x` is half way between two of them: the default rounding of IEEE 754
binary64, which every `float64` operation of Go applies to its exact result.
The unit in the last place of `x` is `2 ^ (e - 52)` for `2 ^ e <= |x| < 2 ^ (e + 1)`,
and `2 ^ (-1074)` below `2 ^ (-1022)`. Results beyond the largest `float64`
(which Go turns into an infinity) and NaN are not represented. -/
def Binary64.round (x : ℚ) : ℚ :=
  if x = 0 then 0
  else
    let e : Int := max (Int.log 2 |x|) (-1022)
    let ulp : ℚ := (2 : ℚ) ^ (e - 52)
    (roundHalfEven (x / ulp) : ℚ) * ulp

/-- The conversion `float64(n)` of an integer. -/
def Binary64.ofInt (n : Int) : ℚ := Binary64.round (n : ℚ)

/-- The `float64` sum `x + y`. -/
def Binary64.add (x y : ℚ) : ℚ := Binary64.round (x + y)

/-- The `float64` difference `x - y`. -/
def Binary64.sub (x y : ℚ) : ℚ := Binary64.round (x - y)

/-- The `float64` product `x * y`. -/
def Binary64.mul (x y : ℚ) : ℚ := Binary64.round (x * y)

/-- The `float64` quotient `x / y` for a divisor that is not zero. -/
def Binary64.div (x y : ℚ) : ℚ := Binary64.round (x / y)

/-! ## Package time and package metrics in `float64` arithmetic -/

/-- Method `Duration.Seconds` with its `float64` operations. -/
def Binary64.Seconds (d : Duration) : ℚ :=
  let sec := Int.tdiv d Second
  let nsec := Int.tmod d Second
  Binary64.add (Binary64.ofInt sec) (Binary64.div (Binary64.ofInt nsec) 1000000000)

/-- Method `Duration.Minutes` with its `float64` operations. -/
def Binary64.Minutes (d : Duration) : ℚ :=
  let min := Int.tdiv d Minute
  let nsec := Int.tmod d Minute
  Binary64.add (Binary64.ofInt min) (Binary64.div (Binary64.ofInt nsec) (60 * 1000000000))

/-- Function `metrics.CalculateVelocity` with its `float64` operations. -/
def Binary64.CalculateVelocity (loc : Int) (timeDelta : Duration) :
    Option VelocityMetrics × Option GoError :=
  if timeDelta ≤ 0 then
    (none, some (GoError.errorf "invalid time delta: %v (must be positive)"
      [FmtArg.duration timeDelta]))
  else
    let minutes := Binary64.Minutes timeDelta
    let locFloat : ℚ := Binary64.ofInt loc
    (some { LOCPerMinute := Binary64.div locFloat minutes }, none)

/-- Function `metrics.CalculateVelocityPerMinute` with its `float64`
operations. -/
def Binary64.CalculateVelocityPerMinute (loc : Int) (timeDelta : Duration) :
    ℚ × Option GoError :=
  if timeDelta ≤ 0 then
    (0, some (GoError.errorf "invalid time delta: %v (must be positive)"
      [FmtArg.duration timeDelta]))
  else
    (Binary64.div (Binary64.ofInt loc) (Binary64.Minutes timeDelta), none)

/-- Function `metrics.percentile` with its `float64` operations, each rounded
on its own; `none` is a run-time panic. -/
def Binary64.percentile (sorted : List ℚ) (p : ℚ) : Option ℚ :=
  if sorted.length = 0 then
    some 0
  else
    let rank : ℚ :=
      Binary64.mul (Binary64.div p 100) (Binary64.ofInt ((sorted.length : Int) - 1))
    let lowerIndex : Int := Int.floor rank
    let upperIndex : Int := Int.ceil rank
    if lowerIndex = upperIndex then
      index sorted lowerIndex
    else
      let weight : ℚ := Binary64.sub rank (Binary64.ofInt lowerIndex)
      match index sorted lowerIndex, index sorted upperIndex with
      | some lower, some upper =>
        some (Binary64.add (Binary64.mul lower (Binary64.sub 1 weight))
          (Binary64.mul upper weight))
      | _, _ => none

/-- Function `metrics.calculatePercentiles` with the `float64` operations of
`percentile`; `none` is a run-time panic. -/
def Binary64.calculatePercentiles (values : List ℚ) : Option Percentiles :=
  if values.length = 0 then
    some { P50 := 0, P75 := 0, P90 := 0, P95 := 0, P99 := 0 }
  else
    let sorted := sortFloat64s values
    match Binary64.percentile sorted 50, Binary64.percentile sorted 75,
        Binary64.percentile sorted 90, Binary64.percentile sorted 95,
        Binary64.percentile sorted 99 with
    | some p50, some p75, some p90, some p95, some p99 =>
      some { P50 := p50, P75 := p75, P90 := p90, P95 := p95, P99 := p99 }
    | _, _, _, _, _ => none

/-- The loop `sum := 0.0; for _, v := range values { sum += v }` with its
`float64` additions. -/
def Binary64.sumFloat64s (values : List ℚ) : ℚ :=
  values.foldl (fun sum v => Binary64.add sum v) 0

/-- Lines 136-140 of `CalculateStats` with their `float64` operations: the
`AverageVelocity` of a non-empty slice of velocity samples. -/
def Binary64.averageVelocity (velocities : List ℚ) : ℚ :=
  Binary64.div (Binary64.sumFloat64s velocities) (Binary64.ofInt (velocities.length : Int))

/-! ## Package detector in `float64` arithmetic -/

/-- Lines 46-57 of `DetectSuspicious` with `float64` velocities: `none` when
the iteration is abandoned with `continue`. -/
def Binary64.DetectSuspicious.velocities (d : Detector) (pair : CommitPair) :
    Option (Option VelocityMetrics × Option VelocityMetrics) :=
  if d.thresholds.MaxAdditionsPerMin > 0 ∨ d.thresholds.MaxDeletionsPerMin > 0 then
    match Binary64.CalculateVelocity pair.Stats.Additions pair.TimeDelta with
    | (_, some _) => none
    | (additionVelocity, none) =>
      match Binary64.CalculateVelocity pair.Stats.Deletions pair.TimeDelta with
      | (_, some _) => none
      | (deletionVelocity, none) => some (additionVelocity, deletionVelocity)
  else
    some (none, none)

/-- Lines 59-67 with `float64` operations: the time-delta criterion compares
`pair.TimeDelta.Seconds()` with `float64(d.thresholds.MinTimeDeltaSeconds)`. -/
def Binary64.DetectSuspicious.checkTimeDelta (d : Detector) (pair : CommitPair)
    (reasons : List FmtString) : List FmtString :=
  if d.thresholds.MinTimeDeltaSeconds > 0 then
    if Binary64.Seconds pair.TimeDelta < Binary64.ofInt d.thresholds.MinTimeDeltaSeconds then
      reasons ++ [Sprintf
        "Time between commits too short: %.1f seconds (threshold: %d seconds)"
        [FmtArg.float (Binary64.Seconds pair.TimeDelta),
         FmtArg.int d.thresholds.MinTimeDeltaSeconds]]
    else reasons
  else reasons

/-- Lines 44 and 59-107 with `float64` operations: the reasons collected for a
pair, in source order; the four other criteria compare without computing. -/
def Binary64.DetectSuspicious.reasons (d : Detector) (pair : CommitPair)
    (additionVelocity deletionVelocity : Option VelocityMetrics) : List FmtString :=
  let reasons : List FmtString := []
  let reasons := Binary64.DetectSuspicious.checkTimeDelta d pair reasons
  let reasons := Vibector.DetectSuspicious.checkAdditions d pair reasons
  let reasons := Vibector.DetectSuspicious.checkDeletions d pair reasons
  let reasons := Vibector.DetectSuspicious.checkAdditionVelocity d additionVelocity reasons
  let reasons := Vibector.DetectSuspicious.checkDeletionVelocity d deletionVelocity reasons
  reasons

/-- The body of the loop of `DetectSuspicious` for one pair (lines 40-116) with
`float64` operations: `none` when the iteration leaves `suspicious` unchanged,
otherwise the record appended. -/
def Binary64.DetectSuspicious.evaluate (d : Detector) (pair : CommitPair) :
    Option SuspiciousCommit :=
  if pair.Stats.Additions = 0 ∧ pair.Stats.Deletions = 0 then
    none
  else
    match Binary64.DetectSuspicious.velocities d pair with
    | none => none
    | some (additionVelocity, deletionVelocity) =>
      let reasons := Binary64.DetectSuspicious.reasons d pair additionVelocity deletionVelocity
      if reasons.length > 0 then
        some { Pair := pair
               AdditionVelocity := additionVelocity
               DeletionVelocity := deletionVelocity
               Reasons := reasons }
      else
        none

/-- One iteration of the loop of `DetectSuspicious` with `float64` operations. -/
def Binary64.DetectSuspicious.step (d : Detector) (suspicious : List SuspiciousCommit)
    (pair : CommitPair) : List SuspiciousCommit :=
  match Binary64.DetectSuspicious.evaluate d pair with
  | none => suspicious
  | some record => suspicious ++ [record]

/-- Method `Detector.DetectSuspicious` with its `float64` operations (the two
velocities and the seconds of the time delta) rounded as Go rounds them. -/
def Binary64.DetectSuspicious (d : Detector) (pairs : List CommitPair)
    (repoStats : Option RepositoryStats) : List SuspiciousCommit :=
  let _ := repoStats
  pairs.foldl (Binary64.DetectSuspicious.step d) []

/-! ## Package git: diff statistics -/

/-- Type `diff.Operation` of go-git. -/
inductive Operation where
  | Equal
  | Add
  | Delete
deriving DecidableEq

/-- Interface `diff.File` of go-git, of which only `Path()` is used. -/
structure File where
  Path : String
deriving DecidableEq

/-- Interface `diff.Chunk` of go-git: `Content()` and `Type()` (field `ChunkType`). -/
structure Chunk where
  Content : String
  ChunkType : Operation
deriving DecidableEq

/-- Interface `diff.FilePatch` of go-git: `Files()` (either may be nil) and
`Chunks()`. -/
structure FilePatch where
  From : Option File
  To : Option File
  Chunks : List Chunk
deriving DecidableEq

/-- A go-git `object.Change`: what `change.Patch()` followed by
`patch.FilePatches()` gives, or the error of `Patch()`. -/
structure Change where
  Patch : Except GoError (List FilePatch)

/-- A go-git `object.Commit`, identified by a key. -/
structure ObjectCommit where
  id : Nat
deriving DecidableEq

/-- A go-git `object.Tree`, identified by a key. -/
structure ObjectTree where
  id : Nat
deriving DecidableEq

/-- The go-git repository `*git.Repository`, as the three operations
`getDiffStats` uses: `CommitObject(plumbing.NewHash(hash))`, `commit.Tree()` and
`fromTree.Diff(toTree)`. -/
structure GoGitRepository where
  CommitObject : String → Except GoError ObjectCommit
  Tree : ObjectCommit → Except GoError ObjectTree
  Diff : ObjectTree → ObjectTree → Except GoError (List Change)

/-- The functions of package `path/filepath` that are used: `Match`, returning
`(matched bool, err error)`, and `Base`. -/
structure Filepath where
  Match : String → String → Bool × Option GoError
  Base : String → String

/-- Struct `git.gitRepository`. -/
structure gitRepository where
  repo : GoGitRepository
  path : String
  excludeFiles : List String

/-- The loop of `shouldExcludeFile` (lines 153-163), which returns `true` from
inside the loop and `false` after it. -/
def shouldExcludeFile.loop (fp : Filepath) (filePath : String) : List String → Bool
  | [] => false
  | pattern :: rest =>
    let first := fp.Match pattern (fp.Base filePath)
    if first.2.isNone && first.1 then
      true
    else
      let second := fp.Match pattern filePath
      if second.2.isNone && second.1 then
        true
      else
        shouldExcludeFile.loop fp filePath rest

/-- Method `gitRepository.shouldExcludeFile`. -/
def gitRepository.shouldExcludeFile (fp : Filepath) (r : gitRepository)
    (filePath : String) : Bool :=
  if r.excludeFiles.length = 0 then
    false
  else
    shouldExcludeFile.loop fp filePath r.excludeFiles

/-- The map write `m[key] = true` on a `map[string]bool` used as a set of file
paths, kept as the list of its keys. -/
def setTrue (m : List String) (key : String) : List String :=
  authorSetAdd m key

/-- The state of the loops of `getDiffStats`: `stats`, `filesChanged` and
`filesChangedTotal`. -/
structure DiffState where
  stats : DiffStats
  filesChanged : List String
  filesChangedTotal : List String

/-- The body of the innermost loop of `getDiffStats` (lines 236-250) for one
line of a chunk of the given type. -/
def getDiffStats.visitLine (isExcluded : Bool) (type : Operation) (stats : DiffStats)
    (line : String) : DiffStats :=
  if line = "" then
    stats
  else
    match type with
    | Operation.Add =>
      let stats := { stats with TotalAdditions := stats.TotalAdditions + 1 }
      if !isExcluded then { stats with Additions := stats.Additions + 1 } else stats
    | Operation.Delete =>
      let stats := { stats with TotalDeletions := stats.TotalDeletions + 1 }
      if !isExcluded then { stats with Deletions := stats.Deletions + 1 } else stats
    | Operation.Equal => stats

/-- The body of the loop over the chunks (lines 234-251). -/
def getDiffStats.visitChunk (isExcluded : Bool) (stats : DiffStats) (chunk : Chunk) :
    DiffStats :=
  let lines := chunk.Content.splitOn "\n"
  lines.foldl (getDiffStats.visitLine isExcluded chunk.ChunkType) stats

/-- The body of the loop over the file patches (lines 205-252). -/
def getDiffStats.visitFilePatch (fp : Filepath) (r : gitRepository) (state : DiffState)
    (filePatch : FilePatch) : DiffState :=
  let fromFile := filePatch.From
  let toFile := filePatch.To
  let filePath : String :=
    match toFile, fromFile with
    | some t, _ => t.Path
    | none, some f => f.Path
    | none, none => ""
  let filesChangedTotal := state.filesChangedTotal
  let filesChangedTotal :=
    match fromFile with
    | some f => setTrue filesChangedTotal f.Path
    | none => filesChangedTotal
  let filesChangedTotal :=
    match toFile with
    | some t => setTrue filesChangedTotal t.Path
    | none => filesChangedTotal
  let isExcluded := r.shouldExcludeFile fp filePath
  let filesChanged := state.filesChanged
  let filesChanged :=
    if !isExcluded then
      let filesChanged :=
        match fromFile with
        | some f => setTrue filesChanged f.Path
        | none => filesChanged
      match toFile with
      | some t => setTrue filesChanged t.Path
      | none => filesChanged
    else filesChanged
  let chunks := filePatch.Chunks
  { stats := chunks.foldl (getDiffStats.visitChunk isExcluded) state.stats
    filesChanged := filesChanged
    filesChangedTotal := filesChangedTotal }

/-- The body of the loop over the changes (lines 199-253). -/
def getDiffStats.visitChange (fp : Filepath) (r : gitRepository) (state : DiffState)
    (change : Change) : DiffState :=
  match change.Patch with
  | Except.error _ => state
  | Except.ok filePatches => filePatches.foldl (getDiffStats.visitFilePatch fp r) state

/-- Lines 194-259 of `getDiffStats`: the statistics of a list of changes. -/
def getDiffStats.ofChanges (fp : Filepath) (r : gitRepository) (changes : List Change) :
    DiffStats :=
  let stats : DiffStats :=
    { FilesChanged := 0, Additions := 0, Deletions := 0, TotalAdditions := 0,
      TotalDeletions := 0, FilesChangedTotal := 0 }
  let state := changes.foldl (getDiffStats.visitChange fp r)
    { stats := stats, filesChanged := [], filesChangedTotal := [] }
  let stats := state.stats
  let stats := { stats with FilesChanged := (state.filesChanged.length : Int) }
  { stats with FilesChangedTotal := (state.filesChangedTotal.length : Int) }

/-- Method `gitRepository.getDiffStats`, returning either `(nil, err)` or
`(stats, nil)`. -/
def gitRepository.getDiffStats (fp : Filepath) (r : gitRepository)
    (fromHash toHash : String) : Except GoError DiffStats :=
  match r.repo.CommitObject fromHash with
  | Except.error err => Except.error (GoError.wrap "failed to get from commit: %w" err)
  | Except.ok fromCommit =>
    match r.repo.CommitObject toHash with
    | Except.error err => Except.error (GoError.wrap "failed to get to commit: %w" err)
    | Except.ok toCommit =>
      match r.repo.Tree fromCommit with
      | Except.error err => Except.error (GoError.wrap "failed to get from tree: %w" err)
      | Except.ok fromTree =>
        match r.repo.Tree toCommit with
        | Except.error err => Except.error (GoError.wrap "failed to get to tree: %w" err)
        | Except.ok toTree =>
          match r.repo.Diff fromTree toTree with
          | Except.error err => Except.error (GoError.wrap "failed to get diff: %w" err)
          | Except.ok changes => Except.ok (getDiffStats.ofChanges fp r changes)

/-! ## Package reporter -/

/-- Struct `reporter.JSONPercentiles`. -/
structure JSONPercentiles where
  P50 : ℚ
  P75 : ℚ
  P90 : ℚ
  P95 : ℚ
  P99 : ℚ
deriving DecidableEq

/-- Struct `reporter.JSONStats`; the pointer `VelocityPercentiles` is `none` when
`nil` (and then omitted from the output). -/
structure JSONStats where
  TotalCommits : Int
  CommitPairs : Int
  UniqueAuthors : Int
  TimeSpanSeconds : ℚ
  TotalLOCAdded : Int
  TotalLOCDeleted : Int
  UnfilteredLOCAdded : Int
  UnfilteredLOCDeleted : Int
  AverageVelocity : ℚ
  MedianVelocity : ℚ
  VelocityPercentiles : Option JSONPercentiles
deriving DecidableEq

/-- The field `Statistics` of the report that `JSONReporter.Generate` builds
from `data.Stats` (lines 66-78 and 90-98), before it is marshalled. -/
def JSONReporter.Generate.statistics (stats : RepositoryStats) : JSONStats :=
  let statistics : JSONStats :=
    { TotalCommits := stats.TotalCommits
      CommitPairs := stats.TotalCommitPairs
      UniqueAuthors := stats.UniqueAuthors
      TimeSpanSeconds := Duration.Seconds stats.TimeSpan
      TotalLOCAdded := stats.TotalLOCAdded
      TotalLOCDeleted := stats.TotalLOCDeleted
      UnfilteredLOCAdded := stats.UnfilteredLOCAdded
      UnfilteredLOCDeleted := stats.UnfilteredLOCDeleted
      AverageVelocity := stats.AverageVelocity
      MedianVelocity := stats.MedianVelocity
      VelocityPercentiles := none }
  match stats.VelocityPercentile with
  | some velocityPercentile =>
    { statistics with
      VelocityPercentiles := some
        { P50 := velocityPercentile.P50
          P75 := velocityPercentile.P75
          P90 := velocityPercentile.P90
          P95 := velocityPercentile.P95
          P99 := velocityPercentile.P99 } }
  | none => statistics

/-! ## Specification-side vocabulary

The quantities the specification speaks of, written from its words and
independently of the code above. -/

/-- A time delta expressed in seconds. -/
def deltaSeconds (delta : Duration) : ℚ := (delta : ℚ) / 1000000000

/-- The rate of `n` lines over `delta`, in lines per minute:
`n * 60 / delta-in-seconds`. -/
def linesPerMinute (n : Int) (delta : Duration) : ℚ :=
  (n : ℚ) * 60 / deltaSeconds delta

/-- Every field of the thresholds is at least zero. -/
def Thresholds.AllNonneg (t : Thresholds) : Prop :=
  0 ≤ t.SuspiciousAdditions ∧ 0 ≤ t.SuspiciousDeletions ∧
  0 ≤ t.MaxAdditionsPerMin ∧ 0 ≤ t.MaxDeletionsPerMin ∧
  0 ≤ t.MinTimeDeltaSeconds

/-- Some field of the thresholds is not zero. -/
def Thresholds.SomeNonzero (t : Thresholds) : Prop :=
  t.SuspiciousAdditions ≠ 0 ∨ t.SuspiciousDeletions ≠ 0 ∨
  t.MaxAdditionsPerMin ≠ 0 ∨ t.MaxDeletionsPerMin ≠ 0 ∨
  t.MinTimeDeltaSeconds ≠ 0

/-- Some field of the thresholds is negative. -/
def Thresholds.SomeNegative (t : Thresholds) : Prop :=
  t.SuspiciousAdditions < 0 ∨ t.SuspiciousDeletions < 0 ∨
  t.MaxAdditionsPerMin < 0 ∨ t.MaxDeletionsPerMin < 0 ∨
  t.MinTimeDeltaSeconds < 0

/-- Criterion "short time delta": enabled and delta in seconds below the
threshold. -/
def shortTimeDelta (t : Thresholds) (p : CommitPair) : Prop :=
  t.MinTimeDeltaSeconds > 0 ∧ deltaSeconds p.TimeDelta < (t.MinTimeDeltaSeconds : ℚ)

/-- Criterion "large addition count". -/
def largeAdditions (t : Thresholds) (p : CommitPair) : Prop :=
  t.SuspiciousAdditions > 0 ∧ p.Stats.Additions > t.SuspiciousAdditions

/-- Criterion "large deletion count". -/
def largeDeletions (t : Thresholds) (p : CommitPair) : Prop :=
  t.SuspiciousDeletions > 0 ∧ p.Stats.Deletions > t.SuspiciousDeletions

/-- Criterion "high addition velocity". -/
def highAdditionVelocity (t : Thresholds) (p : CommitPair) : Prop :=
  t.MaxAdditionsPerMin > 0 ∧
    linesPerMinute p.Stats.Additions p.TimeDelta > t.MaxAdditionsPerMin

/-- Criterion "high deletion velocity". -/
def highDeletionVelocity (t : Thresholds) (p : CommitPair) : Prop :=
  t.MaxDeletionsPerMin > 0 ∧
    linesPerMinute p.Stats.Deletions p.TimeDelta > t.MaxDeletionsPerMin

instance (t : Thresholds) (p : CommitPair) : Decidable (shortTimeDelta t p) :=
  inferInstanceAs (Decidable (_ ∧ _))

instance (t : Thresholds) (p : CommitPair) : Decidable (largeAdditions t p) :=
  inferInstanceAs (Decidable (_ ∧ _))

instance (t : Thresholds) (p : CommitPair) : Decidable (largeDeletions t p) :=
  inferInstanceAs (Decidable (_ ∧ _))

instance (t : Thresholds) (p : CommitPair) : Decidable (highAdditionVelocity t p) :=
  inferInstanceAs (Decidable (_ ∧ _))

instance (t : Thresholds) (p : CommitPair) : Decidable (highDeletionVelocity t p) :=
  inferInstanceAs (Decidable (_ ∧ _))

/-- At least one enabled criterion is strictly exceeded. -/
def someCriterionExceeded (t : Thresholds) (p : CommitPair) : Prop :=
  shortTimeDelta t p ∨ largeAdditions t p ∨ largeDeletions t p ∨
    highAdditionVelocity t p ∨ highDeletionVelocity t p

/-- The number of enabled criteria, out of the five, that are strictly
exceeded. -/
def exceededCount (t : Thresholds) (p : CommitPair) : Nat :=
  (if shortTimeDelta t p then 1 else 0) +
  (if largeAdditions t p then 1 else 0) +
  (if largeDeletions t p then 1 else 0) +
  (if highAdditionVelocity t p then 1 else 0) +
  (if highDeletionVelocity t p then 1 else 0)

/-- Every observed value of the pair is equal to or within its threshold. -/
def withinThresholds (t : Thresholds) (p : CommitPair) : Prop :=
  (t.MinTimeDeltaSeconds : ℚ) ≤ deltaSeconds p.TimeDelta ∧
  p.Stats.Additions ≤ t.SuspiciousAdditions ∧
  p.Stats.Deletions ≤ t.SuspiciousDeletions ∧
  linesPerMinute p.Stats.Additions p.TimeDelta ≤ t.MaxAdditionsPerMin ∧
  linesPerMinute p.Stats.Deletions p.TimeDelta ≤ t.MaxDeletionsPerMin

/-! ## Specification-side vocabulary: the observed values of a pair -/

/-- The rate of `n` lines over `delta` as the detector observes it: the
`LOCPerMinute` of the metrics returned by `CalculateVelocity`, if it returns
metrics. -/
def observedRate (n : Int) (delta : Duration) : Option ℚ :=
  (CalculateVelocity n delta).1.map (fun v => v.LOCPerMinute)

/-- Criterion "short time delta" on the observed value: enabled and the delta
in seconds, as `Duration.Seconds` gives it, below the threshold. -/
def observedShortTimeDelta (t : Thresholds) (p : CommitPair) : Prop :=
  t.MinTimeDeltaSeconds > 0 ∧ Duration.Seconds p.TimeDelta < (t.MinTimeDeltaSeconds : ℚ)

/-- Criterion "high addition velocity" on the observed value: enabled and the
observed additions per minute above the threshold. -/
def observedHighAdditionVelocity (t : Thresholds) (p : CommitPair) : Prop :=
  t.MaxAdditionsPerMin > 0 ∧
    ∃ r ∈ observedRate p.Stats.Additions p.TimeDelta, r > t.MaxAdditionsPerMin

/-- Criterion "high deletion velocity" on the observed value: enabled and the
observed deletions per minute above the threshold. -/
def observedHighDeletionVelocity (t : Thresholds) (p : CommitPair) : Prop :=
  t.MaxDeletionsPerMin > 0 ∧
    ∃ r ∈ observedRate p.Stats.Deletions p.TimeDelta, r > t.MaxDeletionsPerMin

instance (t : Thresholds) (p : CommitPair) : Decidable (observedShortTimeDelta t p) :=
  inferInstanceAs (Decidable (_ ∧ _))

instance (t : Thresholds) (p : CommitPair) : Decidable (observedHighAdditionVelocity t p) :=
  inferInstanceAs (Decidable (_ ∧ _))

instance (t : Thresholds) (p : CommitPair) : Decidable (observedHighDeletionVelocity t p) :=
  inferInstanceAs (Decidable (_ ∧ _))

/-- At least one enabled criterion is strictly exceeded by the observed value
of the pair. -/
def someObservedExceeded (t : Thresholds) (p : CommitPair) : Prop :=
  observedShortTimeDelta t p ∨ largeAdditions t p ∨ largeDeletions t p ∨
    observedHighAdditionVelocity t p ∨ observedHighDeletionVelocity t p

/-- The number of enabled criteria, out of the five, that the observed values
of the pair strictly exceed. -/
def observedExceededCount (t : Thresholds) (p : CommitPair) : Nat :=
  (if observedShortTimeDelta t p then 1 else 0) +
  (if largeAdditions t p then 1 else 0) +
  (if largeDeletions t p then 1 else 0) +
  (if observedHighAdditionVelocity t p then 1 else 0) +
  (if observedHighDeletionVelocity t p then 1 else 0)

/-- Every observed value of the pair is equal to or within its threshold. -/
def observedWithin (t : Thresholds) (p : CommitPair) : Prop :=
  (t.MinTimeDeltaSeconds : ℚ) ≤ Duration.Seconds p.TimeDelta ∧
  p.Stats.Additions ≤ t.SuspiciousAdditions ∧
  p.Stats.Deletions ≤ t.SuspiciousDeletions ∧
  (∀ r ∈ observedRate p.Stats.Additions p.TimeDelta, r ≤ t.MaxAdditionsPerMin) ∧
  (∀ r ∈ observedRate p.Stats.Deletions p.TimeDelta, r ≤ t.MaxDeletionsPerMin)

/-! ## Specification-side vocabulary: the observed values in `float64` arithmetic -/

/-- The rate of `n` lines over `delta` as the detector observes it in `float64`
arithmetic: the `LOCPerMinute` of the metrics returned by
`Binary64.CalculateVelocity`, if it returns metrics. -/
def Binary64.observedRate (n : Int) (delta : Duration) : Option ℚ :=
  (Binary64.CalculateVelocity n delta).1.map (fun v => v.LOCPerMinute)

/-- Criterion "short time delta" on the value observed in `float64`
arithmetic. -/
def Binary64.shortTimeDelta (t : Thresholds) (p : CommitPair) : Prop :=
  t.MinTimeDeltaSeconds > 0 ∧
    Binary64.Seconds p.TimeDelta < Binary64.ofInt t.MinTimeDeltaSeconds

/-- Criterion "high addition velocity" on the value observed in `float64`
arithmetic. -/
def Binary64.highAdditionVelocity (t : Thresholds) (p : CommitPair) : Prop :=
  t.MaxAdditionsPerMin > 0 ∧
    ∃ r ∈ Binary64.observedRate p.Stats.Additions p.TimeDelta, r > t.MaxAdditionsPerMin

/-- Criterion "high deletion velocity" on the value observed in `float64`
arithmetic. -/
def Binary64.highDeletionVelocity (t : Thresholds) (p : CommitPair) : Prop :=
  t.MaxDeletionsPerMin > 0 ∧
    ∃ r ∈ Binary64.observedRate p.Stats.Deletions p.TimeDelta, r > t.MaxDeletionsPerMin

instance (t : Thresholds) (p : CommitPair) : Decidable (Binary64.shortTimeDelta t p) :=
  inferInstanceAs (Decidable (_ ∧ _))

instance (t : Thresholds) (p : CommitPair) : Decidable (Binary64.highAdditionVelocity t p) :=
  inferInstanceAs (Decidable (_ ∧ _))

instance (t : Thresholds) (p : CommitPair) : Decidable (Binary64.highDeletionVelocity t p) :=
  inferInstanceAs (Decidable (_ ∧ _))

/-- At least one enabled criterion is strictly exceeded by the value observed
for the pair in `float64` arithmetic. -/
def Binary64.someExceeded (t : Thresholds) (p : CommitPair) : Prop :=
  Binary64.shortTimeDelta t p ∨ largeAdditions t p ∨ largeDeletions t p ∨
    Binary64.highAdditionVelocity t p ∨ Binary64.highDeletionVelocity t p

/-- The number of enabled criteria, out of the five, that the values observed
for the pair in `float64` arithmetic strictly exceed. -/
def Binary64.exceededCount (t : Thresholds) (p : CommitPair) : Nat :=
  (if Binary64.shortTimeDelta t p then 1 else 0) +
  (if largeAdditions t p then 1 else 0) +
  (if largeDeletions t p then 1 else 0) +
  (if Binary64.highAdditionVelocity t p then 1 else 0) +
  (if Binary64.highDeletionVelocity t p then 1 else 0)

/-- Every value observed for the pair in `float64` arithmetic is equal to or
within its threshold. -/
def Binary64.within (t : Thresholds) (p : CommitPair) : Prop :=
  Binary64.ofInt t.MinTimeDeltaSeconds ≤ Binary64.Seconds p.TimeDelta ∧
  p.Stats.Additions ≤ t.SuspiciousAdditions ∧
  p.Stats.Deletions ≤ t.SuspiciousDeletions ∧
  (∀ r ∈ Binary64.observedRate p.Stats.Additions p.TimeDelta, r ≤ t.MaxAdditionsPerMin) ∧
  (∀ r ∈ Binary64.observedRate p.Stats.Deletions p.TimeDelta, r ≤ t.MaxDeletionsPerMin)

/-! ## Sample data (the values used by the detector tests) -/

/-- A commit with the given hash and otherwise zero-valued fields. -/
def sampleCommit (hash : String) : Commit :=
  { Hash := hash, Author := "", Email := "", Timestamp := 0, Message := "", Parents := [] }

/-- A pair with the given filtered additions, filtered deletions and time delta. -/
def samplePair (additions deletions : Int) (delta : Duration) : CommitPair :=
  { Previous := sampleCommit "abc123"
    Current := sampleCommit "def456"
    TimeDelta := delta
    Stats := { FilesChanged := 0, Additions := additions, Deletions := deletions,
               TotalAdditions := 0, TotalDeletions := 0, FilesChangedTotal := 0 } }

/-- Thresholds of scenario A: only `SuspiciousAdditions: 100`. -/
def thresholdsA : Thresholds :=
  { SuspiciousAdditions := 100, SuspiciousDeletions := 0, MaxAdditionsPerMin := 0,
    MaxDeletionsPerMin := 0, MinTimeDeltaSeconds := 0 }

/-- Thresholds of scenario B: `SuspiciousAdditions: 100, MaxAdditionsPerMin: 50,
MinTimeDeltaSeconds: 60`. -/
def thresholdsB : Thresholds :=
  { SuspiciousAdditions := 100, SuspiciousDeletions := 0, MaxAdditionsPerMin := 50,
    MaxDeletionsPerMin := 0, MinTimeDeltaSeconds := 60 }

/-- Thresholds with only `MaxDeletionsPerMin: 100`. -/
def thresholdsDel : Thresholds :=
  { SuspiciousAdditions := 0, SuspiciousDeletions := 0, MaxAdditionsPerMin := 0,
    MaxDeletionsPerMin := 100, MinTimeDeltaSeconds := 0 }

/-- Thresholds of the test "does not detect when below thresholds": all five set. -/
def thresholdsAll : Thresholds :=
  { SuspiciousAdditions := 100, SuspiciousDeletions := 100, MaxAdditionsPerMin := 50,
    MaxDeletionsPerMin := 100, MinTimeDeltaSeconds := 60 }

/-- Thresholds of the test "ignores commits with no changes". -/
def thresholdsAdd10 : Thresholds :=
  { SuspiciousAdditions := 10, SuspiciousDeletions := 0, MaxAdditionsPerMin := 0,
    MaxDeletionsPerMin := 0, MinTimeDeltaSeconds := 0 }

/-- Thresholds with every field zero. -/
def thresholdsZero : Thresholds :=
  { SuspiciousAdditions := 0, SuspiciousDeletions := 0, MaxAdditionsPerMin := 0,
    MaxDeletionsPerMin := 0, MinTimeDeltaSeconds := 0 }

/-- The record expected for a pair with 200 additions and 50 deletions under the
thresholds of scenario A. -/
def recordA (delta : Duration) : SuspiciousCommit :=
  { Pair := samplePair 200 50 delta
    AdditionVelocity := none
    DeletionVelocity := none
    Reasons := [Sprintf "Suspicious commit size: %d additions (threshold: %d lines)"
      [FmtArg.int 200, FmtArg.int 100]] }

/-- The record expected for a pair with 10 additions and 200 deletions in one
minute under `thresholdsDel`. -/
def recordDel : SuspiciousCommit :=
  { Pair := samplePair 10 200 Minute
    AdditionVelocity := some { LOCPerMinute := 10 }
    DeletionVelocity := some { LOCPerMinute := 200 }
    Reasons := [Sprintf
      "Deletion velocity too high: %.1f deletions/min (threshold: %.1f deletions/min)"
      [FmtArg.float 200, FmtArg.float 100]] }

/-! ## Specification-side vocabulary: pairing -/

/-- A difference of two instants brought into the range of a `Duration`: a
difference below the least duration becomes the least one, a difference above
the greatest duration becomes the greatest one, any other is unchanged. -/
def saturate (d : Int) : Duration := max minDuration (min d maxDuration)

/-- The pair described for a current commit and the one before it: previous,
current, time delta = current timestamp - previous timestamp brought into the
range of a `Duration`, and the diff statistics, provided the current commit has
at most one parent, the current timestamp is later than the previous one and
the diff succeeds. -/
def pairOf (diff : DiffBackend) (current previous : Commit) : Option CommitPair :=
  match diff previous.Hash current.Hash with
  | Except.ok stats =>
    if current.Parents.length ≤ 1 ∧ 0 < current.Timestamp - previous.Timestamp then
      some { Previous := previous
             Current := current
             TimeDelta := saturate (current.Timestamp - previous.Timestamp)
             Stats := stats }
    else none
  | Except.error _ => none

/-- The pair for index `i` of the commit list, if that index is kept. -/
def pairAt (diff : DiffBackend) (commits : List Commit) (i : Nat) : Option CommitPair :=
  match commits[i]?, commits[i + 1]? with
  | some current, some previous => pairOf diff current previous
  | _, _ => none

/-- The adjacent commits at index `i`: `(commits[i], commits[i+1])`. -/
def adjacentAt (commits : List Commit) (i : Nat) : Option (Commit × Commit) :=
  match commits[i]?, commits[i + 1]? with
  | some current, some previous => some (current, previous)
  | _, _ => none

/-! ## Sample data: pairing -/

/-- A diff backend that always succeeds with the same statistics. -/
def sampleDiff : DiffBackend :=
  fun _ _ => Except.ok { FilesChanged := 1, Additions := 10, Deletions := 5,
                         TotalAdditions := 12, TotalDeletions := 6, FilesChangedTotal := 2 }

/-- A diff backend that always fails. -/
def failingDiff : DiffBackend :=
  fun _ _ => Except.error (GoError.errorf "failed to get diff: %w" [])

/-- A commit with the given hash, timestamp and parents. -/
def sampleCommitAt (hash : String) (timestamp : Time) (parents : List String) : Commit :=
  { Hash := hash, Author := "John Doe", Email := "john@example.com",
    Timestamp := timestamp, Message := "", Parents := parents }

/-! ## Auxiliary functions: the state of the first loop of `CalculateStats` -/

/-- The field `FirstCommit` after an iteration of the first loop on a commit
with the given timestamp. -/
def firstAfter (first timestamp : Time) : Time :=
  if Time.IsZero first ∨ Time.Before timestamp first then timestamp else first

/-- The field `LastCommit` after an iteration of the first loop on a commit with
the given timestamp. -/
def lastAfter (last timestamp : Time) : Time :=
  if Time.IsZero last ∨ Time.After timestamp last then timestamp else last

/-- The map `Authors` after an iteration of the first loop. -/
def authorsAfter (authors : List (String × AuthorStats)) (commit : Commit) :
    List (String × AuthorStats) :=
  if (Authors.get authors commit.Email).isSome then authors
  else Authors.set authors commit.Email (AuthorStats.new commit.Author commit.Email)

/-- The number of distinct author emails among the commits. -/
def distinctEmails (commits : List Commit) : Nat :=
  (commits.map (fun c => c.Email)).toFinset.card

/-- The statistics after the first loop of `CalculateStats` and the two
assignments of lines 86-87. -/
def CalculateStats.afterCommits (commits : List Commit) (pairs : List CommitPair) :
    RepositoryStats :=
  let first := commits.foldl CalculateStats.visitCommit ([], CalculateStats.init commits pairs)
  let authorSet := first.1
  let stats := first.2
  let stats := { stats with UniqueAuthors := (authorSet.length : Int) }
  { stats with TimeSpan := Time.Sub stats.LastCommit stats.FirstCommit }

/-! ## Sample data: statistics (the test "multiple commits with pairs") -/

/-- The instant `now` of the statistics tests. -/
def sampleNow : Time := 1000 * Minute

/-- A commit of the given author at the given instant. -/
def authorCommit (hash author email : String) (timestamp : Time) : Commit :=
  { Hash := hash, Author := author, Email := email, Timestamp := timestamp,
    Message := "", Parents := [] }

/-- The three commits of the test, oldest first. -/
def statsCommits : List Commit :=
  [authorCommit "abc123" "John Doe" "john@example.com" (sampleNow - 20 * Minute),
   authorCommit "def456" "Jane Smith" "jane@example.com" (sampleNow - 10 * Minute),
   authorCommit "ghi789" "John Doe" "john@example.com" sampleNow]

/-- The two pairs of the test. -/
def statsPairs : List CommitPair :=
  [{ Previous := authorCommit "abc123" "John Doe" "john@example.com" (sampleNow - 20 * Minute)
     Current := authorCommit "def456" "Jane Smith" "jane@example.com" (sampleNow - 10 * Minute)
     TimeDelta := 10 * Minute
     Stats := { FilesChanged := 5, Additions := 100, Deletions := 50,
                TotalAdditions := 120, TotalDeletions := 60, FilesChangedTotal := 6 } },
   { Previous := authorCommit "def456" "Jane Smith" "jane@example.com" (sampleNow - 10 * Minute)
     Current := authorCommit "ghi789" "John Doe" "john@example.com" sampleNow
     TimeDelta := 10 * Minute
     Stats := { FilesChanged := 8, Additions := 200, Deletions := 100,
                TotalAdditions := 250, TotalDeletions := 120, FilesChangedTotal := 10 } }]

/-! ## Specification-side vocabulary: median and percentiles -/

/-- The element of a list at a position, for positions within the list (0
outside, where the specification says nothing). -/
def elementAt (xs : List ℚ) (i : Int) : ℚ := xs.getD i.toNat 0

/-- The rank of percentile `p` in a sample of `n` elements: `(p/100) * (n-1)`. -/
def percentileRank (n : Nat) (p : ℚ) : ℚ := (p / 100) * ((n : ℚ) - 1)

/-- Linear interpolation on a sorted sample: the element at index `rank` when
the rank is an integer, otherwise
`sorted[floor(rank)] * (1 - w) + sorted[ceil(rank)] * w` with `w` the
fractional part of the rank. -/
def interpolated (sorted : List ℚ) (p : ℚ) : ℚ :=
  let rank := percentileRank sorted.length p
  if Int.fract rank = 0 then
    elementAt sorted (Int.floor rank)
  else
    elementAt sorted (Int.floor rank) * (1 - Int.fract rank)
      + elementAt sorted (Int.ceil rank) * Int.fract rank

/-- The median of a sample in the words of the specification: 0 for an empty
sample, the middle element of the sorted sample for an odd length, the
average of its two middle elements for an even length. -/
def medianOf (values : List ℚ) : ℚ :=
  let sorted := sortFloat64s values
  if values.length = 0 then 0
  else if values.length % 2 = 1 then elementAt sorted (values.length / 2 : Nat)
  else (elementAt sorted ((values.length / 2 : Nat) - 1 : Int)
        + elementAt sorted (values.length / 2 : Nat)) / 2

/-- The sample 1..10 of scenario D. -/
def sampleOneToTen : List ℚ := [1, 2, 3, 4, 5, 6, 7, 8, 9, 10]

/-! ## Auxiliary predicates: the loops of `getDiffStats` -/

/-- The counters of the statistics are ordered: filtered counts are
non-negative and at most the unfiltered counts, and equal to them when
`equal` holds. -/
def DiffStats.Ordered (equal : Prop) (stats : DiffStats) : Prop :=
  0 ≤ stats.Additions ∧ stats.Additions ≤ stats.TotalAdditions ∧
  0 ≤ stats.Deletions ∧ stats.Deletions ≤ stats.TotalDeletions ∧
  (equal → stats.Additions = stats.TotalAdditions ∧ stats.Deletions = stats.TotalDeletions)

/-- The state of the loops of `getDiffStats` is ordered: its counters are, the
two sets of paths have distinct elements, the filtered set is within the
unfiltered one, and equal to it when `equal` holds. -/
def DiffState.Ordered (equal : Prop) (state : DiffState) : Prop :=
  DiffStats.Ordered equal state.stats ∧
  state.filesChanged.Nodup ∧ state.filesChangedTotal.Nodup ∧
  state.filesChanged ⊆ state.filesChangedTotal ∧
  (equal → state.filesChanged = state.filesChangedTotal)

/-! ## Sample data: diff statistics -/

/-- A glob matcher on which the pattern `*.log` matches the name `debug.log` and
nothing else matches, and a base-name function for paths without directories. -/
def sampleFilepath : Filepath :=
  { Match := fun pattern name => (decide (pattern = "*.log" ∧ name = "debug.log"), none)
    Base := fun path => path }

/-- A repository whose every diff is the given list of changes. -/
def sampleRepository (changes : List Change) (excludeFiles : List String) : gitRepository :=
  { repo := { CommitObject := fun _ => Except.ok { id := 0 }
              Tree := fun _ => Except.ok { id := 0 }
              Diff := fun _ _ => Except.ok changes }
    path := "."
    excludeFiles := excludeFiles }

/-- Two added files: `code.go` with two lines and `debug.log` with three. -/
def sampleChanges : List Change :=
  [{ Patch := Except.ok
      [{ From := none, To := some { Path := "code.go" },
         Chunks := [{ Content := "package main\nfunc main()\n", ChunkType := Operation.Add }] },
       { From := none, To := some { Path := "debug.log" },
         Chunks := [{ Content := "Log line\nLog line\nLog line\n",
                      ChunkType := Operation.Add }] }] }]

/-! ## Auxiliary functions: the state of the second loop of `CalculateStats` -/

/-- The test `hasFilteredChanges` of line 98. -/
def hasFilteredChanges (pair : CommitPair) : Bool :=
  decide (pair.Stats.Additions > 0) || decide (pair.Stats.Deletions > 0)

/-- The velocity of lines 101-102 and 154-155, when the test
`err == nil && !math.IsNaN(velocity) && velocity >= 0` lets it through. -/
def velocitySample (pair : CommitPair) : Option ℚ :=
  let result := CalculateVelocityPerMinute pair.Stats.Additions pair.TimeDelta
  if result.2.isNone && !IsNaN result.1 && decide (result.1 ≥ 0) then some result.1 else none

/-- The sample that an iteration of the second loop appends to `velocities`. -/
def globalSample (pair : CommitPair) : Option ℚ :=
  if hasFilteredChanges pair then velocitySample pair else none

/-- The sample that an iteration of the loop of lines 148-159 appends to
`authorVelocities` for the author `email`. -/
def authorSample (email : String) (pair : CommitPair) : Option ℚ :=
  if pair.Current.Email = email then
    if pair.Stats.Additions = 0 ∧ pair.Stats.Deletions = 0 then none
    else velocitySample pair
  else none

/-- The author entry after the updates of lines 116-131 for `pair`. -/
def updateAuthor (authorStats : AuthorStats) (pair : CommitPair) : AuthorStats :=
  let result := CalculateVelocityPerMinute pair.Stats.Additions pair.TimeDelta
  let velocity := result.1
  let err := result.2
  let usable : Bool := err.isNone && !IsNaN velocity && decide (velocity ≥ 0)
  let authorStats := { authorStats with CommitCount := authorStats.CommitCount + 1 }
  let authorStats :=
    { authorStats with LOCAdded := authorStats.LOCAdded + pair.Stats.Additions }
  let authorStats :=
    { authorStats with LOCDeleted := authorStats.LOCDeleted + pair.Stats.Deletions }
  let authorStats :=
    if Time.IsZero authorStats.FirstCommit ∨
        Time.Before pair.Current.Timestamp authorStats.FirstCommit then
      { authorStats with FirstCommit := pair.Current.Timestamp }
    else authorStats
  let authorStats :=
    if Time.IsZero authorStats.LastCommit ∨
        Time.After pair.Current.Timestamp authorStats.LastCommit then
      { authorStats with LastCommit := pair.Current.Timestamp }
    else authorStats
  if usable then
    if velocity > authorStats.MaxVelocity then
      { authorStats with MaxVelocity := velocity }
    else authorStats
  else authorStats

/-- The author entry that an iteration of the second loop reads from the map,
or creates. -/
def entryOrNew (entry : Option AuthorStats) (pair : CommitPair) : AuthorStats :=
  match entry with
  | some existing => existing
  | none => AuthorStats.new pair.Current.Author pair.Current.Email

/-- The map `Authors` after an iteration of the second loop. -/
def stepAuthors (authors : List (String × AuthorStats)) (pair : CommitPair) :
    List (String × AuthorStats) :=
  if hasFilteredChanges pair then
    Authors.set authors pair.Current.Email
      (updateAuthor (entryOrNew (Authors.get authors pair.Current.Email) pair) pair)
  else authors

/-- The entry of one author after an iteration of the second loop on a pair
that has filtered changes and that author as current author. -/
def stepEntry (entry : Option AuthorStats) (pair : CommitPair) : Option AuthorStats :=
  some (updateAuthor (entryOrNew entry pair) pair)

/-- The pairs of the list that the second loop accounts to the author `email`:
those with filtered changes whose current commit has that email. -/
def authorPairs (email : String) (pairs : List CommitPair) : List CommitPair :=
  pairs.filter (fun p => hasFilteredChanges p && decide (p.Current.Email = email))

/-- The value part of `CalculateStats.authorAverage` for the entry of `email`. -/
def averagedEntry (pairs : List CommitPair) (email : String) (authorStats : AuthorStats) :
    AuthorStats :=
  (CalculateStats.authorAverage pairs (email, authorStats)).2

/-! ## Specification-side vocabulary: velocity statistics -/

/-- The arithmetic mean of a sample, 0 for the empty sample. -/
def mean (xs : List ℚ) : ℚ :=
  if xs = [] then 0 else xs.sum / (xs.length : ℚ)

/-- The pair has non-zero filtered change. -/
def CommitPair.changing (p : CommitPair) : Prop :=
  p.Stats.Additions ≠ 0 ∨ p.Stats.Deletions ≠ 0

instance (p : CommitPair) : Decidable p.changing :=
  inferInstanceAs (Decidable (_ ∨ _))

/-- The addition velocity of a pair: filtered additions per minute of its time
delta. -/
def CommitPair.additionVelocity (p : CommitPair) : ℚ :=
  linesPerMinute p.Stats.Additions p.TimeDelta

/-- The pairs that have non-zero filtered change and a positive time delta. -/
def sampledPairs (pairs : List CommitPair) : List CommitPair :=
  pairs.filter (fun p => decide (p.changing ∧ 0 < p.TimeDelta))

/-- The pairs of the author `email` (as current author) that have non-zero
filtered change. -/
def changingPairsOf (email : String) (pairs : List CommitPair) : List CommitPair :=
  pairs.filter (fun p => decide (p.changing ∧ p.Current.Email = email))

/-- The filtered counts of every pair of the list are non-negative. -/
def nonnegCounts (pairs : List CommitPair) : Prop :=
  ∀ p ∈ pairs, 0 ≤ p.Stats.Additions ∧ 0 ≤ p.Stats.Deletions

/-- The entry of the author `email` is absent or is the entry the first loop
creates: all counters, velocities and instants zero. -/
def freshEntry (email : String) (entry : Option AuthorStats) : Prop :=
  entry = none ∨ ∃ name, entry = some (AuthorStats.new name email)

/-- The velocity samples that the second loop collects from the pairs it
accounts to the author `email`. -/
def firstPassSamples (email : String) (pairs : List CommitPair) : List ℚ :=
  (authorPairs email pairs).filterMap velocitySample

/-- The pairs of the author `email` (as current author) that have non-zero
filtered change and a velocity, that is a positive time delta. -/
def velocityPairsOf (email : String) (pairs : List CommitPair) : List CommitPair :=
  pairs.filter (fun p => decide (p.changing ∧ p.Current.Email = email ∧ 0 < p.TimeDelta))

/-- The field `MaxVelocity` of an author entry after the update of lines
127-131 for `pair`. -/
def maxAfter (maxVelocity : ℚ) (pair : CommitPair) : ℚ :=
  match velocitySample pair with
  | some velocity => if velocity > maxVelocity then velocity else maxVelocity
  | none => maxVelocity

/-- An author entry with its average velocity left out (set to 0). -/
def AuthorStats.withoutAverage (a : AuthorStats) : AuthorStats :=
  { a with AvgVelocity := 0 }

/-- Two results of `CalculateStats` are the same statistics apart from the
means: every scalar field but `AverageVelocity` is equal and the `Authors` maps
hold, under every key, entries that are equal apart from `AvgVelocity`. -/
def RepositoryStats.agree (s₁ s₂ : RepositoryStats) : Prop :=
  s₁.TotalCommits = s₂.TotalCommits ∧ s₁.TotalCommitPairs = s₂.TotalCommitPairs ∧
  s₁.UniqueAuthors = s₂.UniqueAuthors ∧ s₁.TimeSpan = s₂.TimeSpan ∧
  s₁.FirstCommit = s₂.FirstCommit ∧ s₁.LastCommit = s₂.LastCommit ∧
  s₁.TotalLOCAdded = s₂.TotalLOCAdded ∧ s₁.TotalLOCDeleted = s₂.TotalLOCDeleted ∧
  s₁.UnfilteredLOCAdded = s₂.UnfilteredLOCAdded ∧
  s₁.UnfilteredLOCDeleted = s₂.UnfilteredLOCDeleted ∧
  s₁.MedianVelocity = s₂.MedianVelocity ∧
  s₁.VelocityPercentile = s₂.VelocityPercentile ∧
  ∀ email, (Authors.get s₁.Authors email).map AuthorStats.withoutAverage
    = (Authors.get s₂.Authors email).map AuthorStats.withoutAverage

/-- A pair of 60 filtered additions in one minute whose current commit has the
given author name and instant, under the email `ann@example.com`. -/
def timedPair (author : String) (timestamp : Time) : CommitPair :=
  { Previous := sampleCommit "abc123"
    Current := authorCommit "def456" author "ann@example.com" timestamp
    TimeDelta := Minute
    Stats := { FilesChanged := 1, Additions := 60, Deletions := 0,
               TotalAdditions := 60, TotalDeletions := 0, FilesChangedTotal := 1 } }

/-! ## Vocabulary and sample data: reports, exclusion, thresholds and author totals -/

/-- The reason string of the short-time-delta criterion for a pair, as line 61
formats it. -/
def shortTimeDeltaReason (t : Thresholds) (pair : CommitPair) : FmtString :=
  Sprintf "Time between commits too short: %.1f seconds (threshold: %d seconds)"
    [FmtArg.float (Duration.Seconds pair.TimeDelta), FmtArg.int t.MinTimeDeltaSeconds]

/-- Thresholds with only `MinTimeDeltaSeconds: 60`. -/
def thresholdsMin : Thresholds :=
  { SuspiciousAdditions := 0, SuspiciousDeletions := 0, MaxAdditionsPerMin := 0,
    MaxDeletionsPerMin := 0, MinTimeDeltaSeconds := 60 }

/-- A glob match in the sense of `shouldExcludeFile`: `filepath.Match` reports a
match and no error. -/
def Filepath.matches (fp : Filepath) (pattern name : String) : Prop :=
  (fp.Match pattern name).2 = none ∧ (fp.Match pattern name).1 = true

/-- The statistics section exposes these values of the statistics: every field
but the author map and the first and last commit times, the time span through
its number of seconds `TimeSpan.Seconds()`. -/
def RepositoryStats.exposedEq (s₁ s₂ : RepositoryStats) : Prop :=
  s₁.TotalCommits = s₂.TotalCommits ∧ s₁.TotalCommitPairs = s₂.TotalCommitPairs ∧
  s₁.UniqueAuthors = s₂.UniqueAuthors ∧
  Duration.Seconds s₁.TimeSpan = Duration.Seconds s₂.TimeSpan ∧
  s₁.TotalLOCAdded = s₂.TotalLOCAdded ∧ s₁.TotalLOCDeleted = s₂.TotalLOCDeleted ∧
  s₁.UnfilteredLOCAdded = s₂.UnfilteredLOCAdded ∧
  s₁.UnfilteredLOCDeleted = s₂.UnfilteredLOCDeleted ∧
  s₁.AverageVelocity = s₂.AverageVelocity ∧ s₁.MedianVelocity = s₂.MedianVelocity ∧
  s₁.VelocityPercentile = s₂.VelocityPercentile

/-- The glob matcher of the exclusion test on the paths it uses: `*.log` matches
the name `error.log`, `*.tmp` matches the name `test.tmp`, nothing else matches,
and the base names of `logs/error.log` and `dir/subdir/test.tmp` are `error.log`
and `test.tmp`. -/
def exclusionFilepath : Filepath :=
  { Match := fun pattern name =>
      (decide ((pattern = "*.log" ∧ name = "error.log") ∨
        (pattern = "*.tmp" ∧ name = "test.tmp")), none)
    Base := fun path =>
      if path = "logs/error.log" then "error.log"
      else if path = "dir/subdir/test.tmp" then "test.tmp"
      else path }

/-- Statistics of a repository of one commit by one author. -/
def reportStats : RepositoryStats :=
  { TotalCommits := 1, TotalCommitPairs := 0, UniqueAuthors := 1
    Authors := [("ann@example.com", AuthorStats.new "Ann" "ann@example.com")]
    TimeSpan := 0, FirstCommit := 5, LastCommit := 5
    TotalLOCAdded := 0, TotalLOCDeleted := 0
    UnfilteredLOCAdded := 0, UnfilteredLOCDeleted := 0
    AverageVelocity := 0, MedianVelocity := 0, VelocityPercentile := none }

/-- The two thresholds enable the same criteria: each field is positive in one
exactly when it is positive in the other. -/
def Thresholds.sameCriteria (t u : Thresholds) : Prop :=
  (t.SuspiciousAdditions > 0 ↔ u.SuspiciousAdditions > 0) ∧
  (t.SuspiciousDeletions > 0 ↔ u.SuspiciousDeletions > 0) ∧
  (t.MaxAdditionsPerMin > 0 ↔ u.MaxAdditionsPerMin > 0) ∧
  (t.MaxDeletionsPerMin > 0 ↔ u.MaxDeletionsPerMin > 0) ∧
  (t.MinTimeDeltaSeconds > 0 ↔ u.MinTimeDeltaSeconds > 0)

/-- The thresholds `u` are at least as permissive as `t`: every size and
velocity threshold of `u` is at least that of `t`, and the minimum time delta
of `u` is at most that of `t`. -/
def Thresholds.atLeastAsPermissive (u t : Thresholds) : Prop :=
  t.SuspiciousAdditions ≤ u.SuspiciousAdditions ∧
  t.SuspiciousDeletions ≤ u.SuspiciousDeletions ∧
  t.MaxAdditionsPerMin ≤ u.MaxAdditionsPerMin ∧
  t.MaxDeletionsPerMin ≤ u.MaxDeletionsPerMin ∧
  u.MinTimeDeltaSeconds ≤ t.MinTimeDeltaSeconds

/-- Thresholds with the criteria of `thresholdsAll`, each more permissive. -/
def thresholdsAllLoose : Thresholds :=
  { SuspiciousAdditions := 500, SuspiciousDeletions := 300, MaxAdditionsPerMin := 80,
    MaxDeletionsPerMin := 150, MinTimeDeltaSeconds := 30 }

/-- The sum of a counter over all entries of the author map. -/
def Authors.total (f : AuthorStats → Int) (m : List (String × AuthorStats)) : Int :=
  (m.map (fun entry => f entry.2)).sum

/-- The keys of the author map. -/
def Authors.keys (m : List (String × AuthorStats)) : List String :=
  m.map (fun entry => entry.1)

/-- The pairs with non-zero filtered change. -/
def changingPairs (pairs : List CommitPair) : List CommitPair :=
  pairs.filter (fun p => decide p.changing)

/-! ## Auxiliary functions: `int64` values of the unbounded sums -/

/-- An author entry with its two `int64` sums brought into the `int64` range. -/
def AuthorStats.wrap (a : AuthorStats) : AuthorStats :=
  { a with LOCAdded := wrapInt64 a.LOCAdded, LOCDeleted := wrapInt64 a.LOCDeleted }

/-- An author map with every entry's `int64` sums brought into the `int64` range. -/
def Authors.wrap (m : List (String × AuthorStats)) : List (String × AuthorStats) :=
  m.map (fun entry => (entry.1, entry.2.wrap))

/-- Statistics with the four `int64` totals and the `int64` sums of every author
entry brought into the `int64` range. -/
def RepositoryStats.wrap (s : RepositoryStats) : RepositoryStats :=
  { s with
    TotalLOCAdded := wrapInt64 s.TotalLOCAdded
    TotalLOCDeleted := wrapInt64 s.TotalLOCDeleted
    UnfilteredLOCAdded := wrapInt64 s.UnfilteredLOCAdded
    UnfilteredLOCDeleted := wrapInt64 s.UnfilteredLOCDeleted
    Authors := Authors.wrap s.Authors }

/-- The author entry after the updates of lines 116-131 for `pair`, with the
two `+=` on `int64` fields done in `int64` arithmetic. -/
def updateAuthorInt64 (authorStats : AuthorStats) (pair : CommitPair) : AuthorStats :=
  let result := CalculateVelocityPerMinute pair.Stats.Additions pair.TimeDelta
  let velocity := result.1
  let err := result.2
  let usable : Bool := err.isNone && !IsNaN velocity && decide (velocity ≥ 0)
  let authorStats := { authorStats with CommitCount := authorStats.CommitCount + 1 }
  let authorStats :=
    { authorStats with LOCAdded := wrapInt64 (authorStats.LOCAdded + pair.Stats.Additions) }
  let authorStats :=
    { authorStats with LOCDeleted := wrapInt64 (authorStats.LOCDeleted + pair.Stats.Deletions) }
  let authorStats :=
    if Time.IsZero authorStats.FirstCommit ∨
        Time.Before pair.Current.Timestamp authorStats.FirstCommit then
      { authorStats with FirstCommit := pair.Current.Timestamp }
    else authorStats
  let authorStats :=
    if Time.IsZero authorStats.LastCommit ∨
        Time.After pair.Current.Timestamp authorStats.LastCommit then
      { authorStats with LastCommit := pair.Current.Timestamp }
    else authorStats
  if usable then
    if velocity > authorStats.MaxVelocity then
      { authorStats with MaxVelocity := velocity }
    else authorStats
  else authorStats

/-- The map `Authors` after an iteration of the second loop in `int64`
arithmetic. -/
def stepAuthorsInt64 (authors : List (String × AuthorStats)) (pair : CommitPair) :
    List (String × AuthorStats) :=
  if hasFilteredChanges pair then
    Authors.set authors pair.Current.Email
      (updateAuthorInt64 (entryOrNew (Authors.get authors pair.Current.Email) pair) pair)
  else authors

/-- The integer is in the range of an `int64`. -/
def inInt64 (x : Int) : Prop := -9223372036854775808 ≤ x ∧ x ≤ 9223372036854775807

instance (x : Int) : Decidable (inInt64 x) := inferInstanceAs (Decidable (_ ∧ _))

/-! ## Durations -/

theorem Duration.Seconds_eq (d : Duration) : Duration.Seconds d = deltaSeconds d := by
  have h := Int.tmod_add_tdiv d Second
  have hq : ((Int.tmod d Second : Int) : ℚ) + ((Second : Int) : ℚ) * ((Int.tdiv d Second : Int) : ℚ)
      = ((d : Int) : ℚ) := by exact_mod_cast h
  simp only [Duration.Seconds, deltaSeconds]
  have hs : ((Second : Int) : ℚ) = 1000000000 := by simp [Second]
  rw [hs] at hq
  rw [← hq]
  ring

theorem Duration.Minutes_eq (d : Duration) :
    Duration.Minutes d = (d : ℚ) / 60000000000 := by
  have h := Int.tmod_add_tdiv d Minute
  have hq : ((Int.tmod d Minute : Int) : ℚ) + ((Minute : Int) : ℚ) * ((Int.tdiv d Minute : Int) : ℚ)
      = ((d : Int) : ℚ) := by exact_mod_cast h
  simp only [Duration.Minutes]
  have hs : ((Minute : Int) : ℚ) = 60000000000 := by simp [Minute, Second]
  rw [hs] at hq
  rw [← hq]
  ring

theorem velocity_rate (n : Int) (d : Duration) (hd : 0 < d) :
    (n : ℚ) / Duration.Minutes d = linesPerMinute n d := by
  have hq : (0 : ℚ) < (d : ℚ) := by exact_mod_cast hd
  rw [Duration.Minutes_eq, linesPerMinute, deltaSeconds]
  field_simp
  ring

/-! ## Thresholds and construction -/

theorem Thresholds.validate_none_iff (t : Thresholds) :
    t.Validate = none ↔ t.AllNonneg ∧ t.SomeNonzero := by
  unfold Thresholds.Validate Thresholds.AllNonneg Thresholds.SomeNonzero
  split_ifs with h1 h2 h3 h4 h5 h6
  · simp; intro h; omega
  · simp; intro _ h; omega
  · simp; intro _ _ h; exact absurd h3 (not_lt.mpr h)
  · simp; intro _ _ _ h; exact absurd h4 (not_lt.mpr h)
  · simp; intro _ _ _ _ h; omega
  · obtain ⟨a, b, c, e, f⟩ := h6
    simp [a, b, c, e, f]
  · simp only [true_iff]
    refine ⟨⟨not_lt.mp h1, not_lt.mp h2, not_lt.mp h3, not_lt.mp h4, not_lt.mp h5⟩, ?_⟩
    by_contra hc
    simp only [not_or, not_not] at hc
    exact h6 hc

/-- C5. `New` returns a detector (holding the given thresholds) and a nil error
exactly when `Validate` succeeds; otherwise it returns no detector and an
error wrapping the one of `Validate`. In particular it fails when all fields
are zero and when any field is negative. -/
theorem New_ok_iff_Validate (t : Thresholds) :
    (New t = (some { thresholds := t }, none) ↔ t.Validate = none) ∧
    ((∃ d, (New t).1 = some d) ↔ t.Validate = none) ∧
    ((New t).2 = none ↔ t.Validate = none) ∧
    (∀ err, t.Validate = some err →
      New t = (none, some (GoError.wrap "invalid thresholds: %w" err))) ∧
    (¬ t.SomeNonzero → (New t).1 = none ∧ (New t).2 ≠ none) ∧
    (t.SomeNegative → (New t).1 = none ∧ (New t).2 ≠ none) := by
  have key : t.Validate ≠ none → (New t).1 = none ∧ (New t).2 ≠ none := by
    intro h
    cases hv : t.Validate with
    | none => exact absurd hv h
    | some e => simp [New, hv]
  refine ⟨?_, ?_, ?_, ?_, ?_, ?_⟩
  · cases hv : t.Validate <;> simp [New, hv]
  · cases hv : t.Validate <;> simp [New, hv]
  · cases hv : t.Validate <;> simp [New, hv]
  · intro err hv
    simp [New, hv]
  · intro h
    apply key
    rw [Ne, Thresholds.validate_none_iff]
    exact fun hc => h hc.2
  · intro h
    apply key
    rw [Ne, Thresholds.validate_none_iff]
    rintro ⟨⟨a, b, c, e, f⟩, _⟩
    rcases h with h | h | h | h | h
    · omega
    · omega
    · exact absurd h (not_lt.mpr c)
    · exact absurd h (not_lt.mpr e)
    · omega

/-! ## Velocity -/

/-- C6. `CalculateVelocity` and `CalculateVelocityPerMinute` return an error if
and only if the duration is at most zero; for a positive duration both return
a nil error, and `CalculateVelocity` a non-nil metric. -/
theorem CalculateVelocity_error_iff (loc : Int) (d : Duration) :
    ((CalculateVelocity loc d).2 ≠ none ↔ d ≤ 0) ∧
    ((CalculateVelocityPerMinute loc d).2 ≠ none ↔ d ≤ 0) ∧
    ((CalculateVelocity loc d).2 = none ∧ (CalculateVelocity loc d).1 ≠ none ↔ 0 < d) ∧
    ((CalculateVelocityPerMinute loc d).2 = none ↔ 0 < d) := by
  unfold CalculateVelocity CalculateVelocityPerMinute
  by_cases h : d ≤ 0
  · simp [h]
  · simp [h, not_le.mp h]

/-! ## Detection: the loop and its body -/

theorem DetectSuspicious.foldl_step (d : Detector) (pairs : List CommitPair)
    (acc : List SuspiciousCommit) :
    pairs.foldl (DetectSuspicious.step d) acc
      = acc ++ pairs.filterMap (DetectSuspicious.evaluate d) := by
  induction pairs generalizing acc with
  | nil => simp
  | cons p ps ih =>
    rw [List.foldl_cons, ih]
    cases h : DetectSuspicious.evaluate d p <;>
      simp [DetectSuspicious.step, h, List.filterMap_cons]

theorem DetectSuspicious_eq_filterMap (d : Detector) (pairs : List CommitPair)
    (rs : Option RepositoryStats) :
    d.DetectSuspicious pairs rs = pairs.filterMap (DetectSuspicious.evaluate d) := by
  simp [Detector.DetectSuspicious, DetectSuspicious.foldl_step]

theorem DetectSuspicious.velocities_disabled (d : Detector) (p : CommitPair)
    (h : ¬ (d.thresholds.MaxAdditionsPerMin > 0 ∨ d.thresholds.MaxDeletionsPerMin > 0)) :
    DetectSuspicious.velocities d p = some (none, none) := by
  simp only [DetectSuspicious.velocities, if_neg h]

theorem DetectSuspicious.velocities_enabled_pos (d : Detector) (p : CommitPair)
    (h : d.thresholds.MaxAdditionsPerMin > 0 ∨ d.thresholds.MaxDeletionsPerMin > 0)
    (hpos : 0 < p.TimeDelta) :
    DetectSuspicious.velocities d p
      = some (some { LOCPerMinute := linesPerMinute p.Stats.Additions p.TimeDelta },
              some { LOCPerMinute := linesPerMinute p.Stats.Deletions p.TimeDelta }) := by
  have hnot : ¬ p.TimeDelta ≤ 0 := not_le.mpr hpos
  simp only [DetectSuspicious.velocities, if_pos h, CalculateVelocity, if_neg hnot,
    velocity_rate _ _ hpos]

theorem DetectSuspicious.velocities_enabled_nonpos (d : Detector) (p : CommitPair)
    (h : d.thresholds.MaxAdditionsPerMin > 0 ∨ d.thresholds.MaxDeletionsPerMin > 0)
    (hneg : p.TimeDelta ≤ 0) :
    DetectSuspicious.velocities d p = none := by
  simp only [DetectSuspicious.velocities, if_pos h, CalculateVelocity, if_pos hneg]

theorem DetectSuspicious.checkTimeDelta_length (d : Detector) (p : CommitPair)
    (rs : List FmtString) :
    (DetectSuspicious.checkTimeDelta d p rs).length
      = rs.length + (if shortTimeDelta d.thresholds p then 1 else 0) := by
  unfold DetectSuspicious.checkTimeDelta shortTimeDelta
  rw [Duration.Seconds_eq]
  split_ifs <;> simp_all

theorem DetectSuspicious.checkAdditions_length (d : Detector) (p : CommitPair)
    (rs : List FmtString) :
    (DetectSuspicious.checkAdditions d p rs).length
      = rs.length + (if largeAdditions d.thresholds p then 1 else 0) := by
  unfold DetectSuspicious.checkAdditions largeAdditions
  split_ifs <;> simp_all

theorem DetectSuspicious.checkDeletions_length (d : Detector) (p : CommitPair)
    (rs : List FmtString) :
    (DetectSuspicious.checkDeletions d p rs).length
      = rs.length + (if largeDeletions d.thresholds p then 1 else 0) := by
  unfold DetectSuspicious.checkDeletions largeDeletions
  split_ifs <;> simp_all

theorem DetectSuspicious.checkAdditionVelocity_length (d : Detector) (p : CommitPair)
    (av dv : Option VelocityMetrics) (h : DetectSuspicious.velocities d p = some (av, dv))
    (rs : List FmtString) :
    (DetectSuspicious.checkAdditionVelocity d av rs).length
      = rs.length + (if highAdditionVelocity d.thresholds p then 1 else 0) := by
  by_cases hen : d.thresholds.MaxAdditionsPerMin > 0 ∨ d.thresholds.MaxDeletionsPerMin > 0
  · by_cases hpos : 0 < p.TimeDelta
    · rw [DetectSuspicious.velocities_enabled_pos d p hen hpos] at h
      simp only [Option.some.injEq, Prod.mk.injEq] at h
      rw [← h.1]
      simp only [DetectSuspicious.checkAdditionVelocity, highAdditionVelocity]
      by_cases h1 : d.thresholds.MaxAdditionsPerMin > 0
      · by_cases h2 : linesPerMinute p.Stats.Additions p.TimeDelta > d.thresholds.MaxAdditionsPerMin
        · simp [h1, h2]
        · simp [h1, h2]
      · simp [h1]
    · rw [DetectSuspicious.velocities_enabled_nonpos d p hen (not_lt.mp hpos)] at h
      exact absurd h (by simp)
  · rw [DetectSuspicious.velocities_disabled d p hen] at h
    simp only [Option.some.injEq, Prod.mk.injEq] at h
    rw [← h.1]
    have hoff : ¬ highAdditionVelocity d.thresholds p := fun hc => hen (Or.inl hc.1)
    simp [DetectSuspicious.checkAdditionVelocity, hoff]

theorem DetectSuspicious.checkDeletionVelocity_length (d : Detector) (p : CommitPair)
    (av dv : Option VelocityMetrics) (h : DetectSuspicious.velocities d p = some (av, dv))
    (rs : List FmtString) :
    (DetectSuspicious.checkDeletionVelocity d dv rs).length
      = rs.length + (if highDeletionVelocity d.thresholds p then 1 else 0) := by
  by_cases hen : d.thresholds.MaxAdditionsPerMin > 0 ∨ d.thresholds.MaxDeletionsPerMin > 0
  · by_cases hpos : 0 < p.TimeDelta
    · rw [DetectSuspicious.velocities_enabled_pos d p hen hpos] at h
      simp only [Option.some.injEq, Prod.mk.injEq] at h
      rw [← h.2]
      simp only [DetectSuspicious.checkDeletionVelocity, highDeletionVelocity]
      by_cases h1 : d.thresholds.MaxDeletionsPerMin > 0
      · by_cases h2 : linesPerMinute p.Stats.Deletions p.TimeDelta > d.thresholds.MaxDeletionsPerMin
        · simp [h1, h2]
        · simp [h1, h2]
      · simp [h1]
    · rw [DetectSuspicious.velocities_enabled_nonpos d p hen (not_lt.mp hpos)] at h
      exact absurd h (by simp)
  · rw [DetectSuspicious.velocities_disabled d p hen] at h
    simp only [Option.some.injEq, Prod.mk.injEq] at h
    rw [← h.2]
    have hoff : ¬ highDeletionVelocity d.thresholds p := fun hc => hen (Or.inr hc.1)
    simp [DetectSuspicious.checkDeletionVelocity, hoff]

theorem DetectSuspicious.reasons_length (d : Detector) (p : CommitPair)
    (av dv : Option VelocityMetrics) (h : DetectSuspicious.velocities d p = some (av, dv)) :
    (DetectSuspicious.reasons d p av dv).length = exceededCount d.thresholds p := by
  simp only [DetectSuspicious.reasons, exceededCount,
    DetectSuspicious.checkDeletionVelocity_length d p av dv h,
    DetectSuspicious.checkAdditionVelocity_length d p av dv h,
    DetectSuspicious.checkDeletions_length, DetectSuspicious.checkAdditions_length,
    DetectSuspicious.checkTimeDelta_length, List.length_nil, Nat.zero_add]

theorem exceededCount_pos_iff (t : Thresholds) (p : CommitPair) :
    0 < exceededCount t p ↔ someCriterionExceeded t p := by
  unfold exceededCount someCriterionExceeded
  by_cases h1 : shortTimeDelta t p <;> by_cases h2 : largeAdditions t p <;>
    by_cases h3 : largeDeletions t p <;> by_cases h4 : highAdditionVelocity t p <;>
    by_cases h5 : highDeletionVelocity t p <;> simp [h1, h2, h3, h4, h5]

theorem exceededCount_le (t : Thresholds) (p : CommitPair) : exceededCount t p ≤ 5 := by
  unfold exceededCount
  split_ifs <;> omega

/-- What a record returned by the loop body looks like. -/
theorem DetectSuspicious.evaluate_some (d : Detector) (p : CommitPair)
    (r : SuspiciousCommit) (h : DetectSuspicious.evaluate d p = some r) :
    r.Pair = p ∧
    (p.Stats.Additions ≠ 0 ∨ p.Stats.Deletions ≠ 0) ∧
    DetectSuspicious.velocities d p = some (r.AdditionVelocity, r.DeletionVelocity) ∧
    r.Reasons.length = exceededCount d.thresholds p ∧
    0 < exceededCount d.thresholds p := by
  unfold DetectSuspicious.evaluate at h
  split_ifs at h with hz
  cases hv : DetectSuspicious.velocities d p with
  | none => simp [hv] at h
  | some avdv =>
    obtain ⟨av, dv⟩ := avdv
    simp only [hv] at h
    split_ifs at h with hlen
    simp only [Option.some.injEq] at h
    subst h
    have hl := DetectSuspicious.reasons_length d p av dv hv
    refine ⟨rfl, ?_, rfl, hl, ?_⟩
    · by_contra hc
      simp only [not_or, not_not] at hc
      exact hz hc
    · simpa [hl] using hlen

/-- When the loop body returns a record. -/
theorem DetectSuspicious.evaluate_isSome_iff (d : Detector) (p : CommitPair) :
    (∃ r, DetectSuspicious.evaluate d p = some r) ↔
      (p.Stats.Additions ≠ 0 ∨ p.Stats.Deletions ≠ 0) ∧
      (∃ avdv, DetectSuspicious.velocities d p = some avdv) ∧
      someCriterionExceeded d.thresholds p := by
  constructor
  · rintro ⟨r, h⟩
    obtain ⟨_, h2, h3, _, h5⟩ := DetectSuspicious.evaluate_some d p r h
    exact ⟨h2, ⟨_, h3⟩, (exceededCount_pos_iff _ _).mp h5⟩
  · rintro ⟨hnz, ⟨⟨av, dv⟩, hv⟩, hex⟩
    have hz : ¬ (p.Stats.Additions = 0 ∧ p.Stats.Deletions = 0) := by
      rintro ⟨a, b⟩
      rcases hnz with h | h
      · exact h a
      · exact h b
    have hl := DetectSuspicious.reasons_length d p av dv hv
    have hpos : (DetectSuspicious.reasons d p av dv).length > 0 := by
      rw [hl]; exact (exceededCount_pos_iff _ _).mpr hex
    simp only [DetectSuspicious.evaluate, if_neg hz, hv, if_pos hpos]
    exact ⟨_, rfl⟩

theorem DetectSuspicious.mem_iff (d : Detector) (pairs : List CommitPair)
    (rs : Option RepositoryStats) (r : SuspiciousCommit) :
    r ∈ d.DetectSuspicious pairs rs ↔
      ∃ p ∈ pairs, DetectSuspicious.evaluate d p = some r := by
  rw [DetectSuspicious_eq_filterMap, List.mem_filterMap]

theorem DetectSuspicious.velocities_of_pos (d : Detector) (p : CommitPair)
    (hpos : 0 < p.TimeDelta) : ∃ avdv, DetectSuspicious.velocities d p = some avdv := by
  by_cases hen : d.thresholds.MaxAdditionsPerMin > 0 ∨ d.thresholds.MaxDeletionsPerMin > 0
  · exact ⟨_, DetectSuspicious.velocities_enabled_pos d p hen hpos⟩
  · exact ⟨_, DetectSuspicious.velocities_disabled d p hen⟩

theorem not_exceeded_of_within (t : Thresholds) (p : CommitPair)
    (h : withinThresholds t p) : ¬ someCriterionExceeded t p := by
  obtain ⟨h1, h2, h3, h4, h5⟩ := h
  rintro (hc | hc | hc | hc | hc)
  · exact absurd hc.2 (not_lt.mpr h1)
  · exact absurd hc.2 (not_lt.mpr h2)
  · exact absurd hc.2 (not_lt.mpr h3)
  · exact absurd hc.2 (not_lt.mpr h4)
  · exact absurd hc.2 (not_lt.mpr h5)

theorem New_some (t : Thresholds) (d : Detector) (h : New t = (some d, none)) :
    d.thresholds = t ∧ t.Validate = none := by
  unfold New at h
  cases hv : t.Validate with
  | some e => simp [hv] at h
  | none =>
    simp only [hv, Prod.mk.injEq, Option.some.injEq, and_true] at h
    exact ⟨by rw [← h], rfl⟩

theorem observedRate_pos (n : Int) (delta : Duration) (hpos : 0 < delta) :
    observedRate n delta = some (linesPerMinute n delta) := by
  have hnot : ¬ delta ≤ 0 := not_le.mpr hpos
  simp only [observedRate, CalculateVelocity, if_neg hnot, Option.map_some',
    velocity_rate _ _ hpos]

theorem observedShortTimeDelta_iff (t : Thresholds) (p : CommitPair) :
    observedShortTimeDelta t p ↔ shortTimeDelta t p := by
  unfold observedShortTimeDelta shortTimeDelta
  rw [Duration.Seconds_eq]

theorem observedHighAdditionVelocity_iff (t : Thresholds) (p : CommitPair)
    (h : t.MaxAdditionsPerMin > 0 → 0 < p.TimeDelta) :
    observedHighAdditionVelocity t p ↔ highAdditionVelocity t p := by
  unfold observedHighAdditionVelocity highAdditionVelocity
  constructor
  · rintro ⟨h1, r, hr, h2⟩
    rw [observedRate_pos _ _ (h h1)] at hr
    rw [Option.mem_some_iff.mp hr]
    exact ⟨h1, h2⟩
  · rintro ⟨h1, h2⟩
    exact ⟨h1, _, by rw [observedRate_pos _ _ (h h1)]; rfl, h2⟩

theorem observedHighDeletionVelocity_iff (t : Thresholds) (p : CommitPair)
    (h : t.MaxDeletionsPerMin > 0 → 0 < p.TimeDelta) :
    observedHighDeletionVelocity t p ↔ highDeletionVelocity t p := by
  unfold observedHighDeletionVelocity highDeletionVelocity
  constructor
  · rintro ⟨h1, r, hr, h2⟩
    rw [observedRate_pos _ _ (h h1)] at hr
    rw [Option.mem_some_iff.mp hr]
    exact ⟨h1, h2⟩
  · rintro ⟨h1, h2⟩
    exact ⟨h1, _, by rw [observedRate_pos _ _ (h h1)]; rfl, h2⟩

theorem someObservedExceeded_iff (t : Thresholds) (p : CommitPair)
    (h : t.MaxAdditionsPerMin > 0 ∨ t.MaxDeletionsPerMin > 0 → 0 < p.TimeDelta) :
    someObservedExceeded t p ↔ someCriterionExceeded t p := by
  unfold someObservedExceeded someCriterionExceeded
  rw [observedShortTimeDelta_iff,
    observedHighAdditionVelocity_iff t p (fun h1 => h (Or.inl h1)),
    observedHighDeletionVelocity_iff t p (fun h1 => h (Or.inr h1))]

theorem observedExceededCount_eq (t : Thresholds) (p : CommitPair)
    (h : t.MaxAdditionsPerMin > 0 ∨ t.MaxDeletionsPerMin > 0 → 0 < p.TimeDelta) :
    observedExceededCount t p = exceededCount t p := by
  unfold observedExceededCount exceededCount
  simp only [observedShortTimeDelta_iff,
    observedHighAdditionVelocity_iff t p (fun h1 => h (Or.inl h1)),
    observedHighDeletionVelocity_iff t p (fun h1 => h (Or.inr h1))]

theorem withinThresholds_of_observed (t : Thresholds) (p : CommitPair)
    (hpos : 0 < p.TimeDelta) (h : observedWithin t p) : withinThresholds t p := by
  obtain ⟨h1, h2, h3, h4, h5⟩ := h
  rw [Duration.Seconds_eq] at h1
  refine ⟨h1, h2, h3, ?_, ?_⟩
  · exact h4 _ (by rw [observedRate_pos _ _ hpos]; rfl)
  · exact h5 _ (by rw [observedRate_pos _ _ hpos]; rfl)

theorem DetectSuspicious.evaluate_enabled_pos (d : Detector) (p : CommitPair)
    (r : SuspiciousCommit) (h : DetectSuspicious.evaluate d p = some r)
    (hen : d.thresholds.MaxAdditionsPerMin > 0 ∨ d.thresholds.MaxDeletionsPerMin > 0) :
    0 < p.TimeDelta := by
  obtain ⟨_, _, h3, _⟩ := DetectSuspicious.evaluate_some d p r h
  by_contra hneg
  rw [DetectSuspicious.velocities_enabled_nonpos d p hen (not_lt.mp hneg)] at h3
  exact absurd h3 (by simp)

/-! ## Detection: the claims -/

/-- Witness for C5: the all-zero thresholds give an error and no detector,
while the thresholds of scenario A give a detector. -/
theorem New_ok_iff_Validate_witness :
    ((New thresholdsZero).1 = none ∧ (New thresholdsZero).2 ≠ none) ∧
    New thresholdsA = (some { thresholds := thresholdsA }, none) :=
  ⟨(New_ok_iff_Validate thresholdsZero).2.2.2.2.1 (by simp [Thresholds.SomeNonzero, thresholdsZero]),
   (New_ok_iff_Validate thresholdsA).1.mpr (by simp [Thresholds.Validate, thresholdsA])⟩

/-- C3. A pair whose filtered additions and filtered deletions are both 0 never
appears in the output of `DetectSuspicious`: no record of the output carries
such a pair, whatever the thresholds, its time delta and unfiltered counts. -/
theorem DetectSuspicious_skips_zero_change (d : Detector) (pairs : List CommitPair)
    (rs : Option RepositoryStats) (r : SuspiciousCommit)
    (hr : r ∈ d.DetectSuspicious pairs rs) :
    ¬ (r.Pair.Stats.Additions = 0 ∧ r.Pair.Stats.Deletions = 0) := by
  obtain ⟨q, _, hq⟩ := (DetectSuspicious.mem_iff d pairs rs r).mp hr
  obtain ⟨h1, h2, _⟩ := DetectSuspicious.evaluate_some d q r hq
  rw [h1]
  rintro ⟨a, b⟩
  rcases h2 with h | h
  · exact h a
  · exact h b

/-- Witness for C3: with `SuspiciousAdditions: 10`, of a zero-change pair and a
pair with 200 additions only the second is in the output. -/
theorem DetectSuspicious_skips_zero_change_witness :
    (Detector.mk thresholdsAdd10).DetectSuspicious
        [samplePair 0 0 (10 * Minute), samplePair 200 50 (10 * Minute)] none
      = [{ Pair := samplePair 200 50 (10 * Minute)
           AdditionVelocity := none
           DeletionVelocity := none
           Reasons := [Sprintf "Suspicious commit size: %d additions (threshold: %d lines)"
             [FmtArg.int 200, FmtArg.int 10]] }] ∧
    ¬ ((samplePair 200 50 (10 * Minute)).Stats.Additions = 0 ∧
       (samplePair 200 50 (10 * Minute)).Stats.Deletions = 0) := by
  have hout : (Detector.mk thresholdsAdd10).DetectSuspicious
        [samplePair 0 0 (10 * Minute), samplePair 200 50 (10 * Minute)] none
      = [{ Pair := samplePair 200 50 (10 * Minute)
           AdditionVelocity := none
           DeletionVelocity := none
           Reasons := [Sprintf "Suspicious commit size: %d additions (threshold: %d lines)"
             [FmtArg.int 200, FmtArg.int 10]] }] := by
    simp [DetectSuspicious_eq_filterMap, DetectSuspicious.evaluate, DetectSuspicious.velocities,
      DetectSuspicious.reasons, DetectSuspicious.checkTimeDelta, DetectSuspicious.checkAdditions,
      DetectSuspicious.checkDeletions, DetectSuspicious.checkAdditionVelocity,
      DetectSuspicious.checkDeletionVelocity, samplePair, sampleCommit, thresholdsAdd10]
  exact ⟨hout, DetectSuspicious_skips_zero_change (Detector.mk thresholdsAdd10)
    [samplePair 0 0 (10 * Minute), samplePair 200 50 (10 * Minute)] none
    { Pair := samplePair 200 50 (10 * Minute)
      AdditionVelocity := none
      DeletionVelocity := none
      Reasons := [Sprintf "Suspicious commit size: %d additions (threshold: %d lines)"
        [FmtArg.int 200, FmtArg.int 10]] }
    (by rw [hout]; exact List.mem_singleton_self _)⟩

theorem DetectSuspicious.singleton (d : Detector) (p : CommitPair)
    (rs : Option RepositoryStats) :
    d.DetectSuspicious [p] rs = (DetectSuspicious.evaluate d p).toList := by
  rw [DetectSuspicious_eq_filterMap]
  cases h : DetectSuspicious.evaluate d p <;> simp [List.filterMap_cons, h]

theorem DetectSuspicious.scenarioA_output (delta : Duration) :
    (Detector.mk thresholdsA).DetectSuspicious [samplePair 200 50 delta] none
      = [recordA delta] := by
  simp [DetectSuspicious_eq_filterMap, DetectSuspicious.evaluate,
    DetectSuspicious.velocities, DetectSuspicious.reasons, DetectSuspicious.checkTimeDelta,
    DetectSuspicious.checkAdditions, DetectSuspicious.checkDeletions,
    DetectSuspicious.checkAdditionVelocity, DetectSuspicious.checkDeletionVelocity,
    CalculateVelocity, Duration.Seconds_eq, Duration.Minutes_eq, deltaSeconds, samplePair,
    sampleCommit, Second, Minute, thresholdsA, recordA]

theorem DetectSuspicious.thresholdsDel_output :
    (Detector.mk thresholdsDel).DetectSuspicious [samplePair 10 200 Minute] none
      = [recordDel] := by
  rw [DetectSuspicious.singleton]
  norm_num [DetectSuspicious.evaluate,
    DetectSuspicious.velocities, DetectSuspicious.reasons, DetectSuspicious.checkTimeDelta,
    DetectSuspicious.checkAdditions, DetectSuspicious.checkDeletions,
    DetectSuspicious.checkAdditionVelocity, DetectSuspicious.checkDeletionVelocity,
    CalculateVelocity, Duration.Seconds_eq, Duration.Minutes_eq, deltaSeconds, samplePair,
    sampleCommit, Second, Minute, thresholdsDel, recordDel]

theorem DetectSuspicious.evaluate_pos_of_enabled (d : Detector) (p : CommitPair)
    (r : SuspiciousCommit)
    (hen : d.thresholds.MaxAdditionsPerMin > 0 ∨ d.thresholds.MaxDeletionsPerMin > 0)
    (h : DetectSuspicious.evaluate d p = some r) : 0 < p.TimeDelta := by
  by_contra hpos
  have h3 := (DetectSuspicious.evaluate_some d p r h).2.2.1
  rw [DetectSuspicious.velocities_enabled_nonpos d p hen (not_lt.mp hpos)] at h3
  exact absurd h3 (by simp)

theorem DetectSuspicious.filterMap_filter_pos (d : Detector)
    (hen : d.thresholds.MaxAdditionsPerMin > 0 ∨ d.thresholds.MaxDeletionsPerMin > 0)
    (pairs : List CommitPair) :
    pairs.filterMap (DetectSuspicious.evaluate d)
      = (pairs.filter (fun p => decide (0 < p.TimeDelta))).filterMap
          (DetectSuspicious.evaluate d) := by
  induction pairs with
  | nil => rfl
  | cons p ps ih =>
    by_cases hpos : 0 < p.TimeDelta
    · rw [List.filter_cons_of_pos (by simpa using hpos), List.filterMap_cons,
        List.filterMap_cons, ih]
    · rw [List.filter_cons_of_neg (by simpa using hpos), List.filterMap_cons, ih]
      cases h : DetectSuspicious.evaluate d p with
      | none => rfl
      | some r => exact absurd (DetectSuspicious.evaluate_pos_of_enabled d p r hen h) hpos

/-- When `MaxAdditionsPerMin` or `MaxDeletionsPerMin` is greater than 0, no
record of the output of `DetectSuspicious` carries a pair with time delta <= 0,
and the output is the one obtained from the list without those pairs. -/
theorem DetectSuspicious.skips_nonpositive_delta (d : Detector)
    (pairs : List CommitPair) (rs : Option RepositoryStats)
    (hen : d.thresholds.MaxAdditionsPerMin > 0 ∨ d.thresholds.MaxDeletionsPerMin > 0) :
    (∀ r ∈ d.DetectSuspicious pairs rs, 0 < r.Pair.TimeDelta) ∧
    d.DetectSuspicious pairs rs
      = d.DetectSuspicious (pairs.filter (fun p => decide (0 < p.TimeDelta))) rs := by
  constructor
  · intro r hr
    obtain ⟨q, _, hq⟩ := (DetectSuspicious.mem_iff d pairs rs r).mp hr
    rw [(DetectSuspicious.evaluate_some d q r hq).1]
    exact DetectSuspicious.evaluate_pos_of_enabled d q r hen hq
  · rw [DetectSuspicious_eq_filterMap, DetectSuspicious_eq_filterMap]
    exact DetectSuspicious.filterMap_filter_pos d hen pairs

theorem DetectSuspicious.filterMap_pairs_sublist (d : Detector) (pairs : List CommitPair) :
    ((pairs.filterMap (DetectSuspicious.evaluate d)).map (fun r => r.Pair)).Sublist pairs := by
  induction pairs with
  | nil => exact List.Sublist.slnil
  | cons p ps ih =>
    rw [List.filterMap_cons]
    cases h : DetectSuspicious.evaluate d p with
    | none => exact List.Sublist.cons p ih
    | some r =>
      simp only [List.map_cons]
      rw [(DetectSuspicious.evaluate_some d p r h).1]
      exact List.Sublist.cons₂ p ih

/-- C10. The pairs carried by the output of `DetectSuspicious`, in order, form a
subsequence of the input pair list: the order is that of the input and no
pair is duplicated or invented. -/
theorem DetectSuspicious_pairs_sublist (d : Detector) (pairs : List CommitPair)
    (rs : Option RepositoryStats) :
    ((d.DetectSuspicious pairs rs).map (fun r => r.Pair)).Sublist pairs := by
  rw [DetectSuspicious_eq_filterMap]
  exact DetectSuspicious.filterMap_pairs_sublist d pairs

/-! ## Detection: reasons and determinism -/

/-- C11. Every record of the output of `DetectSuspicious` has a non-empty
`Reasons` list, holding between 1 and 5 reasons, for every detector (so for
every valid thresholds) and every pair list. -/
theorem DetectSuspicious_reasons_nonempty (d : Detector) (pairs : List CommitPair)
    (rs : Option RepositoryStats) (r : SuspiciousCommit)
    (hr : r ∈ d.DetectSuspicious pairs rs) :
    r.Reasons ≠ [] ∧ 1 ≤ r.Reasons.length ∧ r.Reasons.length ≤ 5 := by
  obtain ⟨q, _, hq⟩ := (DetectSuspicious.mem_iff d pairs rs r).mp hr
  obtain ⟨_, _, _, h4, h5⟩ := DetectSuspicious.evaluate_some d q r hq
  have hle := exceededCount_le d.thresholds q
  refine ⟨?_, by omega, by omega⟩
  intro hnil
  rw [hnil, List.length_nil] at h4
  omega

/-- Witness for C11: the record of scenario A is in the output and has one
reason. -/
theorem DetectSuspicious_reasons_nonempty_witness :
    recordA Minute ∈ (Detector.mk thresholdsA).DetectSuspicious
        [samplePair 200 50 Minute] none ∧
    ((recordA Minute).Reasons ≠ [] ∧ 1 ≤ (recordA Minute).Reasons.length ∧
      (recordA Minute).Reasons.length ≤ 5) :=
  have hmem : recordA Minute ∈ (Detector.mk thresholdsA).DetectSuspicious
      [samplePair 200 50 Minute] none := by
    rw [DetectSuspicious.scenarioA_output]; exact List.mem_singleton_self _
  ⟨hmem, DetectSuspicious_reasons_nonempty (Detector.mk thresholdsA)
    [samplePair 200 50 Minute] none (recordA Minute) hmem⟩

/-- C12. The output of `DetectSuspicious` is determined by the thresholds and
the pair list alone: two runs with the same thresholds over the same pair list
return the same output, whatever `RepositoryStats` argument (a value or nil)
each run is given. -/
theorem DetectSuspicious_deterministic (d₁ d₂ : Detector) (pairs : List CommitPair)
    (rs₁ rs₂ : Option RepositoryStats) (h : d₁.thresholds = d₂.thresholds) :
    d₁.DetectSuspicious pairs rs₁ = d₂.DetectSuspicious pairs rs₂ := by
  have hd : d₁ = d₂ := by
    cases d₁; cases d₂; simp only [Detector.mk.injEq]; exact h
  rw [hd, DetectSuspicious_eq_filterMap, DetectSuspicious_eq_filterMap]

/-- Witness for C12: under the thresholds of scenario A a run given nil and a
run given a statistics value return the same output. -/
theorem DetectSuspicious_deterministic_witness :
    (Detector.mk thresholdsA).DetectSuspicious [samplePair 200 50 Minute] none
      = (Detector.mk thresholdsA).DetectSuspicious [samplePair 200 50 Minute]
          (some (CalculateStats.init [] [samplePair 200 50 Minute])) :=
  DetectSuspicious_deterministic (Detector.mk thresholdsA) (Detector.mk thresholdsA)
    [samplePair 200 50 Minute] none
    (some (CalculateStats.init [] [samplePair 200 50 Minute])) rfl

/-! ## Pairing -/

theorem saturate_eq (d : Int) : saturate d
    = if d < -9223372036854775808 then (-9223372036854775808 : Int)
      else if 9223372036854775807 < d then 9223372036854775807 else d := by
  have sat : saturate d
      = max (-9223372036854775808 : Int) (min d 9223372036854775807) := rfl
  rw [sat, max_def, min_def]
  split_ifs <;> first | omega | (show @Eq Int _ _; omega)

theorem Time.Sub_eq_saturate (t u : Int) : Time.Sub t u = saturate (t - u) := by
  have key : ∀ t u : Int, Time.Sub t u
      = if (-9223372036854775808 : Int) ≤ t - u ∧ t - u ≤ 9223372036854775807 then t - u
        else if t < u then -9223372036854775808 else 9223372036854775807 := fun _ _ => rfl
  rw [key, saturate_eq]
  split_ifs <;> first | omega | (show @Eq Int _ _; omega)

theorem saturate_of_range (d : Int) (h0 : -9223372036854775808 ≤ d)
    (h1 : d ≤ 9223372036854775807) : saturate d = d := by
  rw [saturate_eq]
  split_ifs <;> first | omega | (show @Eq Int _ _; omega)

theorem saturate_pos_iff (d : Int) : 0 < saturate d ↔ 0 < d := by
  rw [saturate_eq]
  show (0 : Int) < _ ↔ _
  split_ifs <;> omega

theorem saturate_nonneg (d : Int) (h : 0 ≤ d) : 0 ≤ saturate d := by
  rw [saturate_eq]
  show (0 : Int) ≤ _
  split_ifs <;> omega

theorem saturate_bounds (d : Int) :
    minDuration ≤ saturate d ∧ saturate d ≤ maxDuration := by
  have hmin : minDuration = (-9223372036854775808 : Int) := rfl
  have hmax : maxDuration = (9223372036854775807 : Int) := rfl
  rw [saturate_eq, hmin, hmax]
  show (_ : Int) ≤ _ ∧ (_ : Int) ≤ _
  split_ifs <;> omega

theorem GetCommitPairs.step_eq (diff : DiffBackend) (pairs : List CommitPair)
    (adjacent : Commit × Commit) :
    GetCommitPairs.step diff pairs adjacent
      = pairs ++ (pairOf diff adjacent.1 adjacent.2).toList := by
  unfold GetCommitPairs.step pairOf
  simp only [Time.Sub_eq_saturate]
  by_cases hp : adjacent.1.Parents.length > 1
  · have hp2 : ¬ adjacent.1.Parents.length ≤ 1 := by omega
    cases hd : diff adjacent.2.Hash adjacent.1.Hash <;> simp [hp, hp2]
  · have hp2 : adjacent.1.Parents.length ≤ 1 := by omega
    by_cases ht2 : 0 < adjacent.1.Timestamp - adjacent.2.Timestamp
    · have ht : ¬ saturate (adjacent.1.Timestamp - adjacent.2.Timestamp) ≤ 0 :=
        not_le.mpr ((saturate_pos_iff _).mpr ht2)
      cases hd : diff adjacent.2.Hash adjacent.1.Hash <;> simp [hp, hp2, ht, ht2, hd]
    · have ht : saturate (adjacent.1.Timestamp - adjacent.2.Timestamp) ≤ 0 :=
        not_lt.mp (fun h => ht2 ((saturate_pos_iff _).mp h))
      cases hd : diff adjacent.2.Hash adjacent.1.Hash <;> simp [hp, ht, ht2]

theorem GetCommitPairs.foldl_pairing (diff : DiffBackend) (adjacents : List (Commit × Commit))
    (acc : List CommitPair) :
    adjacents.foldl (GetCommitPairs.step diff) acc
      = acc ++ adjacents.filterMap (fun a => pairOf diff a.1 a.2) := by
  induction adjacents generalizing acc with
  | nil => simp
  | cons a rest ih =>
    rw [List.foldl_cons, ih, GetCommitPairs.step_eq, List.filterMap_cons]
    cases pairOf diff a.1 a.2 <;> simp

theorem zip_tail_eq_range (commits : List Commit) :
    commits.zip commits.tail
      = (List.range (commits.length - 1)).filterMap (adjacentAt commits) := by
  induction commits with
  | nil => rfl
  | cons a rest ih =>
    cases rest with
    | nil => rfl
    | cons b t =>
      have hlen : (a :: b :: t).length - 1 = (t.length + 1) := by simp
      have hlen2 : (b :: t).length - 1 = t.length := by simp
      rw [hlen, List.range_succ_eq_map, List.filterMap_cons]
      rw [hlen2] at ih
      simp only [List.tail_cons] at ih ⊢
      rw [List.zip_cons_cons, ih, List.filterMap_map]
      have h0 : adjacentAt (a :: b :: t) 0 = some (a, b) := by simp [adjacentAt]
      rw [h0]
      congr 2
      funext i
      simp [adjacentAt]

theorem GetCommitPairs_pairs (diff : DiffBackend) (commits : List Commit) :
    GetCommitPairs diff commits
      = ((commits.zip commits.tail).filterMap (fun a => pairOf diff a.1 a.2), none) := by
  unfold GetCommitPairs
  by_cases h : commits.length < 2
  · rw [if_pos h]
    match commits, h with
    | [], _ => rfl
    | [_], _ => rfl
  · rw [if_neg h, GetCommitPairs.foldl_pairing, List.nil_append]

theorem pairOf_some (diff : DiffBackend) (current previous : Commit) (p : CommitPair)
    (h : pairOf diff current previous = some p) :
    p.Current = current ∧ p.Previous = previous ∧
    p.TimeDelta = saturate (current.Timestamp - previous.Timestamp) ∧ 0 < p.TimeDelta ∧
    current.Parents.length ≤ 1 ∧ diff previous.Hash current.Hash = Except.ok p.Stats := by
  unfold pairOf at h
  cases hd : diff previous.Hash current.Hash with
  | error e => simp [hd] at h
  | ok stats =>
    simp only [hd] at h
    split_ifs at h with hc
    simp only [Option.some.injEq] at h
    subst h
    exact ⟨rfl, rfl, rfl, (saturate_pos_iff _).mpr hc.2, hc.1, rfl⟩

theorem GetCommitPairs.mem (diff : DiffBackend) (commits : List Commit) (p : CommitPair)
    (h : p ∈ (GetCommitPairs diff commits).1) :
    ∃ current previous, pairOf diff current previous = some p := by
  rw [GetCommitPairs_pairs] at h
  obtain ⟨a, _, ha⟩ := List.mem_filterMap.mp h
  exact ⟨a.1, a.2, ha⟩

/-- Counterexample to C13: for a commit of 1 January 2024 listed before a commit
of 1 January 1700 (instants in nanoseconds after the zero time value) the
only pair has the time delta 9223372036854775807, the greatest `Duration`,
while the difference of the two timestamps is 10224403200000000000. -/
theorem GetCommitPairs_time_delta_counterexample :
    (GetCommitPairs sampleDiff
        [sampleCommitAt "def456" 63839664000000000000 ["abc123"],
         sampleCommitAt "abc123" 53615260800000000000 []]).1.map
      (fun p => (p.TimeDelta, p.Current.Timestamp - p.Previous.Timestamp))
      = [(9223372036854775807, 10224403200000000000)] := by
  rw [GetCommitPairs_pairs]
  have hs : saturate 10224403200000000000 = 9223372036854775807 := by decide
  simp [pairOf, sampleDiff, sampleCommitAt, hs]

/-- C13, amended. Whatever the diff backend answers, `GetCommitPairs` returns no
error and, in increasing index order `i = 0..len-2`, exactly the pairs
`pairAt diff commits i`: previous `commits[i+1]`, current `commits[i]`, the
statistics of the diff, and as time delta the difference of their timestamps
brought into the range of a `Duration`, for each index whose current commit
has at most one parent, whose current timestamp is later than the previous
one and whose diff succeeds; every other index contributes nothing. The time
delta of every returned pair is > 0, and it is the difference of the two
timestamps itself whenever that difference is at most the greatest
`Duration`. -/
theorem GetCommitPairs_eq_filterMap_range (diff : DiffBackend) (commits : List Commit) :
    GetCommitPairs diff commits
      = ((List.range (commits.length - 1)).filterMap (pairAt diff commits), none) ∧
    ∀ p ∈ (GetCommitPairs diff commits).1,
      0 < p.TimeDelta ∧
      p.TimeDelta = saturate (p.Current.Timestamp - p.Previous.Timestamp) ∧
      (p.Current.Timestamp - p.Previous.Timestamp ≤ maxDuration →
        p.TimeDelta = p.Current.Timestamp - p.Previous.Timestamp) := by
  constructor
  · rw [GetCommitPairs_pairs, zip_tail_eq_range, List.filterMap_filterMap]
    congr 2
    funext i
    unfold pairAt adjacentAt
    cases commits[i]? <;> cases commits[i + 1]? <;> rfl
  · intro p hp
    obtain ⟨current, previous, hpair⟩ := GetCommitPairs.mem diff commits p hp
    obtain ⟨h1, h2, h3, h4, _, _⟩ := pairOf_some diff current previous p hpair
    rw [h1, h2]
    refine ⟨h4, h3, ?_⟩
    intro hle
    rw [h3]
    have hpos : 0 < current.Timestamp - previous.Timestamp := by
      rw [h3] at h4
      exact (saturate_pos_iff _).mp h4
    exact saturate_of_range _ (le_trans (by decide) (le_of_lt hpos)) hle

/-- C14. For a commit list with fewer than 2 commits `GetCommitPairs` returns an
empty pair list and no error, whatever the diff backend is (it is not
consulted). -/
theorem GetCommitPairs_short (commits : List Commit) (h : commits.length < 2)
    (diff : DiffBackend) :
    GetCommitPairs diff commits = ([], none) := by
  unfold GetCommitPairs
  rw [if_pos h]

/-- Witness for C14: the empty list and a single commit, with a backend that
succeeds and one that fails. -/
theorem GetCommitPairs_short_witness :
    GetCommitPairs sampleDiff [] = ([], none) ∧
    GetCommitPairs failingDiff [sampleCommitAt "abc123" 1 []] = ([], none) ∧
    GetCommitPairs sampleDiff [sampleCommitAt "abc123" 1 []] = ([], none) :=
  ⟨GetCommitPairs_short [] (by decide) sampleDiff,
   GetCommitPairs_short [sampleCommitAt "abc123" 1 []] (by decide) failingDiff,
   GetCommitPairs_short [sampleCommitAt "abc123" 1 []] (by decide) sampleDiff⟩

/-- Counterexample to C15: a current commit without any parent, one nanosecond
after the commit that follows it in the list, is paired: the only pair of
the output has a current commit with 0 parents. -/
theorem GetCommitPairs_one_parent_counterexample :
    (GetCommitPairs sampleDiff
        [sampleCommitAt "def456" 2 [], sampleCommitAt "abc123" 1 []]).1.map
      (fun p => p.Current.Parents.length) = [0] := by
  rw [GetCommitPairs_pairs]
  simp [pairOf, sampleDiff, sampleCommitAt]

/-- C15, amended. Every pair produced by `GetCommitPairs` has a current commit
with at most one parent: it is not a merge commit. -/
theorem GetCommitPairs_current_not_merge (diff : DiffBackend) (commits : List Commit)
    (p : CommitPair) (h : p ∈ (GetCommitPairs diff commits).1) :
    p.Current.Parents.length ≤ 1 := by
  obtain ⟨current, previous, hp⟩ := GetCommitPairs.mem diff commits p h
  obtain ⟨h1, _, _, _, h5, _⟩ := pairOf_some diff current previous p hp
  rw [h1]
  exact h5

theorem GetCommitPairs.sample_output :
    (GetCommitPairs sampleDiff
        [sampleCommitAt "ghi789" 30 ["def456", "abc123"], sampleCommitAt "def456" 20 ["abc123"],
         sampleCommitAt "abc123" 10 []]).1
      = [{ Previous := sampleCommitAt "abc123" 10 []
           Current := sampleCommitAt "def456" 20 ["abc123"]
           TimeDelta := 10
           Stats := { FilesChanged := 1, Additions := 10, Deletions := 5,
                      TotalAdditions := 12, TotalDeletions := 6, FilesChangedTotal := 2 } }] := by
  rw [GetCommitPairs_pairs]
  have hs : saturate 10 = 10 := by decide
  simp [pairOf, sampleDiff, sampleCommitAt, hs]

/-- Witness for C13, amended: the pair kept from the sample history is in the
output, with the time delta 10, the difference of the timestamps 20 and 10. -/
theorem GetCommitPairs_eq_filterMap_range_witness :
    ({ Previous := sampleCommitAt "abc123" 10 []
       Current := sampleCommitAt "def456" 20 ["abc123"]
       TimeDelta := 10
       Stats := { FilesChanged := 1, Additions := 10, Deletions := 5,
                  TotalAdditions := 12, TotalDeletions := 6, FilesChangedTotal := 2 } }
        : CommitPair) ∈
      (GetCommitPairs sampleDiff
        [sampleCommitAt "ghi789" 30 ["def456", "abc123"], sampleCommitAt "def456" 20 ["abc123"],
         sampleCommitAt "abc123" 10 []]).1 ∧
    (0 : Duration) < 10 ∧ (10 : Duration) = saturate (20 - 10) :=
  have hmem : ({ Previous := sampleCommitAt "abc123" 10 []
                 Current := sampleCommitAt "def456" 20 ["abc123"]
                 TimeDelta := 10
                 Stats := { FilesChanged := 1, Additions := 10, Deletions := 5,
                            TotalAdditions := 12, TotalDeletions := 6,
                            FilesChangedTotal := 2 } } : CommitPair) ∈
      (GetCommitPairs sampleDiff
        [sampleCommitAt "ghi789" 30 ["def456", "abc123"], sampleCommitAt "def456" 20 ["abc123"],
         sampleCommitAt "abc123" 10 []]).1 := by
    rw [GetCommitPairs.sample_output]; exact List.mem_singleton_self _
  have h := (GetCommitPairs_eq_filterMap_range sampleDiff _).2 _ hmem
  ⟨hmem, h.1, h.2.1⟩

/-- Witness for C15, amended: of a merge commit, a commit with one parent and a
root commit, the pair kept has the commit with one parent as current. -/
theorem GetCommitPairs_current_not_merge_witness :
    ({ Previous := sampleCommitAt "abc123" 10 []
       Current := sampleCommitAt "def456" 20 ["abc123"]
       TimeDelta := 10
       Stats := { FilesChanged := 1, Additions := 10, Deletions := 5,
                  TotalAdditions := 12, TotalDeletions := 6, FilesChangedTotal := 2 } }
        : CommitPair) ∈
      (GetCommitPairs sampleDiff
        [sampleCommitAt "ghi789" 30 ["def456", "abc123"], sampleCommitAt "def456" 20 ["abc123"],
         sampleCommitAt "abc123" 10 []]).1 ∧
    (sampleCommitAt "def456" 20 ["abc123"]).Parents.length ≤ 1 :=
  have hmem : ({ Previous := sampleCommitAt "abc123" 10 []
                 Current := sampleCommitAt "def456" 20 ["abc123"]
                 TimeDelta := 10
                 Stats := { FilesChanged := 1, Additions := 10, Deletions := 5,
                            TotalAdditions := 12, TotalDeletions := 6,
                            FilesChangedTotal := 2 } } : CommitPair) ∈
      (GetCommitPairs sampleDiff
        [sampleCommitAt "ghi789" 30 ["def456", "abc123"], sampleCommitAt "def456" 20 ["abc123"],
         sampleCommitAt "abc123" 10 []]).1 := by
    rw [GetCommitPairs.sample_output]; exact List.mem_singleton_self _
  ⟨hmem, GetCommitPairs_current_not_merge sampleDiff _ _ hmem⟩

/-- C16. Every pair produced by `GetCommitPairs` has a time delta > 0, so
`CalculateVelocity` succeeds on it for every line count, and for every
detector the velocity step of `DetectSuspicious` does not take its
skip-on-error branch for that pair. -/
theorem GetCommitPairs_velocity_succeeds (diff : DiffBackend) (commits : List Commit)
    (p : CommitPair) (h : p ∈ (GetCommitPairs diff commits).1) :
    0 < p.TimeDelta ∧
    (∀ loc : Int, (CalculateVelocity loc p.TimeDelta).2 = none ∧
      (CalculateVelocity loc p.TimeDelta).1 ≠ none) ∧
    (∀ d : Detector, DetectSuspicious.velocities d p ≠ none) := by
  obtain ⟨current, previous, hp⟩ := GetCommitPairs.mem diff commits p h
  obtain ⟨_, _, _, hpos, _, _⟩ := pairOf_some diff current previous p hp
  refine ⟨hpos, ?_, ?_⟩
  · intro loc
    have hnot : ¬ p.TimeDelta ≤ 0 := not_le.mpr hpos
    simp [CalculateVelocity, hnot]
  · intro d hnone
    obtain ⟨avdv, hv⟩ := DetectSuspicious.velocities_of_pos d p hpos
    rw [hv] at hnone
    exact absurd hnone (by simp)

/-- Witness for C16: the pair of the sample history has time delta 10 > 0. -/
theorem GetCommitPairs_velocity_succeeds_witness :
    (0 : Duration) < 10 ∧
    (∀ loc : Int, (CalculateVelocity loc 10).2 = none ∧ (CalculateVelocity loc 10).1 ≠ none) :=
  have hmem : ({ Previous := sampleCommitAt "abc123" 10 []
                 Current := sampleCommitAt "def456" 20 ["abc123"]
                 TimeDelta := 10
                 Stats := { FilesChanged := 1, Additions := 10, Deletions := 5,
                            TotalAdditions := 12, TotalDeletions := 6,
                            FilesChangedTotal := 2 } } : CommitPair) ∈
      (GetCommitPairs sampleDiff
        [sampleCommitAt "ghi789" 30 ["def456", "abc123"], sampleCommitAt "def456" 20 ["abc123"],
         sampleCommitAt "abc123" 10 []]).1 := by
    rw [GetCommitPairs.sample_output]; exact List.mem_singleton_self _
  have h := GetCommitPairs_velocity_succeeds sampleDiff _ _ hmem
  ⟨h.1, h.2.1⟩

/-! ## Statistics: the helper functions do not panic -/

theorem index_some (xs : List ℚ) (i : Int) (h0 : 0 ≤ i) (h1 : i < (xs.length : Int)) :
    ∃ v, index xs i = some v := by
  have hlt : i.toNat < xs.length := by omega
  exact ⟨xs[i.toNat], by rw [index, if_pos h0, List.getElem?_eq_getElem hlt]⟩

theorem sortFloat64s_length (values : List ℚ) :
    (sortFloat64s values).length = values.length := by
  unfold sortFloat64s
  exact List.length_insertionSort _ values

theorem calculateMedian_some (values : List ℚ) : ∃ m, calculateMedian values = some m := by
  unfold calculateMedian
  by_cases h : values.length = 0
  · exact ⟨0, by rw [if_pos h]⟩
  · rw [if_neg h]
    have hlen := sortFloat64s_length values
    have hpos : 0 < values.length := Nat.pos_of_ne_zero h
    simp only
    by_cases he : ((sortFloat64s values).length : Int) % 2 = 0
    · rw [if_pos he]
      obtain ⟨a, ha⟩ := index_some (sortFloat64s values)
        (((sortFloat64s values).length : Int) / 2 - 1) (by omega) (by omega)
      obtain ⟨b, hb⟩ := index_some (sortFloat64s values)
        (((sortFloat64s values).length : Int) / 2) (by omega) (by omega)
      exact ⟨(a + b) / 2, by rw [ha, hb]⟩
    · rw [if_neg he]
      exact index_some (sortFloat64s values)
        (((sortFloat64s values).length : Int) / 2) (by omega) (by omega)

theorem percentile_rank_bounds (sorted : List ℚ) (p : ℚ) (hn : sorted.length ≠ 0)
    (h0 : 0 ≤ p) (h1 : p ≤ 100) :
    0 ≤ Int.floor ((p / 100) * (((sorted.length : Int) - 1 : Int) : ℚ)) ∧
    Int.floor ((p / 100) * (((sorted.length : Int) - 1 : Int) : ℚ)) < (sorted.length : Int) ∧
    0 ≤ Int.ceil ((p / 100) * (((sorted.length : Int) - 1 : Int) : ℚ)) ∧
    Int.ceil ((p / 100) * (((sorted.length : Int) - 1 : Int) : ℚ)) < (sorted.length : Int) := by
  have hpos : 0 < sorted.length := Nat.pos_of_ne_zero hn
  have hm : (0 : ℚ) ≤ (((sorted.length : Int) - 1 : Int) : ℚ) := by
    have : (0 : Int) ≤ (sorted.length : Int) - 1 := by omega
    exact_mod_cast this
  have hr0 : (0 : ℚ) ≤ (p / 100) * (((sorted.length : Int) - 1 : Int) : ℚ) :=
    mul_nonneg (div_nonneg h0 (by norm_num)) hm
  have hp1 : p / 100 ≤ 1 := by
    rw [div_le_one (by norm_num)]; exact h1
  have hr1 : (p / 100) * (((sorted.length : Int) - 1 : Int) : ℚ)
      ≤ (((sorted.length : Int) - 1 : Int) : ℚ) := by
    calc (p / 100) * (((sorted.length : Int) - 1 : Int) : ℚ)
        ≤ 1 * (((sorted.length : Int) - 1 : Int) : ℚ) := mul_le_mul_of_nonneg_right hp1 hm
      _ = (((sorted.length : Int) - 1 : Int) : ℚ) := one_mul _
  have hf0 := Int.floor_nonneg.mpr hr0
  have hc0 := Int.ceil_nonneg hr0
  have hc1 : Int.ceil ((p / 100) * (((sorted.length : Int) - 1 : Int) : ℚ))
      ≤ (sorted.length : Int) - 1 := Int.ceil_le.mpr hr1
  have hfc := Int.floor_le_ceil ((p / 100) * (((sorted.length : Int) - 1 : Int) : ℚ))
  refine ⟨hf0, by omega, hc0, by omega⟩

theorem percentile_some (sorted : List ℚ) (p : ℚ) (h0 : 0 ≤ p) (h1 : p ≤ 100) :
    ∃ v, percentile sorted p = some v := by
  unfold percentile
  by_cases h : sorted.length = 0
  · exact ⟨0, by rw [if_pos h]⟩
  · rw [if_neg h]
    obtain ⟨hf0, hf1, hc0, hc1⟩ := percentile_rank_bounds sorted p h h0 h1
    obtain ⟨lo, hlo⟩ := index_some sorted _ hf0 hf1
    obtain ⟨hi, hhi⟩ := index_some sorted _ hc0 hc1
    simp only
    by_cases he : Int.floor ((p / 100) * (((sorted.length : Int) - 1 : Int) : ℚ))
        = Int.ceil ((p / 100) * (((sorted.length : Int) - 1 : Int) : ℚ))
    · rw [if_pos he]
      exact ⟨lo, hlo⟩
    · rw [if_neg he, hlo, hhi]
      exact ⟨_, rfl⟩

theorem calculatePercentiles_some (values : List ℚ) :
    ∃ pc, calculatePercentiles values = some pc := by
  unfold calculatePercentiles
  by_cases h : values.length = 0
  · rw [if_pos h]
    exact ⟨_, rfl⟩
  · rw [if_neg h]
    obtain ⟨a, ha⟩ := percentile_some (sortFloat64s values) 50 (by norm_num) (by norm_num)
    obtain ⟨b, hb⟩ := percentile_some (sortFloat64s values) 75 (by norm_num) (by norm_num)
    obtain ⟨c, hc⟩ := percentile_some (sortFloat64s values) 90 (by norm_num) (by norm_num)
    obtain ⟨e, he⟩ := percentile_some (sortFloat64s values) 95 (by norm_num) (by norm_num)
    obtain ⟨f, hf⟩ := percentile_some (sortFloat64s values) 99 (by norm_num) (by norm_num)
    simp only [ha, hb, hc, he, hf]
    exact ⟨_, rfl⟩

theorem CalculateStats.summarize_some (stats : RepositoryStats) (velocities : List ℚ) :
    ∃ a m pc, CalculateStats.summarize stats velocities
      = some { stats with AverageVelocity := a, MedianVelocity := m, VelocityPercentile := pc } := by
  unfold CalculateStats.summarize
  by_cases h : velocities.length > 0
  · rw [if_pos h]
    obtain ⟨m, hm⟩ := calculateMedian_some velocities
    obtain ⟨pc, hpc⟩ := calculatePercentiles_some velocities
    simp only [hm, hpc]
    exact ⟨_, _, _, rfl⟩
  · rw [if_neg h]
    exact ⟨stats.AverageVelocity, stats.MedianVelocity, stats.VelocityPercentile, rfl⟩

/-! ## Statistics: the loops -/

theorem CalculateStats.visitCommit_eq (authorSet : List String) (stats : RepositoryStats)
    (commit : Commit) :
    CalculateStats.visitCommit (authorSet, stats) commit
      = (authorSetAdd authorSet commit.Email,
         { stats with
           FirstCommit := firstAfter stats.FirstCommit commit.Timestamp
           LastCommit := lastAfter stats.LastCommit commit.Timestamp
           Authors := authorsAfter stats.Authors commit }) := by
  unfold CalculateStats.visitCommit firstAfter lastAfter authorsAfter
  simp only
  split_ifs <;> rfl

theorem CalculateStats.visitCommit_foldl (commits : List Commit) (authorSet : List String)
    (stats : RepositoryStats) :
    commits.foldl CalculateStats.visitCommit (authorSet, stats)
      = (commits.foldl (fun set c => authorSetAdd set c.Email) authorSet,
         { stats with
           FirstCommit := commits.foldl (fun f c => firstAfter f c.Timestamp) stats.FirstCommit
           LastCommit := commits.foldl (fun l c => lastAfter l c.Timestamp) stats.LastCommit
           Authors := commits.foldl authorsAfter stats.Authors }) := by
  induction commits generalizing authorSet stats with
  | nil => rfl
  | cons c rest ih =>
    rw [List.foldl_cons, CalculateStats.visitCommit_eq, ih]
    rfl

theorem CalculateStats.visitPair_fields (stats : RepositoryStats) (velocities : List ℚ)
    (pair : CommitPair) :
    (CalculateStats.visitPair (stats, velocities) pair).1.TotalCommits = stats.TotalCommits ∧
    (CalculateStats.visitPair (stats, velocities) pair).1.TotalCommitPairs
      = stats.TotalCommitPairs ∧
    (CalculateStats.visitPair (stats, velocities) pair).1.UniqueAuthors = stats.UniqueAuthors ∧
    (CalculateStats.visitPair (stats, velocities) pair).1.TimeSpan = stats.TimeSpan ∧
    (CalculateStats.visitPair (stats, velocities) pair).1.FirstCommit = stats.FirstCommit ∧
    (CalculateStats.visitPair (stats, velocities) pair).1.LastCommit = stats.LastCommit ∧
    (CalculateStats.visitPair (stats, velocities) pair).1.TotalLOCAdded
      = stats.TotalLOCAdded + pair.Stats.Additions ∧
    (CalculateStats.visitPair (stats, velocities) pair).1.TotalLOCDeleted
      = stats.TotalLOCDeleted + pair.Stats.Deletions ∧
    (CalculateStats.visitPair (stats, velocities) pair).1.UnfilteredLOCAdded
      = stats.UnfilteredLOCAdded + pair.Stats.TotalAdditions ∧
    (CalculateStats.visitPair (stats, velocities) pair).1.UnfilteredLOCDeleted
      = stats.UnfilteredLOCDeleted + pair.Stats.TotalDeletions := by
  unfold CalculateStats.visitPair
  simp only
  split_ifs <;> exact ⟨rfl, rfl, rfl, rfl, rfl, rfl, rfl, rfl, rfl, rfl⟩

theorem CalculateStats.visitPair_foldl_fields (pairs : List CommitPair)
    (stats : RepositoryStats) (velocities : List ℚ) :
    (pairs.foldl CalculateStats.visitPair (stats, velocities)).1.TotalCommits
      = stats.TotalCommits ∧
    (pairs.foldl CalculateStats.visitPair (stats, velocities)).1.TotalCommitPairs
      = stats.TotalCommitPairs ∧
    (pairs.foldl CalculateStats.visitPair (stats, velocities)).1.UniqueAuthors
      = stats.UniqueAuthors ∧
    (pairs.foldl CalculateStats.visitPair (stats, velocities)).1.TimeSpan = stats.TimeSpan ∧
    (pairs.foldl CalculateStats.visitPair (stats, velocities)).1.FirstCommit
      = stats.FirstCommit ∧
    (pairs.foldl CalculateStats.visitPair (stats, velocities)).1.LastCommit
      = stats.LastCommit ∧
    (pairs.foldl CalculateStats.visitPair (stats, velocities)).1.TotalLOCAdded
      = stats.TotalLOCAdded + (pairs.map (fun p => p.Stats.Additions)).sum ∧
    (pairs.foldl CalculateStats.visitPair (stats, velocities)).1.TotalLOCDeleted
      = stats.TotalLOCDeleted + (pairs.map (fun p => p.Stats.Deletions)).sum ∧
    (pairs.foldl CalculateStats.visitPair (stats, velocities)).1.UnfilteredLOCAdded
      = stats.UnfilteredLOCAdded + (pairs.map (fun p => p.Stats.TotalAdditions)).sum ∧
    (pairs.foldl CalculateStats.visitPair (stats, velocities)).1.UnfilteredLOCDeleted
      = stats.UnfilteredLOCDeleted + (pairs.map (fun p => p.Stats.TotalDeletions)).sum := by
  induction pairs generalizing stats velocities with
  | nil => simp
  | cons p rest ih =>
    obtain ⟨h1, h2, h3, h4, h5, h6, h7, h8, h9, h10⟩ :=
      CalculateStats.visitPair_fields stats velocities p
    obtain ⟨i1, i2, i3, i4, i5, i6, i7, i8, i9, i10⟩ :=
      ih (CalculateStats.visitPair (stats, velocities) p).1
        (CalculateStats.visitPair (stats, velocities) p).2
    rw [List.foldl_cons]
    simp only [List.map_cons, List.sum_cons]
    refine ⟨i1.trans h1, i2.trans h2, i3.trans h3, i4.trans h4, i5.trans h5, i6.trans h6,
      ?_, ?_, ?_, ?_⟩
    · rw [i7, h7, add_assoc]
    · rw [i8, h8, add_assoc]
    · rw [i9, h9, add_assoc]
    · rw [i10, h10, add_assoc]

theorem authorSetAdd_spec (authorSet : List String) (key : String)
    (h : authorSet.Nodup) :
    (authorSetAdd authorSet key).Nodup ∧
    (authorSetAdd authorSet key).toFinset = insert key authorSet.toFinset := by
  unfold authorSetAdd
  by_cases hk : key ∈ authorSet
  · rw [if_pos hk]
    refine ⟨h, ?_⟩
    rw [Finset.insert_eq_of_mem (List.mem_toFinset.mpr hk)]
  · rw [if_neg hk]
    refine ⟨?_, ?_⟩
    · rw [List.nodup_append]
      refine ⟨h, List.nodup_singleton key, ?_⟩
      intro a ha hb
      rw [List.mem_singleton] at hb
      exact hk (hb ▸ ha)
    · ext a
      simp only [List.toFinset_append, List.toFinset_cons, List.toFinset_nil,
        Finset.mem_union, Finset.mem_insert, List.mem_toFinset, Finset.not_mem_empty, or_false]
      exact or_comm

theorem authorSet_foldl (commits : List Commit) (authorSet : List String)
    (h : authorSet.Nodup) :
    (commits.foldl (fun set c => authorSetAdd set c.Email) authorSet).Nodup ∧
    (commits.foldl (fun set c => authorSetAdd set c.Email) authorSet).toFinset
      = authorSet.toFinset ∪ (commits.map (fun c => c.Email)).toFinset := by
  induction commits generalizing authorSet with
  | nil => simp [h]
  | cons c rest ih =>
    obtain ⟨h1, h2⟩ := authorSetAdd_spec authorSet c.Email h
    obtain ⟨i1, i2⟩ := ih (authorSetAdd authorSet c.Email) h1
    rw [List.foldl_cons]
    refine ⟨i1, ?_⟩
    rw [i2, h2]
    ext a
    simp only [List.map_cons, List.toFinset_cons, Finset.mem_union, Finset.mem_insert,
      List.mem_toFinset]
    tauto

theorem authorSet_length (commits : List Commit) :
    (commits.foldl (fun set c => authorSetAdd set c.Email) []).length
      = distinctEmails commits := by
  obtain ⟨h1, h2⟩ := authorSet_foldl commits [] List.nodup_nil
  rw [← List.toFinset_card_of_nodup h1, h2, distinctEmails]
  simp

theorem firstAfter_foldl (commits : List Commit) (first : Time) (hf : first ≠ 0)
    (hz : ∀ c ∈ commits, c.Timestamp ≠ 0) :
    commits.foldl (fun f c => firstAfter f c.Timestamp) first ≠ 0 ∧
    commits.foldl (fun f c => firstAfter f c.Timestamp) first ≤ first ∧
    (∀ c ∈ commits, commits.foldl (fun f c => firstAfter f c.Timestamp) first ≤ c.Timestamp) ∧
    (commits.foldl (fun f c => firstAfter f c.Timestamp) first = first ∨
      ∃ c ∈ commits, commits.foldl (fun f c => firstAfter f c.Timestamp) first = c.Timestamp) := by
  induction commits generalizing first with
  | nil => simp [hf]
  | cons c rest ih =>
    have hc : c.Timestamp ≠ 0 := hz c (List.mem_cons_self c rest)
    have hrest : ∀ x ∈ rest, x.Timestamp ≠ 0 := fun x hx => hz x (List.mem_cons_of_mem c hx)
    rw [List.foldl_cons]
    by_cases hlt : c.Timestamp < first
    · have hstep : firstAfter first c.Timestamp = c.Timestamp := by
        simp [firstAfter, Time.Before, hlt]
      rw [hstep]
      obtain ⟨i1, i2, i3, i4⟩ := ih c.Timestamp hc hrest
      refine ⟨i1, le_trans i2 (le_of_lt hlt), ?_, ?_⟩
      · intro x hx
        rcases List.mem_cons.mp hx with rfl | hx
        · exact i2
        · exact i3 x hx
      · right
        rcases i4 with h | ⟨x, hx, h⟩
        · exact ⟨c, List.mem_cons_self c rest, h⟩
        · exact ⟨x, List.mem_cons_of_mem c hx, h⟩
    · have hstep : firstAfter first c.Timestamp = first := by
        simp [firstAfter, Time.Before, Time.IsZero, hlt, hf]
      rw [hstep]
      obtain ⟨i1, i2, i3, i4⟩ := ih first hf hrest
      refine ⟨i1, i2, ?_, ?_⟩
      · intro x hx
        rcases List.mem_cons.mp hx with rfl | hx
        · exact le_trans i2 (not_lt.mp hlt)
        · exact i3 x hx
      · rcases i4 with h | ⟨x, hx, h⟩
        · exact Or.inl h
        · exact Or.inr ⟨x, List.mem_cons_of_mem c hx, h⟩

theorem lastAfter_foldl (commits : List Commit) (last : Time) (hl : last ≠ 0)
    (hz : ∀ c ∈ commits, c.Timestamp ≠ 0) :
    commits.foldl (fun l c => lastAfter l c.Timestamp) last ≠ 0 ∧
    last ≤ commits.foldl (fun l c => lastAfter l c.Timestamp) last ∧
    (∀ c ∈ commits, c.Timestamp ≤ commits.foldl (fun l c => lastAfter l c.Timestamp) last) ∧
    (commits.foldl (fun l c => lastAfter l c.Timestamp) last = last ∨
      ∃ c ∈ commits, commits.foldl (fun l c => lastAfter l c.Timestamp) last = c.Timestamp) := by
  induction commits generalizing last with
  | nil => simp [hl]
  | cons c rest ih =>
    have hc : c.Timestamp ≠ 0 := hz c (List.mem_cons_self c rest)
    have hrest : ∀ x ∈ rest, x.Timestamp ≠ 0 := fun x hx => hz x (List.mem_cons_of_mem c hx)
    rw [List.foldl_cons]
    by_cases hgt : c.Timestamp > last
    · have hstep : lastAfter last c.Timestamp = c.Timestamp := by
        simp [lastAfter, Time.After, hgt]
      rw [hstep]
      obtain ⟨i1, i2, i3, i4⟩ := ih c.Timestamp hc hrest
      refine ⟨i1, le_trans (le_of_lt hgt) i2, ?_, ?_⟩
      · intro x hx
        rcases List.mem_cons.mp hx with rfl | hx
        · exact i2
        · exact i3 x hx
      · right
        rcases i4 with h | ⟨x, hx, h⟩
        · exact ⟨c, List.mem_cons_self c rest, h⟩
        · exact ⟨x, List.mem_cons_of_mem c hx, h⟩
    · have hstep : lastAfter last c.Timestamp = last := by
        simp [lastAfter, Time.After, Time.IsZero, hgt, hl]
      rw [hstep]
      obtain ⟨i1, i2, i3, i4⟩ := ih last hl hrest
      refine ⟨i1, i2, ?_, ?_⟩
      · intro x hx
        rcases List.mem_cons.mp hx with rfl | hx
        · exact le_trans (not_lt.mp hgt) i2
        · exact i3 x hx
      · rcases i4 with h | ⟨x, hx, h⟩
        · exact Or.inl h
        · exact Or.inr ⟨x, List.mem_cons_of_mem c hx, h⟩

theorem CalculateStats_nil (pairs : List CommitPair) :
    CalculateStats [] pairs = some (CalculateStats.init [] pairs) := rfl

theorem CalculateStats.afterCommits_fields (commits : List Commit)
    (pairs : List CommitPair) :
    (CalculateStats.afterCommits commits pairs).TotalCommits = (commits.length : Int) ∧
    (CalculateStats.afterCommits commits pairs).TotalCommitPairs = (pairs.length : Int) ∧
    (CalculateStats.afterCommits commits pairs).UniqueAuthors
      = (distinctEmails commits : Int) ∧
    (CalculateStats.afterCommits commits pairs).FirstCommit
      = commits.foldl (fun f c => firstAfter f c.Timestamp) 0 ∧
    (CalculateStats.afterCommits commits pairs).LastCommit
      = commits.foldl (fun l c => lastAfter l c.Timestamp) 0 ∧
    (CalculateStats.afterCommits commits pairs).TimeSpan
      = Time.Sub (commits.foldl (fun l c => lastAfter l c.Timestamp) 0)
          (commits.foldl (fun f c => firstAfter f c.Timestamp) 0) ∧
    (CalculateStats.afterCommits commits pairs).TotalLOCAdded = 0 ∧
    (CalculateStats.afterCommits commits pairs).TotalLOCDeleted = 0 ∧
    (CalculateStats.afterCommits commits pairs).UnfilteredLOCAdded = 0 ∧
    (CalculateStats.afterCommits commits pairs).UnfilteredLOCDeleted = 0 := by
  unfold CalculateStats.afterCommits
  simp only [CalculateStats.visitCommit_foldl, CalculateStats.init, authorSet_length,
    and_self]

theorem CalculateStats_eq (commits : List Commit) (pairs : List CommitPair)
    (h : commits ≠ []) :
    CalculateStats commits pairs
      = match CalculateStats.summarize
          (pairs.foldl CalculateStats.visitPair
            (CalculateStats.afterCommits commits pairs, [])).1
          (pairs.foldl CalculateStats.visitPair
            (CalculateStats.afterCommits commits pairs, [])).2 with
        | none => none
        | some stats =>
          some { stats with
            Authors := stats.Authors.map (CalculateStats.authorAverage pairs) } := by
  have hlen : ¬ commits.length = 0 := fun hc => h (List.length_eq_zero.mp hc)
  unfold CalculateStats
  rw [if_neg hlen]
  rfl

theorem CalculateStats_of_nonempty (commits : List Commit) (pairs : List CommitPair)
    (h : commits ≠ []) :
    ∃ s, CalculateStats commits pairs = some s ∧
      s.TotalCommits = (commits.length : Int) ∧
      s.TotalCommitPairs = (pairs.length : Int) ∧
      s.UniqueAuthors = (distinctEmails commits : Int) ∧
      s.FirstCommit = commits.foldl (fun f c => firstAfter f c.Timestamp) 0 ∧
      s.LastCommit = commits.foldl (fun l c => lastAfter l c.Timestamp) 0 ∧
      s.TimeSpan = Time.Sub s.LastCommit s.FirstCommit ∧
      s.TotalLOCAdded = (pairs.map (fun p => p.Stats.Additions)).sum ∧
      s.TotalLOCDeleted = (pairs.map (fun p => p.Stats.Deletions)).sum ∧
      s.UnfilteredLOCAdded = (pairs.map (fun p => p.Stats.TotalAdditions)).sum ∧
      s.UnfilteredLOCDeleted = (pairs.map (fun p => p.Stats.TotalDeletions)).sum := by
  obtain ⟨c1, c2, c3, c4, c5, c6, c7, c8, c9, c10⟩ :=
    CalculateStats.afterCommits_fields commits pairs
  obtain ⟨h1, h2, h3, h4, h5, h6, h7, h8, h9, h10⟩ :=
    CalculateStats.visitPair_foldl_fields pairs (CalculateStats.afterCommits commits pairs) []
  obtain ⟨a, m, pc, hs⟩ := CalculateStats.summarize_some
    (pairs.foldl CalculateStats.visitPair (CalculateStats.afterCommits commits pairs, [])).1
    (pairs.foldl CalculateStats.visitPair (CalculateStats.afterCommits commits pairs, [])).2
  rw [CalculateStats_eq commits pairs h, hs]
  refine ⟨_, rfl, h1.trans c1, h2.trans c2, h3.trans c3, h5.trans c4, h6.trans c5, ?_,
    ?_, ?_, ?_, ?_⟩
  · exact (h4.trans c6).trans (by rw [← h6.trans c5, ← h5.trans c4])
  · exact h7.trans (by rw [c7, zero_add])
  · exact h8.trans (by rw [c8, zero_add])
  · exact h9.trans (by rw [c9, zero_add])
  · exact h10.trans (by rw [c10, zero_add])

/-! ## Statistics: the claims -/

/-- Counterexample to C17: with zero commits and one pair the field
`TotalCommitPairs` is 1, not 0. -/
theorem CalculateStats_zero_commits_counterexample :
    (CalculateStats [] [samplePair 200 50 Minute]).map (fun s => s.TotalCommitPairs)
      = some 1 := by
  rw [CalculateStats_nil]
  rfl

/-- C17, amended. For every pair list, `CalculateStats` called with zero commits
(nil or empty) returns a stats object whose `TotalCommitPairs` is the number
of pairs and in which every other count, every LOC total, the time span, the
first and last instants and every velocity figure are 0, the author map is
empty and no percentiles are set. -/
theorem CalculateStats_zero_commits (pairs : List CommitPair) :
    CalculateStats [] pairs
      = some { TotalCommits := 0
               TotalCommitPairs := (pairs.length : Int)
               UniqueAuthors := 0
               Authors := []
               TimeSpan := 0
               FirstCommit := 0
               LastCommit := 0
               TotalLOCAdded := 0
               TotalLOCDeleted := 0
               UnfilteredLOCAdded := 0
               UnfilteredLOCDeleted := 0
               AverageVelocity := 0
               MedianVelocity := 0
               VelocityPercentile := none } := by
  rw [CalculateStats_nil]
  rfl

/-- C18. For every commit list and pair list `CalculateStats` returns a stats
object with `TotalCommits` the number of commits, `TotalCommitPairs` the
number of pairs and `UniqueAuthors` the number of distinct author emails among
the commits; one commit and no pairs give 1 total commit, 0 pairs, 1 author. -/
theorem CalculateStats_counts :
    (∀ (commits : List Commit) (pairs : List CommitPair),
      ∃ s, CalculateStats commits pairs = some s ∧
        s.TotalCommits = (commits.length : Int) ∧
        s.TotalCommitPairs = (pairs.length : Int) ∧
        s.UniqueAuthors = (distinctEmails commits : Int)) ∧
    (∀ c : Commit,
      ∃ s, CalculateStats [c] [] = some s ∧
        s.TotalCommits = 1 ∧ s.TotalCommitPairs = 0 ∧ s.UniqueAuthors = 1) := by
  have gen : ∀ (commits : List Commit) (pairs : List CommitPair),
      ∃ s, CalculateStats commits pairs = some s ∧
        s.TotalCommits = (commits.length : Int) ∧
        s.TotalCommitPairs = (pairs.length : Int) ∧
        s.UniqueAuthors = (distinctEmails commits : Int) := by
    intro commits pairs
    by_cases h : commits = []
    · subst h
      exact ⟨_, CalculateStats_nil pairs, rfl, rfl, rfl⟩
    · obtain ⟨s, hs, h1, h2, h3, _⟩ := CalculateStats_of_nonempty commits pairs h
      exact ⟨s, hs, h1, h2, h3⟩
  refine ⟨gen, ?_⟩
  intro c
  obtain ⟨s, hs, h1, h2, h3⟩ := gen [c] []
  refine ⟨s, hs, h1, h2, ?_⟩
  rw [h3]
  simp [distinctEmails]

/-- Counterexample to C19. First, for a commit at the zero time value followed
by a commit 5 nanoseconds later, `FirstCommit` is 5, not the minimum
timestamp 0. Second, for a commit of 1 January 2024 and a commit of 1 January
1700, none at the zero time value, `TimeSpan` is 9223372036854775807, the
greatest `Duration`, while `LastCommit - FirstCommit` is
10224403200000000000. -/
theorem CalculateStats_first_last_counterexample :
    ((CalculateStats [sampleCommitAt "abc123" 0 [], sampleCommitAt "def456" 5 []] []).map
      (fun s => s.FirstCommit) = some 5 ∧
     (sampleCommitAt "abc123" 0 []).Timestamp < 5) ∧
    (CalculateStats [sampleCommitAt "def456" 63839664000000000000 ["abc123"],
        sampleCommitAt "abc123" 53615260800000000000 []] []).map
      (fun s => (s.TimeSpan, s.LastCommit - s.FirstCommit))
      = some (9223372036854775807, 10224403200000000000) := by
  constructor
  · obtain ⟨s, hs, _, _, _, h4, _⟩ := CalculateStats_of_nonempty
      [sampleCommitAt "abc123" 0 [], sampleCommitAt "def456" 5 []] [] (by simp)
    refine ⟨?_, by decide⟩
    rw [hs, Option.map_some', h4]
    decide
  · obtain ⟨s, hs, _, _, _, h4, h5, h6, _⟩ := CalculateStats_of_nonempty
      [sampleCommitAt "def456" 63839664000000000000 ["abc123"],
       sampleCommitAt "abc123" 53615260800000000000 []] [] (by simp)
    have hf : s.FirstCommit = 53615260800000000000 := by rw [h4]; decide
    have hl : s.LastCommit = 63839664000000000000 := by rw [h5]; decide
    rw [hs, Option.map_some', h6, hf, hl]
    decide

/-- C19, amended. For every non-empty commit list, in any order, in which no
commit has the zero time value as its timestamp, `CalculateStats` sets
`FirstCommit` to the minimum commit timestamp (a timestamp of the list that is
at most every timestamp of the list), `LastCommit` to the maximum commit
timestamp, over all commits whether or not they occur in a pair, and
`TimeSpan` to `LastCommit - FirstCommit` brought into the range of a
`Duration`: it is `LastCommit - FirstCommit` itself whenever that difference
is at most the greatest `Duration`. -/
theorem CalculateStats_first_last (commits : List Commit) (pairs : List CommitPair)
    (h : commits ≠ []) (hz : ∀ c ∈ commits, c.Timestamp ≠ 0) :
    ∃ s, CalculateStats commits pairs = some s ∧
      (∃ c ∈ commits, s.FirstCommit = c.Timestamp) ∧
      (∀ c ∈ commits, s.FirstCommit ≤ c.Timestamp) ∧
      (∃ c ∈ commits, s.LastCommit = c.Timestamp) ∧
      (∀ c ∈ commits, c.Timestamp ≤ s.LastCommit) ∧
      s.TimeSpan = saturate (s.LastCommit - s.FirstCommit) ∧
      (s.LastCommit - s.FirstCommit ≤ maxDuration →
        s.TimeSpan = s.LastCommit - s.FirstCommit) := by
  obtain ⟨s, hs, _, _, _, h4, h5, h6, _⟩ := CalculateStats_of_nonempty commits pairs h
  have four : (∃ c ∈ commits, s.FirstCommit = c.Timestamp) ∧
      (∀ c ∈ commits, s.FirstCommit ≤ c.Timestamp) ∧
      (∃ c ∈ commits, s.LastCommit = c.Timestamp) ∧
      (∀ c ∈ commits, c.Timestamp ≤ s.LastCommit) := by
    refine ⟨?_, ?_, ?_, ?_⟩
    all_goals
      cases commits with
      | nil => exact absurd rfl h
      | cons c rest =>
        have hc : c.Timestamp ≠ 0 := hz c (List.mem_cons_self c rest)
        have hrest : ∀ x ∈ rest, x.Timestamp ≠ 0 :=
          fun x hx => hz x (List.mem_cons_of_mem c hx)
        have hf0 : firstAfter 0 c.Timestamp = c.Timestamp := by simp [firstAfter, Time.IsZero]
        have hl0 : lastAfter 0 c.Timestamp = c.Timestamp := by simp [lastAfter, Time.IsZero]
        rw [List.foldl_cons, hf0] at h4
        rw [List.foldl_cons, hl0] at h5
        obtain ⟨_, f2, f3, f4⟩ := firstAfter_foldl rest c.Timestamp hc hrest
        obtain ⟨_, l2, l3, l4⟩ := lastAfter_foldl rest c.Timestamp hc hrest
        rw [← h4] at f2 f3 f4
        rw [← h5] at l2 l3 l4
        first
          | (rcases f4 with e | ⟨x, hx, e⟩
             · exact ⟨c, List.mem_cons_self c rest, e⟩
             · exact ⟨x, List.mem_cons_of_mem c hx, e⟩)
          | (intro x hx
             rcases List.mem_cons.mp hx with rfl | hx
             · exact f2
             · exact f3 x hx)
          | (rcases l4 with e | ⟨x, hx, e⟩
             · exact ⟨c, List.mem_cons_self c rest, e⟩
             · exact ⟨x, List.mem_cons_of_mem c hx, e⟩)
          | (intro x hx
             rcases List.mem_cons.mp hx with rfl | hx
             · exact l2
             · exact l3 x hx)
  obtain ⟨f1, f2, l1, l2⟩ := four
  have hsat : s.TimeSpan = saturate (s.LastCommit - s.FirstCommit) := by
    rw [h6, Time.Sub_eq_saturate]
  refine ⟨s, hs, f1, f2, l1, l2, hsat, ?_⟩
  intro hle
  obtain ⟨c, hc, _⟩ := f1
  have hfl : s.FirstCommit ≤ s.LastCommit := le_trans (f2 c hc) (l2 c hc)
  rw [hsat]
  exact saturate_of_range _ (le_trans (by decide) (sub_nonneg.mpr hfl)) hle

/-- Witness for C19, amended: for the three commits of the test (none at the
zero time value) the first commit is 20 minutes before `now`, the last is
`now` and the time span is 20 minutes. -/
theorem CalculateStats_first_last_witness :
    statsCommits ≠ [] ∧ (∀ c ∈ statsCommits, c.Timestamp ≠ 0) ∧
    ∃ s, CalculateStats statsCommits statsPairs = some s ∧
      s.FirstCommit = sampleNow - 20 * Minute ∧ s.LastCommit = sampleNow ∧
      s.TimeSpan = 20 * Minute := by
  have hne : statsCommits ≠ [] := by simp [statsCommits]
  have hz : ∀ c ∈ statsCommits, c.Timestamp ≠ 0 := by
    intro c hc
    simp only [statsCommits, List.mem_cons, List.mem_singleton, List.not_mem_nil,
      or_false] at hc
    rcases hc with rfl | rfl | rfl <;> decide
  obtain ⟨s, hs, ⟨c, hc, e⟩, hmin, ⟨c', hc', e'⟩, hmax, hspan, _⟩ :=
    CalculateStats_first_last statsCommits statsPairs hne hz
  have h1 : s.FirstCommit ≤ sampleNow - 20 * Minute :=
    hmin (authorCommit "abc123" "John Doe" "john@example.com" (sampleNow - 20 * Minute))
      (by simp [statsCommits])
  have h2 : sampleNow ≤ s.LastCommit :=
    hmax (authorCommit "ghi789" "John Doe" "john@example.com" sampleNow)
      (by simp [statsCommits])
  simp only [statsCommits, List.mem_cons, List.mem_singleton, List.not_mem_nil,
    or_false] at hc hc'
  have hfirst : s.FirstCommit = sampleNow - 20 * Minute := by
    refine le_antisymm h1 ?_
    rw [e]
    rcases hc with rfl | rfl | rfl <;> decide
  have hlast : s.LastCommit = sampleNow := by
    refine le_antisymm ?_ h2
    rw [e']
    rcases hc' with rfl | rfl | rfl <;> decide
  refine ⟨hne, hz, s, hs, hfirst, hlast, ?_⟩
  rw [hspan, hfirst, hlast]
  decide

/-! ## Median and percentiles -/

theorem index_eq_elementAt (xs : List ℚ) (i : Int) (h0 : 0 ≤ i)
    (h1 : i < (xs.length : Int)) : index xs i = some (elementAt xs i) := by
  have hlt : i.toNat < xs.length := by omega
  rw [index, if_pos h0, elementAt, List.getElem?_eq_getElem hlt, List.getD_eq_getElem xs 0 hlt]

theorem percentile_rank_cast (sorted : List ℚ) (p : ℚ) :
    (p / 100) * (((sorted.length : Int) - 1 : Int) : ℚ) = percentileRank sorted.length p := by
  unfold percentileRank
  push_cast
  ring

theorem percentile_eq_interpolated (sorted : List ℚ) (p : ℚ) (hn : sorted ≠ [])
    (h0 : 0 ≤ p) (h1 : p ≤ 100) :
    percentile sorted p = some (interpolated sorted p) := by
  have hlen : sorted.length ≠ 0 := fun h => hn (List.length_eq_zero.mp h)
  obtain ⟨hf0, hf1, hc0, hc1⟩ := percentile_rank_bounds sorted p hlen h0 h1
  rw [percentile_rank_cast] at hf0 hf1 hc0 hc1
  unfold percentile interpolated
  rw [if_neg hlen]
  simp only [percentile_rank_cast]
  by_cases hfr : Int.fract (percentileRank sorted.length p) = 0
  · have heq : Int.floor (percentileRank sorted.length p)
        = Int.ceil (percentileRank sorted.length p) := by
      have h2 : ((Int.floor (percentileRank sorted.length p) : Int) : ℚ)
          = percentileRank sorted.length p := by
        have := Int.floor_add_fract (percentileRank sorted.length p)
        rw [hfr, add_zero] at this
        exact this
      rw [← h2, Int.ceil_intCast, Int.floor_intCast]
    rw [if_pos heq, if_pos hfr]
    exact index_eq_elementAt sorted _ hf0 hf1
  · have hne : Int.floor (percentileRank sorted.length p)
        ≠ Int.ceil (percentileRank sorted.length p) := by
      intro heq
      apply hfr
      have hle := Int.le_ceil (percentileRank sorted.length p)
      have hfl := Int.floor_le (percentileRank sorted.length p)
      rw [← heq] at hle
      have : ((Int.floor (percentileRank sorted.length p) : Int) : ℚ)
          = percentileRank sorted.length p := le_antisymm hfl hle
      rw [Int.fract, this, sub_self]
    rw [if_neg hne, if_neg hfr, index_eq_elementAt sorted _ hf0 hf1,
      index_eq_elementAt sorted _ hc0 hc1]
    rfl

theorem sortFloat64s_ne_nil (values : List ℚ) (h : values ≠ []) :
    sortFloat64s values ≠ [] := by
  intro hs
  have := sortFloat64s_length values
  rw [hs, List.length_nil] at this
  exact h (List.length_eq_zero.mp this.symm)

theorem calculatePercentiles_eq (values : List ℚ) (h : values ≠ []) :
    calculatePercentiles values
      = some { P50 := interpolated (sortFloat64s values) 50
               P75 := interpolated (sortFloat64s values) 75
               P90 := interpolated (sortFloat64s values) 90
               P95 := interpolated (sortFloat64s values) 95
               P99 := interpolated (sortFloat64s values) 99 } := by
  have hlen : ¬ values.length = 0 := fun hc => h (List.length_eq_zero.mp hc)
  have hs := sortFloat64s_ne_nil values h
  unfold calculatePercentiles
  rw [if_neg hlen]
  simp only [percentile_eq_interpolated (sortFloat64s values) 50 hs (by norm_num) (by norm_num),
    percentile_eq_interpolated (sortFloat64s values) 75 hs (by norm_num) (by norm_num),
    percentile_eq_interpolated (sortFloat64s values) 90 hs (by norm_num) (by norm_num),
    percentile_eq_interpolated (sortFloat64s values) 95 hs (by norm_num) (by norm_num),
    percentile_eq_interpolated (sortFloat64s values) 99 hs (by norm_num) (by norm_num)]

theorem calculateMedian_eq (values : List ℚ) :
    calculateMedian values = some (medianOf values) := by
  unfold calculateMedian medianOf
  by_cases h : values.length = 0
  · rw [if_pos h, if_pos h]
  · rw [if_neg h, if_neg h]
    have hlen := sortFloat64s_length values
    have hpos : 0 < values.length := Nat.pos_of_ne_zero h
    simp only [hlen]
    by_cases he : (values.length : Int) % 2 = 0
    · have hodd : ¬ values.length % 2 = 1 := by omega
      rw [if_pos he, if_neg hodd,
        index_eq_elementAt (sortFloat64s values) ((values.length : Int) / 2 - 1)
          (by omega) (by omega),
        index_eq_elementAt (sortFloat64s values) ((values.length : Int) / 2)
          (by omega) (by omega)]
      simp only [Nat.cast_ofNat, Int.natCast_div]
    · have hodd : values.length % 2 = 1 := by omega
      rw [if_neg he, if_pos hodd,
        index_eq_elementAt (sortFloat64s values) ((values.length : Int) / 2)
          (by omega) (by omega)]
      simp only [Nat.cast_ofNat, Int.natCast_div]

theorem sortFloat64s_perm (xs ys : List ℚ) (h : xs.Perm ys) :
    sortFloat64s xs = sortFloat64s ys := by
  unfold sortFloat64s
  apply List.eq_of_perm_of_sorted (r := fun a b : ℚ => a ≤ b)
  · exact ((List.perm_insertionSort _ xs).trans h).trans (List.perm_insertionSort _ ys).symm
  · exact List.sorted_insertionSort _ xs
  · exact List.sorted_insertionSort _ ys

theorem calculateMedian_perm (xs ys : List ℚ) (h : xs.Perm ys) :
    calculateMedian xs = calculateMedian ys := by
  unfold calculateMedian
  rw [sortFloat64s_perm xs ys h, h.length_eq]

theorem calculatePercentiles_perm (xs ys : List ℚ) (h : xs.Perm ys) :
    calculatePercentiles xs = calculatePercentiles ys := by
  unfold calculatePercentiles
  rw [sortFloat64s_perm xs ys h, h.length_eq]

theorem interpolated_between (sorted : List ℚ) (p : ℚ) (z : Int)
    (h1 : (z : ℚ) < percentileRank sorted.length p)
    (h2 : percentileRank sorted.length p < (z : ℚ) + 1) :
    interpolated sorted p
      = elementAt sorted z * (1 - (percentileRank sorted.length p - (z : ℚ)))
        + elementAt sorted (z + 1) * (percentileRank sorted.length p - (z : ℚ)) := by
  have hf : Int.floor (percentileRank sorted.length p) = z :=
    Int.floor_eq_iff.mpr ⟨le_of_lt h1, h2⟩
  have hc : Int.ceil (percentileRank sorted.length p) = z + 1 := by
    rw [Int.ceil_eq_iff]
    push_cast
    exact ⟨by linarith, le_of_lt h2⟩
  have hfr : Int.fract (percentileRank sorted.length p)
      = percentileRank sorted.length p - (z : ℚ) := by
    rw [Int.fract, hf]
  have hne : ¬ Int.fract (percentileRank sorted.length p) = 0 := by
    rw [hfr]
    intro h0
    linarith
  unfold interpolated
  rw [if_neg hne, hf, hc, hfr]

theorem sortFloat64s_sampleOneToTen : sortFloat64s sampleOneToTen = sampleOneToTen := by
  decide

/-- C24. `calculateMedian` and `calculatePercentiles` are invariant under
permutation of their input: a list and any permutation of it give the same
results. -/
theorem median_percentiles_perm_invariant (xs ys : List ℚ) (h : xs.Perm ys) :
    calculateMedian xs = calculateMedian ys ∧
    calculatePercentiles xs = calculatePercentiles ys :=
  ⟨calculateMedian_perm xs ys h, calculatePercentiles_perm xs ys h⟩

/-- Witness for C24: the lists 4, 1, 3, 2 and 1, 2, 3, 4. -/
theorem median_percentiles_perm_invariant_witness :
    calculateMedian [4, 1, 3, 2] = calculateMedian [1, 2, 3, 4] ∧
    calculatePercentiles [4, 1, 3, 2] = calculatePercentiles [1, 2, 3, 4] :=
  median_percentiles_perm_invariant [4, 1, 3, 2] [1, 2, 3, 4] (by decide)

/-! ## Diff statistics -/

theorem foldl_preserves {σ α : Type} (P : σ → Prop) (f : σ → α → σ)
    (h : ∀ s x, P s → P (f s x)) (l : List α) (init : σ) (h0 : P init) :
    P (l.foldl f init) := by
  induction l generalizing init with
  | nil => exact h0
  | cons x rest ih => exact ih (f init x) (h init x h0)

theorem getDiffStats.visitLine_ordered (equal : Prop) (isExcluded : Bool)
    (hex : equal → isExcluded = false) (type : Operation) (stats : DiffStats)
    (line : String) (h : DiffStats.Ordered equal stats) :
    DiffStats.Ordered equal (getDiffStats.visitLine isExcluded type stats line) := by
  obtain ⟨h1, h2, h3, h4, h5⟩ := h
  unfold getDiffStats.visitLine
  by_cases hl : line = ""
  · rw [if_pos hl]
    exact ⟨h1, h2, h3, h4, h5⟩
  · rw [if_neg hl]
    cases type with
    | Equal => exact ⟨h1, h2, h3, h4, h5⟩
    | Add =>
      cases isExcluded with
      | true =>
        refine ⟨h1, ?_, h3, h4, ?_⟩
        · show stats.Additions ≤ stats.TotalAdditions + 1
          omega
        · intro he
          exact absurd (hex he) (by simp)
      | false =>
        refine ⟨?_, ?_, h3, h4, ?_⟩
        · show 0 ≤ stats.Additions + 1
          omega
        · show stats.Additions + 1 ≤ stats.TotalAdditions + 1
          omega
        · intro he
          obtain ⟨e1, e2⟩ := h5 he
          refine ⟨?_, e2⟩
          show stats.Additions + 1 = stats.TotalAdditions + 1
          omega
    | Delete =>
      cases isExcluded with
      | true =>
        refine ⟨h1, h2, h3, ?_, ?_⟩
        · show stats.Deletions ≤ stats.TotalDeletions + 1
          omega
        · intro he
          exact absurd (hex he) (by simp)
      | false =>
        refine ⟨h1, h2, ?_, ?_, ?_⟩
        · show 0 ≤ stats.Deletions + 1
          omega
        · show stats.Deletions + 1 ≤ stats.TotalDeletions + 1
          omega
        · intro he
          obtain ⟨e1, e2⟩ := h5 he
          refine ⟨e1, ?_⟩
          show stats.Deletions + 1 = stats.TotalDeletions + 1
          omega

theorem getDiffStats.visitChunk_ordered (equal : Prop) (isExcluded : Bool)
    (hex : equal → isExcluded = false) (stats : DiffStats) (chunk : Chunk)
    (h : DiffStats.Ordered equal stats) :
    DiffStats.Ordered equal (getDiffStats.visitChunk isExcluded stats chunk) := by
  unfold getDiffStats.visitChunk
  exact foldl_preserves (DiffStats.Ordered equal) _
    (fun s x hs => getDiffStats.visitLine_ordered equal isExcluded hex chunk.ChunkType s x hs)
    _ stats h

theorem setTrue_spec (m : List String) (key : String) (h : m.Nodup) :
    (setTrue m key).Nodup ∧ ∀ a, a ∈ setTrue m key ↔ a = key ∨ a ∈ m := by
  obtain ⟨h1, h2⟩ := authorSetAdd_spec m key h
  refine ⟨h1, ?_⟩
  intro a
  have := congrArg (fun f => a ∈ f) h2
  simp only [List.mem_toFinset, Finset.mem_insert, eq_iff_iff] at this
  exact this

theorem setTrue_pair (fc fct : List String) (key : String) (equal : Prop)
    (h1 : fc.Nodup) (h2 : fct.Nodup) (h3 : fc ⊆ fct) (h4 : equal → fc = fct) :
    (setTrue fc key).Nodup ∧ (setTrue fct key).Nodup ∧ setTrue fc key ⊆ setTrue fct key ∧
    fc ⊆ setTrue fct key ∧ (equal → setTrue fc key = setTrue fct key) := by
  obtain ⟨a1, a2⟩ := setTrue_spec fc key h1
  obtain ⟨b1, b2⟩ := setTrue_spec fct key h2
  refine ⟨a1, b1, ?_, ?_, ?_⟩
  · intro a ha
    rcases (a2 a).mp ha with e | hm
    · exact (b2 a).mpr (Or.inl e)
    · exact (b2 a).mpr (Or.inr (h3 hm))
  · intro a ha
    exact (b2 a).mpr (Or.inr (h3 ha))
  · intro he
    rw [h4 he]

theorem shouldExcludeFile_no_patterns (fp : Filepath) (r : gitRepository)
    (filePath : String) (h : r.excludeFiles = []) :
    r.shouldExcludeFile fp filePath = false := by
  unfold gitRepository.shouldExcludeFile
  rw [h]
  rfl

theorem getDiffStats.visitFilePatch_ordered (fp : Filepath) (r : gitRepository)
    (state : DiffState) (filePatch : FilePatch)
    (h : DiffState.Ordered (r.excludeFiles = []) state) :
    DiffState.Ordered (r.excludeFiles = [])
      (getDiffStats.visitFilePatch fp r state filePatch) := by
  obtain ⟨hs, h1, h2, h3, h4⟩ := h
  have hex : ∀ filePath, r.excludeFiles = [] → r.shouldExcludeFile fp filePath = false :=
    fun filePath he => shouldExcludeFile_no_patterns fp r filePath he
  unfold getDiffStats.visitFilePatch
  simp only
  refine ⟨?_, ?_⟩
  · exact foldl_preserves (DiffStats.Ordered (r.excludeFiles = [])) _
      (fun s x hs' => getDiffStats.visitChunk_ordered _ _ (hex _) s x hs') _ _ hs
  · cases hfrom : filePatch.From with
    | none =>
      cases hto : filePatch.To with
      | none =>
        simp only
        cases hx : r.shouldExcludeFile fp "" with
        | true =>
          refine ⟨h1, h2, h3, h4⟩
        | false =>
          refine ⟨h1, h2, h3, h4⟩
      | some t =>
        simp only
        obtain ⟨a1, b1, c1, d1, e1⟩ := setTrue_pair _ _ t.Path _ h1 h2 h3 h4
        cases hx : r.shouldExcludeFile fp t.Path with
        | true =>
          refine ⟨h1, b1, d1, ?_⟩
          intro he
          exact absurd (hex t.Path he) (by rw [hx]; simp)
        | false =>
          refine ⟨a1, b1, c1, e1⟩
    | some f =>
      obtain ⟨a1, b1, c1, d1, e1⟩ := setTrue_pair _ _ f.Path _ h1 h2 h3 h4
      cases hto : filePatch.To with
      | none =>
        simp only
        cases hx : r.shouldExcludeFile fp f.Path with
        | true =>
          refine ⟨h1, b1, d1, ?_⟩
          intro he
          exact absurd (hex f.Path he) (by rw [hx]; simp)
        | false =>
          refine ⟨a1, b1, c1, e1⟩
      | some t =>
        simp only
        obtain ⟨a2, b2, c2, d2, e2⟩ := setTrue_pair _ _ t.Path _ a1 b1 c1 e1
        obtain ⟨_, _, _, d3, _⟩ := setTrue_pair state.filesChanged
          (setTrue state.filesChangedTotal f.Path) t.Path False h1 b1 d1 (fun hf => hf.elim)
        cases hx : r.shouldExcludeFile fp t.Path with
        | true =>
          refine ⟨h1, b2, d3, ?_⟩
          intro he
          exact absurd (hex t.Path he) (by rw [hx]; simp)
        | false =>
          refine ⟨a2, b2, c2, e2⟩

theorem getDiffStats.visitChange_ordered (fp : Filepath) (r : gitRepository)
    (state : DiffState) (change : Change)
    (h : DiffState.Ordered (r.excludeFiles = []) state) :
    DiffState.Ordered (r.excludeFiles = []) (getDiffStats.visitChange fp r state change) := by
  unfold getDiffStats.visitChange
  cases change.Patch with
  | error e => exact h
  | ok filePatches =>
    exact foldl_preserves (DiffState.Ordered (r.excludeFiles = [])) _
      (fun s x hs => getDiffStats.visitFilePatch_ordered fp r s x hs) _ _ h

theorem getDiffStats.ofChanges_ordered (fp : Filepath) (r : gitRepository)
    (changes : List Change) :
    (0 ≤ (getDiffStats.ofChanges fp r changes).Additions ∧
      0 ≤ (getDiffStats.ofChanges fp r changes).Deletions ∧
      0 ≤ (getDiffStats.ofChanges fp r changes).TotalAdditions ∧
      0 ≤ (getDiffStats.ofChanges fp r changes).TotalDeletions ∧
      0 ≤ (getDiffStats.ofChanges fp r changes).FilesChanged ∧
      0 ≤ (getDiffStats.ofChanges fp r changes).FilesChangedTotal) ∧
    (getDiffStats.ofChanges fp r changes).Additions
      ≤ (getDiffStats.ofChanges fp r changes).TotalAdditions ∧
    (getDiffStats.ofChanges fp r changes).Deletions
      ≤ (getDiffStats.ofChanges fp r changes).TotalDeletions ∧
    (getDiffStats.ofChanges fp r changes).FilesChanged
      ≤ (getDiffStats.ofChanges fp r changes).FilesChangedTotal ∧
    (r.excludeFiles = [] →
      (getDiffStats.ofChanges fp r changes).Additions
        = (getDiffStats.ofChanges fp r changes).TotalAdditions ∧
      (getDiffStats.ofChanges fp r changes).Deletions
        = (getDiffStats.ofChanges fp r changes).TotalDeletions ∧
      (getDiffStats.ofChanges fp r changes).FilesChanged
        = (getDiffStats.ofChanges fp r changes).FilesChangedTotal) := by
  have hinit : DiffState.Ordered (r.excludeFiles = [])
      { stats := { FilesChanged := 0, Additions := 0, Deletions := 0, TotalAdditions := 0,
                   TotalDeletions := 0, FilesChangedTotal := 0 }
        filesChanged := [], filesChangedTotal := [] } := by
    refine ⟨⟨le_refl _, le_refl _, le_refl _, le_refl _, fun _ => ⟨rfl, rfl⟩⟩,
      List.nodup_nil, List.nodup_nil, fun _ h => h, fun _ => rfl⟩
  obtain ⟨⟨s1, s2, s3, s4, s5⟩, n1, _, sub, heq⟩ :=
    foldl_preserves (DiffState.Ordered (r.excludeFiles = [])) _
      (fun s x hs => getDiffStats.visitChange_ordered fp r s x hs) changes _ hinit
  have hlen := (List.Nodup.subperm n1 sub).length_le
  unfold getDiffStats.ofChanges
  simp only
  refine ⟨⟨s1, s3, le_trans s1 s2, le_trans s3 s4, ?_, ?_⟩, s2, s4, ?_, ?_⟩
  · exact Int.natCast_nonneg _
  · exact Int.natCast_nonneg _
  · exact Int.ofNat_le.mpr hlen
  · intro he
    refine ⟨(s5 he).1, (s5 he).2, ?_⟩
    rw [heq he]

theorem getDiffStats_ok (fp : Filepath) (r : gitRepository) (fromHash toHash : String)
    (stats : DiffStats) (h : r.getDiffStats fp fromHash toHash = Except.ok stats) :
    ∃ changes, stats = getDiffStats.ofChanges fp r changes := by
  unfold gitRepository.getDiffStats at h
  cases h1 : r.repo.CommitObject fromHash with
  | error e => simp [h1] at h
  | ok fromCommit =>
    cases h2 : r.repo.CommitObject toHash with
    | error e => simp [h1, h2] at h
    | ok toCommit =>
      cases h3 : r.repo.Tree fromCommit with
      | error e => simp [h1, h2, h3] at h
      | ok fromTree =>
        cases h4 : r.repo.Tree toCommit with
        | error e => simp [h1, h2, h3, h4] at h
        | ok toTree =>
          cases h5 : r.repo.Diff fromTree toTree with
          | error e => simp [h1, h2, h3, h4, h5] at h
          | ok changes =>
            simp only [h1, h2, h3, h4, h5, Except.ok.injEq] at h
            exact ⟨changes, h.symm⟩

/-- C30. For every diff and every exclusion pattern list, the statistics that
`getDiffStats` returns have non-negative counts, with `Additions` at most
`TotalAdditions`, `Deletions` at most `TotalDeletions` and `FilesChanged` at
most `FilesChangedTotal`; the filtered and unfiltered counts are equal when
no exclusion pattern is configured. -/
theorem getDiffStats_counts_ordered (fp : Filepath) (r : gitRepository)
    (fromHash toHash : String) (stats : DiffStats)
    (h : r.getDiffStats fp fromHash toHash = Except.ok stats) :
    (0 ≤ stats.Additions ∧ 0 ≤ stats.Deletions ∧ 0 ≤ stats.TotalAdditions ∧
      0 ≤ stats.TotalDeletions ∧ 0 ≤ stats.FilesChanged ∧ 0 ≤ stats.FilesChangedTotal) ∧
    stats.Additions ≤ stats.TotalAdditions ∧
    stats.Deletions ≤ stats.TotalDeletions ∧
    stats.FilesChanged ≤ stats.FilesChangedTotal ∧
    (r.excludeFiles = [] →
      stats.Additions = stats.TotalAdditions ∧ stats.Deletions = stats.TotalDeletions ∧
      stats.FilesChanged = stats.FilesChangedTotal) := by
  obtain ⟨changes, hs⟩ := getDiffStats_ok fp r fromHash toHash stats h
  rw [hs]
  exact getDiffStats.ofChanges_ordered fp r changes

/-- Witness for C30: a diff adding `code.go` and `debug.log`, with the pattern
`*.log` configured: 1 file counted out of 2, and the filtered additions are at
most the unfiltered ones. -/
theorem getDiffStats_counts_ordered_witness :
    (sampleRepository sampleChanges ["*.log"]).getDiffStats sampleFilepath "abc123" "def456"
      = Except.ok (getDiffStats.ofChanges sampleFilepath
          (sampleRepository sampleChanges ["*.log"]) sampleChanges) ∧
    (getDiffStats.ofChanges sampleFilepath
        (sampleRepository sampleChanges ["*.log"]) sampleChanges).FilesChanged = 1 ∧
    (getDiffStats.ofChanges sampleFilepath
        (sampleRepository sampleChanges ["*.log"]) sampleChanges).FilesChangedTotal = 2 ∧
    (getDiffStats.ofChanges sampleFilepath
        (sampleRepository sampleChanges ["*.log"]) sampleChanges).Additions
      ≤ (getDiffStats.ofChanges sampleFilepath
        (sampleRepository sampleChanges ["*.log"]) sampleChanges).TotalAdditions := by
  refine ⟨rfl, ?_, ?_, ?_⟩
  · simp [getDiffStats.ofChanges, getDiffStats.visitChange, getDiffStats.visitFilePatch,
      sampleChanges, sampleRepository, sampleFilepath, gitRepository.shouldExcludeFile,
      shouldExcludeFile.loop, setTrue, authorSetAdd]
  · simp [getDiffStats.ofChanges, getDiffStats.visitChange, getDiffStats.visitFilePatch,
      sampleChanges, sampleRepository, sampleFilepath, gitRepository.shouldExcludeFile,
      shouldExcludeFile.loop, setTrue, authorSetAdd]
  · exact (getDiffStats_counts_ordered sampleFilepath
      (sampleRepository sampleChanges ["*.log"]) "abc123" "def456" _ rfl).2.1

/-! ## Statistics: the second loop, component by component -/

theorem CalculateStats.visitPair_velocities (stats : RepositoryStats) (velocities : List ℚ)
    (pair : CommitPair) :
    (CalculateStats.visitPair (stats, velocities) pair).2
      = velocities ++ (globalSample pair).toList := by
  unfold CalculateStats.visitPair globalSample velocitySample hasFilteredChanges
  simp only
  split_ifs <;> simp

theorem CalculateStats.visitPair_authors (stats : RepositoryStats) (velocities : List ℚ)
    (pair : CommitPair) :
    (CalculateStats.visitPair (stats, velocities) pair).1.Authors
      = stepAuthors stats.Authors pair ∧
    (CalculateStats.visitPair (stats, velocities) pair).1.AverageVelocity
      = stats.AverageVelocity ∧
    (CalculateStats.visitPair (stats, velocities) pair).1.MedianVelocity
      = stats.MedianVelocity ∧
    (CalculateStats.visitPair (stats, velocities) pair).1.VelocityPercentile
      = stats.VelocityPercentile := by
  unfold CalculateStats.visitPair stepAuthors updateAuthor entryOrNew hasFilteredChanges
  simp only
  split_ifs <;> exact ⟨rfl, rfl, rfl, rfl⟩

theorem CalculateStats.visitPair_foldl_velocities (pairs : List CommitPair)
    (stats : RepositoryStats) (velocities : List ℚ) :
    (pairs.foldl CalculateStats.visitPair (stats, velocities)).2
      = velocities ++ pairs.filterMap globalSample := by
  induction pairs generalizing stats velocities with
  | nil => simp
  | cons p rest ih =>
    have hp : CalculateStats.visitPair (stats, velocities) p
        = ((CalculateStats.visitPair (stats, velocities) p).1,
           velocities ++ (globalSample p).toList) :=
      Prod.ext rfl (CalculateStats.visitPair_velocities stats velocities p)
    rw [List.foldl_cons, hp, ih, List.filterMap_cons]
    cases globalSample p <;> simp

theorem CalculateStats.visitPair_foldl_authors (pairs : List CommitPair)
    (stats : RepositoryStats) (velocities : List ℚ) :
    (pairs.foldl CalculateStats.visitPair (stats, velocities)).1.Authors
      = pairs.foldl stepAuthors stats.Authors ∧
    (pairs.foldl CalculateStats.visitPair (stats, velocities)).1.AverageVelocity
      = stats.AverageVelocity ∧
    (pairs.foldl CalculateStats.visitPair (stats, velocities)).1.MedianVelocity
      = stats.MedianVelocity ∧
    (pairs.foldl CalculateStats.visitPair (stats, velocities)).1.VelocityPercentile
      = stats.VelocityPercentile := by
  induction pairs generalizing stats velocities with
  | nil => exact ⟨rfl, rfl, rfl, rfl⟩
  | cons p rest ih =>
    rw [List.foldl_cons]
    obtain ⟨h1, h2, h3, h4⟩ := CalculateStats.visitPair_authors stats velocities p
    obtain ⟨i1, i2, i3, i4⟩ := ih (CalculateStats.visitPair (stats, velocities) p).1
      (CalculateStats.visitPair (stats, velocities) p).2
    refine ⟨?_, i2.trans h2, i3.trans h3, i4.trans h4⟩
    exact i1.trans (by rw [h1]; rfl)

theorem CalculateStats.summarize_eq (stats : RepositoryStats) (velocities : List ℚ) :
    CalculateStats.summarize stats velocities
      = some (if velocities.length > 0 then
          { stats with
            AverageVelocity := sumFloat64s velocities / (velocities.length : ℚ)
            MedianVelocity := medianOf velocities
            VelocityPercentile := calculatePercentiles velocities }
        else stats) := by
  unfold CalculateStats.summarize
  by_cases h : velocities.length > 0
  · obtain ⟨pc, hpc⟩ := calculatePercentiles_some velocities
    rw [if_pos h, if_pos h]
    simp only [calculateMedian_eq, hpc]
  · rw [if_neg h, if_neg h]

theorem CalculateStats.afterCommits_velocity_fields (commits : List Commit)
    (pairs : List CommitPair) :
    (CalculateStats.afterCommits commits pairs).Authors = commits.foldl authorsAfter [] ∧
    (CalculateStats.afterCommits commits pairs).AverageVelocity = 0 ∧
    (CalculateStats.afterCommits commits pairs).MedianVelocity = 0 ∧
    (CalculateStats.afterCommits commits pairs).VelocityPercentile = none := by
  unfold CalculateStats.afterCommits
  simp only [CalculateStats.visitCommit_foldl, CalculateStats.init, and_self]

theorem medianOf_nil : medianOf [] = 0 := rfl

theorem CalculateStats_velocity_fields (commits : List Commit) (pairs : List CommitPair)
    (h : commits ≠ []) :
    ∃ s, CalculateStats commits pairs = some s ∧
      s.AverageVelocity = sumFloat64s (pairs.filterMap globalSample)
        / ((pairs.filterMap globalSample).length : ℚ) ∧
      s.MedianVelocity = medianOf (pairs.filterMap globalSample) ∧
      s.VelocityPercentile
        = (if (pairs.filterMap globalSample).length > 0 then
            calculatePercentiles (pairs.filterMap globalSample) else none) ∧
      s.Authors = (pairs.foldl stepAuthors (commits.foldl authorsAfter [])).map
        (CalculateStats.authorAverage pairs) := by
  obtain ⟨c1, c2, c3, c4⟩ := CalculateStats.afterCommits_velocity_fields commits pairs
  obtain ⟨a1, a2, a3, a4⟩ := CalculateStats.visitPair_foldl_authors pairs
    (CalculateStats.afterCommits commits pairs) []
  have hv := CalculateStats.visitPair_foldl_velocities pairs
    (CalculateStats.afterCommits commits pairs) []
  rw [List.nil_append] at hv
  rw [CalculateStats_eq commits pairs h, CalculateStats.summarize_eq, hv]
  by_cases hl : (pairs.filterMap globalSample).length > 0
  · simp only [if_pos hl]
    refine ⟨_, rfl, rfl, rfl, rfl, ?_⟩
    show List.map _ (pairs.foldl CalculateStats.visitPair
      (CalculateStats.afterCommits commits pairs, [])).1.Authors = _
    rw [a1, c1]
  · simp only [if_neg hl]
    have hnil : pairs.filterMap globalSample = [] := by
      apply List.length_eq_zero.mp
      omega
    refine ⟨_, rfl, ?_, ?_, ?_, ?_⟩
    · show (pairs.foldl CalculateStats.visitPair
        (CalculateStats.afterCommits commits pairs, [])).1.AverageVelocity = _
      rw [a2, c2, hnil]
      simp [sumFloat64s]
    · show (pairs.foldl CalculateStats.visitPair
        (CalculateStats.afterCommits commits pairs, [])).1.MedianVelocity = _
      rw [a3, c3, hnil, medianOf_nil]
    · show (pairs.foldl CalculateStats.visitPair
        (CalculateStats.afterCommits commits pairs, [])).1.VelocityPercentile = _
      rw [a4, c4]
    · show List.map _ (pairs.foldl CalculateStats.visitPair
        (CalculateStats.afterCommits commits pairs, [])).1.Authors = _
      rw [a1, c1]

theorem sumFloat64s_foldl (xs : List ℚ) (a : ℚ) :
    xs.foldl (fun sum v => sum + v) a = a + xs.sum := by
  induction xs generalizing a with
  | nil => simp
  | cons x rest ih => rw [List.foldl_cons, ih, List.sum_cons, add_assoc]

theorem sumFloat64s_eq_sum (xs : List ℚ) : sumFloat64s xs = xs.sum := by
  rw [sumFloat64s, sumFloat64s_foldl, zero_add]

theorem average_eq_mean (xs : List ℚ) : sumFloat64s xs / (xs.length : ℚ) = mean xs := by
  unfold mean
  by_cases h : xs = []
  · subst h
    simp [sumFloat64s]
  · rw [if_neg h, sumFloat64s_eq_sum]

theorem hasFilteredChanges_false (z : CommitPair) (ha : z.Stats.Additions = 0)
    (hd : z.Stats.Deletions = 0) : hasFilteredChanges z = false := by
  simp [hasFilteredChanges, ha, hd]

theorem globalSample_zero_change (z : CommitPair) (ha : z.Stats.Additions = 0)
    (hd : z.Stats.Deletions = 0) : globalSample z = none := by
  simp [globalSample, hasFilteredChanges_false z ha hd]

theorem stepAuthors_zero_change (authors : List (String × AuthorStats)) (z : CommitPair)
    (ha : z.Stats.Additions = 0) (hd : z.Stats.Deletions = 0) :
    stepAuthors authors z = authors := by
  simp [stepAuthors, hasFilteredChanges_false z ha hd]

theorem authorSample_zero_change (email : String) (z : CommitPair)
    (ha : z.Stats.Additions = 0) (hd : z.Stats.Deletions = 0) :
    authorSample email z = none := by
  simp [authorSample, ha, hd]

theorem CalculateStats.visitAuthorPair_foldl (email : String) (pairs : List CommitPair)
    (acc : List ℚ) :
    pairs.foldl (CalculateStats.visitAuthorPair email) acc
      = acc ++ pairs.filterMap (authorSample email) := by
  induction pairs generalizing acc with
  | nil => simp
  | cons p rest ih =>
    have hstep : CalculateStats.visitAuthorPair email acc p
        = acc ++ (authorSample email p).toList := by
      unfold CalculateStats.visitAuthorPair authorSample velocitySample
      simp only
      split_ifs <;> simp
    rw [List.foldl_cons, hstep, ih, List.filterMap_cons]
    cases authorSample email p <;> simp

theorem CalculateStats.authorAverage_eq (pairs : List CommitPair)
    (entry : String × AuthorStats) :
    CalculateStats.authorAverage pairs entry
      = if entry.2.CommitCount > 0 ∧ (pairs.filterMap (authorSample entry.1)).length > 0 then
          (entry.1, { entry.2 with
            AvgVelocity := mean (pairs.filterMap (authorSample entry.1)) })
        else entry := by
  unfold CalculateStats.authorAverage
  simp only [CalculateStats.visitAuthorPair_foldl, List.nil_append, average_eq_mean]
  by_cases h1 : entry.2.CommitCount > 0
  · by_cases h2 : (pairs.filterMap (authorSample entry.1)).length > 0
    · rw [if_pos h1, if_pos h2, if_pos ⟨h1, h2⟩]
    · rw [if_pos h1, if_neg h2, if_neg (fun hc => h2 hc.2)]
  · rw [if_neg h1, if_neg (fun hc => h1 hc.1)]

theorem filterMap_insert_none {α β : Type} (f : α → Option β) (before after : List α)
    (z : α) (hz : f z = none) :
    (before ++ z :: after).filterMap f = (before ++ after).filterMap f := by
  rw [List.filterMap_append, List.filterMap_append, List.filterMap_cons, hz]

theorem foldl_insert_id {σ α : Type} (f : σ → α → σ) (before after : List α) (z : α)
    (init : σ) (hz : ∀ s, f s z = s) :
    (before ++ z :: after).foldl f init = (before ++ after).foldl f init := by
  rw [List.foldl_append, List.foldl_append, List.foldl_cons, hz]

theorem CalculateStats.authorAverage_insert (before after : List CommitPair)
    (z : CommitPair) (ha : z.Stats.Additions = 0) (hd : z.Stats.Deletions = 0) :
    CalculateStats.authorAverage (before ++ z :: after)
      = CalculateStats.authorAverage (before ++ after) := by
  funext entry
  rw [CalculateStats.authorAverage_eq, CalculateStats.authorAverage_eq,
    filterMap_insert_none _ before after z (authorSample_zero_change entry.1 z ha hd)]

/-! ## Statistics: zero-change pairs and the mean velocity -/

/-- C28. Zero-change pairs are excluded from velocity statistics: inserting
into the pair list, at any position, a pair whose filtered additions and
deletions are both 0 leaves `AverageVelocity`, `MedianVelocity`, the percentile
set and the whole author map unchanged; and when every pair is zero-change,
`AverageVelocity` and `MedianVelocity` are 0. -/
theorem CalculateStats_zero_change_excluded :
    (∀ (commits : List Commit) (before after : List CommitPair) (z : CommitPair),
      z.Stats.Additions = 0 → z.Stats.Deletions = 0 →
      ∃ s t, CalculateStats commits (before ++ z :: after) = some s ∧
        CalculateStats commits (before ++ after) = some t ∧
        s.AverageVelocity = t.AverageVelocity ∧ s.MedianVelocity = t.MedianVelocity ∧
        s.VelocityPercentile = t.VelocityPercentile ∧ s.Authors = t.Authors) ∧
    (∀ (commits : List Commit) (pairs : List CommitPair),
      (∀ p ∈ pairs, p.Stats.Additions = 0 ∧ p.Stats.Deletions = 0) →
      ∃ s, CalculateStats commits pairs = some s ∧
        s.AverageVelocity = 0 ∧ s.MedianVelocity = 0) := by
  refine ⟨?_, ?_⟩
  · intro commits before after z ha hd
    by_cases h : commits = []
    · subst h
      exact ⟨_, _, CalculateStats_nil _, CalculateStats_nil _, rfl, rfl, rfl, rfl⟩
    · obtain ⟨s, hs, s1, s2, s3, s4⟩ :=
        CalculateStats_velocity_fields commits (before ++ z :: after) h
      obtain ⟨t, ht, t1, t2, t3, t4⟩ :=
        CalculateStats_velocity_fields commits (before ++ after) h
      have hv := filterMap_insert_none globalSample before after z
        (globalSample_zero_change z ha hd)
      have hau := foldl_insert_id stepAuthors before after z (commits.foldl authorsAfter [])
        (fun m => stepAuthors_zero_change m z ha hd)
      rw [hv] at s1 s2 s3
      rw [hau, CalculateStats.authorAverage_insert before after z ha hd] at s4
      exact ⟨s, t, hs, ht, s1.trans t1.symm, s2.trans t2.symm, s3.trans t3.symm,
        s4.trans t4.symm⟩
  · intro commits pairs hz
    by_cases h : commits = []
    · subst h
      exact ⟨_, CalculateStats_nil _, rfl, rfl⟩
    · obtain ⟨s, hs, s1, s2, _, _⟩ := CalculateStats_velocity_fields commits pairs h
      have hnil : pairs.filterMap globalSample = [] := by
        rw [List.filterMap_eq_nil_iff]
        intro p hp
        exact globalSample_zero_change p (hz p hp).1 (hz p hp).2
      rw [hnil] at s1 s2
      refine ⟨s, hs, ?_, ?_⟩
      · rw [s1]
        simp [sumFloat64s]
      · rw [s2, medianOf_nil]

/-- Witness for C28: the test pairs with a zero-change pair inserted between
them, and a list holding only a zero-change pair. -/
theorem CalculateStats_zero_change_excluded_witness :
    (∃ s t, CalculateStats statsCommits
          (statsPairs.take 1 ++ samplePair 0 0 Minute :: statsPairs.drop 1) = some s ∧
        CalculateStats statsCommits (statsPairs.take 1 ++ statsPairs.drop 1) = some t ∧
        s.AverageVelocity = t.AverageVelocity ∧ s.MedianVelocity = t.MedianVelocity ∧
        s.VelocityPercentile = t.VelocityPercentile ∧ s.Authors = t.Authors) ∧
    (∃ s, CalculateStats statsCommits [samplePair 0 0 Minute] = some s ∧
        s.AverageVelocity = 0 ∧ s.MedianVelocity = 0) :=
  ⟨CalculateStats_zero_change_excluded.1 statsCommits (statsPairs.take 1) (statsPairs.drop 1)
      (samplePair 0 0 Minute) rfl rfl,
   CalculateStats_zero_change_excluded.2 statsCommits [samplePair 0 0 Minute]
      (by
        intro p hp
        rw [List.mem_singleton] at hp
        subst hp
        exact ⟨rfl, rfl⟩)⟩

theorem hasFilteredChanges_iff_changing (p : CommitPair)
    (h : 0 ≤ p.Stats.Additions ∧ 0 ≤ p.Stats.Deletions) :
    hasFilteredChanges p = true ↔ p.changing := by
  unfold hasFilteredChanges CommitPair.changing
  simp only [Bool.or_eq_true, decide_eq_true_eq]
  constructor
  · rintro (h1 | h1)
    · exact Or.inl (by omega)
    · exact Or.inr (by omega)
  · rintro (h1 | h1)
    · exact Or.inl (by omega)
    · exact Or.inr (by omega)

theorem velocitySample_of_pos (p : CommitPair) (hpos : 0 < p.TimeDelta)
    (ha : 0 ≤ p.Stats.Additions) : velocitySample p = some p.additionVelocity := by
  have hnot : ¬ p.TimeDelta ≤ 0 := not_le.mpr hpos
  have hq : (0 : ℚ) < (p.TimeDelta : ℚ) := by exact_mod_cast hpos
  have hge : (0 : ℚ) ≤ linesPerMinute p.Stats.Additions p.TimeDelta := by
    unfold linesPerMinute deltaSeconds
    have : (0 : ℚ) ≤ (p.Stats.Additions : ℚ) := by exact_mod_cast ha
    positivity
  unfold velocitySample CalculateVelocityPerMinute CommitPair.additionVelocity
  simp only [if_neg hnot, velocity_rate _ _ hpos, IsNaN, Option.isNone_none, Bool.not_false,
    Bool.and_self, Bool.true_and, decide_eq_true_eq, ge_iff_le, hge, if_true]

theorem velocitySample_of_nonpos (p : CommitPair) (hneg : p.TimeDelta ≤ 0) :
    velocitySample p = none := by
  unfold velocitySample CalculateVelocityPerMinute
  simp [hneg]

theorem globalSample_of_nonneg (p : CommitPair)
    (h : 0 ≤ p.Stats.Additions ∧ 0 ≤ p.Stats.Deletions) :
    globalSample p
      = if p.changing ∧ 0 < p.TimeDelta then some p.additionVelocity else none := by
  unfold globalSample
  by_cases hc : p.changing
  · rw [if_pos ((hasFilteredChanges_iff_changing p h).mpr hc)]
    by_cases hpos : 0 < p.TimeDelta
    · rw [if_pos ⟨hc, hpos⟩, velocitySample_of_pos p hpos h.1]
    · rw [if_neg (fun hx => hpos hx.2), velocitySample_of_nonpos p (not_lt.mp hpos)]
  · have hf : ¬ hasFilteredChanges p = true :=
      fun hx => hc ((hasFilteredChanges_iff_changing p h).mp hx)
    rw [if_neg hf, if_neg (fun hx => hc hx.1)]

theorem filterMap_eq_map_filter {α β : Type} (g : α → Option β) (c : α → Bool) (f : α → β)
    (l : List α) (h : ∀ x ∈ l, g x = if c x = true then some (f x) else none) :
    l.filterMap g = (l.filter c).map f := by
  induction l with
  | nil => rfl
  | cons x rest ih =>
    have hx := h x (List.mem_cons_self x rest)
    have hrest := ih (fun y hy => h y (List.mem_cons_of_mem x hy))
    rw [List.filterMap_cons, hx, List.filter_cons]
    by_cases hc : c x = true
    · simp only [hc, if_true, List.map_cons, hrest]
    · simp only [hc, if_false, hrest]
      rfl

theorem globalSamples_of_nonneg (pairs : List CommitPair) (h : nonnegCounts pairs) :
    pairs.filterMap globalSample
      = (sampledPairs pairs).map CommitPair.additionVelocity := by
  unfold sampledPairs
  apply filterMap_eq_map_filter
  intro p hp
  rw [globalSample_of_nonneg p (h p hp)]
  simp only [decide_eq_true_eq]

theorem statsPairs_nonneg : nonnegCounts statsPairs := by
  intro p hp
  simp only [statsPairs, List.mem_cons, List.mem_singleton, List.not_mem_nil, or_false] at hp
  rcases hp with rfl | rfl <;> exact ⟨by decide, by decide⟩

theorem Authors.get_nil (key : String) : Authors.get [] key = none := rfl

theorem Authors.get_cons (k : String) (v : AuthorStats) (rest : List (String × AuthorStats))
    (key : String) :
    Authors.get ((k, v) :: rest) key = if k = key then some v else Authors.get rest key := by
  unfold Authors.get
  by_cases h : k = key
  · simp [List.find?_cons, h]
  · simp [List.find?_cons, h]

theorem Authors.get_replace (m : List (String × AuthorStats)) (k : String) (v : AuthorStats)
    (key : String) :
    Authors.get (m.map (fun entry => if entry.1 = k then (k, v) else entry)) key
      = if key = k then (Authors.get m k).map (fun _ => v) else Authors.get m key := by
  induction m with
  | nil => simp [Authors.get_nil]
  | cons entry rest ih =>
    obtain ⟨a, b⟩ := entry
    rw [List.map_cons]
    by_cases hak : a = k
    · subst hak
      simp only [if_true]
      rw [Authors.get_cons, Authors.get_cons, Authors.get_cons, ih]
      by_cases hk : a = key
      · subst hk
        simp
      · have hk2 : ¬ key = a := fun h => hk h.symm
        simp [hk, hk2]
    · simp only [hak, if_false]
      rw [Authors.get_cons, Authors.get_cons, Authors.get_cons, ih]
      by_cases hk : a = key
      · subst hk
        simp [hak]
      · simp [hk, hak]

theorem Authors.get_append_singleton (m : List (String × AuthorStats)) (k : String)
    (v : AuthorStats) (key : String) :
    Authors.get (m ++ [(k, v)]) key
      = match Authors.get m key with
        | some a => some a
        | none => if k = key then some v else none := by
  induction m with
  | nil => simp [Authors.get_nil, Authors.get_cons]
  | cons entry rest ih =>
    obtain ⟨a, b⟩ := entry
    rw [List.cons_append, Authors.get_cons, Authors.get_cons, ih]
    by_cases hk : a = key
    · simp [hk]
    · simp [hk]

theorem Authors.get_set (m : List (String × AuthorStats)) (k : String) (v : AuthorStats)
    (key : String) :
    Authors.get (Authors.set m k v) key = if key = k then some v else Authors.get m key := by
  unfold Authors.set
  by_cases h : (Authors.get m k).isSome
  · rw [if_pos h, Authors.get_replace]
    obtain ⟨a, ha⟩ := Option.isSome_iff_exists.mp h
    rw [ha]
    rfl
  · rw [if_neg h, Authors.get_append_singleton]
    have hn : Authors.get m k = none := by
      cases hx : Authors.get m k with
      | none => rfl
      | some a => rw [hx] at h; exact absurd rfl h
    by_cases hk : key = k
    · subst hk
      simp [hn]
    · have hk2 : ¬ k = key := fun hx => hk hx.symm
      cases hx : Authors.get m key <;> simp [hk, hk2]

theorem Authors.get_map_value (m : List (String × AuthorStats))
    (f : String × AuthorStats → String × AuthorStats) (hf : ∀ entry, (f entry).1 = entry.1)
    (key : String) :
    Authors.get (m.map f) key = (Authors.get m key).map (fun a => (f (key, a)).2) := by
  induction m with
  | nil => rfl
  | cons entry rest ih =>
    obtain ⟨a, b⟩ := entry
    have he : f (a, b) = (a, (f (a, b)).2) := Prod.ext (hf (a, b)) rfl
    rw [List.map_cons, he, Authors.get_cons, Authors.get_cons, ih]
    by_cases hk : a = key
    · subst hk
      simp
    · simp [hk]

theorem CalculateStats.authorAverage_key (pairs : List CommitPair)
    (entry : String × AuthorStats) :
    (CalculateStats.authorAverage pairs entry).1 = entry.1 := by
  rw [CalculateStats.authorAverage_eq]
  split_ifs <;> rfl

theorem stepAuthors_get (m : List (String × AuthorStats)) (p : CommitPair) (email : String) :
    Authors.get (stepAuthors m p) email
      = if (hasFilteredChanges p && decide (p.Current.Email = email)) = true then
          stepEntry (Authors.get m email) p
        else Authors.get m email := by
  unfold stepAuthors stepEntry
  by_cases hc : hasFilteredChanges p = true
  · rw [if_pos hc, Authors.get_set]
    by_cases he : p.Current.Email = email
    · subst he
      simp [hc]
    · have he2 : ¬ email = p.Current.Email := fun hx => he hx.symm
      simp [hc, he, he2]
  · rw [if_neg hc]
    simp [hc]

theorem stepAuthors_foldl_get (pairs : List CommitPair) (m : List (String × AuthorStats))
    (email : String) :
    Authors.get (pairs.foldl stepAuthors m) email
      = (authorPairs email pairs).foldl stepEntry (Authors.get m email) := by
  induction pairs generalizing m with
  | nil => rfl
  | cons p rest ih =>
    rw [List.foldl_cons, ih, stepAuthors_get]
    unfold authorPairs
    rw [List.filter_cons]
    by_cases hc : (hasFilteredChanges p && decide (p.Current.Email = email)) = true
    · rw [if_pos hc, if_pos hc, List.foldl_cons]
    · rw [if_neg hc, if_neg hc]

theorem CalculateStats_author_entry (commits : List Commit) (pairs : List CommitPair)
    (h : commits ≠ []) :
    ∃ s, CalculateStats commits pairs = some s ∧
      ∀ email, Authors.get s.Authors email
        = ((authorPairs email pairs).foldl stepEntry
            (Authors.get (commits.foldl authorsAfter []) email)).map
          (averagedEntry pairs email) := by
  obtain ⟨s, hs, _, _, _, h4⟩ := CalculateStats_velocity_fields commits pairs h
  refine ⟨s, hs, ?_⟩
  intro email
  rw [h4, Authors.get_map_value _ _ (CalculateStats.authorAverage_key pairs),
    stepAuthors_foldl_get]
  rfl

theorem authorsAfter_get (m : List (String × AuthorStats)) (c : Commit) (email : String) :
    Authors.get (authorsAfter m c) email
      = match Authors.get m email with
        | some a => some a
        | none => if c.Email = email then some (AuthorStats.new c.Author c.Email) else none := by
  unfold authorsAfter
  by_cases h : (Authors.get m c.Email).isSome
  · rw [if_pos h]
    cases hx : Authors.get m email with
    | some a => rfl
    | none =>
      have hne : ¬ c.Email = email := by
        intro he
        rw [he, hx] at h
        exact absurd h (by simp)
      simp [hne]
  · rw [if_neg h, Authors.get_set]
    by_cases he : email = c.Email
    · subst he
      cases hx : Authors.get m c.Email with
      | some a => rw [hx] at h; exact absurd rfl h
      | none => simp
    · have he2 : ¬ c.Email = email := fun hx => he hx.symm
      cases hx : Authors.get m email <;> simp [he, he2]

theorem authorsAfter_foldl_fresh (commits : List Commit) (m : List (String × AuthorStats))
    (email : String) (h : freshEntry email (Authors.get m email)) :
    freshEntry email (Authors.get (commits.foldl authorsAfter m) email) := by
  induction commits generalizing m with
  | nil => exact h
  | cons c rest ih =>
    rw [List.foldl_cons]
    apply ih
    rw [authorsAfter_get]
    rcases h with hn | ⟨name, hs⟩
    · rw [hn]
      by_cases he : c.Email = email
      · subst he
        exact Or.inr ⟨c.Author, by simp⟩
      · exact Or.inl (by simp [he])
    · rw [hs]
      exact Or.inr ⟨name, rfl⟩

theorem authorsAfter_foldl_some (commits : List Commit) (m : List (String × AuthorStats))
    (email : String)
    (h : (Authors.get m email).isSome ∨ ∃ c ∈ commits, c.Email = email) :
    (Authors.get (commits.foldl authorsAfter m) email).isSome := by
  induction commits generalizing m with
  | nil =>
    rcases h with h | ⟨c, hc, _⟩
    · exact h
    · exact absurd hc (List.not_mem_nil c)
  | cons c rest ih =>
    rw [List.foldl_cons]
    apply ih
    rw [authorsAfter_get]
    rcases h with h | ⟨x, hx, he⟩
    · obtain ⟨a, ha⟩ := Option.isSome_iff_exists.mp h
      left
      rw [ha]
      rfl
    · rcases List.mem_cons.mp hx with rfl | hx
      · left
        cases hg : Authors.get m email with
        | some a => rfl
        | none => simp [he]
      · exact Or.inr ⟨x, hx, he⟩

theorem updateAuthor_fields (a : AuthorStats) (p : CommitPair) :
    (updateAuthor a p).CommitCount = a.CommitCount + 1 ∧
    (updateAuthor a p).LOCAdded = a.LOCAdded + p.Stats.Additions ∧
    (updateAuthor a p).LOCDeleted = a.LOCDeleted + p.Stats.Deletions ∧
    (updateAuthor a p).AvgVelocity = a.AvgVelocity ∧
    (updateAuthor a p).Name = a.Name ∧ (updateAuthor a p).Email = a.Email := by
  unfold updateAuthor
  simp only
  split_ifs <;> exact ⟨rfl, rfl, rfl, rfl, rfl, rfl⟩

theorem updateAuthor_foldl_fields (l : List CommitPair) (a : AuthorStats) :
    (l.foldl updateAuthor a).CommitCount = a.CommitCount + (l.length : Int) ∧
    (l.foldl updateAuthor a).LOCAdded
      = a.LOCAdded + (l.map (fun p => p.Stats.Additions)).sum ∧
    (l.foldl updateAuthor a).LOCDeleted
      = a.LOCDeleted + (l.map (fun p => p.Stats.Deletions)).sum ∧
    (l.foldl updateAuthor a).AvgVelocity = a.AvgVelocity ∧
    (l.foldl updateAuthor a).Name = a.Name ∧ (l.foldl updateAuthor a).Email = a.Email := by
  induction l generalizing a with
  | nil => simp
  | cons p rest ih =>
    obtain ⟨h1, h2, h3, h4, h5, h6⟩ := updateAuthor_fields a p
    obtain ⟨i1, i2, i3, i4, i5, i6⟩ := ih (updateAuthor a p)
    rw [List.foldl_cons]
    simp only [List.map_cons, List.sum_cons, List.length_cons, Nat.cast_add, Nat.cast_one]
    refine ⟨?_, ?_, ?_, i4.trans h4, i5.trans h5, i6.trans h6⟩
    · rw [i1, h1]; ring
    · rw [i2, h2]; ring
    · rw [i3, h3]; ring

theorem stepEntry_foldl_some (l : List CommitPair) (a : AuthorStats) :
    l.foldl stepEntry (some a) = some (l.foldl updateAuthor a) := by
  induction l generalizing a with
  | nil => rfl
  | cons p rest ih =>
    rw [List.foldl_cons, List.foldl_cons]
    exact ih (updateAuthor a p)

theorem stepEntry_foldl_fresh (email : String) (entry : Option AuthorStats)
    (l : List CommitPair) (hf : freshEntry email entry) (a : AuthorStats)
    (h : l.foldl stepEntry entry = some a) :
    a.CommitCount = (l.length : Int) ∧
    a.LOCAdded = (l.map (fun p => p.Stats.Additions)).sum ∧
    a.LOCDeleted = (l.map (fun p => p.Stats.Deletions)).sum ∧
    a.AvgVelocity = 0 := by
  rcases hf with hn | ⟨name, hs⟩
  · subst hn
    cases l with
    | nil => exact absurd h (by simp)
    | cons p rest =>
      rw [List.foldl_cons] at h
      have hstep : stepEntry none p
          = some (updateAuthor (AuthorStats.new p.Current.Author p.Current.Email) p) := rfl
      rw [hstep, stepEntry_foldl_some] at h
      simp only [Option.some.injEq] at h
      subst h
      obtain ⟨h1, h2, h3, h4, _, _⟩ :=
        updateAuthor_fields (AuthorStats.new p.Current.Author p.Current.Email) p
      obtain ⟨i1, i2, i3, i4, _, _⟩ := updateAuthor_foldl_fields rest
        (updateAuthor (AuthorStats.new p.Current.Author p.Current.Email) p)
      simp only [List.map_cons, List.sum_cons, List.length_cons, Nat.cast_add, Nat.cast_one]
      refine ⟨?_, ?_, ?_, ?_⟩
      · rw [i1, h1]; simp [AuthorStats.new]; ring
      · rw [i2, h2]; simp [AuthorStats.new]
      · rw [i3, h3]; simp [AuthorStats.new]
      · rw [i4, h4]; rfl
  · subst hs
    rw [stepEntry_foldl_some] at h
    simp only [Option.some.injEq] at h
    subst h
    obtain ⟨i1, i2, i3, i4, _, _⟩ := updateAuthor_foldl_fields l (AuthorStats.new name email)
    refine ⟨?_, ?_, ?_, ?_⟩
    · rw [i1]; simp [AuthorStats.new]
    · rw [i2]; simp [AuthorStats.new]
    · rw [i3]; simp [AuthorStats.new]
    · rw [i4]; rfl

theorem averagedEntry_eq (pairs : List CommitPair) (email : String) (a : AuthorStats) :
    averagedEntry pairs email a
      = if a.CommitCount > 0 ∧ (pairs.filterMap (authorSample email)).length > 0 then
          { a with AvgVelocity := mean (pairs.filterMap (authorSample email)) }
        else a := by
  unfold averagedEntry
  rw [CalculateStats.authorAverage_eq]
  split_ifs <;> rfl

theorem authorPairs_of_nonneg (email : String) (pairs : List CommitPair)
    (hnn : nonnegCounts pairs) : authorPairs email pairs = changingPairsOf email pairs := by
  unfold authorPairs changingPairsOf
  apply List.filter_congr
  intro p hp
  have h := hasFilteredChanges_iff_changing p (hnn p hp)
  by_cases hc : p.changing
  · simp [h.mpr hc, hc]
  · have hf : hasFilteredChanges p = false := by
      cases hx : hasFilteredChanges p with
      | false => rfl
      | true => exact absurd (h.mp hx) hc
    simp [hf, hc]

theorem averagedEntry_counts (pairs : List CommitPair) (email : String) (a : AuthorStats) :
    (averagedEntry pairs email a).CommitCount = a.CommitCount ∧
    (averagedEntry pairs email a).LOCAdded = a.LOCAdded ∧
    (averagedEntry pairs email a).LOCDeleted = a.LOCDeleted ∧
    (averagedEntry pairs email a).MaxVelocity = a.MaxVelocity ∧
    (averagedEntry pairs email a).FirstCommit = a.FirstCommit ∧
    (averagedEntry pairs email a).LastCommit = a.LastCommit ∧
    (averagedEntry pairs email a).Name = a.Name ∧
    (averagedEntry pairs email a).Email = a.Email := by
  rw [averagedEntry_eq]
  split_ifs <;> exact ⟨rfl, rfl, rfl, rfl, rfl, rfl, rfl, rfl⟩

theorem initial_entry_fresh (commits : List Commit) (email : String) :
    freshEntry email (Authors.get (commits.foldl authorsAfter []) email) :=
  authorsAfter_foldl_fresh commits [] email (Or.inl rfl)

/-- What `CalculateStats` stores for an author: the entry before the last loop,
and the entry after it. -/
theorem CalculateStats_author_split (commits : List Commit) (pairs : List CommitPair)
    (h : commits ≠ []) :
    ∃ s, CalculateStats commits pairs = some s ∧
      (∀ c ∈ commits, (Authors.get s.Authors c.Email).isSome) ∧
      ∀ email a, Authors.get s.Authors email = some a →
        ∃ a₀, (authorPairs email pairs).foldl stepEntry
            (Authors.get (commits.foldl authorsAfter []) email) = some a₀ ∧
          a = averagedEntry pairs email a₀ := by
  obtain ⟨s, hs, hget⟩ := CalculateStats_author_entry commits pairs h
  refine ⟨s, hs, ?_, ?_⟩
  · intro c hc
    rw [hget]
    have hsome := authorsAfter_foldl_some commits [] c.Email (Or.inr ⟨c, hc, rfl⟩)
    obtain ⟨a, ha⟩ := Option.isSome_iff_exists.mp hsome
    rw [ha, stepEntry_foldl_some]
    rfl
  · intro email a ha
    rw [hget] at ha
    cases hf : (authorPairs email pairs).foldl stepEntry
        (Authors.get (commits.foldl authorsAfter []) email) with
    | none => rw [hf] at ha; exact absurd ha (by simp)
    | some a₀ =>
      rw [hf] at ha
      simp only [Option.map_some', Option.some.injEq] at ha
      exact ⟨a₀, rfl, ha.symm⟩

/-- For non-negative filtered counts the entry of an author holds, in unbounded
integers, the number of its changing pairs and the sums of their filtered
additions and deletions. -/
theorem CalculateStats_author_exact (commits : List Commit) (pairs : List CommitPair)
    (h : commits ≠ []) (hnn : nonnegCounts pairs) :
    ∃ s, CalculateStats commits pairs = some s ∧
      (∀ c ∈ commits, (Authors.get s.Authors c.Email).isSome) ∧
      ∀ email a, Authors.get s.Authors email = some a →
        a.CommitCount = ((changingPairsOf email pairs).length : Int) ∧
        a.LOCAdded = ((changingPairsOf email pairs).map (fun p => p.Stats.Additions)).sum ∧
        a.LOCDeleted
          = ((changingPairsOf email pairs).map (fun p => p.Stats.Deletions)).sum := by
  obtain ⟨s, hs, hsome, hsplit⟩ := CalculateStats_author_split commits pairs h
  refine ⟨s, hs, hsome, ?_⟩
  intro email a ha
  obtain ⟨a₀, h0, rfl⟩ := hsplit email a ha
  obtain ⟨f1, f2, f3, _⟩ := stepEntry_foldl_fresh email _ _
    (initial_entry_fresh commits email) a₀ h0
  obtain ⟨c1, c2, c3, _⟩ := averagedEntry_counts pairs email a₀
  rw [authorPairs_of_nonneg email pairs hnn] at f1 f2 f3
  exact ⟨c1.trans f1, c2.trans f2, c3.trans f3⟩

/-! ## Statistics: the average velocity of an author -/

theorem CalculateStats_author_average (commits : List Commit) (pairs : List CommitPair)
    (h : commits ≠ []) :
    ∃ s, CalculateStats commits pairs = some s ∧
      (∀ c ∈ commits, (Authors.get s.Authors c.Email).isSome) ∧
      ∀ email a, Authors.get s.Authors email = some a →
        a.CommitCount = ((authorPairs email pairs).length : Int) ∧
        a.AvgVelocity
          = if 0 < (authorPairs email pairs).length ∧
                0 < (pairs.filterMap (authorSample email)).length then
              mean (pairs.filterMap (authorSample email))
            else 0 := by
  obtain ⟨s, hs, hsome, hsplit⟩ := CalculateStats_author_split commits pairs h
  refine ⟨s, hs, hsome, ?_⟩
  intro email a ha
  obtain ⟨a₀, h0, rfl⟩ := hsplit email a ha
  obtain ⟨f1, _, _, f4⟩ := stepEntry_foldl_fresh email _ _
    (initial_entry_fresh commits email) a₀ h0
  refine ⟨(averagedEntry_counts pairs email a₀).1.trans f1, ?_⟩
  rw [averagedEntry_eq]
  by_cases hc : 0 < (authorPairs email pairs).length ∧
      0 < (pairs.filterMap (authorSample email)).length
  · have hc2 : a₀.CommitCount > 0 ∧ (pairs.filterMap (authorSample email)).length > 0 := by
      refine ⟨?_, hc.2⟩
      rw [f1]
      exact_mod_cast hc.1
    rw [if_pos hc, if_pos hc2]
  · have hc2 : ¬ (a₀.CommitCount > 0 ∧ (pairs.filterMap (authorSample email)).length > 0) := by
      intro hx
      apply hc
      refine ⟨?_, hx.2⟩
      have := hx.1
      rw [f1] at this
      exact_mod_cast this
    rw [if_neg hc, if_neg hc2]
    exact f4

theorem authorSample_of_nonneg (email : String) (p : CommitPair)
    (h : 0 ≤ p.Stats.Additions ∧ 0 ≤ p.Stats.Deletions) :
    authorSample email p
      = if decide (p.changing ∧ p.Current.Email = email ∧ 0 < p.TimeDelta) = true then
          some p.additionVelocity else none := by
  unfold authorSample
  by_cases he : p.Current.Email = email
  · by_cases hz : p.Stats.Additions = 0 ∧ p.Stats.Deletions = 0
    · have hc : ¬ p.changing := by
        rintro (hx | hx)
        · exact hx hz.1
        · exact hx hz.2
      simp [he, hz, hc]
    · have hc : p.changing := by
        unfold CommitPair.changing
        by_contra hx
        simp only [not_or, not_not] at hx
        exact hz hx
      by_cases hpos : 0 < p.TimeDelta
      · simp [he, hz, hc, hpos, velocitySample_of_pos p hpos h.1]
      · simp [he, hz, hc, hpos, velocitySample_of_nonpos p (not_lt.mp hpos)]
  · simp [he]

theorem authorSamples_of_nonneg (email : String) (pairs : List CommitPair)
    (hnn : nonnegCounts pairs) :
    pairs.filterMap (authorSample email)
      = (velocityPairsOf email pairs).map CommitPair.additionVelocity := by
  unfold velocityPairsOf
  apply filterMap_eq_map_filter
  intro p hp
  exact authorSample_of_nonneg email p (hnn p hp)

theorem velocityPairsOf_sub (email : String) (pairs : List CommitPair) (p : CommitPair)
    (h : p ∈ velocityPairsOf email pairs) : p ∈ changingPairsOf email pairs := by
  unfold velocityPairsOf at h
  unfold changingPairsOf
  rw [List.mem_filter] at h ⊢
  simp only [decide_eq_true_eq] at h ⊢
  exact ⟨h.1, h.2.1, h.2.2.1⟩

theorem firstPassSamples_of_pos (email : String) (pairs : List CommitPair)
    (hd : ∀ p ∈ pairs, 0 < p.TimeDelta) (hnn : nonnegCounts pairs) :
    firstPassSamples email pairs
      = (changingPairsOf email pairs).map CommitPair.additionVelocity := by
  unfold firstPassSamples
  rw [authorPairs_of_nonneg email pairs hnn]
  have hsub : ∀ p ∈ changingPairsOf email pairs, p ∈ pairs := by
    intro p hp
    unfold changingPairsOf at hp
    exact (List.mem_filter.mp hp).1
  have key : ∀ l : List CommitPair, (∀ p ∈ l, p ∈ pairs) →
      l.filterMap velocitySample = l.map CommitPair.additionVelocity := by
    intro l
    induction l with
    | nil => intro _; rfl
    | cons x rest ih =>
      intro hl
      have hx := hl x (List.mem_cons_self x rest)
      rw [List.filterMap_cons, velocitySample_of_pos x (hd x hx) (hnn x hx).1, List.map_cons,
        ih (fun y hy => hl y (List.mem_cons_of_mem x hy))]
  exact key _ hsub

theorem velocityPairsOf_of_pos (email : String) (pairs : List CommitPair)
    (hd : ∀ p ∈ pairs, 0 < p.TimeDelta) :
    velocityPairsOf email pairs = changingPairsOf email pairs := by
  unfold velocityPairsOf changingPairsOf
  apply List.filter_congr
  intro p hp
  have := hd p hp
  simp [this]

theorem velocityPairsOf_single_author (email : String) (pairs : List CommitPair)
    (hall : ∀ p ∈ pairs, p.changing → p.Current.Email = email) :
    velocityPairsOf email pairs = sampledPairs pairs := by
  unfold velocityPairsOf sampledPairs
  apply List.filter_congr
  intro p hp
  by_cases hc : p.changing
  · simp [hc, hall p hp hc]
  · simp [hc]

theorem updateAuthor_times (a : AuthorStats) (p : CommitPair) :
    (updateAuthor a p).FirstCommit = firstAfter a.FirstCommit p.Current.Timestamp ∧
    (updateAuthor a p).LastCommit = lastAfter a.LastCommit p.Current.Timestamp ∧
    (updateAuthor a p).MaxVelocity = maxAfter a.MaxVelocity p := by
  refine ⟨?_, ?_, ?_⟩
  · unfold updateAuthor firstAfter
    simp only
    split_ifs <;> rfl
  · unfold updateAuthor lastAfter
    simp only
    split_ifs <;> rfl
  · unfold updateAuthor maxAfter velocitySample
    simp only
    split_ifs <;> simp_all <;> rw [if_neg (not_lt.mpr ‹_›)]

theorem AuthorStats.eq_of_fields (a b : AuthorStats) (h1 : a.Name = b.Name)
    (h2 : a.Email = b.Email) (h3 : a.CommitCount = b.CommitCount)
    (h4 : a.LOCAdded = b.LOCAdded) (h5 : a.LOCDeleted = b.LOCDeleted)
    (h6 : a.AvgVelocity = b.AvgVelocity) (h7 : a.MaxVelocity = b.MaxVelocity)
    (h8 : a.FirstCommit = b.FirstCommit) (h9 : a.LastCommit = b.LastCommit) : a = b := by
  cases a
  cases b
  simp only at h1 h2 h3 h4 h5 h6 h7 h8 h9
  subst h1 h2 h3 h4 h5 h6 h7 h8 h9
  rfl

theorem firstAfter_comm (f x y : Int) (hx : x ≠ 0) (hy : y ≠ 0) :
    firstAfter (firstAfter f x) y = firstAfter (firstAfter f y) x := by
  have key : ∀ g t : Int, firstAfter g t = if g = 0 ∨ t < g then t else g := fun _ _ => rfl
  rw [key, key, key, key]
  split_ifs <;> (show @Eq Int _ _) <;> omega

theorem lastAfter_comm (l x y : Int) (hx : x ≠ 0) (hy : y ≠ 0) :
    lastAfter (lastAfter l x) y = lastAfter (lastAfter l y) x := by
  have key : ∀ g t : Int, lastAfter g t = if g = 0 ∨ t > g then t else g := fun _ _ => rfl
  rw [key, key, key, key]
  split_ifs <;> (show @Eq Int _ _) <;> omega

theorem maxAfter_comm (m : ℚ) (x y : CommitPair) :
    maxAfter (maxAfter m x) y = maxAfter (maxAfter m y) x := by
  unfold maxAfter
  cases velocitySample x with
  | none => rfl
  | some v =>
    cases velocitySample y with
    | none => rfl
    | some w =>
      simp only
      split_ifs <;> linarith

theorem updateAuthor_comm (z : AuthorStats) (x y : CommitPair)
    (hx : x.Current.Timestamp ≠ 0) (hy : y.Current.Timestamp ≠ 0) :
    updateAuthor (updateAuthor z x) y = updateAuthor (updateAuthor z y) x := by
  obtain ⟨a1, a2, a3, a4, a5, a6⟩ := updateAuthor_fields z x
  obtain ⟨b1, b2, b3, b4, b5, b6⟩ := updateAuthor_fields z y
  obtain ⟨c1, c2, c3, c4, c5, c6⟩ := updateAuthor_fields (updateAuthor z x) y
  obtain ⟨d1, d2, d3, d4, d5, d6⟩ := updateAuthor_fields (updateAuthor z y) x
  obtain ⟨e1, e2, e3⟩ := updateAuthor_times z x
  obtain ⟨f1, f2, f3⟩ := updateAuthor_times z y
  obtain ⟨g1, g2, g3⟩ := updateAuthor_times (updateAuthor z x) y
  obtain ⟨k1, k2, k3⟩ := updateAuthor_times (updateAuthor z y) x
  apply AuthorStats.eq_of_fields
  · rw [c5, a5, d5, b5]
  · rw [c6, a6, d6, b6]
  · rw [c1, a1, d1, b1]
  · rw [c2, a2, d2, b2]; ring
  · rw [c3, a3, d3, b3]; ring
  · rw [c4, a4, d4, b4]
  · rw [g3, e3, k3, f3]
    exact maxAfter_comm _ x y
  · rw [g1, e1, k1, f1]
    exact firstAfter_comm _ _ _ hx hy
  · rw [g2, e2, k2, f2]
    exact lastAfter_comm _ _ _ hx hy

theorem mean_perm (xs ys : List ℚ) (h : xs.Perm ys) : mean xs = mean ys := by
  unfold mean
  rw [h.sum_eq, h.length_eq]
  by_cases hx : xs = []
  · subst hx
    rw [h.nil_eq]
  · have hy : ys ≠ [] := fun hy => hx (by subst hy; exact h.eq_nil)
    rw [if_neg hx, if_neg hy]

theorem medianOf_perm (xs ys : List ℚ) (h : xs.Perm ys) : medianOf xs = medianOf ys := by
  unfold medianOf
  rw [sortFloat64s_perm xs ys h, h.length_eq]

theorem averagedEntry_perm (pairs₁ pairs₂ : List CommitPair) (hp : pairs₁.Perm pairs₂)
    (email : String) (a : AuthorStats) :
    averagedEntry pairs₁ email a = averagedEntry pairs₂ email a := by
  have hs := hp.filterMap (authorSample email)
  rw [averagedEntry_eq, averagedEntry_eq, mean_perm _ _ hs, hs.length_eq]

theorem author_entry_perm (commits : List Commit) (pairs₁ pairs₂ : List CommitPair)
    (hp : pairs₁.Perm pairs₂) (hz : ∀ p ∈ pairs₁, p.Current.Timestamp ≠ 0)
    (hc : ∀ p ∈ pairs₁, ∃ c ∈ commits, c.Email = p.Current.Email) (email : String) :
    ((authorPairs email pairs₁).foldl stepEntry
        (Authors.get (commits.foldl authorsAfter []) email)).map (averagedEntry pairs₁ email)
      = ((authorPairs email pairs₂).foldl stepEntry
        (Authors.get (commits.foldl authorsAfter []) email)).map
          (averagedEntry pairs₂ email) := by
  have hperm : (authorPairs email pairs₁).Perm (authorPairs email pairs₂) := by
    unfold authorPairs
    exact hp.filter _
  have havg : averagedEntry pairs₁ email = averagedEntry pairs₂ email :=
    funext (averagedEntry_perm pairs₁ pairs₂ hp email)
  have hmem : ∀ x ∈ authorPairs email pairs₁, x ∈ pairs₁ ∧ x.Current.Email = email := by
    intro x hx
    unfold authorPairs at hx
    rw [List.mem_filter] at hx
    refine ⟨hx.1, ?_⟩
    have h2 := hx.2
    simp only [Bool.and_eq_true, decide_eq_true_eq] at h2
    exact h2.2
  rw [havg]
  cases hinit : Authors.get (commits.foldl authorsAfter []) email with
  | some a =>
    rw [stepEntry_foldl_some, stepEntry_foldl_some]
    have hfold := hperm.foldl_eq' (fun x hx y hy z =>
      updateAuthor_comm z x y (hz x (hmem x hx).1) (hz y (hmem y hy).1)) a
    rw [hfold]
  | none =>
    have hnil : authorPairs email pairs₁ = [] := by
      by_contra hne
      obtain ⟨x, hx⟩ := List.exists_mem_of_ne_nil _ hne
      obtain ⟨c, hcm, hce⟩ := hc x (hmem x hx).1
      have hsome := authorsAfter_foldl_some commits [] email
        (Or.inr ⟨c, hcm, hce.trans (hmem x hx).2⟩)
      rw [hinit] at hsome
      exact absurd hsome (by simp)
    have hnil2 : authorPairs email pairs₂ = [] := by
      rw [hnil] at hperm
      exact hperm.nil_eq.symm
    rw [hnil, hnil2]

theorem CalculateStats_entry_of_fold (commits : List Commit) (pairs : List CommitPair)
    (h : commits ≠ []) (email : String) (b : AuthorStats)
    (hfold : (authorPairs email pairs).foldl stepEntry
      (Authors.get (commits.foldl authorsAfter []) email) = some b) :
    ∃ s a, CalculateStats commits pairs = some s ∧ Authors.get s.Authors email = some a ∧
      a.Name = b.Name ∧ a.FirstCommit = b.FirstCommit := by
  obtain ⟨s, hs, hall⟩ := CalculateStats_author_entry commits pairs h
  obtain ⟨_, _, _, _, h5, _, h7, _⟩ := averagedEntry_counts pairs email b
  refine ⟨s, averagedEntry pairs email b, hs, ?_, h7, h5⟩
  rw [hall email, hfold]
  rfl

theorem CalculateStats_scalars_perm (commits : List Commit) (pairs₁ pairs₂ : List CommitPair)
    (h : commits ≠ []) (hp : pairs₁.Perm pairs₂) :
    ∃ s₁ s₂, CalculateStats commits pairs₁ = some s₁ ∧ CalculateStats commits pairs₂ = some s₂ ∧
      s₁.TotalCommits = s₂.TotalCommits ∧ s₁.TotalCommitPairs = s₂.TotalCommitPairs ∧
      s₁.UniqueAuthors = s₂.UniqueAuthors ∧ s₁.TimeSpan = s₂.TimeSpan ∧
      s₁.FirstCommit = s₂.FirstCommit ∧ s₁.LastCommit = s₂.LastCommit ∧
      s₁.TotalLOCAdded = s₂.TotalLOCAdded ∧ s₁.TotalLOCDeleted = s₂.TotalLOCDeleted ∧
      s₁.UnfilteredLOCAdded = s₂.UnfilteredLOCAdded ∧
      s₁.UnfilteredLOCDeleted = s₂.UnfilteredLOCDeleted := by
  obtain ⟨s₁, hs₁, a1, a2, a3, a4, a5, a6, a7, a8, a9, a10⟩ :=
    CalculateStats_of_nonempty commits pairs₁ h
  obtain ⟨s₂, hs₂, b1, b2, b3, b4, b5, b6, b7, b8, b9, b10⟩ :=
    CalculateStats_of_nonempty commits pairs₂ h
  refine ⟨s₁, s₂, hs₁, hs₂, a1.trans b1.symm, ?_, a3.trans b3.symm, ?_, a4.trans b4.symm,
    a5.trans b5.symm, ?_, ?_, ?_, ?_⟩
  · rw [a2, b2, hp.length_eq]
  · rw [a6, b6, a4, b4, a5, b5]
  · rw [a7, b7, (hp.map _).sum_eq]
  · rw [a8, b8, (hp.map _).sum_eq]
  · rw [a9, b9, (hp.map _).sum_eq]
  · rw [a10, b10, (hp.map _).sum_eq]

theorem CalculateStats_velocity_perm (commits : List Commit) (pairs₁ pairs₂ : List CommitPair)
    (h : commits ≠ []) (hp : pairs₁.Perm pairs₂) :
    ∃ s₁ s₂, CalculateStats commits pairs₁ = some s₁ ∧ CalculateStats commits pairs₂ = some s₂ ∧
      s₁.AverageVelocity = s₂.AverageVelocity ∧ s₁.MedianVelocity = s₂.MedianVelocity ∧
      s₁.VelocityPercentile = s₂.VelocityPercentile := by
  obtain ⟨s₁, hs₁, a1, a2, a3, _⟩ := CalculateStats_velocity_fields commits pairs₁ h
  obtain ⟨s₂, hs₂, b1, b2, b3, _⟩ := CalculateStats_velocity_fields commits pairs₂ h
  have hv := hp.filterMap globalSample
  refine ⟨s₁, s₂, hs₁, hs₂, ?_, ?_, ?_⟩
  · rw [a1, b1, sumFloat64s_eq_sum, sumFloat64s_eq_sum, hv.sum_eq, hv.length_eq]
  · rw [a2, b2, medianOf_perm _ _ hv]
  · rw [a3, b3, calculatePercentiles_perm _ _ hv, hv.length_eq]

/-- C29, amended. When no pair has a current commit at the zero time value and
every pair has the author email of its current commit among the emails of the
commits, `CalculateStats` depends on the order of the pairs only through the
order in which the velocity samples are added up for the two means: for every
commit list and every permutation of such a pair list, both calls return
statistics, with the same totals, median and percentiles and, for every
author, entries that are the same apart from `AvgVelocity` (same counts, line
totals, first and last commit time and maximum velocity); and the velocity
samples that `AverageVelocity` averages, and for every author those that
`AvgVelocity` averages, are the same up to their order. -/
theorem CalculateStats_pairs_perm (commits : List Commit) (pairs₁ pairs₂ : List CommitPair)
    (hp : pairs₁.Perm pairs₂) (hz : ∀ p ∈ pairs₁, p.Current.Timestamp ≠ 0)
    (hc : ∀ p ∈ pairs₁, ∃ c ∈ commits, c.Email = p.Current.Email) :
    ∃ s₁ s₂, CalculateStats commits pairs₁ = some s₁ ∧
      CalculateStats commits pairs₂ = some s₂ ∧ s₁.agree s₂ ∧
      (pairs₁.filterMap globalSample).Perm (pairs₂.filterMap globalSample) ∧
      ∀ email, (pairs₁.filterMap (authorSample email)).Perm
        (pairs₂.filterMap (authorSample email)) := by
  have hsamples : (pairs₁.filterMap globalSample).Perm (pairs₂.filterMap globalSample) ∧
      ∀ email, (pairs₁.filterMap (authorSample email)).Perm
        (pairs₂.filterMap (authorSample email)) :=
    ⟨hp.filterMap globalSample, fun email => hp.filterMap (authorSample email)⟩
  by_cases h : commits = []
  · subst h
    refine ⟨CalculateStats.init [] pairs₁, CalculateStats.init [] pairs₂,
      CalculateStats_nil pairs₁, CalculateStats_nil pairs₂, ?_, hsamples⟩
    unfold RepositoryStats.agree CalculateStats.init
    simp only [hp.length_eq, true_and, implies_true, and_self]
  · obtain ⟨s₁, s₂, hs₁, hs₂, a1, a2, a3, a4, a5, a6, a7, a8, a9, a10⟩ :=
      CalculateStats_scalars_perm commits pairs₁ pairs₂ h hp
    obtain ⟨t₁, t₂, ht₁, ht₂, _, b2, b3⟩ :=
      CalculateStats_velocity_perm commits pairs₁ pairs₂ h hp
    obtain ⟨u₁, hu₁, c1⟩ := CalculateStats_author_entry commits pairs₁ h
    obtain ⟨u₂, hu₂, c2⟩ := CalculateStats_author_entry commits pairs₂ h
    have e1 : t₁ = s₁ := Option.some.inj (ht₁.symm.trans hs₁)
    have e2 : t₂ = s₂ := Option.some.inj (ht₂.symm.trans hs₂)
    have e3 : u₁ = s₁ := Option.some.inj (hu₁.symm.trans hs₁)
    have e4 : u₂ = s₂ := Option.some.inj (hu₂.symm.trans hs₂)
    subst e1 e2 e3 e4
    refine ⟨_, _, hs₁, hs₂, ⟨a1, a2, a3, a4, a5, a6, a7, a8, a9, a10, b2, b3, ?_⟩, hsamples⟩
    intro email
    rw [c1 email, c2 email, author_entry_perm commits pairs₁ pairs₂ hp hz hc email]

/-- Witness for C29, amended: the two pairs of the test and the same pairs in
reverse order give statistics that are the same apart from the means. -/
theorem CalculateStats_pairs_perm_witness :
    statsPairs.Perm statsPairs.reverse ∧
    (∀ p ∈ statsPairs, p.Current.Timestamp ≠ 0) ∧
    (∀ p ∈ statsPairs, ∃ c ∈ statsCommits, c.Email = p.Current.Email) ∧
    ∃ s₁ s₂, CalculateStats statsCommits statsPairs = some s₁ ∧
      CalculateStats statsCommits statsPairs.reverse = some s₂ ∧ s₁.agree s₂ := by
  have hz : ∀ p ∈ statsPairs, p.Current.Timestamp ≠ 0 := by
    intro p hp
    simp only [statsPairs, List.mem_cons, List.mem_singleton, List.not_mem_nil, or_false] at hp
    rcases hp with rfl | rfl <;> decide
  have hc : ∀ p ∈ statsPairs, ∃ c ∈ statsCommits, c.Email = p.Current.Email := by
    intro p hp
    simp only [statsPairs, List.mem_cons, List.mem_singleton, List.not_mem_nil, or_false] at hp
    rcases hp with rfl | rfl
    · exact ⟨authorCommit "def456" "Jane Smith" "jane@example.com" (sampleNow - 10 * Minute),
        by simp [statsCommits], rfl⟩
    · exact ⟨authorCommit "ghi789" "John Doe" "john@example.com" sampleNow,
        by simp [statsCommits], rfl⟩
  obtain ⟨s₁, s₂, h1, h2, h3, _⟩ :=
    CalculateStats_pairs_perm statsCommits statsPairs statsPairs.reverse
      (List.reverse_perm statsPairs).symm hz hc
  exact ⟨(List.reverse_perm statsPairs).symm, hz, hc, s₁, s₂, h1, h2, h3⟩

/-! ## Detection: independence of the pairs -/

/-- C36. `DetectSuspicious` evaluates each pair independently of the others:
for every detector, whatever its thresholds (valid ones in particular), and
pair lists `a` and `b`, the output on `a ++ b` is the output on `a` followed by
the output on `b`. -/
theorem DetectSuspicious_append (d : Detector) (a b : List CommitPair)
    (rs : Option RepositoryStats) :
    d.DetectSuspicious (a ++ b) rs = d.DetectSuspicious a rs ++ d.DetectSuspicious b rs := by
  rw [DetectSuspicious_eq_filterMap, DetectSuspicious_eq_filterMap,
    DetectSuspicious_eq_filterMap, List.filterMap_append]

/-- Witness for C36: under the valid thresholds `thresholdsDel`, a flagged pair
followed by a zero-change pair and a flagged pair. -/
theorem DetectSuspicious_append_witness :
    New thresholdsDel = (some { thresholds := thresholdsDel }, none) ∧
    (Detector.mk thresholdsDel).DetectSuspicious
        ([samplePair 10 200 Minute] ++ [samplePair 0 0 Minute, samplePair 10 200 Minute]) none
      = (Detector.mk thresholdsDel).DetectSuspicious [samplePair 10 200 Minute] none
        ++ (Detector.mk thresholdsDel).DetectSuspicious
          [samplePair 0 0 Minute, samplePair 10 200 Minute] none :=
  ⟨by norm_num [New, Thresholds.Validate, thresholdsDel],
    DetectSuspicious_append (Detector.mk thresholdsDel) _ _ none⟩

/-! ## Detection: non-positive time deltas without velocity thresholds -/

theorem DetectSuspicious.checkAdditions_mem (d : Detector) (p : CommitPair)
    (rs : List FmtString) (x : FmtString) (h : x ∈ rs) :
    x ∈ DetectSuspicious.checkAdditions d p rs := by
  unfold DetectSuspicious.checkAdditions
  split_ifs
  · exact List.mem_append_left _ h
  · exact h
  · exact h

theorem DetectSuspicious.checkDeletions_mem (d : Detector) (p : CommitPair)
    (rs : List FmtString) (x : FmtString) (h : x ∈ rs) :
    x ∈ DetectSuspicious.checkDeletions d p rs := by
  unfold DetectSuspicious.checkDeletions
  split_ifs
  · exact List.mem_append_left _ h
  · exact h
  · exact h

theorem Duration.Seconds_nonpos (delta : Duration) (h : delta ≤ 0) :
    Duration.Seconds delta ≤ 0 := by
  rw [Duration.Seconds_eq]
  unfold deltaSeconds
  have : (delta : ℚ) ≤ 0 := by exact_mod_cast h
  exact div_nonpos_of_nonpos_of_nonneg this (by norm_num)

theorem DetectSuspicious.evaluate_nonpositive_delta (d : Detector) (p : CommitPair)
    (ha : d.thresholds.MaxAdditionsPerMin = 0) (hd : d.thresholds.MaxDeletionsPerMin = 0)
    (hm : d.thresholds.MinTimeDeltaSeconds > 0)
    (hc : p.Stats.Additions ≠ 0 ∨ p.Stats.Deletions ≠ 0) (hneg : p.TimeDelta ≤ 0) :
    ∃ r, DetectSuspicious.evaluate d p = some r ∧ r.Pair = p ∧
      r.AdditionVelocity = none ∧ r.DeletionVelocity = none ∧
      shortTimeDeltaReason d.thresholds p ∈ r.Reasons := by
  have hdis : ¬ (d.thresholds.MaxAdditionsPerMin > 0 ∨ d.thresholds.MaxDeletionsPerMin > 0) := by
    rw [ha, hd]
    simp
  have hv := DetectSuspicious.velocities_disabled d p hdis
  have hz : ¬ (p.Stats.Additions = 0 ∧ p.Stats.Deletions = 0) := by
    rintro ⟨h1, h2⟩
    rcases hc with h | h
    · exact h h1
    · exact h h2
  have hlt : Duration.Seconds p.TimeDelta < (d.thresholds.MinTimeDeltaSeconds : ℚ) := by
    have h1 := Duration.Seconds_nonpos p.TimeDelta hneg
    have h2 : (0 : ℚ) < (d.thresholds.MinTimeDeltaSeconds : ℚ) := by exact_mod_cast hm
    linarith
  have htime : DetectSuspicious.checkTimeDelta d p [] = [shortTimeDeltaReason d.thresholds p] := by
    unfold DetectSuspicious.checkTimeDelta shortTimeDeltaReason
    rw [if_pos hm, if_pos hlt]
    rfl
  have hmem : shortTimeDeltaReason d.thresholds p
      ∈ DetectSuspicious.reasons d p none none := by
    unfold DetectSuspicious.reasons
    simp only [DetectSuspicious.checkAdditionVelocity, DetectSuspicious.checkDeletionVelocity]
    apply DetectSuspicious.checkDeletions_mem
    apply DetectSuspicious.checkAdditions_mem
    rw [htime]
    exact List.mem_singleton_self _
  have hlen : (DetectSuspicious.reasons d p none none).length > 0 :=
    List.length_pos_of_mem hmem
  refine ⟨{ Pair := p, AdditionVelocity := none, DeletionVelocity := none,
            Reasons := DetectSuspicious.reasons d p none none }, ?_, rfl, rfl, rfl, hmem⟩
  unfold DetectSuspicious.evaluate
  rw [if_neg hz, hv]
  simp only [if_pos hlen]

/-- C38. When both velocity thresholds are 0 and `MinTimeDeltaSeconds > 0`, a
pair with non-zero filtered change and a time delta <= 0 is flagged, without
velocities and with the short-time-delta reason, rather than skipped; and for
such a pair the `continue` of the velocity computation is taken exactly when a
velocity threshold is enabled. -/
theorem DetectSuspicious_flags_nonpositive_delta (d : Detector) (pairs : List CommitPair)
    (rs : Option RepositoryStats) (p : CommitPair) (hp : p ∈ pairs)
    (hc : p.Stats.Additions ≠ 0 ∨ p.Stats.Deletions ≠ 0) (hneg : p.TimeDelta ≤ 0) :
    (d.thresholds.MaxAdditionsPerMin = 0 → d.thresholds.MaxDeletionsPerMin = 0 →
      d.thresholds.MinTimeDeltaSeconds > 0 →
      ∃ r ∈ d.DetectSuspicious pairs rs, r.Pair = p ∧
        r.AdditionVelocity = none ∧ r.DeletionVelocity = none ∧
        shortTimeDeltaReason d.thresholds p ∈ r.Reasons) ∧
    (DetectSuspicious.velocities d p = none ↔
      (d.thresholds.MaxAdditionsPerMin > 0 ∨ d.thresholds.MaxDeletionsPerMin > 0)) := by
  constructor
  · intro ha hd hm
    obtain ⟨r, hr, h1, h2, h3, h4⟩ :=
      DetectSuspicious.evaluate_nonpositive_delta d p ha hd hm hc hneg
    exact ⟨r, (DetectSuspicious.mem_iff d pairs rs r).mpr ⟨p, hp, hr⟩, h1, h2, h3, h4⟩
  · constructor
    · intro hnone
      by_contra hdis
      rw [DetectSuspicious.velocities_disabled d p hdis] at hnone
      exact absurd hnone (by simp)
    · intro hen
      exact DetectSuspicious.velocities_enabled_nonpos d p hen hneg

/-- Witness for C38: under `thresholdsMin` a pair with 10 additions and a time
delta of minus one minute is flagged with the short-time-delta reason. -/
theorem DetectSuspicious_flags_nonpositive_delta_witness :
    ∃ r ∈ (Detector.mk thresholdsMin).DetectSuspicious [samplePair 10 0 (-Minute)] none,
      r.Pair = samplePair 10 0 (-Minute) ∧
      r.AdditionVelocity = none ∧ r.DeletionVelocity = none ∧
      shortTimeDeltaReason thresholdsMin (samplePair 10 0 (-Minute)) ∈ r.Reasons :=
  (DetectSuspicious_flags_nonpositive_delta (Detector.mk thresholdsMin)
    [samplePair 10 0 (-Minute)] none (samplePair 10 0 (-Minute))
    (List.mem_singleton_self _) (Or.inl (by decide)) (by decide)).1
    rfl rfl (by decide)

/-! ## Statistics: the time span is never negative -/

theorem first_last_foldl_le (commits : List Commit) (first last : Int) (h : first ≤ last) :
    commits.foldl (fun f c => firstAfter f c.Timestamp) first
      ≤ commits.foldl (fun l c => lastAfter l c.Timestamp) last := by
  induction commits generalizing first last with
  | nil => exact h
  | cons c rest ih =>
    rw [List.foldl_cons, List.foldl_cons]
    apply ih
    have k1 : ∀ g t : Int, firstAfter g t = if g = 0 ∨ t < g then t else g := fun _ _ => rfl
    have k2 : ∀ g t : Int, lastAfter g t = if g = 0 ∨ t > g then t else g := fun _ _ => rfl
    rw [k1, k2]
    split_ifs <;> (show @LE.le Int _ _ _) <;> omega

/-- C39. For every non-empty commit list, in any order and including commits
whose timestamp is the zero time value, `CalculateStats` returns statistics
with `FirstCommit <= LastCommit`, so `TimeSpan` is not negative. -/
theorem CalculateStats_first_le_last (commits : List Commit) (pairs : List CommitPair)
    (h : commits ≠ []) :
    ∃ s, CalculateStats commits pairs = some s ∧
      s.FirstCommit ≤ s.LastCommit ∧ 0 ≤ s.TimeSpan := by
  obtain ⟨s, hs, _, _, _, h4, h5, h6, _⟩ := CalculateStats_of_nonempty commits pairs h
  have hle : s.FirstCommit ≤ s.LastCommit := by
    rw [h4, h5]
    exact first_last_foldl_le commits 0 0 (le_refl _)
  refine ⟨s, hs, hle, ?_⟩
  rw [h6, Time.Sub_eq_saturate]
  exact saturate_nonneg _ (sub_nonneg.mpr hle)

/-- Witness for C39: a commit at the zero time value followed by a commit 5
nanoseconds later. -/
theorem CalculateStats_first_le_last_witness :
    ∃ s, CalculateStats [sampleCommit "abc123",
        authorCommit "def456" "Ann" "ann@example.com" 5] [] = some s ∧
      s.FirstCommit ≤ s.LastCommit ∧ 0 ≤ s.TimeSpan :=
  CalculateStats_first_le_last _ [] (List.cons_ne_nil _ _)

/-! ## File exclusion -/

theorem shouldExcludeFile.loop_iff (fp : Filepath) (filePath : String)
    (patterns : List String) :
    shouldExcludeFile.loop fp filePath patterns = true ↔
      ∃ pattern ∈ patterns,
        fp.matches pattern (fp.Base filePath) ∨ fp.matches pattern filePath := by
  induction patterns with
  | nil => simp [shouldExcludeFile.loop]
  | cons pattern rest ih =>
    unfold shouldExcludeFile.loop
    simp only [Filepath.matches, List.mem_cons, exists_eq_or_imp]
    by_cases h1 : ((fp.Match pattern (fp.Base filePath)).2.isNone
        && (fp.Match pattern (fp.Base filePath)).1) = true
    · rw [if_pos h1]
      simp only [Bool.and_eq_true, Option.isNone_iff_eq_none] at h1
      simp [h1]
    · rw [if_neg h1]
      simp only [Bool.and_eq_true, Option.isNone_iff_eq_none] at h1
      by_cases h2 : ((fp.Match pattern filePath).2.isNone
          && (fp.Match pattern filePath).1) = true
      · rw [if_pos h2]
        simp only [Bool.and_eq_true, Option.isNone_iff_eq_none] at h2
        simp [h2]
      · rw [if_neg h2]
        simp only [Bool.and_eq_true, Option.isNone_iff_eq_none] at h2
        rw [ih]
        simp only [Filepath.matches]
        constructor
        · intro h
          exact Or.inr h
        · rintro (h | h)
          · rcases h with h | h
            · exact absurd h h1
            · exact absurd h h2
          · exact h

/-- C32. With glob matching taken as given, `shouldExcludeFile(path)` returns
true if and only if some configured pattern matches either the base filename
of the path or the full path; with no configured pattern it returns false for
every path. -/
theorem shouldExcludeFile_iff (fp : Filepath) (r : gitRepository) (filePath : String) :
    (r.shouldExcludeFile fp filePath = true ↔
      ∃ pattern ∈ r.excludeFiles,
        fp.matches pattern (fp.Base filePath) ∨ fp.matches pattern filePath) ∧
    (r.excludeFiles = [] → r.shouldExcludeFile fp filePath = false) := by
  refine ⟨?_, shouldExcludeFile_no_patterns fp r filePath⟩
  unfold gitRepository.shouldExcludeFile
  by_cases h : r.excludeFiles.length = 0
  · rw [if_pos h, List.length_eq_zero.mp h]
    simp
  · rw [if_neg h]
    exact shouldExcludeFile.loop_iff fp filePath r.excludeFiles

/-- Witness for C32: with the patterns `*.log`, `*.tmp` and `package-lock.json`,
`logs/error.log` and `dir/subdir/test.tmp` are excluded by their base names and
`main.go` is not excluded. -/
theorem shouldExcludeFile_iff_witness :
    (sampleRepository [] ["*.log", "*.tmp", "package-lock.json"]).shouldExcludeFile
      exclusionFilepath "logs/error.log" = true ∧
    (sampleRepository [] ["*.log", "*.tmp", "package-lock.json"]).shouldExcludeFile
      exclusionFilepath "dir/subdir/test.tmp" = true ∧
    (sampleRepository [] ["*.log", "*.tmp", "package-lock.json"]).shouldExcludeFile
      exclusionFilepath "main.go" = false ∧
    (sampleRepository [] []).shouldExcludeFile exclusionFilepath "logs/error.log" = false := by
  refine ⟨?_, ?_, ?_, ?_⟩
  · exact (shouldExcludeFile_iff exclusionFilepath _ "logs/error.log").1.mpr
      ⟨"*.log", by simp [sampleRepository], Or.inl ⟨rfl, by decide⟩⟩
  · exact (shouldExcludeFile_iff exclusionFilepath _ "dir/subdir/test.tmp").1.mpr
      ⟨"*.tmp", by simp [sampleRepository], Or.inl ⟨rfl, by decide⟩⟩
  · decide
  · exact (shouldExcludeFile_iff exclusionFilepath (sampleRepository [] [])
      "logs/error.log").2 rfl

/-! ## The statistics section of the JSON report -/

theorem elementAt_eq_get (xs : List ℚ) (n : Nat) (h : n < xs.length) :
    elementAt xs (n : Int) = xs.get ⟨n, h⟩ := by
  unfold elementAt
  simp [List.getD_eq_getElem?_getD, h]

theorem elementAt_mono (sorted : List ℚ) (hs : sorted.Sorted (fun a b => a ≤ b))
    (i j : Int) (h0 : 0 ≤ i) (hij : i ≤ j) (hj : j < (sorted.length : Int)) :
    elementAt sorted i ≤ elementAt sorted j := by
  lift i to ℕ using h0
  lift j to ℕ using (le_trans (Int.natCast_nonneg i) hij)
  have hj2 : j < sorted.length := by exact_mod_cast hj
  have hij2 : i ≤ j := by exact_mod_cast hij
  have hi2 : i < sorted.length := lt_of_le_of_lt hij2 hj2
  rw [elementAt_eq_get sorted i hi2, elementAt_eq_get sorted j hj2]
  exact hs.rel_get_of_le (Fin.mk_le_mk.mpr hij2)

theorem elementAt_mem (xs : List ℚ) (i : Int) (h0 : 0 ≤ i) (h1 : i < (xs.length : Int)) :
    elementAt xs i ∈ xs := by
  lift i to ℕ using h0
  have h2 : i < xs.length := by exact_mod_cast h1
  rw [elementAt_eq_get xs i h2]
  exact List.get_mem xs i h2

theorem elementAt_first_le (sorted : List ℚ) (hs : sorted.Sorted (fun a b => a ≤ b))
    (x : ℚ) (hx : x ∈ sorted) : elementAt sorted 0 ≤ x := by
  obtain ⟨n, hn, rfl⟩ := List.getElem_of_mem hx
  have := elementAt_mono sorted hs 0 (n : Int) (le_refl _) (Int.natCast_nonneg n)
    (by exact_mod_cast hn)
  rw [elementAt_eq_get sorted n hn] at this
  exact this

theorem elementAt_le_last (sorted : List ℚ) (hs : sorted.Sorted (fun a b => a ≤ b))
    (x : ℚ) (hx : x ∈ sorted) : x ≤ elementAt sorted ((sorted.length : Int) - 1) := by
  obtain ⟨n, hn, rfl⟩ := List.getElem_of_mem hx
  have := elementAt_mono sorted hs (n : Int) ((sorted.length : Int) - 1)
    (Int.natCast_nonneg n) (by omega) (by omega)
  rw [elementAt_eq_get sorted n hn] at this
  exact this

theorem percentileRank_bounds (n : Nat) (p : ℚ) (hn : n ≠ 0) (h0 : 0 ≤ p) (h1 : p ≤ 100) :
    0 ≤ percentileRank n p ∧ percentileRank n p ≤ (n : ℚ) - 1 := by
  unfold percentileRank
  have hn1 : (1 : ℚ) ≤ (n : ℚ) := by exact_mod_cast Nat.one_le_iff_ne_zero.mpr hn
  have hm : (0 : ℚ) ≤ (n : ℚ) - 1 := by linarith
  constructor
  · positivity
  · have hp : p / 100 ≤ 1 := by
      rw [div_le_one (by norm_num)]
      exact h1
    calc p / 100 * ((n : ℚ) - 1) ≤ 1 * ((n : ℚ) - 1) := mul_le_mul_of_nonneg_right hp hm
      _ = (n : ℚ) - 1 := one_mul _

theorem percentileRank_mono (n : Nat) (p q : ℚ) (hn : n ≠ 0) (hpq : p ≤ q) :
    percentileRank n p ≤ percentileRank n q := by
  unfold percentileRank
  have hn1 : (1 : ℚ) ≤ (n : ℚ) := by exact_mod_cast Nat.one_le_iff_ne_zero.mpr hn
  have hm : (0 : ℚ) ≤ (n : ℚ) - 1 := by linarith
  apply mul_le_mul_of_nonneg_right _ hm
  exact div_le_div_of_nonneg_right hpq (by norm_num)

theorem interpolated_cell (sorted : List ℚ) (p : ℚ) :
    interpolated sorted p
      = elementAt sorted (Int.floor (percentileRank sorted.length p))
        + Int.fract (percentileRank sorted.length p)
          * (elementAt sorted (Int.floor (percentileRank sorted.length p) + 1)
            - elementAt sorted (Int.floor (percentileRank sorted.length p))) := by
  by_cases hf : Int.fract (percentileRank sorted.length p) = 0
  · unfold interpolated
    simp only [hf, if_true, zero_mul, add_zero]
  · have hpos : 0 < Int.fract (percentileRank sorted.length p) :=
      lt_of_le_of_ne (Int.fract_nonneg _) (Ne.symm hf)
    have h1 : ((Int.floor (percentileRank sorted.length p) : Int) : ℚ)
        < percentileRank sorted.length p := by
      have := Int.floor_add_fract (percentileRank sorted.length p)
      linarith
    rw [interpolated_between sorted p _ h1 (Int.lt_floor_add_one _), Int.self_sub_floor]
    ring

theorem interpolated_bounds (sorted : List ℚ) (hs : sorted.Sorted (fun a b => a ≤ b))
    (p : ℚ) (hn : sorted ≠ []) (h0 : 0 ≤ p) (h1 : p ≤ 100) :
    0 ≤ Int.floor (percentileRank sorted.length p) ∧
    Int.floor (percentileRank sorted.length p) ≤ (sorted.length : Int) - 1 ∧
    elementAt sorted (Int.floor (percentileRank sorted.length p)) ≤ interpolated sorted p ∧
    interpolated sorted p ≤ elementAt sorted ((sorted.length : Int) - 1) ∧
    (Int.fract (percentileRank sorted.length p) ≠ 0 →
      Int.floor (percentileRank sorted.length p) + 1 ≤ (sorted.length : Int) - 1 ∧
      interpolated sorted p
        ≤ elementAt sorted (Int.floor (percentileRank sorted.length p) + 1)) := by
  have hlen : sorted.length ≠ 0 := fun h => hn (List.length_eq_zero.mp h)
  obtain ⟨r0, r1⟩ := percentileRank_bounds sorted.length p hlen h0 h1
  have k0 : 0 ≤ Int.floor (percentileRank sorted.length p) := Int.floor_nonneg.mpr r0
  have k1 : Int.floor (percentileRank sorted.length p) ≤ (sorted.length : Int) - 1 := by
    have : ((Int.floor (percentileRank sorted.length p) : Int) : ℚ)
        ≤ (((sorted.length : Int) - 1 : Int) : ℚ) := by
      push_cast
      exact le_trans (Int.floor_le _) r1
    exact_mod_cast this
  have f0 := Int.fract_nonneg (percentileRank sorted.length p)
  have f1 := Int.fract_lt_one (percentileRank sorted.length p)
  have hnext : Int.fract (percentileRank sorted.length p) ≠ 0 →
      Int.floor (percentileRank sorted.length p) + 1 ≤ (sorted.length : Int) - 1 := by
    intro hf
    have hpos : 0 < Int.fract (percentileRank sorted.length p) :=
      lt_of_le_of_ne f0 (Ne.symm hf)
    have h3 := Int.floor_add_fract (percentileRank sorted.length p)
    have : ((Int.floor (percentileRank sorted.length p) : Int) : ℚ)
        < (((sorted.length : Int) - 1 : Int) : ℚ) := by
      push_cast
      linarith
    have h4 : Int.floor (percentileRank sorted.length p) < (sorted.length : Int) - 1 := by
      exact_mod_cast this
    omega
  have hstep : Int.fract (percentileRank sorted.length p) ≠ 0 →
      elementAt sorted (Int.floor (percentileRank sorted.length p))
        ≤ elementAt sorted (Int.floor (percentileRank sorted.length p) + 1) := by
    intro hf
    exact elementAt_mono sorted hs _ _ k0 (by omega) (by have := hnext hf; omega)
  have hcell := interpolated_cell sorted p
  refine ⟨k0, k1, ?_, ?_, ?_⟩
  · rw [hcell]
    by_cases hf : Int.fract (percentileRank sorted.length p) = 0
    · rw [hf]
      simp
    · have := hstep hf
      nlinarith
  · by_cases hf : Int.fract (percentileRank sorted.length p) = 0
    · rw [hcell, hf]
      simp only [zero_mul, add_zero]
      exact elementAt_mono sorted hs _ _ k0 k1 (by omega)
    · have h5 := hstep hf
      have h6 := elementAt_mono sorted hs _ ((sorted.length : Int) - 1)
        (by omega : (0 : Int) ≤ Int.floor (percentileRank sorted.length p) + 1)
        (hnext hf) (by omega)
      have h7 : interpolated sorted p
          ≤ elementAt sorted (Int.floor (percentileRank sorted.length p) + 1) := by
        rw [hcell]
        nlinarith
      exact le_trans h7 h6
  · intro hf
    refine ⟨hnext hf, ?_⟩
    have h5 := hstep hf
    rw [hcell]
    nlinarith

theorem interpolated_mono (sorted : List ℚ) (hs : sorted.Sorted (fun a b => a ≤ b))
    (p q : ℚ) (hn : sorted ≠ []) (h0 : 0 ≤ p) (hpq : p ≤ q) (h1 : q ≤ 100) :
    interpolated sorted p ≤ interpolated sorted q := by
  have hlen : sorted.length ≠ 0 := fun h => hn (List.length_eq_zero.mp h)
  obtain ⟨a0, a1, a2, a3, a4⟩ := interpolated_bounds sorted hs p hn h0 (le_trans hpq h1)
  obtain ⟨b0, b1, b2, b3, b4⟩ := interpolated_bounds sorted hs q hn (le_trans h0 hpq) h1
  have hr := percentileRank_mono sorted.length p q hlen hpq
  have hk : Int.floor (percentileRank sorted.length p)
      ≤ Int.floor (percentileRank sorted.length q) := Int.floor_mono hr
  rcases lt_or_eq_of_le hk with hlt | heq
  · by_cases hf : Int.fract (percentileRank sorted.length p) = 0
    · have h1 : interpolated sorted p
          = elementAt sorted (Int.floor (percentileRank sorted.length p)) := by
        rw [interpolated_cell, hf]
        simp
      rw [h1]
      exact le_trans (elementAt_mono sorted hs _ _ a0 hk (by omega)) b2
    · obtain ⟨_, h5⟩ := a4 hf
      exact le_trans h5 (le_trans (elementAt_mono sorted hs _ _ (by omega) (by omega)
        (by omega)) b2)
  · have e1 := Int.floor_add_fract (percentileRank sorted.length p)
    have e2 := Int.floor_add_fract (percentileRank sorted.length q)
    rw [heq] at e1
    have hfr : Int.fract (percentileRank sorted.length p)
        ≤ Int.fract (percentileRank sorted.length q) := by linarith
    rw [interpolated_cell sorted p, interpolated_cell sorted q, heq]
    by_cases hf : Int.fract (percentileRank sorted.length q) = 0
    · have hf2 : Int.fract (percentileRank sorted.length p) = 0 :=
        le_antisymm (hf ▸ hfr) (Int.fract_nonneg _)
      rw [hf, hf2]
    · have h6 : elementAt sorted (Int.floor (percentileRank sorted.length q))
          ≤ elementAt sorted (Int.floor (percentileRank sorted.length q) + 1) :=
        elementAt_mono sorted hs _ _ b0 (by omega) (by have := (b4 hf).1; omega)
      nlinarith

theorem interpolated_zero (sorted : List ℚ) : interpolated sorted 0 = elementAt sorted 0 := by
  have hr : percentileRank sorted.length 0 = ((0 : Int) : ℚ) := by
    simp [percentileRank]
  rw [interpolated_cell, hr, Int.fract_intCast, Int.floor_intCast]
  simp

theorem interpolated_hundred (sorted : List ℚ) :
    interpolated sorted 100 = elementAt sorted ((sorted.length : Int) - 1) := by
  have hr : percentileRank sorted.length 100 = (((sorted.length : Int) - 1 : Int) : ℚ) := by
    unfold percentileRank
    push_cast
    norm_num
  rw [interpolated_cell, hr, Int.fract_intCast, Int.floor_intCast]
  simp

/-- C33. For every non-empty sorted list and every `p` with `0 <= p <= 100`,
the two indices `floor(rank)` and `ceil(rank)` of `percentile` lie within
`[0, n-1]`, so the lookup is never out of range and a value is returned;
`p = 0` returns the minimum and `p = 100` the maximum of the list. -/
theorem percentile_indices_in_range (sorted : List ℚ) (p : ℚ) (hn : sorted ≠ [])
    (hs : sorted.Sorted (fun a b => a ≤ b)) (h0 : 0 ≤ p) (h1 : p ≤ 100) :
    (0 ≤ Int.floor ((p / 100) * (((sorted.length : Int) - 1 : Int) : ℚ)) ∧
      Int.floor ((p / 100) * (((sorted.length : Int) - 1 : Int) : ℚ))
        ≤ (sorted.length : Int) - 1 ∧
      0 ≤ Int.ceil ((p / 100) * (((sorted.length : Int) - 1 : Int) : ℚ)) ∧
      Int.ceil ((p / 100) * (((sorted.length : Int) - 1 : Int) : ℚ))
        ≤ (sorted.length : Int) - 1) ∧
    (∃ v, percentile sorted p = some v) ∧
    (∃ m, percentile sorted 0 = some m ∧ m ∈ sorted ∧ ∀ x ∈ sorted, m ≤ x) ∧
    (∃ M, percentile sorted 100 = some M ∧ M ∈ sorted ∧ ∀ x ∈ sorted, x ≤ M) := by
  have hlen : sorted.length ≠ 0 := fun h => hn (List.length_eq_zero.mp h)
  have hpos : 0 < sorted.length := Nat.pos_of_ne_zero hlen
  obtain ⟨b1, b2, b3, b4⟩ := percentile_rank_bounds sorted p hlen h0 h1
  refine ⟨⟨b1, by omega, b3, by omega⟩, percentile_some sorted p h0 h1, ?_, ?_⟩
  · refine ⟨elementAt sorted 0, ?_, ?_, ?_⟩
    · rw [percentile_eq_interpolated sorted 0 hn (le_refl _) (by norm_num), interpolated_zero]
    · exact elementAt_mem sorted 0 (le_refl _) (by exact_mod_cast hpos)
    · exact elementAt_first_le sorted hs
  · refine ⟨elementAt sorted ((sorted.length : Int) - 1), ?_, ?_, ?_⟩
    · rw [percentile_eq_interpolated sorted 100 hn (by norm_num) (le_refl _),
        interpolated_hundred]
    · exact elementAt_mem sorted _ (by omega) (by omega)
    · exact elementAt_le_last sorted hs

/-- Witness for C33: on the sorted list 1, 2, 3, 4, 5 of the test, `p = 0`
returns 1 and `p = 100` returns 5. -/
theorem percentile_indices_in_range_witness :
    percentile [1, 2, 3, 4, 5] 0 = some 1 ∧ percentile [1, 2, 3, 4, 5] 100 = some 5 := by
  obtain ⟨_, _, ⟨m, hm, hmem, hmin⟩, ⟨M, hM, hMmem, hmax⟩⟩ :=
    percentile_indices_in_range [1, 2, 3, 4, 5] 50 (by simp) (by decide) (by norm_num)
      (by norm_num)
  have e1 : m = 1 := by
    have h1 := hmin 1 (by simp)
    simp only [List.mem_cons, List.mem_singleton, List.not_mem_nil, or_false] at hmem
    rcases hmem with h | h | h | h | h <;> rw [h] at h1 ⊢ <;> norm_num at h1 ⊢
  have e2 : M = 5 := by
    have h1 := hmax 5 (by simp)
    simp only [List.mem_cons, List.mem_singleton, List.not_mem_nil, or_false] at hMmem
    rcases hMmem with h | h | h | h | h <;> rw [h] at h1 ⊢ <;> norm_num at h1 ⊢
  rw [hm, hM, e1, e2]
  exact ⟨rfl, rfl⟩

theorem medianOf_eq_interpolated (values : List ℚ) (hn : values ≠ []) :
    medianOf values = interpolated (sortFloat64s values) 50 := by
  have hlen : values.length ≠ 0 := fun h => hn (List.length_eq_zero.mp h)
  unfold medianOf
  simp only [if_neg hlen]
  have hsl := sortFloat64s_length values
  by_cases hodd : values.length % 2 = 1
  · rw [if_pos hodd]
    have hr : percentileRank (sortFloat64s values).length 50
        = (((values.length / 2 : Nat) : Int) : ℚ) := by
      rw [hsl]
      unfold percentileRank
      have h2 : values.length = 2 * (values.length / 2) + 1 := by omega
      have h3 : (values.length : ℚ) = 2 * ((values.length / 2 : Nat) : ℚ) + 1 := by
        exact_mod_cast h2
      rw [h3, Int.cast_natCast]
      ring
    rw [interpolated_cell, hr, Int.fract_intCast, Int.floor_intCast]
    simp
  · rw [if_neg hodd]
    have h2 : values.length = 2 * (values.length / 2) := by omega
    have hm : 1 ≤ values.length / 2 := by omega
    have h3 : (values.length : ℚ) = 2 * ((values.length / 2 : Nat) : ℚ) := by
      exact_mod_cast h2
    have hr : percentileRank (sortFloat64s values).length 50
        = ((values.length / 2 : Nat) : ℚ) - 1 / 2 := by
      rw [hsl]
      unfold percentileRank
      rw [h3]
      ring
    have hz : ((((values.length / 2 : Nat) : Int) - 1 : Int) : ℚ)
        = ((values.length / 2 : Nat) : ℚ) - 1 := by
      rw [Int.cast_sub, Int.cast_natCast, Int.cast_one]
    rw [interpolated_between (sortFloat64s values) 50 (((values.length / 2 : Nat) : Int) - 1)
      (by rw [hr, hz]; linarith) (by rw [hr, hz]; linarith), hr, hz]
    have hidx : (((values.length / 2 : Nat) : Int) - 1 + 1) = ((values.length / 2 : Nat) : Int) := by
      ring
    rw [hidx]
    ring

/-- C34. For every non-empty list of values, in exact arithmetic,
`calculateMedian(values)` equals the `P50` of `calculatePercentiles(values)`;
hence whenever the statistics returned by `CalculateStats` have percentiles,
`MedianVelocity` is `VelocityPercentile.P50`. -/
theorem calculateMedian_eq_p50 :
    (∀ values : List ℚ, values ≠ [] →
      ∃ pc, calculatePercentiles values = some pc ∧ calculateMedian values = some pc.P50) ∧
    (∀ (commits : List Commit) (pairs : List CommitPair),
      ∃ s, CalculateStats commits pairs = some s ∧
        ∀ pc, s.VelocityPercentile = some pc → s.MedianVelocity = pc.P50) := by
  constructor
  · intro values hn
    refine ⟨_, calculatePercentiles_eq values hn, ?_⟩
    rw [calculateMedian_eq, medianOf_eq_interpolated values hn]
  · intro commits pairs
    by_cases h : commits = []
    · subst h
      refine ⟨_, CalculateStats_nil pairs, ?_⟩
      intro pc hpc
      exact absurd hpc (by simp [CalculateStats.init])
    · obtain ⟨s, hs, _, h2, h3, _⟩ := CalculateStats_velocity_fields commits pairs h
      refine ⟨s, hs, ?_⟩
      intro pc hpc
      rw [h3] at hpc
      by_cases hl : (pairs.filterMap globalSample).length > 0
      · rw [if_pos hl] at hpc
        have hne : pairs.filterMap globalSample ≠ [] := List.length_pos.mp hl
        rw [calculatePercentiles_eq _ hne] at hpc
        rw [h2, medianOf_eq_interpolated _ hne, ← Option.some.inj hpc]
      · rw [if_neg hl] at hpc
        exact absurd hpc (by simp)

/-- Witness for C34: the statistics of the test have percentiles, and their
median velocity is the 50th percentile. -/
theorem calculateMedian_eq_p50_witness :
    (∃ pc, calculatePercentiles [4, 1, 3, 2] = some pc ∧
      calculateMedian [4, 1, 3, 2] = some pc.P50) ∧
    ∃ s, CalculateStats statsCommits statsPairs = some s ∧
      ∀ pc, s.VelocityPercentile = some pc → s.MedianVelocity = pc.P50 :=
  ⟨calculateMedian_eq_p50.1 [4, 1, 3, 2] (List.cons_ne_nil _ _),
    calculateMedian_eq_p50.2 statsCommits statsPairs⟩

/-- C35, amended. In exact arithmetic (every `float64` operation of the source
taken as the exact operation on rationals), for every non-empty list of
values the percentiles returned by `calculatePercentiles` are ordered and
bounded by the sample:
`min(values) <= P50 <= P75 <= P90 <= P95 <= P99 <= max(values)`. -/
theorem calculatePercentiles_ordered (values : List ℚ) (hn : values ≠ []) :
    ∃ pc, calculatePercentiles values = some pc ∧
      (∃ m ∈ values, (∀ x ∈ values, m ≤ x) ∧ m ≤ pc.P50) ∧
      pc.P50 ≤ pc.P75 ∧ pc.P75 ≤ pc.P90 ∧ pc.P90 ≤ pc.P95 ∧ pc.P95 ≤ pc.P99 ∧
      (∃ M ∈ values, (∀ x ∈ values, x ≤ M) ∧ pc.P99 ≤ M) := by
  have hs : (sortFloat64s values).Sorted (fun a b => a ≤ b) :=
    List.sorted_insertionSort _ values
  have hperm : (sortFloat64s values).Perm values := List.perm_insertionSort _ values
  have hne := sortFloat64s_ne_nil values hn
  have hlen : (sortFloat64s values).length ≠ 0 := fun h => hne (List.length_eq_zero.mp h)
  have hpos : 0 < (sortFloat64s values).length := Nat.pos_of_ne_zero hlen
  obtain ⟨a0, a1, a2, _, _⟩ := interpolated_bounds (sortFloat64s values) hs 50 hne
    (by norm_num) (by norm_num)
  obtain ⟨_, _, _, b3, _⟩ := interpolated_bounds (sortFloat64s values) hs 99 hne
    (by norm_num) (by norm_num)
  refine ⟨_, calculatePercentiles_eq values hn, ?_, ?_, ?_, ?_, ?_, ?_⟩
  · refine ⟨elementAt (sortFloat64s values) 0, ?_, ?_, ?_⟩
    · exact hperm.subset (elementAt_mem _ 0 (le_refl _) (by exact_mod_cast hpos))
    · intro x hx
      exact elementAt_first_le _ hs x (hperm.symm.subset hx)
    · exact le_trans (elementAt_mono _ hs 0 _ (le_refl _) a0 (by omega)) a2
  · exact interpolated_mono _ hs 50 75 hne (by norm_num) (by norm_num) (by norm_num)
  · exact interpolated_mono _ hs 75 90 hne (by norm_num) (by norm_num) (by norm_num)
  · exact interpolated_mono _ hs 90 95 hne (by norm_num) (by norm_num) (by norm_num)
  · exact interpolated_mono _ hs 95 99 hne (by norm_num) (by norm_num) (by norm_num)
  · refine ⟨elementAt (sortFloat64s values) (((sortFloat64s values).length : Int) - 1),
      ?_, ?_, b3⟩
    · exact hperm.subset (elementAt_mem _ _ (by omega) (by omega))
    · intro x hx
      exact elementAt_le_last _ hs x (hperm.symm.subset hx)

/-- Witness for C35, amended: in exact arithmetic the percentiles of the sample
1..10 lie between 1 and 10 in increasing order. -/
theorem calculatePercentiles_ordered_witness :
    sampleOneToTen ≠ [] ∧
    ∃ pc, calculatePercentiles sampleOneToTen = some pc ∧
      (∃ m ∈ sampleOneToTen, (∀ x ∈ sampleOneToTen, m ≤ x) ∧ m ≤ pc.P50) ∧
      pc.P50 ≤ pc.P75 ∧ pc.P75 ≤ pc.P90 ∧ pc.P90 ≤ pc.P95 ∧ pc.P95 ≤ pc.P99 ∧
      (∃ M ∈ sampleOneToTen, (∀ x ∈ sampleOneToTen, x ≤ M) ∧ pc.P99 ≤ M) :=
  ⟨by decide, calculatePercentiles_ordered sampleOneToTen (by decide)⟩

/-! ## Detection: monotonicity in the thresholds -/

theorem criteria_mono (t u : Thresholds) (hs : t.sameCriteria u)
    (hr : u.atLeastAsPermissive t) (p : CommitPair) :
    (shortTimeDelta u p → shortTimeDelta t p) ∧
    (largeAdditions u p → largeAdditions t p) ∧
    (largeDeletions u p → largeDeletions t p) ∧
    (highAdditionVelocity u p → highAdditionVelocity t p) ∧
    (highDeletionVelocity u p → highDeletionVelocity t p) := by
  obtain ⟨s1, s2, s3, s4, s5⟩ := hs
  obtain ⟨r1, r2, r3, r4, r5⟩ := hr
  refine ⟨?_, ?_, ?_, ?_, ?_⟩
  · rintro ⟨h1, h2⟩
    refine ⟨s5.mpr h1, lt_of_lt_of_le h2 ?_⟩
    exact_mod_cast r5
  · rintro ⟨h1, h2⟩
    exact ⟨s1.mpr h1, lt_of_le_of_lt r1 h2⟩
  · rintro ⟨h1, h2⟩
    exact ⟨s2.mpr h1, lt_of_le_of_lt r2 h2⟩
  · rintro ⟨h1, h2⟩
    exact ⟨s3.mpr h1, lt_of_le_of_lt r3 h2⟩
  · rintro ⟨h1, h2⟩
    exact ⟨s4.mpr h1, lt_of_le_of_lt r4 h2⟩

theorem indicator_le (a b : Prop) [Decidable a] [Decidable b] (h : a → b) :
    (if a then 1 else 0 : Nat) ≤ (if b then 1 else 0) := by
  by_cases ha : a
  · rw [if_pos ha, if_pos (h ha)]
  · rw [if_neg ha]
    exact Nat.zero_le _

theorem DetectSuspicious.evaluate_mono (d e : Detector)
    (hs : d.thresholds.sameCriteria e.thresholds)
    (hr : e.thresholds.atLeastAsPermissive d.thresholds) (p : CommitPair)
    (hpos : 0 < p.TimeDelta) (r' : SuspiciousCommit)
    (h : DetectSuspicious.evaluate e p = some r') :
    ∃ r, DetectSuspicious.evaluate d p = some r ∧ r.Pair = r'.Pair ∧
      (DetectSuspicious.checkTimeDelta e r'.Pair []).length
        ≤ (DetectSuspicious.checkTimeDelta d r.Pair []).length ∧
      (DetectSuspicious.checkAdditions e r'.Pair []).length
        ≤ (DetectSuspicious.checkAdditions d r.Pair []).length ∧
      (DetectSuspicious.checkDeletions e r'.Pair []).length
        ≤ (DetectSuspicious.checkDeletions d r.Pair []).length ∧
      (DetectSuspicious.checkAdditionVelocity e r'.AdditionVelocity []).length
        ≤ (DetectSuspicious.checkAdditionVelocity d r.AdditionVelocity []).length ∧
      (DetectSuspicious.checkDeletionVelocity e r'.DeletionVelocity []).length
        ≤ (DetectSuspicious.checkDeletionVelocity d r.DeletionVelocity []).length ∧
      r'.Reasons.length ≤ r.Reasons.length := by
  obtain ⟨m1, m2, m3, m4, m5⟩ := criteria_mono d.thresholds e.thresholds hs hr p
  obtain ⟨e1, e2, e3, e4, e5⟩ := DetectSuspicious.evaluate_some e p r' h
  have hsome : someCriterionExceeded d.thresholds p := by
    rcases (exceededCount_pos_iff e.thresholds p).mp e5 with c | c | c | c | c
    · exact Or.inl (m1 c)
    · exact Or.inr (Or.inl (m2 c))
    · exact Or.inr (Or.inr (Or.inl (m3 c)))
    · exact Or.inr (Or.inr (Or.inr (Or.inl (m4 c))))
    · exact Or.inr (Or.inr (Or.inr (Or.inr (m5 c))))
  obtain ⟨r, hr2⟩ := (DetectSuspicious.evaluate_isSome_iff d p).mpr
    ⟨e2, DetectSuspicious.velocities_of_pos d p hpos, hsome⟩
  obtain ⟨f1, _, f3, f4, _⟩ := DetectSuspicious.evaluate_some d p r hr2
  refine ⟨r, hr2, f1.trans e1.symm, ?_, ?_, ?_, ?_, ?_, ?_⟩
  · rw [e1, f1, DetectSuspicious.checkTimeDelta_length, DetectSuspicious.checkTimeDelta_length]
    exact Nat.add_le_add_left (indicator_le _ _ m1) _
  · rw [e1, f1, DetectSuspicious.checkAdditions_length, DetectSuspicious.checkAdditions_length]
    exact Nat.add_le_add_left (indicator_le _ _ m2) _
  · rw [e1, f1, DetectSuspicious.checkDeletions_length, DetectSuspicious.checkDeletions_length]
    exact Nat.add_le_add_left (indicator_le _ _ m3) _
  · rw [DetectSuspicious.checkAdditionVelocity_length e p _ _ e3,
      DetectSuspicious.checkAdditionVelocity_length d p _ _ f3]
    exact Nat.add_le_add_left (indicator_le _ _ m4) _
  · rw [DetectSuspicious.checkDeletionVelocity_length e p _ _ e3,
      DetectSuspicious.checkDeletionVelocity_length d p _ _ f3]
    exact Nat.add_le_add_left (indicator_le _ _ m5) _
  · rw [e4, f4]
    unfold exceededCount
    have i1 := indicator_le _ _ m1
    have i2 := indicator_le _ _ m2
    have i3 := indicator_le _ _ m3
    have i4 := indicator_le _ _ m4
    have i5 := indicator_le _ _ m5
    omega

/-- C37. Detection is monotone in the thresholds: for detectors built by `New`
from valid thresholds `t` and `u` that enable the same criteria, where every
size and velocity threshold of `u` is at least that of `t` and the
`MinTimeDeltaSeconds` of `u` is at most that of `t`, and every pair list with
positive time deltas, each pair flagged under `u` is also flagged under `t`,
each of the five criteria that gives it a reason under `u` gives it one under
`t`, and so it has at least as many reasons under `t`. -/
theorem DetectSuspicious_monotone (t u : Thresholds) (d e : Detector)
    (pairs : List CommitPair) (rs : Option RepositoryStats)
    (hnew : New t = (some d, none)) (hnew2 : New u = (some e, none))
    (hs : t.sameCriteria u) (hr : u.atLeastAsPermissive t)
    (hpos : ∀ p ∈ pairs, 0 < p.TimeDelta) :
    ∀ r' ∈ e.DetectSuspicious pairs rs,
      ∃ r ∈ d.DetectSuspicious pairs rs, r.Pair = r'.Pair ∧
        (DetectSuspicious.checkTimeDelta e r'.Pair []).length
          ≤ (DetectSuspicious.checkTimeDelta d r.Pair []).length ∧
        (DetectSuspicious.checkAdditions e r'.Pair []).length
          ≤ (DetectSuspicious.checkAdditions d r.Pair []).length ∧
        (DetectSuspicious.checkDeletions e r'.Pair []).length
          ≤ (DetectSuspicious.checkDeletions d r.Pair []).length ∧
        (DetectSuspicious.checkAdditionVelocity e r'.AdditionVelocity []).length
          ≤ (DetectSuspicious.checkAdditionVelocity d r.AdditionVelocity []).length ∧
        (DetectSuspicious.checkDeletionVelocity e r'.DeletionVelocity []).length
          ≤ (DetectSuspicious.checkDeletionVelocity d r.DeletionVelocity []).length ∧
        r'.Reasons.length ≤ r.Reasons.length := by
  intro r' hr'
  obtain ⟨hd, _⟩ := New_some t d hnew
  obtain ⟨he, _⟩ := New_some u e hnew2
  obtain ⟨p, hp, hev⟩ := (DetectSuspicious.mem_iff e pairs rs r').mp hr'
  obtain ⟨r, h1, h2⟩ := DetectSuspicious.evaluate_mono d e (by rw [hd, he]; exact hs)
    (by rw [hd, he]; exact hr) p (hpos p hp) r' hev
  exact ⟨r, (DetectSuspicious.mem_iff d pairs rs r).mpr ⟨p, hp, h1⟩, h2⟩

/-- Witness for C37: `thresholdsAll` and the more permissive
`thresholdsAllLoose`, on a pair of 600 additions and 50 deletions in one
minute. -/
theorem DetectSuspicious_monotone_witness :
    New thresholdsAll = (some { thresholds := thresholdsAll }, none) ∧
    New thresholdsAllLoose = (some { thresholds := thresholdsAllLoose }, none) ∧
    thresholdsAll.sameCriteria thresholdsAllLoose ∧
    thresholdsAllLoose.atLeastAsPermissive thresholdsAll ∧
    (∀ p ∈ [samplePair 600 50 Minute], 0 < p.TimeDelta) ∧
    ∀ r' ∈ (Detector.mk thresholdsAllLoose).DetectSuspicious [samplePair 600 50 Minute] none,
      ∃ r ∈ (Detector.mk thresholdsAll).DetectSuspicious [samplePair 600 50 Minute] none,
        r.Pair = r'.Pair ∧ r'.Reasons.length ≤ r.Reasons.length := by
  have h1 : New thresholdsAll = (some { thresholds := thresholdsAll }, none) := by
    norm_num [New, Thresholds.Validate, thresholdsAll]
  have h2 : New thresholdsAllLoose = (some { thresholds := thresholdsAllLoose }, none) := by
    norm_num [New, Thresholds.Validate, thresholdsAllLoose]
  have h3 : thresholdsAll.sameCriteria thresholdsAllLoose := by
    norm_num [Thresholds.sameCriteria, thresholdsAll, thresholdsAllLoose]
  have h4 : thresholdsAllLoose.atLeastAsPermissive thresholdsAll := by
    norm_num [Thresholds.atLeastAsPermissive, thresholdsAll, thresholdsAllLoose]
  have h5 : ∀ p ∈ [samplePair 600 50 Minute], 0 < p.TimeDelta := by
    intro p hp
    rw [List.mem_singleton.mp hp]
    decide
  refine ⟨h1, h2, h3, h4, h5, ?_⟩
  intro r' hr'
  obtain ⟨r, hr, e1, _, _, _, _, _, e7⟩ := DetectSuspicious_monotone thresholdsAll
    thresholdsAllLoose _ _ [samplePair 600 50 Minute] none h1 h2 h3 h4 h5 r' hr'
  exact ⟨r, hr, e1, e7⟩

/-! ## Statistics: the author totals partition the repository totals -/

theorem Authors.get_none_iff (m : List (String × AuthorStats)) (key : String) :
    Authors.get m key = none ↔ key ∉ Authors.keys m := by
  induction m with
  | nil => simp [Authors.get_nil, Authors.keys]
  | cons entry rest ih =>
    obtain ⟨k, v⟩ := entry
    rw [Authors.get_cons]
    unfold Authors.keys at ih ⊢
    by_cases hk : k = key
    · simp [hk]
    · rw [if_neg hk, ih]
      simp only [List.map_cons, List.mem_cons, not_or]
      exact ⟨fun h => ⟨fun hc => hk hc.symm, h⟩, fun h => h.2⟩

theorem Authors.replace_absent (m : List (String × AuthorStats)) (k : String)
    (v : AuthorStats) (h : k ∉ Authors.keys m) :
    m.map (fun entry => if entry.1 = k then (k, v) else entry) = m := by
  induction m with
  | nil => rfl
  | cons entry rest ih =>
    unfold Authors.keys at h ih
    simp only [List.map_cons, List.mem_cons, not_or] at h
    rw [List.map_cons, ih h.2, if_neg (fun hc => h.1 hc.symm)]

theorem Authors.keys_replace (m : List (String × AuthorStats)) (k : String)
    (v : AuthorStats) :
    Authors.keys (m.map (fun entry => if entry.1 = k then (k, v) else entry))
      = Authors.keys m := by
  unfold Authors.keys
  rw [List.map_map]
  apply List.map_congr_left
  intro entry _
  simp only [Function.comp]
  split_ifs with h
  · exact h.symm
  · rfl

theorem Authors.total_replace (f : AuthorStats → Int) (m : List (String × AuthorStats))
    (k : String) (v old : AuthorStats) (hn : (Authors.keys m).Nodup)
    (hg : Authors.get m k = some old) :
    Authors.total f (m.map (fun entry => if entry.1 = k then (k, v) else entry))
      = Authors.total f m - f old + f v := by
  induction m with
  | nil => simp [Authors.get_nil] at hg
  | cons entry rest ih =>
    obtain ⟨k2, a⟩ := entry
    have hn2 : k2 ∉ Authors.keys rest ∧ (Authors.keys rest).Nodup := by
      unfold Authors.keys at hn ⊢
      simpa using hn
    rw [Authors.get_cons] at hg
    by_cases hk : k2 = k
    · rw [if_pos hk] at hg
      have ha : a = old := Option.some.inj hg
      subst ha
      subst hk
      rw [List.map_cons, Authors.replace_absent rest k2 v hn2.1]
      simp only [Authors.total, List.map_cons, List.sum_cons, if_true]
      ring
    · rw [if_neg hk] at hg
      have := ih hn2.2 hg
      simp only [Authors.total, List.map_cons, List.sum_cons, if_neg hk] at this ⊢
      rw [this]
      ring

theorem Authors.set_present (f : AuthorStats → Int) (m : List (String × AuthorStats))
    (k : String) (v old : AuthorStats) (hn : (Authors.keys m).Nodup)
    (hg : Authors.get m k = some old) :
    Authors.keys (Authors.set m k v) = Authors.keys m ∧
    Authors.total f (Authors.set m k v) = Authors.total f m - f old + f v := by
  unfold Authors.set
  rw [hg]
  simp only [Option.isSome_some, if_true]
  exact ⟨Authors.keys_replace m k v, Authors.total_replace f m k v old hn hg⟩

theorem Authors.set_absent (f : AuthorStats → Int) (m : List (String × AuthorStats))
    (k : String) (v : AuthorStats) (hn : (Authors.keys m).Nodup)
    (hg : Authors.get m k = none) :
    (Authors.keys (Authors.set m k v)).Nodup ∧
    Authors.total f (Authors.set m k v) = Authors.total f m + f v := by
  have hk := (Authors.get_none_iff m k).mp hg
  unfold Authors.set
  rw [hg]
  simp only [Option.isSome_none, Bool.false_eq_true, if_false]
  constructor
  · unfold Authors.keys at hk hn ⊢
    rw [List.map_append, List.map_cons, List.map_nil]
    exact List.Nodup.append hn (List.nodup_singleton k)
      (List.disjoint_singleton.mpr hk)
  · simp [Authors.total]

theorem authorsAfter_total (f : AuthorStats → Int)
    (hf : ∀ name email, f (AuthorStats.new name email) = 0)
    (commits : List Commit) (m : List (String × AuthorStats))
    (hn : (Authors.keys m).Nodup) :
    (Authors.keys (commits.foldl authorsAfter m)).Nodup ∧
    Authors.total f (commits.foldl authorsAfter m) = Authors.total f m := by
  induction commits generalizing m with
  | nil => exact ⟨hn, rfl⟩
  | cons c rest ih =>
    rw [List.foldl_cons]
    have hstep : (Authors.keys (authorsAfter m c)).Nodup ∧
        Authors.total f (authorsAfter m c) = Authors.total f m := by
      unfold authorsAfter
      cases hg : Authors.get m c.Email with
      | some a =>
        rw [if_pos (Option.isSome_some : (some a).isSome = true)]
        exact ⟨hn, rfl⟩
      | none =>
        rw [if_neg (by simp : ¬ (none : Option AuthorStats).isSome = true)]
        obtain ⟨h1, h2⟩ := Authors.set_absent f m c.Email
          (AuthorStats.new c.Author c.Email) hn hg
        rw [hf] at h2
        exact ⟨h1, by rw [h2, add_zero]⟩
    obtain ⟨i1, i2⟩ := ih (authorsAfter m c) hstep.1
    exact ⟨i1, i2.trans hstep.2⟩

theorem stepAuthors_total (f : AuthorStats → Int) (g : CommitPair → Int)
    (hf : ∀ name email, f (AuthorStats.new name email) = 0)
    (hu : ∀ a p, f (updateAuthor a p) = f a + g p)
    (m : List (String × AuthorStats)) (p : CommitPair) (hn : (Authors.keys m).Nodup) :
    (Authors.keys (stepAuthors m p)).Nodup ∧
    Authors.total f (stepAuthors m p)
      = Authors.total f m + (if hasFilteredChanges p then g p else 0) := by
  unfold stepAuthors
  by_cases hc : hasFilteredChanges p = true
  · rw [if_pos hc, if_pos hc]
    cases hg : Authors.get m p.Current.Email with
    | some old =>
      obtain ⟨h1, h2⟩ := Authors.set_present f m p.Current.Email
        (updateAuthor (entryOrNew (some old) p) p) old hn hg
      refine ⟨by rw [h1]; exact hn, ?_⟩
      rw [h2, hu]
      simp only [entryOrNew]
      ring
    | none =>
      obtain ⟨h1, h2⟩ := Authors.set_absent f m p.Current.Email
        (updateAuthor (entryOrNew none p) p) hn hg
      refine ⟨h1, ?_⟩
      rw [h2, hu]
      simp only [entryOrNew, hf]
      ring
  · rw [if_neg hc, if_neg hc, add_zero]
    exact ⟨hn, rfl⟩

theorem stepAuthors_foldl_total (f : AuthorStats → Int) (g : CommitPair → Int)
    (hf : ∀ name email, f (AuthorStats.new name email) = 0)
    (hu : ∀ a p, f (updateAuthor a p) = f a + g p)
    (pairs : List CommitPair) (m : List (String × AuthorStats))
    (hn : (Authors.keys m).Nodup) :
    (Authors.keys (pairs.foldl stepAuthors m)).Nodup ∧
    Authors.total f (pairs.foldl stepAuthors m)
      = Authors.total f m + ((pairs.filter hasFilteredChanges).map g).sum := by
  induction pairs generalizing m with
  | nil => exact ⟨hn, by simp⟩
  | cons p rest ih =>
    rw [List.foldl_cons]
    obtain ⟨s1, s2⟩ := stepAuthors_total f g hf hu m p hn
    obtain ⟨i1, i2⟩ := ih (stepAuthors m p) s1
    refine ⟨i1, ?_⟩
    rw [i2, s2, List.filter_cons]
    by_cases hc : hasFilteredChanges p = true
    · simp only [if_pos hc, List.map_cons, List.sum_cons]
      ring
    · simp only [if_neg hc, Bool.false_eq_true, if_false]
      ring

theorem authorAverage_total (f : AuthorStats → Int)
    (ha : ∀ pairs email a, f (averagedEntry pairs email a) = f a)
    (pairs : List CommitPair) (m : List (String × AuthorStats)) :
    Authors.keys (m.map (CalculateStats.authorAverage pairs)) = Authors.keys m ∧
    Authors.total f (m.map (CalculateStats.authorAverage pairs)) = Authors.total f m := by
  constructor
  · unfold Authors.keys
    rw [List.map_map]
    apply List.map_congr_left
    intro entry _
    exact CalculateStats.authorAverage_key pairs entry
  · unfold Authors.total
    rw [List.map_map]
    apply congrArg
    apply List.map_congr_left
    intro entry _
    exact ha pairs entry.1 entry.2

theorem filtered_sum_of_nonneg (g : CommitPair → Int) (pairs : List CommitPair)
    (hz : ∀ p ∈ pairs, hasFilteredChanges p = false → g p = 0) :
    ((pairs.filter hasFilteredChanges).map g).sum = (pairs.map g).sum := by
  induction pairs with
  | nil => rfl
  | cons p rest ih =>
    have hrest := ih (fun q hq => hz q (List.mem_cons_of_mem p hq))
    rw [List.filter_cons]
    cases hc : hasFilteredChanges p with
    | true =>
      simp only [if_true, List.map_cons, List.sum_cons, hrest]
    | false =>
      simp only [Bool.false_eq_true, if_false, List.map_cons, List.sum_cons, hrest,
        hz p (List.mem_cons_self p rest) hc, zero_add]

theorem nonneg_of_not_filtered (p : CommitPair)
    (h : 0 ≤ p.Stats.Additions ∧ 0 ≤ p.Stats.Deletions) (hc : hasFilteredChanges p = false) :
    p.Stats.Additions = 0 ∧ p.Stats.Deletions = 0 := by
  unfold hasFilteredChanges at hc
  simp only [Bool.or_eq_false_iff, decide_eq_false_iff_not, gt_iff_lt, not_lt] at hc
  exact ⟨le_antisymm hc.1 h.1, le_antisymm hc.2 h.2⟩

theorem CalculateStats_authors_total (f : AuthorStats → Int) (g : CommitPair → Int)
    (hf : ∀ name email, f (AuthorStats.new name email) = 0)
    (hu : ∀ a p, f (updateAuthor a p) = f a + g p)
    (ha : ∀ pairs email a, f (averagedEntry pairs email a) = f a)
    (commits : List Commit) (pairs : List CommitPair) (h : commits ≠ []) :
    ∃ s, CalculateStats commits pairs = some s ∧ (Authors.keys s.Authors).Nodup ∧
      Authors.total f s.Authors = ((pairs.filter hasFilteredChanges).map g).sum := by
  obtain ⟨s, hs, _, _, _, h4⟩ := CalculateStats_velocity_fields commits pairs h
  obtain ⟨c1, c2⟩ := authorsAfter_total f hf commits [] List.nodup_nil
  obtain ⟨p1, p2⟩ := stepAuthors_foldl_total f g hf hu pairs _ c1
  obtain ⟨a1, a2⟩ := authorAverage_total f ha pairs
    (pairs.foldl stepAuthors (commits.foldl authorsAfter []))
  refine ⟨s, hs, ?_, ?_⟩
  · rw [h4, a1]
    exact p1
  · rw [h4, a2, p2, c2]
    simp [Authors.total]

theorem wrapInt64_add (a b : Int) : wrapInt64 (wrapInt64 a + b) = wrapInt64 (a + b) := by
  unfold wrapInt64
  omega

theorem wrapInt64_of_range (x : Int) (h0 : -9223372036854775808 ≤ x)
    (h1 : x ≤ 9223372036854775807) : wrapInt64 x = x := by
  unfold wrapInt64
  omega

theorem wrapInt64_range (x : Int) :
    -9223372036854775808 ≤ wrapInt64 x ∧ wrapInt64 x ≤ 9223372036854775807 := by
  unfold wrapInt64
  omega

theorem wrapInt64_zero : wrapInt64 0 = 0 := by decide

theorem Authors.get_wrap (m : List (String × AuthorStats)) (key : String) :
    Authors.get (Authors.wrap m) key = (Authors.get m key).map AuthorStats.wrap := by
  unfold Authors.get Authors.wrap
  induction m with
  | nil => rfl
  | cons e rest ih =>
    simp only [List.map_cons, List.find?_cons]
    by_cases h : e.1 = key
    · simp [h]
    · simp only [h, decide_False]
      exact ih

theorem Authors.set_wrap (m : List (String × AuthorStats)) (key : String) (v : AuthorStats) :
    Authors.set (Authors.wrap m) key v.wrap = Authors.wrap (Authors.set m key v) := by
  unfold Authors.set
  rw [Authors.get_wrap]
  cases hg : Authors.get m key with
  | none =>
    simp [Authors.wrap]
  | some a =>
    simp only [Option.map_some', Option.isSome_some, if_true]
    unfold Authors.wrap
    rw [List.map_map, List.map_map]
    apply List.map_congr_left
    intro e _
    simp only [Function.comp]
    by_cases h : e.1 = key
    · simp [h]
    · simp [h]

theorem RepositoryStats.eq_of_all_fields (x y : RepositoryStats)
    (h1 : x.TotalCommits = y.TotalCommits) (h2 : x.TotalCommitPairs = y.TotalCommitPairs)
    (h3 : x.UniqueAuthors = y.UniqueAuthors) (h4 : x.Authors = y.Authors)
    (h5 : x.TimeSpan = y.TimeSpan) (h6 : x.FirstCommit = y.FirstCommit)
    (h7 : x.LastCommit = y.LastCommit) (h8 : x.TotalLOCAdded = y.TotalLOCAdded)
    (h9 : x.TotalLOCDeleted = y.TotalLOCDeleted)
    (h10 : x.UnfilteredLOCAdded = y.UnfilteredLOCAdded)
    (h11 : x.UnfilteredLOCDeleted = y.UnfilteredLOCDeleted)
    (h12 : x.AverageVelocity = y.AverageVelocity)
    (h13 : x.MedianVelocity = y.MedianVelocity)
    (h14 : x.VelocityPercentile = y.VelocityPercentile) : x = y := by
  cases x
  cases y
  simp only at h1 h2 h3 h4 h5 h6 h7 h8 h9 h10 h11 h12 h13 h14
  subst h1 h2 h3 h4 h5 h6 h7 h8 h9 h10 h11 h12 h13 h14
  rfl

theorem CalculateStats.visitPairInt64_fields (stats : RepositoryStats) (velocities : List ℚ)
    (pair : CommitPair) :
    (CalculateStats.visitPairInt64 (stats, velocities) pair).1.TotalCommits
      = stats.TotalCommits ∧
    (CalculateStats.visitPairInt64 (stats, velocities) pair).1.TotalCommitPairs
      = stats.TotalCommitPairs ∧
    (CalculateStats.visitPairInt64 (stats, velocities) pair).1.UniqueAuthors
      = stats.UniqueAuthors ∧
    (CalculateStats.visitPairInt64 (stats, velocities) pair).1.TimeSpan = stats.TimeSpan ∧
    (CalculateStats.visitPairInt64 (stats, velocities) pair).1.FirstCommit
      = stats.FirstCommit ∧
    (CalculateStats.visitPairInt64 (stats, velocities) pair).1.LastCommit = stats.LastCommit ∧
    (CalculateStats.visitPairInt64 (stats, velocities) pair).1.TotalLOCAdded
      = wrapInt64 (stats.TotalLOCAdded + pair.Stats.Additions) ∧
    (CalculateStats.visitPairInt64 (stats, velocities) pair).1.TotalLOCDeleted
      = wrapInt64 (stats.TotalLOCDeleted + pair.Stats.Deletions) ∧
    (CalculateStats.visitPairInt64 (stats, velocities) pair).1.UnfilteredLOCAdded
      = wrapInt64 (stats.UnfilteredLOCAdded + pair.Stats.TotalAdditions) ∧
    (CalculateStats.visitPairInt64 (stats, velocities) pair).1.UnfilteredLOCDeleted
      = wrapInt64 (stats.UnfilteredLOCDeleted + pair.Stats.TotalDeletions) := by
  unfold CalculateStats.visitPairInt64
  simp only
  split_ifs <;> exact ⟨rfl, rfl, rfl, rfl, rfl, rfl, rfl, rfl, rfl, rfl⟩

theorem CalculateStats.visitPairInt64_velocities (stats : RepositoryStats)
    (velocities : List ℚ) (pair : CommitPair) :
    (CalculateStats.visitPairInt64 (stats, velocities) pair).2
      = velocities ++ (globalSample pair).toList := by
  unfold CalculateStats.visitPairInt64 globalSample velocitySample hasFilteredChanges
  simp only
  split_ifs <;> simp

theorem CalculateStats.visitPairInt64_authors (stats : RepositoryStats)
    (velocities : List ℚ) (pair : CommitPair) :
    (CalculateStats.visitPairInt64 (stats, velocities) pair).1.Authors
      = stepAuthorsInt64 stats.Authors pair ∧
    (CalculateStats.visitPairInt64 (stats, velocities) pair).1.AverageVelocity
      = stats.AverageVelocity ∧
    (CalculateStats.visitPairInt64 (stats, velocities) pair).1.MedianVelocity
      = stats.MedianVelocity ∧
    (CalculateStats.visitPairInt64 (stats, velocities) pair).1.VelocityPercentile
      = stats.VelocityPercentile := by
  unfold CalculateStats.visitPairInt64 stepAuthorsInt64 updateAuthorInt64 entryOrNew
    hasFilteredChanges
  cases hg : Authors.get stats.Authors pair.Current.Email <;>
    simp only [hg] <;> split_ifs <;> exact ⟨rfl, rfl, rfl, rfl⟩

theorem updateAuthorInt64_wrap (a : AuthorStats) (pair : CommitPair) :
    updateAuthorInt64 a.wrap pair = (updateAuthor a pair).wrap := by
  unfold updateAuthorInt64 updateAuthor AuthorStats.wrap
  simp only [wrapInt64_add]
  split_ifs <;> rfl

theorem AuthorStats.new_wrap (name email : String) :
    (AuthorStats.new name email).wrap = AuthorStats.new name email := by
  unfold AuthorStats.wrap AuthorStats.new
  simp only [wrapInt64_zero]

theorem stepAuthorsInt64_wrap (m : List (String × AuthorStats)) (pair : CommitPair) :
    stepAuthorsInt64 (Authors.wrap m) pair = Authors.wrap (stepAuthors m pair) := by
  unfold stepAuthorsInt64 stepAuthors
  split_ifs
  · rw [Authors.get_wrap, ← Authors.set_wrap, ← updateAuthorInt64_wrap]
    congr 2
    cases Authors.get m pair.Current.Email with
    | none => exact (AuthorStats.new_wrap _ _).symm
    | some a => rfl
  · rfl

theorem CalculateStats.visitPairInt64_eq (stats : RepositoryStats)
    (velocities : List ℚ) (pair : CommitPair) :
    CalculateStats.visitPairInt64 (stats.wrap, velocities) pair
      = ((CalculateStats.visitPair (stats, velocities) pair).1.wrap,
         (CalculateStats.visitPair (stats, velocities) pair).2) := by
  obtain ⟨a1, a2, a3, a4, a5, a6, a7, a8, a9, a10⟩ :=
    CalculateStats.visitPairInt64_fields stats.wrap velocities pair
  obtain ⟨b1, b2, b3, b4⟩ := CalculateStats.visitPairInt64_authors stats.wrap velocities pair
  obtain ⟨c1, c2, c3, c4, c5, c6, c7, c8, c9, c10⟩ :=
    CalculateStats.visitPair_fields stats velocities pair
  obtain ⟨d1, d2, d3, d4⟩ := CalculateStats.visitPair_authors stats velocities pair
  refine Prod.ext ?_ ?_
  · apply RepositoryStats.eq_of_all_fields
    · exact a1.trans c1.symm
    · exact a2.trans c2.symm
    · exact a3.trans c3.symm
    · rw [b1]
      show stepAuthorsInt64 (Authors.wrap stats.Authors) pair = Authors.wrap _
      rw [stepAuthorsInt64_wrap, ← d1]
    · exact a4.trans c4.symm
    · exact a5.trans c5.symm
    · exact a6.trans c6.symm
    · rw [a7]
      show wrapInt64 (wrapInt64 _ + _) = wrapInt64 _
      rw [wrapInt64_add, ← c7]
    · rw [a8]
      show wrapInt64 (wrapInt64 _ + _) = wrapInt64 _
      rw [wrapInt64_add, ← c8]
    · rw [a9]
      show wrapInt64 (wrapInt64 _ + _) = wrapInt64 _
      rw [wrapInt64_add, ← c9]
    · rw [a10]
      show wrapInt64 (wrapInt64 _ + _) = wrapInt64 _
      rw [wrapInt64_add, ← c10]
    · exact b2.trans d2.symm
    · exact b3.trans d3.symm
    · exact b4.trans d4.symm
  · rw [CalculateStats.visitPairInt64_velocities, CalculateStats.visitPair_velocities]

theorem CalculateStats.visitPairInt64_foldl (pairs : List CommitPair)
    (stats : RepositoryStats) (velocities : List ℚ) :
    pairs.foldl CalculateStats.visitPairInt64 (stats.wrap, velocities)
      = ((pairs.foldl CalculateStats.visitPair (stats, velocities)).1.wrap,
         (pairs.foldl CalculateStats.visitPair (stats, velocities)).2) := by
  induction pairs generalizing stats velocities with
  | nil => rfl
  | cons p rest ih =>
    rw [List.foldl_cons, List.foldl_cons, CalculateStats.visitPairInt64_eq, ih]

theorem Authors.wrap_of_fixed (m : List (String × AuthorStats))
    (h : ∀ e ∈ m, e.2.wrap = e.2) : Authors.wrap m = m := by
  unfold Authors.wrap
  conv_rhs => rw [← List.map_id m]
  apply List.map_congr_left
  intro e he
  rw [h e he]
  rfl

theorem authorsAfter_foldl_fixed (commits : List Commit) (m : List (String × AuthorStats))
    (h : ∀ e ∈ m, e.2.wrap = e.2) :
    ∀ e ∈ commits.foldl authorsAfter m, e.2.wrap = e.2 := by
  induction commits generalizing m with
  | nil => exact h
  | cons c rest ih =>
    rw [List.foldl_cons]
    apply ih
    unfold authorsAfter
    split_ifs with hs
    · exact h
    · unfold Authors.set
      rw [if_neg hs]
      intro e he
      rcases List.mem_append.mp he with he | he
      · exact h e he
      · rw [List.mem_singleton.mp he]
        exact AuthorStats.new_wrap _ _

theorem CalculateStats.afterCommits_wrap (commits : List Commit) (pairs : List CommitPair) :
    (CalculateStats.afterCommits commits pairs).wrap
      = CalculateStats.afterCommits commits pairs := by
  unfold CalculateStats.afterCommits RepositoryStats.wrap
  simp only [CalculateStats.visitCommit_foldl, CalculateStats.init, wrapInt64_zero]
  rw [Authors.wrap_of_fixed _ (authorsAfter_foldl_fixed commits [] (by simp))]

theorem CalculateStats.summarize_wrap (stats : RepositoryStats) (velocities : List ℚ) :
    CalculateStats.summarize stats.wrap velocities
      = (CalculateStats.summarize stats velocities).map RepositoryStats.wrap := by
  unfold CalculateStats.summarize
  split_ifs
  · cases calculateMedian velocities <;> cases calculatePercentiles velocities <;> rfl
  · rfl

theorem CalculateStats.authorAverage_wrap (pairs : List CommitPair)
    (m : List (String × AuthorStats)) :
    (Authors.wrap m).map (CalculateStats.authorAverage pairs)
      = Authors.wrap (m.map (CalculateStats.authorAverage pairs)) := by
  unfold Authors.wrap
  rw [List.map_map, List.map_map]
  apply List.map_congr_left
  intro e _
  simp only [Function.comp]
  unfold CalculateStats.authorAverage AuthorStats.wrap
  simp only
  split_ifs <;> rfl

theorem CalculateStatsInt64_eq_map (commits : List Commit) (pairs : List CommitPair) :
    CalculateStatsInt64 commits pairs
      = (CalculateStats commits pairs).map RepositoryStats.wrap := by
  by_cases h : commits = []
  · subst h
    rfl
  · have hlen : ¬ commits.length = 0 := fun hc => h (List.length_eq_zero.mp hc)
    have h64 : CalculateStatsInt64 commits pairs
        = match CalculateStats.summarize
            (pairs.foldl CalculateStats.visitPairInt64
              (CalculateStats.afterCommits commits pairs, [])).1
            (pairs.foldl CalculateStats.visitPairInt64
              (CalculateStats.afterCommits commits pairs, [])).2 with
          | none => none
          | some stats =>
            some { stats with
              Authors := stats.Authors.map (CalculateStats.authorAverage pairs) } := by
      unfold CalculateStatsInt64
      rw [if_neg hlen]
      rfl
    rw [h64, CalculateStats_eq commits pairs h]
    have hfold := CalculateStats.visitPairInt64_foldl pairs
      (CalculateStats.afterCommits commits pairs) []
    rw [CalculateStats.afterCommits_wrap] at hfold
    rw [hfold]
    simp only
    rw [CalculateStats.summarize_wrap]
    cases CalculateStats.summarize
        (pairs.foldl CalculateStats.visitPair (CalculateStats.afterCommits commits pairs, [])).1
        (pairs.foldl CalculateStats.visitPair (CalculateStats.afterCommits commits pairs, [])).2 with
    | none => rfl
    | some s =>
      simp only [Option.map_some', Option.some.injEq]
      apply RepositoryStats.eq_of_all_fields <;> try rfl
      exact CalculateStats.authorAverage_wrap pairs s.Authors

theorem CalculateStatsInt64_totals (commits : List Commit) (pairs : List CommitPair)
    (h : commits ≠ []) :
    ∃ s, CalculateStatsInt64 commits pairs = some s ∧
      s.TotalLOCAdded = wrapInt64 (pairs.map (fun p => p.Stats.Additions)).sum ∧
      s.TotalLOCDeleted = wrapInt64 (pairs.map (fun p => p.Stats.Deletions)).sum ∧
      s.UnfilteredLOCAdded = wrapInt64 (pairs.map (fun p => p.Stats.TotalAdditions)).sum ∧
      s.UnfilteredLOCDeleted = wrapInt64 (pairs.map (fun p => p.Stats.TotalDeletions)).sum := by
  obtain ⟨s, hs, _, _, _, _, _, _, h7, h8, h9, h10⟩ :=
    CalculateStats_of_nonempty commits pairs h
  refine ⟨s.wrap, by rw [CalculateStatsInt64_eq_map, hs]; rfl, ?_, ?_, ?_, ?_⟩
  · rw [← h7]; rfl
  · rw [← h8]; rfl
  · rw [← h9]; rfl
  · rw [← h10]; rfl

/-- Counterexample to C20: for two pairs with 9223372036854775807 and 1 filtered
additions, counts that an `int64` holds, `TotalLOCAdded` is
-9223372036854775808 while the sum of the additions is 9223372036854775808. -/
theorem CalculateStats_loc_totals_counterexample :
    (CalculateStatsInt64 [sampleCommit "abc123"]
        [samplePair 9223372036854775807 0 Minute, samplePair 1 0 Minute]).map
      (fun s => s.TotalLOCAdded) = some (-9223372036854775808) ∧
    ([samplePair 9223372036854775807 0 Minute, samplePair 1 0 Minute].map
      (fun p => p.Stats.Additions)).sum = 9223372036854775808 := by
  obtain ⟨s, hs, h1, _⟩ := CalculateStatsInt64_totals [sampleCommit "abc123"]
    [samplePair 9223372036854775807 0 Minute, samplePair 1 0 Minute] (by simp)
  refine ⟨?_, by decide⟩
  rw [hs, Option.map_some', h1]
  decide

/-- C20, amended. For every non-empty commit list and every pair list,
`TotalLOCAdded`, `TotalLOCDeleted`, `UnfilteredLOCAdded` and
`UnfilteredLOCDeleted` are the sums of `Additions`, `Deletions`,
`TotalAdditions` and `TotalDeletions` over all pairs of the list, pairs of
zero filtered change included, taken in `int64` arithmetic: each total is the
`int64` with the residue of the sum modulo `2^64`, and it is the sum itself
whenever the sum is in the range of an `int64`. -/
theorem CalculateStats_loc_totals (commits : List Commit) (pairs : List CommitPair)
    (h : commits ≠ []) :
    ∃ s, CalculateStatsInt64 commits pairs = some s ∧
      s.TotalLOCAdded = wrapInt64 (pairs.map (fun p => p.Stats.Additions)).sum ∧
      s.TotalLOCDeleted = wrapInt64 (pairs.map (fun p => p.Stats.Deletions)).sum ∧
      s.UnfilteredLOCAdded = wrapInt64 (pairs.map (fun p => p.Stats.TotalAdditions)).sum ∧
      s.UnfilteredLOCDeleted = wrapInt64 (pairs.map (fun p => p.Stats.TotalDeletions)).sum ∧
      (inInt64 (pairs.map (fun p => p.Stats.Additions)).sum →
        s.TotalLOCAdded = (pairs.map (fun p => p.Stats.Additions)).sum) ∧
      (inInt64 (pairs.map (fun p => p.Stats.Deletions)).sum →
        s.TotalLOCDeleted = (pairs.map (fun p => p.Stats.Deletions)).sum) ∧
      (inInt64 (pairs.map (fun p => p.Stats.TotalAdditions)).sum →
        s.UnfilteredLOCAdded = (pairs.map (fun p => p.Stats.TotalAdditions)).sum) ∧
      (inInt64 (pairs.map (fun p => p.Stats.TotalDeletions)).sum →
        s.UnfilteredLOCDeleted = (pairs.map (fun p => p.Stats.TotalDeletions)).sum) := by
  obtain ⟨s, hs, h1, h2, h3, h4⟩ := CalculateStatsInt64_totals commits pairs h
  refine ⟨s, hs, h1, h2, h3, h4, ?_, ?_, ?_, ?_⟩
  · intro hr; rw [h1]; exact wrapInt64_of_range _ hr.1 hr.2
  · intro hr; rw [h2]; exact wrapInt64_of_range _ hr.1 hr.2
  · intro hr; rw [h3]; exact wrapInt64_of_range _ hr.1 hr.2
  · intro hr; rw [h4]; exact wrapInt64_of_range _ hr.1 hr.2

/-- Witness for C20, amended: for the commits and pairs of the test, preceded by
a pair of zero filtered change, the totals are 300, 150, 370 and 180. -/
theorem CalculateStats_loc_totals_witness :
    statsCommits ≠ [] ∧
    ∃ s, CalculateStatsInt64 statsCommits (samplePair 0 0 Minute :: statsPairs) = some s ∧
      s.TotalLOCAdded = 300 ∧ s.TotalLOCDeleted = 150 ∧
      s.UnfilteredLOCAdded = 370 ∧ s.UnfilteredLOCDeleted = 180 := by
  have hne : statsCommits ≠ [] := by simp [statsCommits]
  obtain ⟨s, hs, h1, h2, h3, h4, _⟩ :=
    CalculateStats_loc_totals statsCommits (samplePair 0 0 Minute :: statsPairs) hne
  refine ⟨hne, s, hs, ?_, ?_, ?_, ?_⟩
  · rw [h1]; decide
  · rw [h2]; decide
  · rw [h3]; decide
  · rw [h4]; decide

/-- Counterexample to C25. First, for one pair with -60 filtered additions and 0
filtered deletions (non-zero filtered change) whose current author has the
empty email, that author's `CommitCount` is 0, while the number of pairs with
non-zero filtered change of that author is 1. Second, for two pairs of that
author with 9223372036854775807 and 1 filtered additions, counts that an
`int64` holds, the author's `LOCAdded` is -9223372036854775808 while the sum of
the additions is 9223372036854775808. -/
theorem CalculateStats_author_totals_counterexample :
    ((CalculateStatsInt64 [sampleCommit "abc123"] [samplePair (-60) 0 Minute]).bind
      (fun s => (Authors.get s.Authors "").map (fun a => a.CommitCount)) = some 0 ∧
     (changingPairsOf "" [samplePair (-60) 0 Minute]).length = 1) ∧
    ((CalculateStatsInt64 [sampleCommit "abc123"]
        [samplePair 9223372036854775807 0 Minute, samplePair 1 0 Minute]).bind
      (fun s => (Authors.get s.Authors "").map (fun a => a.LOCAdded))
        = some (-9223372036854775808) ∧
     ((changingPairsOf "" [samplePair 9223372036854775807 0 Minute,
        samplePair 1 0 Minute]).map (fun p => p.Stats.Additions)).sum
        = 9223372036854775808) := by
  refine ⟨⟨?_, ?_⟩, ?_, ?_⟩
  · obtain ⟨s, hs, hget⟩ := CalculateStats_author_entry [sampleCommit "abc123"]
      [samplePair (-60) 0 Minute] (by simp)
    rw [CalculateStatsInt64_eq_map, hs, Option.map_some', Option.some_bind]
    show (Authors.get (Authors.wrap s.Authors) "").map _ = _
    rw [Authors.get_wrap, hget]
    have hp : authorPairs "" [samplePair (-60) 0 Minute] = [] := by
      simp [authorPairs, hasFilteredChanges, samplePair]
    have hi : Authors.get ([sampleCommit "abc123"].foldl authorsAfter []) ""
        = some (AuthorStats.new "" "") := by
      simp [authorsAfter, Authors.get, Authors.set, sampleCommit]
    rw [hp, hi]
    simp only [List.foldl_nil, Option.map_some']
    show some (averagedEntry _ _ _).CommitCount = _
    rw [(averagedEntry_counts _ _ _).1]
    rfl
  · simp [changingPairsOf, CommitPair.changing, samplePair, sampleCommit]
  · have hnn : nonnegCounts [samplePair 9223372036854775807 0 Minute, samplePair 1 0 Minute] := by
      intro p hp
      simp only [List.mem_cons, List.mem_singleton, List.not_mem_nil, or_false] at hp
      rcases hp with rfl | rfl <;> decide
    obtain ⟨s, hs, hsome, hall⟩ := CalculateStats_author_exact [sampleCommit "abc123"]
      [samplePair 9223372036854775807 0 Minute, samplePair 1 0 Minute] (by simp) hnn
    have hj := hsome (sampleCommit "abc123") (by simp)
    obtain ⟨a, ha⟩ := Option.isSome_iff_exists.mp hj
    have ha' : Authors.get s.Authors "" = some a := ha
    obtain ⟨_, h2, _⟩ := hall "" a ha'
    rw [CalculateStatsInt64_eq_map, hs, Option.map_some', Option.some_bind]
    show (Authors.get (Authors.wrap s.Authors) "").map _ = _
    rw [Authors.get_wrap, ha', Option.map_some', Option.map_some']
    show some (wrapInt64 a.LOCAdded) = _
    rw [h2]
    have hsum : ((changingPairsOf "" [samplePair 9223372036854775807 0 Minute,
        samplePair 1 0 Minute]).map (fun p => p.Stats.Additions)).sum
        = 9223372036854775808 := by
      simp [changingPairsOf, CommitPair.changing, samplePair, sampleCommit]
    rw [hsum]
    decide
  · simp [changingPairsOf, CommitPair.changing, samplePair, sampleCommit]

/-- C25, amended. For every non-empty commit list, every pair list whose
filtered addition and deletion counts are non-negative, and every author email
`e` with an entry in the author map (as every author of a commit of the list
has), `Authors[e].CommitCount` is the number of pairs with non-zero filtered
change whose Current commit has email `e`, and `LOCAdded` / `LOCDeleted` are the
sums of the filtered additions / deletions over exactly those pairs taken in
`int64` arithmetic: the `int64` with the residue of the sum modulo `2^64`,
which is the sum itself whenever the sum is in the range of an `int64`; pairs
in which `e` is only the Previous commit's author contribute nothing, so an
author who never is the Current author of a changing pair has all-zero
totals. -/
theorem CalculateStats_author_totals (commits : List Commit) (pairs : List CommitPair)
    (h : commits ≠ []) (hnn : nonnegCounts pairs) :
    ∃ s, CalculateStatsInt64 commits pairs = some s ∧
      (∀ c ∈ commits, (Authors.get s.Authors c.Email).isSome) ∧
      ∀ email a, Authors.get s.Authors email = some a →
        a.CommitCount = ((changingPairsOf email pairs).length : Int) ∧
        a.LOCAdded
          = wrapInt64 ((changingPairsOf email pairs).map (fun p => p.Stats.Additions)).sum ∧
        a.LOCDeleted
          = wrapInt64 ((changingPairsOf email pairs).map (fun p => p.Stats.Deletions)).sum ∧
        (inInt64 ((changingPairsOf email pairs).map (fun p => p.Stats.Additions)).sum →
          a.LOCAdded = ((changingPairsOf email pairs).map (fun p => p.Stats.Additions)).sum) ∧
        (inInt64 ((changingPairsOf email pairs).map (fun p => p.Stats.Deletions)).sum →
          a.LOCDeleted
            = ((changingPairsOf email pairs).map (fun p => p.Stats.Deletions)).sum) ∧
        (changingPairsOf email pairs = [] →
          a.CommitCount = 0 ∧ a.LOCAdded = 0 ∧ a.LOCDeleted = 0) := by
  obtain ⟨s, hs, hsome, hall⟩ := CalculateStats_author_exact commits pairs h hnn
  refine ⟨s.wrap, by rw [CalculateStatsInt64_eq_map, hs]; rfl, ?_, ?_⟩
  · intro c hc
    show (Authors.get (Authors.wrap s.Authors) c.Email).isSome
    rw [Authors.get_wrap]
    obtain ⟨a, ha⟩ := Option.isSome_iff_exists.mp (hsome c hc)
    rw [ha]
    rfl
  · intro email a ha
    have ha' : Authors.get (Authors.wrap s.Authors) email = some a := ha
    rw [Authors.get_wrap] at ha'
    cases hg : Authors.get s.Authors email with
    | none => rw [hg] at ha'; exact absurd ha' (by simp)
    | some a₀ =>
      rw [hg, Option.map_some', Option.some.injEq] at ha'
      obtain ⟨e1, e2, e3⟩ := hall email a₀ hg
      subst ha'
      have w1 : a₀.wrap.CommitCount = a₀.CommitCount := rfl
      have w2 : a₀.wrap.LOCAdded = wrapInt64 a₀.LOCAdded := rfl
      have w3 : a₀.wrap.LOCDeleted = wrapInt64 a₀.LOCDeleted := rfl
      rw [w1, w2, w3, e1, e2, e3]
      refine ⟨rfl, rfl, rfl, ?_, ?_, ?_⟩
      · intro hr; exact wrapInt64_of_range _ hr.1 hr.2
      · intro hr; exact wrapInt64_of_range _ hr.1 hr.2
      · intro hnil
        rw [hnil]
        exact ⟨rfl, by decide, by decide⟩

/-- Witness for C25, amended: in the test with two authors, the entry of John
(current author of the second pair only, previous author of the first) has
1 commit, 200 lines added and 100 deleted. -/
theorem CalculateStats_author_totals_witness :
    statsCommits ≠ [] ∧ nonnegCounts statsPairs ∧
    ∃ s a, CalculateStatsInt64 statsCommits statsPairs = some s ∧
      Authors.get s.Authors "john@example.com" = some a ∧
      a.CommitCount = 1 ∧ a.LOCAdded = 200 ∧ a.LOCDeleted = 100 := by
  have hne : statsCommits ≠ [] := by simp [statsCommits]
  obtain ⟨s, hs, hsome, hall⟩ :=
    CalculateStats_author_totals statsCommits statsPairs hne statsPairs_nonneg
  have hj := hsome (authorCommit "abc123" "John Doe" "john@example.com"
    (sampleNow - 20 * Minute)) (by simp [statsCommits])
  obtain ⟨a, ha⟩ := Option.isSome_iff_exists.mp hj
  obtain ⟨h1, h2, h3, _⟩ := hall "john@example.com" a ha
  have hp : changingPairsOf "john@example.com" statsPairs
      = [{ Previous := authorCommit "def456" "Jane Smith" "jane@example.com"
             (sampleNow - 10 * Minute)
           Current := authorCommit "ghi789" "John Doe" "john@example.com" sampleNow
           TimeDelta := 10 * Minute
           Stats := { FilesChanged := 8, Additions := 200, Deletions := 100,
                      TotalAdditions := 250, TotalDeletions := 120,
                      FilesChangedTotal := 10 } }] := by
    simp [changingPairsOf, CommitPair.changing, statsPairs, authorCommit]
  rw [hp] at h1 h2 h3
  refine ⟨hne, statsPairs_nonneg, s, a, hs, ha, h1, ?_, ?_⟩
  · rw [h2]; decide
  · rw [h3]; decide

/-! ## `float64` arithmetic: rounding and evaluations -/

theorem roundHalfEven_eq (m : ℚ) (k : Int) (h0 : (k : ℚ) - 1 / 2 ≤ m)
    (h1 : m ≤ (k : ℚ) + 1 / 2)
    (hev : m = (k : ℚ) - 1 / 2 ∨ m = (k : ℚ) + 1 / 2 → k % 2 = 0) :
    roundHalfEven m = k := by
  unfold roundHalfEven
  by_cases hm : (k : ℚ) ≤ m
  · by_cases htie : m = (k : ℚ) + 1 / 2
    · have hf : Int.floor m = k := Int.floor_eq_iff.mpr ⟨hm, by linarith⟩
      have heven := hev (Or.inr htie)
      simp only [hf]
      rw [if_neg (by linarith), if_neg (by linarith), if_pos heven]
    · have hlt : m < (k : ℚ) + 1 / 2 := lt_of_le_of_ne h1 htie
      have hf : Int.floor m = k := Int.floor_eq_iff.mpr ⟨hm, by linarith⟩
      simp only [hf]
      rw [if_pos (by linarith)]
  · have hm2 : m < (k : ℚ) := not_le.mp hm
    have hf : Int.floor m = k - 1 :=
      Int.floor_eq_iff.mpr ⟨by push_cast; linarith, by push_cast; linarith⟩
    simp only [hf]
    by_cases htie : m = (k : ℚ) - 1 / 2
    · have heven := hev (Or.inl htie)
      have hlt : ¬ m - ((k - 1 : Int) : ℚ) < 1 / 2 := by push_cast; linarith
      have hgt : ¬ 1 / 2 < m - ((k - 1 : Int) : ℚ) := by push_cast; linarith
      have hodd : ¬ (k - 1) % 2 = 0 := by omega
      rw [if_neg hlt, if_neg hgt, if_neg hodd]
      ring
    · have hgt0 : (k : ℚ) - 1 / 2 < m := lt_of_le_of_ne h0 (Ne.symm htie)
      have hlt : ¬ m - ((k - 1 : Int) : ℚ) < 1 / 2 := by push_cast; linarith
      have hgt : 1 / 2 < m - ((k - 1 : Int) : ℚ) := by push_cast; linarith
      rw [if_neg hlt, if_pos hgt]
      ring

theorem Binary64.round_eq (x r : ℚ) (n : ℕ) (k : Int) (hn : n ≤ 1074)
    (h0 : (2 : ℚ) ^ 52 ≤ x * 2 ^ n) (h1 : x * 2 ^ n < 2 ^ 53)
    (hk0 : (k : ℚ) - 1 / 2 ≤ x * 2 ^ n) (hk1 : x * 2 ^ n ≤ (k : ℚ) + 1 / 2)
    (hev : x * 2 ^ n = (k : ℚ) - 1 / 2 ∨ x * 2 ^ n = (k : ℚ) + 1 / 2 → k % 2 = 0)
    (hr : r * 2 ^ n = (k : ℚ)) : Binary64.round x = r := by
  have h2n : (0 : ℚ) < 2 ^ n := by positivity
  have hx : 0 < x := by
    by_contra hneg
    have hle : x * 2 ^ n ≤ 0 := mul_nonpos_of_nonpos_of_nonneg (not_lt.mp hneg) h2n.le
    have h52 : (0 : ℚ) < 2 ^ 52 := by positivity
    linarith
  have hpow : ∀ j : ℕ, (2 : ℚ) ^ ((j : Int) - (n : Int)) = 2 ^ j / 2 ^ n := by
    intro j
    rw [zpow_sub₀ (by norm_num : (2 : ℚ) ≠ 0), zpow_natCast, zpow_natCast]
  have hlog : Int.log 2 |x| = 52 - (n : Int) := by
    rw [abs_of_pos hx]
    apply le_antisymm
    · have hlt : x < ((2 : ℕ) : ℚ) ^ ((53 : Int) - (n : Int)) := by
        have := hpow 53
        push_cast at this ⊢
        rw [this, lt_div_iff₀ h2n]
        exact h1
      have := (Int.lt_zpow_iff_log_lt (by norm_num : 1 < 2) hx).mp hlt
      omega
    · have hle : ((2 : ℕ) : ℚ) ^ ((52 : Int) - (n : Int)) ≤ x := by
        have := hpow 52
        push_cast at this ⊢
        rw [this, div_le_iff₀ h2n]
        exact h0
      exact (Int.zpow_le_iff_le_log (by norm_num : 1 < 2) hx).mp hle
  have hmax : max (52 - (n : Int)) (-1022) = 52 - (n : Int) := by
    apply max_eq_left
    omega
  have hulp : (2 : ℚ) ^ (52 - (n : Int) - 52) = 1 / 2 ^ n := by
    have : (52 : Int) - (n : Int) - 52 = -(n : Int) := by ring
    rw [this, zpow_neg, zpow_natCast, one_div]
  unfold Binary64.round
  rw [if_neg (ne_of_gt hx)]
  simp only [hlog, hmax, hulp]
  have hdiv : x / (1 / 2 ^ n) = x * 2 ^ n := by
    field_simp
  rw [hdiv, roundHalfEven_eq _ k hk0 hk1 hev, ← hr]
  field_simp

/-- Counterexample to C7: for 5 lines in 100 seconds the `float64` operations of
`CalculateVelocity` give the rate 6755399441055745 / 2251799813685248, that is
3.0000000000000004 (`Minutes` gives 1.6666666666666665), while 5 lines divided
by 100 seconds expressed in minutes is 3. -/
theorem CalculateVelocity_rate_counterexample :
    Binary64.CalculateVelocity 5 (100 * Second)
      = (some { LOCPerMinute := 6755399441055745 / 2251799813685248 }, none) ∧
    (6755399441055745 / 2251799813685248 : ℚ) ≠ 5 * 60 / 100 := by
  have hmin : Int.tdiv (100 * Second) Minute = 1 := by decide
  have hns : Int.tmod (100 * Second) Minute = 40000000000 := by decide
  have r1 : Binary64.round (((1 : Int) : ℚ)) = 1 :=
    Binary64.round_eq _ _ 52 4503599627370496 (by norm_num) (by norm_num) (by norm_num) (by norm_num)
      (by norm_num) (by norm_num) (by norm_num)
  have r2 : Binary64.round (((40000000000 : Int) : ℚ)) = 40000000000 :=
    Binary64.round_eq _ _ 17 5242880000000000 (by norm_num) (by norm_num) (by norm_num) (by norm_num)
      (by norm_num) (by norm_num) (by norm_num)
  have r3 : Binary64.round (40000000000 / (60 * 1000000000)) = 6004799503160661 / 9007199254740992 :=
    Binary64.round_eq _ _ 53 6004799503160661 (by norm_num) (by norm_num) (by norm_num) (by norm_num)
      (by norm_num) (by norm_num) (by norm_num)
  have r4 : Binary64.round (1 + (6004799503160661 / 9007199254740992)) = 3752999689475413 / 2251799813685248 :=
    Binary64.round_eq _ _ 52 7505999378950826 (by norm_num) (by norm_num) (by norm_num) (by norm_num)
      (by norm_num) (by norm_num) (by norm_num)
  have r5 : Binary64.round (((5 : Int) : ℚ)) = 5 :=
    Binary64.round_eq _ _ 50 5629499534213120 (by norm_num) (by norm_num) (by norm_num) (by norm_num)
      (by norm_num) (by norm_num) (by norm_num)
  have r6 : Binary64.round (5 / (3752999689475413 / 2251799813685248)) = 6755399441055745 / 2251799813685248 :=
    Binary64.round_eq _ _ 51 6755399441055745 (by norm_num) (by norm_num) (by norm_num) (by norm_num)
      (by norm_num) (by norm_num) (by norm_num)
  constructor
  · unfold Binary64.CalculateVelocity Binary64.Minutes
    rw [if_neg (by decide)]
    simp only [hmin, hns, Binary64.ofInt, Binary64.add, Binary64.div, r1, r2, r3, r4, r5, r6]
  · norm_num

/-- With the `float64` operations of `percentile`, the 95th percentile of the
sorted sample 1..10 is 5376172055173529 / 562949953421312, that is
9.549999999999999. -/
theorem percentile_float64_p95 :
    Binary64.percentile [1, 2, 3, 4, 5, 6, 7, 8, 9, 10] 95 = some (5376172055173529 / 562949953421312) := by
  have hlen : ((([1, 2, 3, 4, 5, 6, 7, 8, 9, 10] : List ℚ).length : Int) - 1) = 9 := by decide
  have rz : Binary64.round ((0 : Int) : ℚ) = 0 := by simp [Binary64.round]
  have r1 : Binary64.round (95 / 100) = 4278419646001971 / 4503599627370496 :=
    Binary64.round_eq _ _ 53 8556839292003942 (by norm_num) (by norm_num) (by norm_num) (by norm_num)
      (by norm_num) (by norm_num) (by norm_num)
  have r2 : Binary64.round (((9 : Int) : ℚ)) = 9 :=
    Binary64.round_eq _ _ 49 5066549580791808 (by norm_num) (by norm_num) (by norm_num) (by norm_num)
      (by norm_num) (by norm_num) (by norm_num)
  have r3 : Binary64.round ((4278419646001971 / 4503599627370496) * 9) = 4813222101752217 / 562949953421312 :=
    Binary64.round_eq _ _ 49 4813222101752217 (by norm_num) (by norm_num) (by norm_num) (by norm_num)
      (by norm_num) (by norm_num) (by norm_num)
  have r4 : Binary64.round (((8 : Int) : ℚ)) = 8 :=
    Binary64.round_eq _ _ 49 4503599627370496 (by norm_num) (by norm_num) (by norm_num) (by norm_num)
      (by norm_num) (by norm_num) (by norm_num)
  have r5 : Binary64.round ((4813222101752217 / 562949953421312) - 8) = 309622474381721 / 562949953421312 :=
    Binary64.round_eq _ _ 53 4953959590107536 (by norm_num) (by norm_num) (by norm_num) (by norm_num)
      (by norm_num) (by norm_num) (by norm_num)
  have r6 : Binary64.round (1 - (309622474381721 / 562949953421312)) = 253327479039591 / 562949953421312 :=
    Binary64.round_eq _ _ 54 8106479329266912 (by norm_num) (by norm_num) (by norm_num) (by norm_num)
      (by norm_num) (by norm_num) (by norm_num)
  have r7 : Binary64.round (9 * (253327479039591 / 562949953421312)) = 2279947311356319 / 562949953421312 :=
    Binary64.round_eq _ _ 50 4559894622712638 (by norm_num) (by norm_num) (by norm_num) (by norm_num)
      (by norm_num) (by norm_num) (by norm_num)
  have r8 : Binary64.round (10 * (309622474381721 / 562949953421312)) = 1548112371908605 / 281474976710656 :=
    Binary64.round_eq _ _ 50 6192449487634420 (by norm_num) (by norm_num) (by norm_num) (by norm_num)
      (by norm_num) (by norm_num) (by norm_num)
  have r9 : Binary64.round ((2279947311356319 / 562949953421312) + (1548112371908605 / 281474976710656)) = 5376172055173529 / 562949953421312 :=
    Binary64.round_eq _ _ 49 5376172055173529 (by norm_num) (by norm_num) (by norm_num) (by norm_num)
      (by norm_num) (by norm_num) (by norm_num)
  have hfloor : Int.floor ((4813222101752217 / 562949953421312) : ℚ) = 8 := by rw [Int.floor_eq_iff]; norm_num
  have hceil : Int.ceil ((4813222101752217 / 562949953421312) : ℚ) = 9 := by rw [Int.ceil_eq_iff]; norm_num
  have hlo : index ([1, 2, 3, 4, 5, 6, 7, 8, 9, 10] : List ℚ) 8 = some 9 := rfl
  have hhi : index ([1, 2, 3, 4, 5, 6, 7, 8, 9, 10] : List ℚ) 9 = some 10 := rfl
  unfold Binary64.percentile
  rw [if_neg (by decide)]
  simp only [hlen, Binary64.mul, Binary64.div, Binary64.ofInt, Binary64.sub, Binary64.add,
    rz, r1, r2, r3, hfloor, hceil]
  rw [if_neg (by decide)]
  simp only [hlo, hhi, rz, r4, r5, r6, r7, r8, r9]

/-- Counterexample to C22: with the `float64` operations of `percentile`, the
95th percentile of the sorted sample 1..10 is
5376172055173529 / 562949953421312, that is 9.549999999999999: it is neither
9.55 nor the `float64` nearest to 9.55. -/
theorem percentile_linear_interpolation_counterexample :
    Binary64.percentile [1, 2, 3, 4, 5, 6, 7, 8, 9, 10] 95
      = some (5376172055173529 / 562949953421312) ∧
    (5376172055173529 / 562949953421312 : ℚ) ≠ 955 / 100 ∧
    (5376172055173529 / 562949953421312 : ℚ) ≠ Binary64.round (955 / 100) := by
  have r1 : Binary64.round (955 / 100) = 2688086027586765 / 281474976710656 :=
    Binary64.round_eq _ _ 49 5376172055173530 (by norm_num) (by norm_num) (by norm_num) (by norm_num)
      (by norm_num) (by norm_num) (by norm_num)
  refine ⟨percentile_float64_p95, by norm_num, ?_⟩
  rw [r1]
  norm_num

/-- With the `float64` operations of `percentile`, the 50th percentile of the
sample of two values 3.3333333333333335. -/
theorem percentile_float64_pair_p50 :
    Binary64.percentile [7505999378950827 / 2251799813685248, 7505999378950827 / 2251799813685248] 50 = some (7505999378950827 / 2251799813685248) := by
  have hlen : ((([7505999378950827 / 2251799813685248, 7505999378950827 / 2251799813685248] : List ℚ).length : Int) - 1) = 1 := by decide
  have rz : Binary64.round ((0 : Int) : ℚ) = 0 := by simp [Binary64.round]
  have r1 : Binary64.round (50 / 100) = 1 / 2 :=
    Binary64.round_eq _ _ 53 4503599627370496 (by norm_num) (by norm_num) (by norm_num) (by norm_num)
      (by norm_num) (by norm_num) (by norm_num)
  have r2 : Binary64.round (((1 : Int) : ℚ)) = 1 :=
    Binary64.round_eq _ _ 52 4503599627370496 (by norm_num) (by norm_num) (by norm_num) (by norm_num)
      (by norm_num) (by norm_num) (by norm_num)
  have r3 : Binary64.round ((1 / 2) * 1) = 1 / 2 :=
    Binary64.round_eq _ _ 53 4503599627370496 (by norm_num) (by norm_num) (by norm_num) (by norm_num)
      (by norm_num) (by norm_num) (by norm_num)
  have r4 : Binary64.round ((1 / 2) - 0) = 1 / 2 :=
    Binary64.round_eq _ _ 53 4503599627370496 (by norm_num) (by norm_num) (by norm_num) (by norm_num)
      (by norm_num) (by norm_num) (by norm_num)
  have r5 : Binary64.round (1 - (1 / 2)) = 1 / 2 :=
    Binary64.round_eq _ _ 53 4503599627370496 (by norm_num) (by norm_num) (by norm_num) (by norm_num)
      (by norm_num) (by norm_num) (by norm_num)
  have r6 : Binary64.round ((7505999378950827 / 2251799813685248) * (1 / 2)) = 7505999378950827 / 4503599627370496 :=
    Binary64.round_eq _ _ 52 7505999378950827 (by norm_num) (by norm_num) (by norm_num) (by norm_num)
      (by norm_num) (by norm_num) (by norm_num)
  have r7 : Binary64.round ((7505999378950827 / 4503599627370496) + (7505999378950827 / 4503599627370496)) = 7505999378950827 / 2251799813685248 :=
    Binary64.round_eq _ _ 51 7505999378950827 (by norm_num) (by norm_num) (by norm_num) (by norm_num)
      (by norm_num) (by norm_num) (by norm_num)
  have hfloor : Int.floor ((1 / 2) : ℚ) = 0 := by rw [Int.floor_eq_iff]; norm_num
  have hceil : Int.ceil ((1 / 2) : ℚ) = 1 := by rw [Int.ceil_eq_iff]; norm_num
  have hlo : index ([7505999378950827 / 2251799813685248, 7505999378950827 / 2251799813685248] : List ℚ) 0 = some (7505999378950827 / 2251799813685248) := rfl
  have hhi : index ([7505999378950827 / 2251799813685248, 7505999378950827 / 2251799813685248] : List ℚ) 1 = some (7505999378950827 / 2251799813685248) := rfl
  unfold Binary64.percentile
  rw [if_neg (by decide)]
  simp only [hlen, Binary64.mul, Binary64.div, Binary64.ofInt, Binary64.sub, Binary64.add,
    rz, r1, r2, r3, hfloor, hceil]
  rw [if_neg (by decide)]
  simp only [hlo, hhi, rz, r4, r5, r6, r7]

/-- With the `float64` operations of `percentile`, the 75th percentile of the
sample of two values 3.3333333333333335. -/
theorem percentile_float64_pair_p75 :
    Binary64.percentile [7505999378950827 / 2251799813685248, 7505999378950827 / 2251799813685248] 75 = some (7505999378950827 / 2251799813685248) := by
  have hlen : ((([7505999378950827 / 2251799813685248, 7505999378950827 / 2251799813685248] : List ℚ).length : Int) - 1) = 1 := by decide
  have rz : Binary64.round ((0 : Int) : ℚ) = 0 := by simp [Binary64.round]
  have r1 : Binary64.round (75 / 100) = 3 / 4 :=
    Binary64.round_eq _ _ 53 6755399441055744 (by norm_num) (by norm_num) (by norm_num) (by norm_num)
      (by norm_num) (by norm_num) (by norm_num)
  have r2 : Binary64.round (((1 : Int) : ℚ)) = 1 :=
    Binary64.round_eq _ _ 52 4503599627370496 (by norm_num) (by norm_num) (by norm_num) (by norm_num)
      (by norm_num) (by norm_num) (by norm_num)
  have r3 : Binary64.round ((3 / 4) * 1) = 3 / 4 :=
    Binary64.round_eq _ _ 53 6755399441055744 (by norm_num) (by norm_num) (by norm_num) (by norm_num)
      (by norm_num) (by norm_num) (by norm_num)
  have r4 : Binary64.round ((3 / 4) - 0) = 3 / 4 :=
    Binary64.round_eq _ _ 53 6755399441055744 (by norm_num) (by norm_num) (by norm_num) (by norm_num)
      (by norm_num) (by norm_num) (by norm_num)
  have r5 : Binary64.round (1 - (3 / 4)) = 1 / 4 :=
    Binary64.round_eq _ _ 54 4503599627370496 (by norm_num) (by norm_num) (by norm_num) (by norm_num)
      (by norm_num) (by norm_num) (by norm_num)
  have r6 : Binary64.round ((7505999378950827 / 2251799813685248) * (1 / 4)) = 7505999378950827 / 9007199254740992 :=
    Binary64.round_eq _ _ 53 7505999378950827 (by norm_num) (by norm_num) (by norm_num) (by norm_num)
      (by norm_num) (by norm_num) (by norm_num)
  have r7 : Binary64.round ((7505999378950827 / 2251799813685248) * (3 / 4)) = 5 / 2 :=
    Binary64.round_eq _ _ 51 5629499534213120 (by norm_num) (by norm_num) (by norm_num) (by norm_num)
      (by norm_num) (by norm_num) (by norm_num)
  have r8 : Binary64.round ((7505999378950827 / 9007199254740992) + (5 / 2)) = 7505999378950827 / 2251799813685248 :=
    Binary64.round_eq _ _ 51 7505999378950827 (by norm_num) (by norm_num) (by norm_num) (by norm_num)
      (by norm_num) (by norm_num) (by norm_num)
  have hfloor : Int.floor ((3 / 4) : ℚ) = 0 := by rw [Int.floor_eq_iff]; norm_num
  have hceil : Int.ceil ((3 / 4) : ℚ) = 1 := by rw [Int.ceil_eq_iff]; norm_num
  have hlo : index ([7505999378950827 / 2251799813685248, 7505999378950827 / 2251799813685248] : List ℚ) 0 = some (7505999378950827 / 2251799813685248) := rfl
  have hhi : index ([7505999378950827 / 2251799813685248, 7505999378950827 / 2251799813685248] : List ℚ) 1 = some (7505999378950827 / 2251799813685248) := rfl
  unfold Binary64.percentile
  rw [if_neg (by decide)]
  simp only [hlen, Binary64.mul, Binary64.div, Binary64.ofInt, Binary64.sub, Binary64.add,
    rz, r1, r2, r3, hfloor, hceil]
  rw [if_neg (by decide)]
  simp only [hlo, hhi, rz, r4, r5, r6, r7, r8]

/-- With the `float64` operations of `percentile`, the 90th percentile of the
sample of two values 3.3333333333333335. -/
theorem percentile_float64_pair_p90 :
    Binary64.percentile [7505999378950827 / 2251799813685248, 7505999378950827 / 2251799813685248] 90 = some (3752999689475413 / 1125899906842624) := by
  have hlen : ((([7505999378950827 / 2251799813685248, 7505999378950827 / 2251799813685248] : List ℚ).length : Int) - 1) = 1 := by decide
  have rz : Binary64.round ((0 : Int) : ℚ) = 0 := by simp [Binary64.round]
  have r1 : Binary64.round (90 / 100) = 8106479329266893 / 9007199254740992 :=
    Binary64.round_eq _ _ 53 8106479329266893 (by norm_num) (by norm_num) (by norm_num) (by norm_num)
      (by norm_num) (by norm_num) (by norm_num)
  have r2 : Binary64.round (((1 : Int) : ℚ)) = 1 :=
    Binary64.round_eq _ _ 52 4503599627370496 (by norm_num) (by norm_num) (by norm_num) (by norm_num)
      (by norm_num) (by norm_num) (by norm_num)
  have r3 : Binary64.round ((8106479329266893 / 9007199254740992) * 1) = 8106479329266893 / 9007199254740992 :=
    Binary64.round_eq _ _ 53 8106479329266893 (by norm_num) (by norm_num) (by norm_num) (by norm_num)
      (by norm_num) (by norm_num) (by norm_num)
  have r4 : Binary64.round ((8106479329266893 / 9007199254740992) - 0) = 8106479329266893 / 9007199254740992 :=
    Binary64.round_eq _ _ 53 8106479329266893 (by norm_num) (by norm_num) (by norm_num) (by norm_num)
      (by norm_num) (by norm_num) (by norm_num)
  have r5 : Binary64.round (1 - (8106479329266893 / 9007199254740992)) = 900719925474099 / 9007199254740992 :=
    Binary64.round_eq _ _ 56 7205759403792792 (by norm_num) (by norm_num) (by norm_num) (by norm_num)
      (by norm_num) (by norm_num) (by norm_num)
  have r6 : Binary64.round ((7505999378950827 / 2251799813685248) * (900719925474099 / 9007199254740992)) = 1501199875790165 / 4503599627370496 :=
    Binary64.round_eq _ _ 54 6004799503160660 (by norm_num) (by norm_num) (by norm_num) (by norm_num)
      (by norm_num) (by norm_num) (by norm_num)
  have r7 : Binary64.round ((7505999378950827 / 2251799813685248) * (8106479329266893 / 9007199254740992)) = 3 :=
    Binary64.round_eq _ _ 51 6755399441055744 (by norm_num) (by norm_num) (by norm_num) (by norm_num)
      (by norm_num) (by norm_num) (by norm_num)
  have r8 : Binary64.round ((1501199875790165 / 4503599627370496) + 3) = 3752999689475413 / 1125899906842624 :=
    Binary64.round_eq _ _ 51 7505999378950826 (by norm_num) (by norm_num) (by norm_num) (by norm_num)
      (by norm_num) (by norm_num) (by norm_num)
  have hfloor : Int.floor ((8106479329266893 / 9007199254740992) : ℚ) = 0 := by rw [Int.floor_eq_iff]; norm_num
  have hceil : Int.ceil ((8106479329266893 / 9007199254740992) : ℚ) = 1 := by rw [Int.ceil_eq_iff]; norm_num
  have hlo : index ([7505999378950827 / 2251799813685248, 7505999378950827 / 2251799813685248] : List ℚ) 0 = some (7505999378950827 / 2251799813685248) := rfl
  have hhi : index ([7505999378950827 / 2251799813685248, 7505999378950827 / 2251799813685248] : List ℚ) 1 = some (7505999378950827 / 2251799813685248) := rfl
  unfold Binary64.percentile
  rw [if_neg (by decide)]
  simp only [hlen, Binary64.mul, Binary64.div, Binary64.ofInt, Binary64.sub, Binary64.add,
    rz, r1, r2, r3, hfloor, hceil]
  rw [if_neg (by decide)]
  simp only [hlo, hhi, rz, r4, r5, r6, r7, r8]

/-- With the `float64` operations of `percentile`, the 95th percentile of the
sample of two values 3.3333333333333335. -/
theorem percentile_float64_pair_p95 :
    Binary64.percentile [7505999378950827 / 2251799813685248, 7505999378950827 / 2251799813685248] 95 = some (7505999378950827 / 2251799813685248) := by
  have hlen : ((([7505999378950827 / 2251799813685248, 7505999378950827 / 2251799813685248] : List ℚ).length : Int) - 1) = 1 := by decide
  have rz : Binary64.round ((0 : Int) : ℚ) = 0 := by simp [Binary64.round]
  have r1 : Binary64.round (95 / 100) = 4278419646001971 / 4503599627370496 :=
    Binary64.round_eq _ _ 53 8556839292003942 (by norm_num) (by norm_num) (by norm_num) (by norm_num)
      (by norm_num) (by norm_num) (by norm_num)
  have r2 : Binary64.round (((1 : Int) : ℚ)) = 1 :=
    Binary64.round_eq _ _ 52 4503599627370496 (by norm_num) (by norm_num) (by norm_num) (by norm_num)
      (by norm_num) (by norm_num) (by norm_num)
  have r3 : Binary64.round ((4278419646001971 / 4503599627370496) * 1) = 4278419646001971 / 4503599627370496 :=
    Binary64.round_eq _ _ 53 8556839292003942 (by norm_num) (by norm_num) (by norm_num) (by norm_num)
      (by norm_num) (by norm_num) (by norm_num)
  have r4 : Binary64.round ((4278419646001971 / 4503599627370496) - 0) = 4278419646001971 / 4503599627370496 :=
    Binary64.round_eq _ _ 53 8556839292003942 (by norm_num) (by norm_num) (by norm_num) (by norm_num)
      (by norm_num) (by norm_num) (by norm_num)
  have r5 : Binary64.round (1 - (4278419646001971 / 4503599627370496)) = 225179981368525 / 4503599627370496 :=
    Binary64.round_eq _ _ 57 7205759403792800 (by norm_num) (by norm_num) (by norm_num) (by norm_num)
      (by norm_num) (by norm_num) (by norm_num)
  have r6 : Binary64.round ((7505999378950827 / 2251799813685248) * (225179981368525 / 4503599627370496)) = 6004799503160667 / 36028797018963968 :=
    Binary64.round_eq _ _ 55 6004799503160667 (by norm_num) (by norm_num) (by norm_num) (by norm_num)
      (by norm_num) (by norm_num) (by norm_num)
  have r7 : Binary64.round ((7505999378950827 / 2251799813685248) * (4278419646001971 / 4503599627370496)) = 7130699410003285 / 2251799813685248 :=
    Binary64.round_eq _ _ 51 7130699410003285 (by norm_num) (by norm_num) (by norm_num) (by norm_num)
      (by norm_num) (by norm_num) (by norm_num)
  have r8 : Binary64.round ((6004799503160667 / 36028797018963968) + (7130699410003285 / 2251799813685248)) = 7505999378950827 / 2251799813685248 :=
    Binary64.round_eq _ _ 51 7505999378950827 (by norm_num) (by norm_num) (by norm_num) (by norm_num)
      (by norm_num) (by norm_num) (by norm_num)
  have hfloor : Int.floor ((4278419646001971 / 4503599627370496) : ℚ) = 0 := by rw [Int.floor_eq_iff]; norm_num
  have hceil : Int.ceil ((4278419646001971 / 4503599627370496) : ℚ) = 1 := by rw [Int.ceil_eq_iff]; norm_num
  have hlo : index ([7505999378950827 / 2251799813685248, 7505999378950827 / 2251799813685248] : List ℚ) 0 = some (7505999378950827 / 2251799813685248) := rfl
  have hhi : index ([7505999378950827 / 2251799813685248, 7505999378950827 / 2251799813685248] : List ℚ) 1 = some (7505999378950827 / 2251799813685248) := rfl
  unfold Binary64.percentile
  rw [if_neg (by decide)]
  simp only [hlen, Binary64.mul, Binary64.div, Binary64.ofInt, Binary64.sub, Binary64.add,
    rz, r1, r2, r3, hfloor, hceil]
  rw [if_neg (by decide)]
  simp only [hlo, hhi, rz, r4, r5, r6, r7, r8]

/-- With the `float64` operations of `percentile`, the 99th percentile of the
sample of two values 3.3333333333333335. -/
theorem percentile_float64_pair_p99 :
    Binary64.percentile [7505999378950827 / 2251799813685248, 7505999378950827 / 2251799813685248] 99 = some (7505999378950827 / 2251799813685248) := by
  have hlen : ((([7505999378950827 / 2251799813685248, 7505999378950827 / 2251799813685248] : List ℚ).length : Int) - 1) = 1 := by decide
  have rz : Binary64.round ((0 : Int) : ℚ) = 0 := by simp [Binary64.round]
  have r1 : Binary64.round (99 / 100) = 4458563631096791 / 4503599627370496 :=
    Binary64.round_eq _ _ 53 8917127262193582 (by norm_num) (by norm_num) (by norm_num) (by norm_num)
      (by norm_num) (by norm_num) (by norm_num)
  have r2 : Binary64.round (((1 : Int) : ℚ)) = 1 :=
    Binary64.round_eq _ _ 52 4503599627370496 (by norm_num) (by norm_num) (by norm_num) (by norm_num)
      (by norm_num) (by norm_num) (by norm_num)
  have r3 : Binary64.round ((4458563631096791 / 4503599627370496) * 1) = 4458563631096791 / 4503599627370496 :=
    Binary64.round_eq _ _ 53 8917127262193582 (by norm_num) (by norm_num) (by norm_num) (by norm_num)
      (by norm_num) (by norm_num) (by norm_num)
  have r4 : Binary64.round ((4458563631096791 / 4503599627370496) - 0) = 4458563631096791 / 4503599627370496 :=
    Binary64.round_eq _ _ 53 8917127262193582 (by norm_num) (by norm_num) (by norm_num) (by norm_num)
      (by norm_num) (by norm_num) (by norm_num)
  have r5 : Binary64.round (1 - (4458563631096791 / 4503599627370496)) = 45035996273705 / 4503599627370496 :=
    Binary64.round_eq _ _ 59 5764607523034240 (by norm_num) (by norm_num) (by norm_num) (by norm_num)
      (by norm_num) (by norm_num) (by norm_num)
  have r6 : Binary64.round ((7505999378950827 / 2251799813685248) * (45035996273705 / 4503599627370496)) = 2401919801264267 / 72057594037927936 :=
    Binary64.round_eq _ _ 57 4803839602528534 (by norm_num) (by norm_num) (by norm_num) (by norm_num)
      (by norm_num) (by norm_num) (by norm_num)
  have r7 : Binary64.round ((7505999378950827 / 2251799813685248) * (4458563631096791 / 4503599627370496)) = 7430939385161319 / 2251799813685248 :=
    Binary64.round_eq _ _ 51 7430939385161319 (by norm_num) (by norm_num) (by norm_num) (by norm_num)
      (by norm_num) (by norm_num) (by norm_num)
  have r8 : Binary64.round ((2401919801264267 / 72057594037927936) + (7430939385161319 / 2251799813685248)) = 7505999378950827 / 2251799813685248 :=
    Binary64.round_eq _ _ 51 7505999378950827 (by norm_num) (by norm_num) (by norm_num) (by norm_num)
      (by norm_num) (by norm_num) (by norm_num)
  have hfloor : Int.floor ((4458563631096791 / 4503599627370496) : ℚ) = 0 := by rw [Int.floor_eq_iff]; norm_num
  have hceil : Int.ceil ((4458563631096791 / 4503599627370496) : ℚ) = 1 := by rw [Int.ceil_eq_iff]; norm_num
  have hlo : index ([7505999378950827 / 2251799813685248, 7505999378950827 / 2251799813685248] : List ℚ) 0 = some (7505999378950827 / 2251799813685248) := rfl
  have hhi : index ([7505999378950827 / 2251799813685248, 7505999378950827 / 2251799813685248] : List ℚ) 1 = some (7505999378950827 / 2251799813685248) := rfl
  unfold Binary64.percentile
  rw [if_neg (by decide)]
  simp only [hlen, Binary64.mul, Binary64.div, Binary64.ofInt, Binary64.sub, Binary64.add,
    rz, r1, r2, r3, hfloor, hceil]
  rw [if_neg (by decide)]
  simp only [hlo, hhi, rz, r4, r5, r6, r7, r8]

/-- Counterexample to C35: for the sample of two values equal to the `float64`
quotient `10.0 / 3`, 7505999378950827 / 2251799813685248 =
3.3333333333333335, the `float64` operations of `percentile` give P90 =
3752999689475413 / 1125899906842624 = 3.333333333333333, which is below the
minimum of the sample and below P75 = 3.3333333333333335. -/
theorem calculatePercentiles_ordered_counterexample :
    Binary64.div 10 3 = 7505999378950827 / 2251799813685248 ∧
    Binary64.calculatePercentiles [7505999378950827 / 2251799813685248, 7505999378950827 / 2251799813685248]
      = some { P50 := 7505999378950827 / 2251799813685248
               P75 := 7505999378950827 / 2251799813685248
               P90 := 3752999689475413 / 1125899906842624
               P95 := 7505999378950827 / 2251799813685248
               P99 := 7505999378950827 / 2251799813685248 } ∧
    (3752999689475413 / 1125899906842624 : ℚ) < 7505999378950827 / 2251799813685248 := by
  have r1 : Binary64.round (10 / 3) = 7505999378950827 / 2251799813685248 :=
    Binary64.round_eq _ _ 51 7505999378950827 (by norm_num) (by norm_num) (by norm_num) (by norm_num)
      (by norm_num) (by norm_num) (by norm_num)
  have hsort : sortFloat64s [(7505999378950827 / 2251799813685248 : ℚ), 7505999378950827 / 2251799813685248] = [7505999378950827 / 2251799813685248, 7505999378950827 / 2251799813685248] := by
    simp [sortFloat64s, List.insertionSort, List.orderedInsert]
  refine ⟨r1, ?_, by norm_num⟩
  unfold Binary64.calculatePercentiles
  rw [if_neg (by decide)]
  simp only [hsort, percentile_float64_pair_p50, percentile_float64_pair_p75,
    percentile_float64_pair_p90, percentile_float64_pair_p95, percentile_float64_pair_p99]

/-- With the `float64` operations of `CalculateVelocityPerMinute` and of the
mean of lines 136-140, the velocities of 1, 2 and 3 lines in 10 minutes (0.1,
0.2 and 0.3 as `float64`) have the mean 0.20000000000000004 in this order and
0.19999999999999998 in the reverse order. -/
theorem averageVelocity_float64_order :
    Binary64.averageVelocity
        ([1, 2, 3].map (fun n => (Binary64.CalculateVelocityPerMinute n (10 * Minute)).1))
      = 7205759403792795 / 36028797018963968 ∧
    Binary64.averageVelocity
        ([3, 2, 1].map (fun n => (Binary64.CalculateVelocityPerMinute n (10 * Minute)).1))
      = 7205759403792793 / 36028797018963968 ∧
    (7205759403792795 / 36028797018963968 : ℚ) ≠ 7205759403792793 / 36028797018963968 := by
  have hmin : Int.tdiv (10 * Minute) Minute = 10 := by decide
  have hns : Int.tmod (10 * Minute) Minute = 0 := by decide
  have rz : Binary64.round ((0 : Int) : ℚ) = 0 := by simp [Binary64.round]
  have rz2 : Binary64.round (0 / (60 * 1000000000)) = 0 := by simp [Binary64.round]
  have r1 : Binary64.round (((10 : Int) : ℚ)) = 10 :=
    Binary64.round_eq _ _ 49 5629499534213120 (by norm_num) (by norm_num) (by norm_num) (by norm_num)
      (by norm_num) (by norm_num) (by norm_num)
  have r2 : Binary64.round (10 + 0) = 10 :=
    Binary64.round_eq _ _ 49 5629499534213120 (by norm_num) (by norm_num) (by norm_num) (by norm_num)
      (by norm_num) (by norm_num) (by norm_num)
  have r3 : Binary64.round (((1 : Int) : ℚ)) = 1 :=
    Binary64.round_eq _ _ 52 4503599627370496 (by norm_num) (by norm_num) (by norm_num) (by norm_num)
      (by norm_num) (by norm_num) (by norm_num)
  have r4 : Binary64.round (1 / 10) = 3602879701896397 / 36028797018963968 :=
    Binary64.round_eq _ _ 56 7205759403792794 (by norm_num) (by norm_num) (by norm_num) (by norm_num)
      (by norm_num) (by norm_num) (by norm_num)
  have r5 : Binary64.round (((2 : Int) : ℚ)) = 2 :=
    Binary64.round_eq _ _ 51 4503599627370496 (by norm_num) (by norm_num) (by norm_num) (by norm_num)
      (by norm_num) (by norm_num) (by norm_num)
  have r6 : Binary64.round (2 / 10) = 3602879701896397 / 18014398509481984 :=
    Binary64.round_eq _ _ 55 7205759403792794 (by norm_num) (by norm_num) (by norm_num) (by norm_num)
      (by norm_num) (by norm_num) (by norm_num)
  have r7 : Binary64.round (((3 : Int) : ℚ)) = 3 :=
    Binary64.round_eq _ _ 51 6755399441055744 (by norm_num) (by norm_num) (by norm_num) (by norm_num)
      (by norm_num) (by norm_num) (by norm_num)
  have r8 : Binary64.round (3 / 10) = 5404319552844595 / 18014398509481984 :=
    Binary64.round_eq _ _ 54 5404319552844595 (by norm_num) (by norm_num) (by norm_num) (by norm_num)
      (by norm_num) (by norm_num) (by norm_num)
  have r9 : Binary64.round (0 + (3602879701896397 / 36028797018963968)) = 3602879701896397 / 36028797018963968 :=
    Binary64.round_eq _ _ 56 7205759403792794 (by norm_num) (by norm_num) (by norm_num) (by norm_num)
      (by norm_num) (by norm_num) (by norm_num)
  have r10 : Binary64.round ((3602879701896397 / 36028797018963968) + (3602879701896397 / 18014398509481984)) = 1351079888211149 / 4503599627370496 :=
    Binary64.round_eq _ _ 54 5404319552844596 (by norm_num) (by norm_num) (by norm_num) (by norm_num)
      (by norm_num) (by norm_num) (by norm_num)
  have r11 : Binary64.round ((1351079888211149 / 4503599627370496) + (5404319552844595 / 18014398509481984)) = 1351079888211149 / 2251799813685248 :=
    Binary64.round_eq _ _ 53 5404319552844596 (by norm_num) (by norm_num) (by norm_num) (by norm_num)
      (by norm_num) (by norm_num) (by norm_num)
  have r12 : Binary64.round ((1351079888211149 / 2251799813685248) / 3) = 7205759403792795 / 36028797018963968 :=
    Binary64.round_eq _ _ 55 7205759403792795 (by norm_num) (by norm_num) (by norm_num) (by norm_num)
      (by norm_num) (by norm_num) (by norm_num)
  have r13 : Binary64.round (0 + (5404319552844595 / 18014398509481984)) = 5404319552844595 / 18014398509481984 :=
    Binary64.round_eq _ _ 54 5404319552844595 (by norm_num) (by norm_num) (by norm_num) (by norm_num)
      (by norm_num) (by norm_num) (by norm_num)
  have r14 : Binary64.round ((5404319552844595 / 18014398509481984) + (3602879701896397 / 18014398509481984)) = 1 / 2 :=
    Binary64.round_eq _ _ 53 4503599627370496 (by norm_num) (by norm_num) (by norm_num) (by norm_num)
      (by norm_num) (by norm_num) (by norm_num)
  have r15 : Binary64.round ((1 / 2) + (3602879701896397 / 36028797018963968)) = 5404319552844595 / 9007199254740992 :=
    Binary64.round_eq _ _ 53 5404319552844595 (by norm_num) (by norm_num) (by norm_num) (by norm_num)
      (by norm_num) (by norm_num) (by norm_num)
  have r16 : Binary64.round ((5404319552844595 / 9007199254740992) / 3) = 7205759403792793 / 36028797018963968 :=
    Binary64.round_eq _ _ 55 7205759403792793 (by norm_num) (by norm_num) (by norm_num) (by norm_num)
      (by norm_num) (by norm_num) (by norm_num)
  have hvel : ∀ n : Int, (Binary64.CalculateVelocityPerMinute n (10 * Minute)).1
      = Binary64.round (Binary64.round (n : ℚ) / 10) := by
    intro n
    unfold Binary64.CalculateVelocityPerMinute Binary64.Minutes
    rw [if_neg (by decide)]
    simp only [hmin, hns, Binary64.ofInt, Binary64.add, Binary64.div, rz, rz2, r1, r2]
  have h3 : ((3 : ℕ) : Int) = 3 := rfl
  refine ⟨?_, ?_, by norm_num⟩
  · simp only [List.map, hvel, Binary64.averageVelocity, Binary64.sumFloat64s, List.foldl_cons,
      List.foldl_nil, List.length_cons, List.length_nil, Binary64.add, Binary64.div,
      Binary64.ofInt, Nat.zero_add, Nat.reduceAdd, h3, r1, r2, r3, r4, r5, r6, r7, r8, r9, r10, r11, r12, r13, r14, r15, r16]
  · simp only [List.map, hvel, Binary64.averageVelocity, Binary64.sumFloat64s, List.foldl_cons,
      List.foldl_nil, List.length_cons, List.length_nil, Binary64.add, Binary64.div,
      Binary64.ofInt, Nat.zero_add, Nat.reduceAdd, h3, r1, r2, r3, r4, r5, r6, r7, r8, r9, r10, r11, r12, r13, r14, r15, r16]

/-- With the `float64` operations of `Duration.Seconds`, the durations of
9007199254740993 and 9007199254740992 nanoseconds have the same number of
seconds, 9007199.254740993. -/
theorem Seconds_float64_collision :
    Binary64.Seconds 9007199254740993 = 4835703278458517 / 536870912 ∧
    Binary64.Seconds 9007199254740992 = 4835703278458517 / 536870912 := by
  have hs1 : Int.tdiv 9007199254740993 Second = 9007199 := by decide
  have hn1 : Int.tmod 9007199254740993 Second = 254740993 := by decide
  have hs2 : Int.tdiv 9007199254740992 Second = 9007199 := by decide
  have hn2 : Int.tmod 9007199254740992 Second = 254740992 := by decide
  have r1 : Binary64.round (((9007199 : Int) : ℚ)) = 9007199 :=
    Binary64.round_eq _ _ 29 4835703141695488 (by norm_num) (by norm_num) (by norm_num) (by norm_num)
      (by norm_num) (by norm_num) (by norm_num)
  have r2 : Binary64.round (((254740993 : Int) : ℚ)) = 254740993 :=
    Binary64.round_eq _ _ 25 8547689327230976 (by norm_num) (by norm_num) (by norm_num) (by norm_num)
      (by norm_num) (by norm_num) (by norm_num)
  have r3 : Binary64.round (((254740992 : Int) : ℚ)) = 254740992 :=
    Binary64.round_eq _ _ 25 8547689293676544 (by norm_num) (by norm_num) (by norm_num) (by norm_num)
      (by norm_num) (by norm_num) (by norm_num)
  have r4 : Binary64.round (254740993 / 1000000000) = 4589005764603161 / 18014398509481984 :=
    Binary64.round_eq _ _ 54 4589005764603161 (by norm_num) (by norm_num) (by norm_num) (by norm_num)
      (by norm_num) (by norm_num) (by norm_num)
  have r5 : Binary64.round (254740992 / 1000000000) = 2294502873294381 / 9007199254740992 :=
    Binary64.round_eq _ _ 54 4589005746588762 (by norm_num) (by norm_num) (by norm_num) (by norm_num)
      (by norm_num) (by norm_num) (by norm_num)
  have r6 : Binary64.round (9007199 + (4589005764603161 / 18014398509481984)) = 4835703278458517 / 536870912 :=
    Binary64.round_eq _ _ 29 4835703278458517 (by norm_num) (by norm_num) (by norm_num) (by norm_num)
      (by norm_num) (by norm_num) (by norm_num)
  have r7 : Binary64.round (9007199 + (2294502873294381 / 9007199254740992)) = 4835703278458517 / 536870912 :=
    Binary64.round_eq _ _ 29 4835703278458517 (by norm_num) (by norm_num) (by norm_num) (by norm_num)
      (by norm_num) (by norm_num) (by norm_num)
  constructor
  · unfold Binary64.Seconds
    simp only [hs1, hn1, Binary64.ofInt, Binary64.add, Binary64.div, r1, r2, r3, r4, r5, r6, r7]
  · unfold Binary64.Seconds
    simp only [hs2, hn2, Binary64.ofInt, Binary64.add, Binary64.div, r1, r2, r3, r4, r5, r6, r7]

/-- Counterexample to C29, in three parts. First, two pairs of one author whose
current commits have the instants 5 and 0 (the zero time value): in the order
5, 0 the author entry has `FirstCommit` 0, in the order 0, 5 it has
`FirstCommit` 5. Second, two pairs whose current author email is not the email
of any commit and whose current commits carry the names Ann and Ann B: the
author entry takes its `Name` from the pair that comes first. Third, with the
`float64` operations of the source the mean of the velocities of 1, 2 and 3
lines in 10 minutes is 0.20000000000000004 when they are added in this order
and 0.19999999999999998 when they are added in the reverse order. -/
theorem CalculateStats_pairs_perm_counterexample :
    ([timedPair "Ann" 5, timedPair "Ann" 0].Perm [timedPair "Ann" 0, timedPair "Ann" 5] ∧
      ∃ s₁ s₂ a₁ a₂,
        CalculateStats [authorCommit "abc123" "Ann" "ann@example.com" 7]
          [timedPair "Ann" 5, timedPair "Ann" 0] = some s₁ ∧
        CalculateStats [authorCommit "abc123" "Ann" "ann@example.com" 7]
          [timedPair "Ann" 0, timedPair "Ann" 5] = some s₂ ∧
        Authors.get s₁.Authors "ann@example.com" = some a₁ ∧
        Authors.get s₂.Authors "ann@example.com" = some a₂ ∧
        a₁.FirstCommit = 0 ∧ a₂.FirstCommit = 5) ∧
    ([timedPair "Ann" 5, timedPair "Ann B" 6].Perm [timedPair "Ann B" 6, timedPair "Ann" 5] ∧
      ∃ s₁ s₂ a₁ a₂,
        CalculateStats [sampleCommit "abc123"]
          [timedPair "Ann" 5, timedPair "Ann B" 6] = some s₁ ∧
        CalculateStats [sampleCommit "abc123"]
          [timedPair "Ann B" 6, timedPair "Ann" 5] = some s₂ ∧
        Authors.get s₁.Authors "ann@example.com" = some a₁ ∧
        Authors.get s₂.Authors "ann@example.com" = some a₂ ∧
        a₁.Name = "Ann" ∧ a₂.Name = "Ann B") ∧
    (([1, 2, 3] : List Int).Perm [3, 2, 1] ∧
      Binary64.averageVelocity
          ([1, 2, 3].map (fun n => (Binary64.CalculateVelocityPerMinute n (10 * Minute)).1))
        ≠ Binary64.averageVelocity
          ([3, 2, 1].map
            (fun n => (Binary64.CalculateVelocityPerMinute n (10 * Minute)).1))) := by
  have hpairs : ∀ (n m : String) (t u : Time),
      authorPairs "ann@example.com" [timedPair n t, timedPair m u]
        = [timedPair n t, timedPair m u] := by
    intro n m t u
    simp [authorPairs, hasFilteredChanges, timedPair, authorCommit]
  have hinit : Authors.get
      ([authorCommit "abc123" "Ann" "ann@example.com" 7].foldl authorsAfter [])
      "ann@example.com" = some (AuthorStats.new "Ann" "ann@example.com") := by
    simp [authorsAfter, Authors.get, Authors.set, authorCommit]
  have hnone : Authors.get ([sampleCommit "abc123"].foldl authorsAfter [])
      "ann@example.com" = none := by
    simp [authorsAfter, Authors.get, Authors.set, sampleCommit]
  have hfold : ∀ (t u : Time),
      (authorPairs "ann@example.com" [timedPair "Ann" t, timedPair "Ann" u]).foldl stepEntry
        (Authors.get ([authorCommit "abc123" "Ann" "ann@example.com" 7].foldl authorsAfter [])
          "ann@example.com")
      = some (updateAuthor (updateAuthor (AuthorStats.new "Ann" "ann@example.com")
          (timedPair "Ann" t)) (timedPair "Ann" u)) := by
    intro t u
    rw [hpairs, hinit, stepEntry_foldl_some, List.foldl_cons, List.foldl_cons, List.foldl_nil]
  have hfold2 : ∀ (n m : String) (t u : Time),
      (authorPairs "ann@example.com" [timedPair n t, timedPair m u]).foldl stepEntry
        (Authors.get ([sampleCommit "abc123"].foldl authorsAfter []) "ann@example.com")
      = some (updateAuthor (updateAuthor (AuthorStats.new n "ann@example.com")
          (timedPair n t)) (timedPair m u)) := by
    intro n m t u
    rw [hpairs, hnone]
    rfl
  have htime : ∀ (t u : Time),
      (updateAuthor (updateAuthor (AuthorStats.new "Ann" "ann@example.com")
        (timedPair "Ann" t)) (timedPair "Ann" u)).FirstCommit
      = firstAfter (firstAfter 0 t) u := by
    intro t u
    rw [(updateAuthor_times _ _).1, (updateAuthor_times _ _).1]
    rfl
  have hname : ∀ (n m : String) (t u : Time),
      (updateAuthor (updateAuthor (AuthorStats.new n "ann@example.com")
        (timedPair n t)) (timedPair m u)).Name = n := by
    intro n m t u
    rw [(updateAuthor_fields _ _).2.2.2.2.1, (updateAuthor_fields _ _).2.2.2.2.1]
    rfl
  refine ⟨?_, ?_, ?_⟩
  · refine ⟨List.Perm.swap _ _ _, ?_⟩
    obtain ⟨s₁, a₁, hs₁, ha₁, _, hf₁⟩ := CalculateStats_entry_of_fold
      [authorCommit "abc123" "Ann" "ann@example.com" 7]
      [timedPair "Ann" 5, timedPair "Ann" 0] (by simp) "ann@example.com" _ (hfold 5 0)
    obtain ⟨s₂, a₂, hs₂, ha₂, _, hf₂⟩ := CalculateStats_entry_of_fold
      [authorCommit "abc123" "Ann" "ann@example.com" 7]
      [timedPair "Ann" 0, timedPair "Ann" 5] (by simp) "ann@example.com" _ (hfold 0 5)
    refine ⟨s₁, s₂, a₁, a₂, hs₁, hs₂, ha₁, ha₂, ?_, ?_⟩
    · rw [hf₁, htime]
      decide
    · rw [hf₂, htime]
      decide
  · refine ⟨List.Perm.swap _ _ _, ?_⟩
    obtain ⟨s₁, a₁, hs₁, ha₁, hn₁, _⟩ := CalculateStats_entry_of_fold
      [sampleCommit "abc123"]
      [timedPair "Ann" 5, timedPair "Ann B" 6] (by simp) "ann@example.com" _
      (hfold2 "Ann" "Ann B" 5 6)
    obtain ⟨s₂, a₂, hs₂, ha₂, hn₂, _⟩ := CalculateStats_entry_of_fold
      [sampleCommit "abc123"]
      [timedPair "Ann B" 6, timedPair "Ann" 5] (by simp) "ann@example.com" _
      (hfold2 "Ann B" "Ann" 6 5)
    exact ⟨s₁, s₂, a₁, a₂, hs₁, hs₂, ha₁, ha₂, hn₁.trans (hname _ _ _ _),
      hn₂.trans (hname _ _ _ _)⟩
  · refine ⟨by decide, ?_⟩
    rw [averageVelocity_float64_order.1, averageVelocity_float64_order.2.1]
    exact averageVelocity_float64_order.2.2

/-! ## Detection in `float64` arithmetic -/

theorem float64_foldl_step (d : Detector) (pairs : List CommitPair)
    (acc : List SuspiciousCommit) :
    pairs.foldl (Binary64.DetectSuspicious.step d) acc
      = acc ++ pairs.filterMap (Binary64.DetectSuspicious.evaluate d) := by
  induction pairs generalizing acc with
  | nil => simp
  | cons p ps ih =>
    rw [List.foldl_cons, ih]
    cases h : Binary64.DetectSuspicious.evaluate d p <;>
      simp [Binary64.DetectSuspicious.step, h, List.filterMap_cons]

theorem float64_DetectSuspicious_eq_filterMap (d : Detector) (pairs : List CommitPair)
    (rs : Option RepositoryStats) :
    Binary64.DetectSuspicious d pairs rs
      = pairs.filterMap (Binary64.DetectSuspicious.evaluate d) := by
  simp [Binary64.DetectSuspicious, float64_foldl_step]

theorem float64_CalculateVelocity_pos (n : Int) (delta : Duration) (hpos : 0 < delta) :
    Binary64.CalculateVelocity n delta
      = (some { LOCPerMinute :=
          Binary64.div (Binary64.ofInt n) (Binary64.Minutes delta) }, none) := by
  have hnot : ¬ delta ≤ 0 := not_le.mpr hpos
  simp only [Binary64.CalculateVelocity, if_neg hnot]

theorem float64_observedRate_pos (n : Int) (delta : Duration) (hpos : 0 < delta) :
    Binary64.observedRate n delta
      = some (Binary64.div (Binary64.ofInt n) (Binary64.Minutes delta)) := by
  simp only [Binary64.observedRate, float64_CalculateVelocity_pos n delta hpos,
    Option.map_some']

theorem float64_velocities_disabled (d : Detector) (p : CommitPair)
    (h : ¬ (d.thresholds.MaxAdditionsPerMin > 0 ∨ d.thresholds.MaxDeletionsPerMin > 0)) :
    Binary64.DetectSuspicious.velocities d p = some (none, none) := by
  simp only [Binary64.DetectSuspicious.velocities, if_neg h]

theorem float64_velocities_enabled_pos (d : Detector) (p : CommitPair)
    (h : d.thresholds.MaxAdditionsPerMin > 0 ∨ d.thresholds.MaxDeletionsPerMin > 0)
    (hpos : 0 < p.TimeDelta) :
    Binary64.DetectSuspicious.velocities d p
      = some ((Binary64.CalculateVelocity p.Stats.Additions p.TimeDelta).1,
              (Binary64.CalculateVelocity p.Stats.Deletions p.TimeDelta).1) := by
  simp only [Binary64.DetectSuspicious.velocities, if_pos h,
    float64_CalculateVelocity_pos _ _ hpos]

theorem float64_velocities_enabled_nonpos (d : Detector) (p : CommitPair)
    (h : d.thresholds.MaxAdditionsPerMin > 0 ∨ d.thresholds.MaxDeletionsPerMin > 0)
    (hneg : p.TimeDelta ≤ 0) :
    Binary64.DetectSuspicious.velocities d p = none := by
  simp only [Binary64.DetectSuspicious.velocities, if_pos h, Binary64.CalculateVelocity,
    if_pos hneg]

theorem float64_velocities_of_pos (d : Detector) (p : CommitPair)
    (hpos : 0 < p.TimeDelta) :
    ∃ avdv, Binary64.DetectSuspicious.velocities d p = some avdv := by
  by_cases hen : d.thresholds.MaxAdditionsPerMin > 0 ∨ d.thresholds.MaxDeletionsPerMin > 0
  · exact ⟨_, float64_velocities_enabled_pos d p hen hpos⟩
  · exact ⟨_, float64_velocities_disabled d p hen⟩

theorem float64_checkTimeDelta_length (d : Detector) (p : CommitPair)
    (rs : List FmtString) :
    (Binary64.DetectSuspicious.checkTimeDelta d p rs).length
      = rs.length + (if Binary64.shortTimeDelta d.thresholds p then 1 else 0) := by
  unfold Binary64.DetectSuspicious.checkTimeDelta Binary64.shortTimeDelta
  split_ifs <;> simp_all

theorem float64_checkAdditionVelocity_length (d : Detector) (p : CommitPair)
    (av dv : Option VelocityMetrics)
    (h : Binary64.DetectSuspicious.velocities d p = some (av, dv))
    (rs : List FmtString) :
    (DetectSuspicious.checkAdditionVelocity d av rs).length
      = rs.length + (if Binary64.highAdditionVelocity d.thresholds p then 1 else 0) := by
  by_cases hen : d.thresholds.MaxAdditionsPerMin > 0 ∨ d.thresholds.MaxDeletionsPerMin > 0
  · by_cases hpos : 0 < p.TimeDelta
    · rw [float64_velocities_enabled_pos d p hen hpos] at h
      simp only [Option.some.injEq, Prod.mk.injEq] at h
      rw [← h.1]
      simp only [float64_CalculateVelocity_pos _ _ hpos, DetectSuspicious.checkAdditionVelocity,
        Binary64.highAdditionVelocity, float64_observedRate_pos _ _ hpos, Option.mem_def,
        Option.some.injEq, exists_eq_left']
      by_cases h1 : d.thresholds.MaxAdditionsPerMin > 0
      · by_cases h2 : Binary64.div (Binary64.ofInt p.Stats.Additions)
            (Binary64.Minutes p.TimeDelta) > d.thresholds.MaxAdditionsPerMin
        · simp [h1, h2]
        · simp [h1, h2]
      · simp [h1]
    · rw [float64_velocities_enabled_nonpos d p hen (not_lt.mp hpos)] at h
      exact absurd h (by simp)
  · rw [float64_velocities_disabled d p hen] at h
    simp only [Option.some.injEq, Prod.mk.injEq] at h
    rw [← h.1]
    have hoff : ¬ Binary64.highAdditionVelocity d.thresholds p := fun hc => hen (Or.inl hc.1)
    simp [DetectSuspicious.checkAdditionVelocity, hoff]

theorem float64_checkDeletionVelocity_length (d : Detector) (p : CommitPair)
    (av dv : Option VelocityMetrics)
    (h : Binary64.DetectSuspicious.velocities d p = some (av, dv))
    (rs : List FmtString) :
    (DetectSuspicious.checkDeletionVelocity d dv rs).length
      = rs.length + (if Binary64.highDeletionVelocity d.thresholds p then 1 else 0) := by
  by_cases hen : d.thresholds.MaxAdditionsPerMin > 0 ∨ d.thresholds.MaxDeletionsPerMin > 0
  · by_cases hpos : 0 < p.TimeDelta
    · rw [float64_velocities_enabled_pos d p hen hpos] at h
      simp only [Option.some.injEq, Prod.mk.injEq] at h
      rw [← h.2]
      simp only [float64_CalculateVelocity_pos _ _ hpos, DetectSuspicious.checkDeletionVelocity,
        Binary64.highDeletionVelocity, float64_observedRate_pos _ _ hpos, Option.mem_def,
        Option.some.injEq, exists_eq_left']
      by_cases h1 : d.thresholds.MaxDeletionsPerMin > 0
      · by_cases h2 : Binary64.div (Binary64.ofInt p.Stats.Deletions)
            (Binary64.Minutes p.TimeDelta) > d.thresholds.MaxDeletionsPerMin
        · simp [h1, h2]
        · simp [h1, h2]
      · simp [h1]
    · rw [float64_velocities_enabled_nonpos d p hen (not_lt.mp hpos)] at h
      exact absurd h (by simp)
  · rw [float64_velocities_disabled d p hen] at h
    simp only [Option.some.injEq, Prod.mk.injEq] at h
    rw [← h.2]
    have hoff : ¬ Binary64.highDeletionVelocity d.thresholds p := fun hc => hen (Or.inr hc.1)
    simp [DetectSuspicious.checkDeletionVelocity, hoff]

theorem float64_reasons_length (d : Detector) (p : CommitPair)
    (av dv : Option VelocityMetrics)
    (h : Binary64.DetectSuspicious.velocities d p = some (av, dv)) :
    (Binary64.DetectSuspicious.reasons d p av dv).length
      = Binary64.exceededCount d.thresholds p := by
  simp only [Binary64.DetectSuspicious.reasons, Binary64.exceededCount,
    float64_checkDeletionVelocity_length d p av dv h,
    float64_checkAdditionVelocity_length d p av dv h,
    DetectSuspicious.checkDeletions_length, DetectSuspicious.checkAdditions_length,
    float64_checkTimeDelta_length, List.length_nil, Nat.zero_add]

theorem float64_exceededCount_pos_iff (t : Thresholds) (p : CommitPair) :
    0 < Binary64.exceededCount t p ↔ Binary64.someExceeded t p := by
  unfold Binary64.exceededCount Binary64.someExceeded
  by_cases h1 : Binary64.shortTimeDelta t p <;> by_cases h2 : largeAdditions t p <;>
    by_cases h3 : largeDeletions t p <;> by_cases h4 : Binary64.highAdditionVelocity t p <;>
    by_cases h5 : Binary64.highDeletionVelocity t p <;> simp [h1, h2, h3, h4, h5]

theorem float64_evaluate_some (d : Detector) (p : CommitPair)
    (r : SuspiciousCommit) (h : Binary64.DetectSuspicious.evaluate d p = some r) :
    r.Pair = p ∧
    (p.Stats.Additions ≠ 0 ∨ p.Stats.Deletions ≠ 0) ∧
    Binary64.DetectSuspicious.velocities d p = some (r.AdditionVelocity, r.DeletionVelocity) ∧
    r.Reasons.length = Binary64.exceededCount d.thresholds p ∧
    0 < Binary64.exceededCount d.thresholds p := by
  unfold Binary64.DetectSuspicious.evaluate at h
  split_ifs at h with hz
  cases hv : Binary64.DetectSuspicious.velocities d p with
  | none => simp [hv] at h
  | some avdv =>
    obtain ⟨av, dv⟩ := avdv
    simp only [hv] at h
    split_ifs at h with hlen
    simp only [Option.some.injEq] at h
    subst h
    have hl := float64_reasons_length d p av dv hv
    refine ⟨rfl, ?_, rfl, hl, ?_⟩
    · by_contra hc
      simp only [not_or, not_not] at hc
      exact hz hc
    · simpa [hl] using hlen

theorem float64_evaluate_isSome_iff (d : Detector) (p : CommitPair) :
    (∃ r, Binary64.DetectSuspicious.evaluate d p = some r) ↔
      (p.Stats.Additions ≠ 0 ∨ p.Stats.Deletions ≠ 0) ∧
      (∃ avdv, Binary64.DetectSuspicious.velocities d p = some avdv) ∧
      Binary64.someExceeded d.thresholds p := by
  constructor
  · rintro ⟨r, h⟩
    obtain ⟨_, h2, h3, _, h5⟩ := float64_evaluate_some d p r h
    exact ⟨h2, ⟨_, h3⟩, (float64_exceededCount_pos_iff _ _).mp h5⟩
  · rintro ⟨hnz, ⟨⟨av, dv⟩, hv⟩, hex⟩
    have hz : ¬ (p.Stats.Additions = 0 ∧ p.Stats.Deletions = 0) := by
      rintro ⟨a, b⟩
      rcases hnz with h | h
      · exact h a
      · exact h b
    have hl := float64_reasons_length d p av dv hv
    have hpos : (Binary64.DetectSuspicious.reasons d p av dv).length > 0 := by
      rw [hl]; exact (float64_exceededCount_pos_iff _ _).mpr hex
    simp only [Binary64.DetectSuspicious.evaluate, if_neg hz, hv, if_pos hpos]
    exact ⟨_, rfl⟩

theorem float64_mem_iff (d : Detector) (pairs : List CommitPair)
    (rs : Option RepositoryStats) (r : SuspiciousCommit) :
    r ∈ Binary64.DetectSuspicious d pairs rs ↔
      ∃ p ∈ pairs, Binary64.DetectSuspicious.evaluate d p = some r := by
  rw [float64_DetectSuspicious_eq_filterMap, List.mem_filterMap]

theorem float64_not_exceeded_of_within (t : Thresholds) (p : CommitPair)
    (h : Binary64.within t p) : ¬ Binary64.someExceeded t p := by
  obtain ⟨h1, h2, h3, h4, h5⟩ := h
  rintro (hc | hc | hc | hc | hc)
  · exact absurd hc.2 (not_lt.mpr h1)
  · exact absurd hc.2 (not_lt.mpr h2)
  · exact absurd hc.2 (not_lt.mpr h3)
  · obtain ⟨_, r, hr, hgt⟩ := hc
    exact absurd hgt (not_lt.mpr (h4 r hr))
  · obtain ⟨_, r, hr, hgt⟩ := hc
    exact absurd hgt (not_lt.mpr (h5 r hr))

theorem float64_flags_iff (d : Detector) (pairs : List CommitPair)
    (rs : Option RepositoryStats) (p : CommitPair) (hp : p ∈ pairs)
    (hpos : 0 < p.TimeDelta) :
    (∃ r ∈ Binary64.DetectSuspicious d pairs rs, r.Pair = p) ↔
      (p.Stats.Additions ≠ 0 ∨ p.Stats.Deletions ≠ 0) ∧
        Binary64.someExceeded d.thresholds p := by
  constructor
  · rintro ⟨r, hr, hrp⟩
    obtain ⟨q, _, hq⟩ := (float64_mem_iff d pairs rs r).mp hr
    have hqp : q = p := by
      rw [← (float64_evaluate_some d q r hq).1, hrp]
    subst hqp
    obtain ⟨h1, _, h3⟩ := (float64_evaluate_isSome_iff d q).mp ⟨r, hq⟩
    exact ⟨h1, h3⟩
  · rintro ⟨h1, h3⟩
    obtain ⟨r, hr⟩ := (float64_evaluate_isSome_iff d p).mpr
      ⟨h1, float64_velocities_of_pos d p hpos, h3⟩
    exact ⟨r, (float64_mem_iff d pairs rs r).mpr ⟨p, hp, hr⟩,
      (float64_evaluate_some d p r hr).1⟩

/-- In `float64` arithmetic 30 seconds are 30 seconds. -/
theorem float64_Seconds_30s : Binary64.Seconds (30 * Second) = 30 := by
  have hs : Int.tdiv (30 * Second) Second = 30 := by decide
  have hn : Int.tmod (30 * Second) Second = 0 := by decide
  have rz : Binary64.round ((0 : Int) : ℚ) = 0 := by simp [Binary64.round]
  have rz2 : Binary64.round (0 / 1000000000) = 0 := by simp [Binary64.round]
  have r1 : Binary64.round (((30 : Int) : ℚ)) = 30 :=
    Binary64.round_eq _ _ 48 8444249301319680 (by norm_num) (by norm_num) (by norm_num) (by norm_num)
      (by norm_num) (by norm_num) (by norm_num)
  have r2 : Binary64.round (30 + 0) = 30 :=
    Binary64.round_eq _ _ 48 8444249301319680 (by norm_num) (by norm_num) (by norm_num) (by norm_num)
      (by norm_num) (by norm_num) (by norm_num)
  unfold Binary64.Seconds
  simp only [hs, hn, Binary64.ofInt, Binary64.add, Binary64.div, rz, rz2, r1, r2]

/-- In `float64` arithmetic 30 seconds are 0.5 minutes. -/
theorem float64_Minutes_30s : Binary64.Minutes (30 * Second) = 1 / 2 := by
  have hs : Int.tdiv (30 * Second) Minute = 0 := by decide
  have hn : Int.tmod (30 * Second) Minute = 30000000000 := by decide
  have rz : Binary64.round ((0 : Int) : ℚ) = 0 := by simp [Binary64.round]
  have rz2 : Binary64.round (0 / (60 * 1000000000)) = 0 := by simp [Binary64.round]
  have r1 : Binary64.round (((30000000000 : Int) : ℚ)) = 30000000000 :=
    Binary64.round_eq _ _ 18 7864320000000000 (by norm_num) (by norm_num) (by norm_num) (by norm_num)
      (by norm_num) (by norm_num) (by norm_num)
  have r2 : Binary64.round (30000000000 / (60 * 1000000000)) = 1 / 2 :=
    Binary64.round_eq _ _ 53 4503599627370496 (by norm_num) (by norm_num) (by norm_num) (by norm_num)
      (by norm_num) (by norm_num) (by norm_num)
  have r3 : Binary64.round (0 + (1 / 2)) = 1 / 2 :=
    Binary64.round_eq _ _ 53 4503599627370496 (by norm_num) (by norm_num) (by norm_num) (by norm_num)
      (by norm_num) (by norm_num) (by norm_num)
  unfold Binary64.Minutes
  simp only [hs, hn, Binary64.ofInt, Binary64.add, Binary64.div, rz, rz2, r1, r2, r3]

/-- In `float64` arithmetic 200 lines in 30 seconds are 400 lines per minute. -/
theorem float64_rate_200_30s : Binary64.observedRate 200 (30 * Second) = some 400 := by
  have r1 : Binary64.round (((200 : Int) : ℚ)) = 200 :=
    Binary64.round_eq _ _ 45 7036874417766400 (by norm_num) (by norm_num) (by norm_num) (by norm_num)
      (by norm_num) (by norm_num) (by norm_num)
  have r2 : Binary64.round (200 / (1 / 2)) = 400 :=
    Binary64.round_eq _ _ 44 7036874417766400 (by norm_num) (by norm_num) (by norm_num) (by norm_num)
      (by norm_num) (by norm_num) (by norm_num)
  rw [float64_observedRate_pos _ _ (by decide), float64_Minutes_30s]
  simp only [Binary64.ofInt, Binary64.div, r1, r2]

/-- In `float64` arithmetic 10 minutes are 600 seconds. -/
theorem float64_Seconds_10min : Binary64.Seconds (10 * Minute) = 600 := by
  have hs : Int.tdiv (10 * Minute) Second = 600 := by decide
  have hn : Int.tmod (10 * Minute) Second = 0 := by decide
  have rz : Binary64.round ((0 : Int) : ℚ) = 0 := by simp [Binary64.round]
  have rz2 : Binary64.round (0 / 1000000000) = 0 := by simp [Binary64.round]
  have r1 : Binary64.round (((600 : Int) : ℚ)) = 600 :=
    Binary64.round_eq _ _ 43 5277655813324800 (by norm_num) (by norm_num) (by norm_num) (by norm_num)
      (by norm_num) (by norm_num) (by norm_num)
  have r2 : Binary64.round (600 + 0) = 600 :=
    Binary64.round_eq _ _ 43 5277655813324800 (by norm_num) (by norm_num) (by norm_num) (by norm_num)
      (by norm_num) (by norm_num) (by norm_num)
  unfold Binary64.Seconds
  simp only [hs, hn, Binary64.ofInt, Binary64.add, Binary64.div, rz, rz2, r1, r2]

/-- In `float64` arithmetic 10 minutes are 10 minutes. -/
theorem float64_Minutes_10min : Binary64.Minutes (10 * Minute) = 10 := by
  have hs : Int.tdiv (10 * Minute) Minute = 10 := by decide
  have hn : Int.tmod (10 * Minute) Minute = 0 := by decide
  have rz : Binary64.round ((0 : Int) : ℚ) = 0 := by simp [Binary64.round]
  have rz2 : Binary64.round (0 / (60 * 1000000000)) = 0 := by simp [Binary64.round]
  have r1 : Binary64.round (((10 : Int) : ℚ)) = 10 :=
    Binary64.round_eq _ _ 49 5629499534213120 (by norm_num) (by norm_num) (by norm_num) (by norm_num)
      (by norm_num) (by norm_num) (by norm_num)
  have r2 : Binary64.round (10 + 0) = 10 :=
    Binary64.round_eq _ _ 49 5629499534213120 (by norm_num) (by norm_num) (by norm_num) (by norm_num)
      (by norm_num) (by norm_num) (by norm_num)
  unfold Binary64.Minutes
  simp only [hs, hn, Binary64.ofInt, Binary64.add, Binary64.div, rz, rz2, r1, r2]

/-- In `float64` arithmetic 50 lines in 10 minutes are 5 lines per minute. -/
theorem float64_rate_50_10min : Binary64.observedRate 50 (10 * Minute) = some 5 := by
  have r1 : Binary64.round (((50 : Int) : ℚ)) = 50 :=
    Binary64.round_eq _ _ 47 7036874417766400 (by norm_num) (by norm_num) (by norm_num) (by norm_num)
      (by norm_num) (by norm_num) (by norm_num)
  have r2 : Binary64.round (50 / 10) = 5 :=
    Binary64.round_eq _ _ 50 5629499534213120 (by norm_num) (by norm_num) (by norm_num) (by norm_num)
      (by norm_num) (by norm_num) (by norm_num)
  rw [float64_observedRate_pos _ _ (by decide), float64_Minutes_10min]
  simp only [Binary64.ofInt, Binary64.div, r1, r2]

/-- The conversion `float64(60)` is 60. -/
theorem float64_ofInt_60 : Binary64.ofInt 60 = 60 := by
  have r1 : Binary64.round (((60 : Int) : ℚ)) = 60 :=
    Binary64.round_eq _ _ 47 8444249301319680 (by norm_num) (by norm_num) (by norm_num) (by norm_num)
      (by norm_num) (by norm_num) (by norm_num)
  simp only [Binary64.ofInt, r1]

theorem float64_scenarioA_output (delta : Duration) :
    Binary64.DetectSuspicious (Detector.mk thresholdsA) [samplePair 200 50 delta] none
      = [recordA delta] := by
  simp [float64_DetectSuspicious_eq_filterMap, Binary64.DetectSuspicious.evaluate,
    Binary64.DetectSuspicious.velocities, Binary64.DetectSuspicious.reasons,
    Binary64.DetectSuspicious.checkTimeDelta,
    DetectSuspicious.checkAdditions, DetectSuspicious.checkDeletions,
    DetectSuspicious.checkAdditionVelocity, DetectSuspicious.checkDeletionVelocity,
    samplePair, sampleCommit, thresholdsA, recordA]

theorem float64_scenarioB_count (deletions : Int) :
    Binary64.exceededCount thresholdsB (samplePair 200 deletions (30 * Second)) = 3 := by
  have e1 : (samplePair 200 deletions (30 * Second)).TimeDelta = 30 * Second := rfl
  have e2 : (samplePair 200 deletions (30 * Second)).Stats.Additions = 200 := rfl
  have e3 : thresholdsB.MinTimeDeltaSeconds = 60 := rfl
  have e4 : thresholdsB.MaxAdditionsPerMin = 50 := rfl
  have e5 : thresholdsB.MaxDeletionsPerMin = 0 := rfl
  have h1 : Binary64.shortTimeDelta thresholdsB (samplePair 200 deletions (30 * Second)) := by
    unfold Binary64.shortTimeDelta
    rw [e1, e3, float64_Seconds_30s, float64_ofInt_60]
    norm_num
  have h2 : largeAdditions thresholdsB (samplePair 200 deletions (30 * Second)) :=
    ⟨by decide, by show (200 : Int) > 100; decide⟩
  have h3 : ¬ largeDeletions thresholdsB (samplePair 200 deletions (30 * Second)) :=
    fun h => absurd h.1 (by decide)
  have h4 : Binary64.highAdditionVelocity thresholdsB
      (samplePair 200 deletions (30 * Second)) := by
    unfold Binary64.highAdditionVelocity
    rw [e1, e2, e4, float64_rate_200_30s]
    exact ⟨by norm_num, 400, rfl, by norm_num⟩
  have h5 : ¬ Binary64.highDeletionVelocity thresholdsB
      (samplePair 200 deletions (30 * Second)) := by
    unfold Binary64.highDeletionVelocity
    rw [e5]
    exact fun h => absurd h.1 (lt_irrefl _)
  unfold Binary64.exceededCount
  rw [if_pos h1, if_pos h2, if_neg h3, if_pos h4, if_neg h5]

theorem float64_scenarioB_output (deletions : Int) :
    (Binary64.DetectSuspicious (Detector.mk thresholdsB)
        [samplePair 200 deletions (30 * Second)] none).map
      (fun r => r.Reasons.length) = [3] := by
  have hcount := float64_scenarioB_count deletions
  have hex : Binary64.someExceeded thresholdsB (samplePair 200 deletions (30 * Second)) :=
    (float64_exceededCount_pos_iff _ _).mp (by rw [hcount]; decide)
  have hpos : 0 < (samplePair 200 deletions (30 * Second)).TimeDelta := by
    show (0 : Int) < 30 * Second
    decide
  have hch : (samplePair 200 deletions (30 * Second)).Stats.Additions ≠ 0 := by
    show (200 : Int) ≠ 0
    decide
  obtain ⟨r, hr⟩ := (float64_evaluate_isSome_iff (Detector.mk thresholdsB)
    (samplePair 200 deletions (30 * Second))).mpr
    ⟨Or.inl hch, float64_velocities_of_pos _ _ hpos, hex⟩
  obtain ⟨_, _, _, hlen, _⟩ := float64_evaluate_some _ _ r hr
  have hlen3 : r.Reasons.length = 3 := hlen.trans hcount
  rw [float64_DetectSuspicious_eq_filterMap, List.filterMap_cons, hr, List.filterMap_nil,
    List.map_cons, List.map_nil, hlen3]

/-- With the `float64` operations of `percentile`, the 50th percentile of the
sorted sample 1..10. -/
theorem percentile_float64_p50 :
    Binary64.percentile [1, 2, 3, 4, 5, 6, 7, 8, 9, 10] 50 = some (11 / 2) := by
  have hlen : ((([1, 2, 3, 4, 5, 6, 7, 8, 9, 10] : List ℚ).length : Int) - 1) = 9 := by decide
  have rz : Binary64.round ((0 : Int) : ℚ) = 0 := by simp [Binary64.round]
  have r1 : Binary64.round (50 / 100) = 1 / 2 :=
    Binary64.round_eq _ _ 53 4503599627370496 (by norm_num) (by norm_num) (by norm_num) (by norm_num)
      (by norm_num) (by norm_num) (by norm_num)
  have r2 : Binary64.round (((9 : Int) : ℚ)) = 9 :=
    Binary64.round_eq _ _ 49 5066549580791808 (by norm_num) (by norm_num) (by norm_num) (by norm_num)
      (by norm_num) (by norm_num) (by norm_num)
  have r3 : Binary64.round ((1 / 2) * 9) = 9 / 2 :=
    Binary64.round_eq _ _ 50 5066549580791808 (by norm_num) (by norm_num) (by norm_num) (by norm_num)
      (by norm_num) (by norm_num) (by norm_num)
  have r4 : Binary64.round (((4 : Int) : ℚ)) = 4 :=
    Binary64.round_eq _ _ 50 4503599627370496 (by norm_num) (by norm_num) (by norm_num) (by norm_num)
      (by norm_num) (by norm_num) (by norm_num)
  have r5 : Binary64.round ((9 / 2) - 4) = 1 / 2 :=
    Binary64.round_eq _ _ 53 4503599627370496 (by norm_num) (by norm_num) (by norm_num) (by norm_num)
      (by norm_num) (by norm_num) (by norm_num)
  have r6 : Binary64.round (1 - (1 / 2)) = 1 / 2 :=
    Binary64.round_eq _ _ 53 4503599627370496 (by norm_num) (by norm_num) (by norm_num) (by norm_num)
      (by norm_num) (by norm_num) (by norm_num)
  have r7 : Binary64.round (5 * (1 / 2)) = 5 / 2 :=
    Binary64.round_eq _ _ 51 5629499534213120 (by norm_num) (by norm_num) (by norm_num) (by norm_num)
      (by norm_num) (by norm_num) (by norm_num)
  have r8 : Binary64.round (6 * (1 / 2)) = 3 :=
    Binary64.round_eq _ _ 51 6755399441055744 (by norm_num) (by norm_num) (by norm_num) (by norm_num)
      (by norm_num) (by norm_num) (by norm_num)
  have r9 : Binary64.round ((5 / 2) + 3) = 11 / 2 :=
    Binary64.round_eq _ _ 50 6192449487634432 (by norm_num) (by norm_num) (by norm_num) (by norm_num)
      (by norm_num) (by norm_num) (by norm_num)
  have hfloor : Int.floor ((9 / 2) : ℚ) = 4 := by rw [Int.floor_eq_iff]; norm_num
  have hceil : Int.ceil ((9 / 2) : ℚ) = 5 := by rw [Int.ceil_eq_iff]; norm_num
  have hlo : index ([1, 2, 3, 4, 5, 6, 7, 8, 9, 10] : List ℚ) 4 = some 5 := rfl
  have hhi : index ([1, 2, 3, 4, 5, 6, 7, 8, 9, 10] : List ℚ) 5 = some 6 := rfl
  unfold Binary64.percentile
  rw [if_neg (by decide)]
  simp only [hlen, Binary64.mul, Binary64.div, Binary64.ofInt, Binary64.sub, Binary64.add,
    rz, r1, r2, r3, hfloor, hceil]
  rw [if_neg (by decide)]
  simp only [hlo, hhi, rz, r4, r5, r6, r7, r8, r9]

/-- With the `float64` operations of `percentile`, the 75th percentile of the
sorted sample 1..10. -/
theorem percentile_float64_p75 :
    Binary64.percentile [1, 2, 3, 4, 5, 6, 7, 8, 9, 10] 75 = some (31 / 4) := by
  have hlen : ((([1, 2, 3, 4, 5, 6, 7, 8, 9, 10] : List ℚ).length : Int) - 1) = 9 := by decide
  have rz : Binary64.round ((0 : Int) : ℚ) = 0 := by simp [Binary64.round]
  have r1 : Binary64.round (75 / 100) = 3 / 4 :=
    Binary64.round_eq _ _ 53 6755399441055744 (by norm_num) (by norm_num) (by norm_num) (by norm_num)
      (by norm_num) (by norm_num) (by norm_num)
  have r2 : Binary64.round (((9 : Int) : ℚ)) = 9 :=
    Binary64.round_eq _ _ 49 5066549580791808 (by norm_num) (by norm_num) (by norm_num) (by norm_num)
      (by norm_num) (by norm_num) (by norm_num)
  have r3 : Binary64.round ((3 / 4) * 9) = 27 / 4 :=
    Binary64.round_eq _ _ 50 7599824371187712 (by norm_num) (by norm_num) (by norm_num) (by norm_num)
      (by norm_num) (by norm_num) (by norm_num)
  have r4 : Binary64.round (((6 : Int) : ℚ)) = 6 :=
    Binary64.round_eq _ _ 50 6755399441055744 (by norm_num) (by norm_num) (by norm_num) (by norm_num)
      (by norm_num) (by norm_num) (by norm_num)
  have r5 : Binary64.round ((27 / 4) - 6) = 3 / 4 :=
    Binary64.round_eq _ _ 53 6755399441055744 (by norm_num) (by norm_num) (by norm_num) (by norm_num)
      (by norm_num) (by norm_num) (by norm_num)
  have r6 : Binary64.round (1 - (3 / 4)) = 1 / 4 :=
    Binary64.round_eq _ _ 54 4503599627370496 (by norm_num) (by norm_num) (by norm_num) (by norm_num)
      (by norm_num) (by norm_num) (by norm_num)
  have r7 : Binary64.round (7 * (1 / 4)) = 7 / 4 :=
    Binary64.round_eq _ _ 52 7881299347898368 (by norm_num) (by norm_num) (by norm_num) (by norm_num)
      (by norm_num) (by norm_num) (by norm_num)
  have r8 : Binary64.round (8 * (3 / 4)) = 6 :=
    Binary64.round_eq _ _ 50 6755399441055744 (by norm_num) (by norm_num) (by norm_num) (by norm_num)
      (by norm_num) (by norm_num) (by norm_num)
  have r9 : Binary64.round ((7 / 4) + 6) = 31 / 4 :=
    Binary64.round_eq _ _ 50 8725724278030336 (by norm_num) (by norm_num) (by norm_num) (by norm_num)
      (by norm_num) (by norm_num) (by norm_num)
  have hfloor : Int.floor ((27 / 4) : ℚ) = 6 := by rw [Int.floor_eq_iff]; norm_num
  have hceil : Int.ceil ((27 / 4) : ℚ) = 7 := by rw [Int.ceil_eq_iff]; norm_num
  have hlo : index ([1, 2, 3, 4, 5, 6, 7, 8, 9, 10] : List ℚ) 6 = some 7 := rfl
  have hhi : index ([1, 2, 3, 4, 5, 6, 7, 8, 9, 10] : List ℚ) 7 = some 8 := rfl
  unfold Binary64.percentile
  rw [if_neg (by decide)]
  simp only [hlen, Binary64.mul, Binary64.div, Binary64.ofInt, Binary64.sub, Binary64.add,
    rz, r1, r2, r3, hfloor, hceil]
  rw [if_neg (by decide)]
  simp only [hlo, hhi, rz, r4, r5, r6, r7, r8, r9]

/-- With the `float64` operations of `percentile`, the 90th percentile of the
sorted sample 1..10. -/
theorem percentile_float64_p90 :
    Binary64.percentile [1, 2, 3, 4, 5, 6, 7, 8, 9, 10] 90 = some (5122844576133939 / 562949953421312) := by
  have hlen : ((([1, 2, 3, 4, 5, 6, 7, 8, 9, 10] : List ℚ).length : Int) - 1) = 9 := by decide
  have rz : Binary64.round ((0 : Int) : ℚ) = 0 := by simp [Binary64.round]
  have r1 : Binary64.round (90 / 100) = 8106479329266893 / 9007199254740992 :=
    Binary64.round_eq _ _ 53 8106479329266893 (by norm_num) (by norm_num) (by norm_num) (by norm_num)
      (by norm_num) (by norm_num) (by norm_num)
  have r2 : Binary64.round (((9 : Int) : ℚ)) = 9 :=
    Binary64.round_eq _ _ 49 5066549580791808 (by norm_num) (by norm_num) (by norm_num) (by norm_num)
      (by norm_num) (by norm_num) (by norm_num)
  have r3 : Binary64.round ((8106479329266893 / 9007199254740992) * 9) = 4559894622712627 / 562949953421312 :=
    Binary64.round_eq _ _ 49 4559894622712627 (by norm_num) (by norm_num) (by norm_num) (by norm_num)
      (by norm_num) (by norm_num) (by norm_num)
  have r4 : Binary64.round (((8 : Int) : ℚ)) = 8 :=
    Binary64.round_eq _ _ 49 4503599627370496 (by norm_num) (by norm_num) (by norm_num) (by norm_num)
      (by norm_num) (by norm_num) (by norm_num)
  have r5 : Binary64.round ((4559894622712627 / 562949953421312) - 8) = 56294995342131 / 562949953421312 :=
    Binary64.round_eq _ _ 56 7205759403792768 (by norm_num) (by norm_num) (by norm_num) (by norm_num)
      (by norm_num) (by norm_num) (by norm_num)
  have r6 : Binary64.round (1 - (56294995342131 / 562949953421312)) = 506654958079181 / 562949953421312 :=
    Binary64.round_eq _ _ 53 8106479329266896 (by norm_num) (by norm_num) (by norm_num) (by norm_num)
      (by norm_num) (by norm_num) (by norm_num)
  have r7 : Binary64.round (9 * (506654958079181 / 562949953421312)) = 4559894622712629 / 562949953421312 :=
    Binary64.round_eq _ _ 49 4559894622712629 (by norm_num) (by norm_num) (by norm_num) (by norm_num)
      (by norm_num) (by norm_num) (by norm_num)
  have r8 : Binary64.round (10 * (56294995342131 / 562949953421312)) = 281474976710655 / 281474976710656 :=
    Binary64.round_eq _ _ 53 9007199254740960 (by norm_num) (by norm_num) (by norm_num) (by norm_num)
      (by norm_num) (by norm_num) (by norm_num)
  have r9 : Binary64.round ((4559894622712629 / 562949953421312) + (281474976710655 / 281474976710656)) = 5122844576133939 / 562949953421312 :=
    Binary64.round_eq _ _ 49 5122844576133939 (by norm_num) (by norm_num) (by norm_num) (by norm_num)
      (by norm_num) (by norm_num) (by norm_num)
  have hfloor : Int.floor ((4559894622712627 / 562949953421312) : ℚ) = 8 := by rw [Int.floor_eq_iff]; norm_num
  have hceil : Int.ceil ((4559894622712627 / 562949953421312) : ℚ) = 9 := by rw [Int.ceil_eq_iff]; norm_num
  have hlo : index ([1, 2, 3, 4, 5, 6, 7, 8, 9, 10] : List ℚ) 8 = some 9 := rfl
  have hhi : index ([1, 2, 3, 4, 5, 6, 7, 8, 9, 10] : List ℚ) 9 = some 10 := rfl
  unfold Binary64.percentile
  rw [if_neg (by decide)]
  simp only [hlen, Binary64.mul, Binary64.div, Binary64.ofInt, Binary64.sub, Binary64.add,
    rz, r1, r2, r3, hfloor, hceil]
  rw [if_neg (by decide)]
  simp only [hlo, hhi, rz, r4, r5, r6, r7, r8, r9]

/-- With the `float64` operations of `percentile`, the 99th percentile of the
sorted sample 1..10. -/
theorem percentile_float64_p99 :
    Binary64.percentile [1, 2, 3, 4, 5, 6, 7, 8, 9, 10] 99 = some (2789417019202601 / 281474976710656) := by
  have hlen : ((([1, 2, 3, 4, 5, 6, 7, 8, 9, 10] : List ℚ).length : Int) - 1) = 9 := by decide
  have rz : Binary64.round ((0 : Int) : ℚ) = 0 := by simp [Binary64.round]
  have r1 : Binary64.round (99 / 100) = 4458563631096791 / 4503599627370496 :=
    Binary64.round_eq _ _ 53 8917127262193582 (by norm_num) (by norm_num) (by norm_num) (by norm_num)
      (by norm_num) (by norm_num) (by norm_num)
  have r2 : Binary64.round (((9 : Int) : ℚ)) = 9 :=
    Binary64.round_eq _ _ 49 5066549580791808 (by norm_num) (by norm_num) (by norm_num) (by norm_num)
      (by norm_num) (by norm_num) (by norm_num)
  have r3 : Binary64.round ((4458563631096791 / 4503599627370496) * 9) = 2507942042491945 / 281474976710656 :=
    Binary64.round_eq _ _ 49 5015884084983890 (by norm_num) (by norm_num) (by norm_num) (by norm_num)
      (by norm_num) (by norm_num) (by norm_num)
  have r4 : Binary64.round (((8 : Int) : ℚ)) = 8 :=
    Binary64.round_eq _ _ 49 4503599627370496 (by norm_num) (by norm_num) (by norm_num) (by norm_num)
      (by norm_num) (by norm_num) (by norm_num)
  have r5 : Binary64.round ((2507942042491945 / 281474976710656) - 8) = 256142228806697 / 281474976710656 :=
    Binary64.round_eq _ _ 53 8196551321814304 (by norm_num) (by norm_num) (by norm_num) (by norm_num)
      (by norm_num) (by norm_num) (by norm_num)
  have r6 : Binary64.round (1 - (256142228806697 / 281474976710656)) = 25332747903959 / 281474976710656 :=
    Binary64.round_eq _ _ 56 6485183463413504 (by norm_num) (by norm_num) (by norm_num) (by norm_num)
      (by norm_num) (by norm_num) (by norm_num)
  have r7 : Binary64.round (9 * (25332747903959 / 281474976710656)) = 227994731135631 / 281474976710656 :=
    Binary64.round_eq _ _ 53 7295831396340192 (by norm_num) (by norm_num) (by norm_num) (by norm_num)
      (by norm_num) (by norm_num) (by norm_num)
  have r8 : Binary64.round (10 * (256142228806697 / 281474976710656)) = 1280711144033485 / 140737488355328 :=
    Binary64.round_eq _ _ 49 5122844576133940 (by norm_num) (by norm_num) (by norm_num) (by norm_num)
      (by norm_num) (by norm_num) (by norm_num)
  have r9 : Binary64.round ((227994731135631 / 281474976710656) + (1280711144033485 / 140737488355328)) = 2789417019202601 / 281474976710656 :=
    Binary64.round_eq _ _ 49 5578834038405202 (by norm_num) (by norm_num) (by norm_num) (by norm_num)
      (by norm_num) (by norm_num) (by norm_num)
  have hfloor : Int.floor ((2507942042491945 / 281474976710656) : ℚ) = 8 := by rw [Int.floor_eq_iff]; norm_num
  have hceil : Int.ceil ((2507942042491945 / 281474976710656) : ℚ) = 9 := by rw [Int.ceil_eq_iff]; norm_num
  have hlo : index ([1, 2, 3, 4, 5, 6, 7, 8, 9, 10] : List ℚ) 8 = some 9 := rfl
  have hhi : index ([1, 2, 3, 4, 5, 6, 7, 8, 9, 10] : List ℚ) 9 = some 10 := rfl
  unfold Binary64.percentile
  rw [if_neg (by decide)]
  simp only [hlen, Binary64.mul, Binary64.div, Binary64.ofInt, Binary64.sub, Binary64.add,
    rz, r1, r2, r3, hfloor, hceil]
  rw [if_neg (by decide)]
  simp only [hlo, hhi, rz, r4, r5, r6, r7, r8, r9]

/-- With the `float64` operations of `percentile` the percentiles of the sample
1..10 are 5.5, 7.75, 9.1 (the `float64` nearest to it), 9.549999999999999 and
9.91 (the `float64` nearest to it). -/
theorem calculatePercentiles_float64_oneToTen :
    Binary64.calculatePercentiles sampleOneToTen
      = some { P50 := 11 / 2
               P75 := 31 / 4
               P90 := 5122844576133939 / 562949953421312
               P95 := 5376172055173529 / 562949953421312
               P99 := 2789417019202601 / 281474976710656 } := by
  unfold Binary64.calculatePercentiles
  rw [if_neg (by decide), sortFloat64s_sampleOneToTen]
  unfold sampleOneToTen
  simp only [percentile_float64_p50, percentile_float64_p75, percentile_float64_p90,
    percentile_float64_p95, percentile_float64_p99]

/-- With the `float64` operations of `CalculateVelocity`, 100 lines in 10 minutes
give 10 lines per minute. -/
theorem CalculateVelocity_float64_100_10min :
    Binary64.CalculateVelocity 100 (10 * Minute) = (some { LOCPerMinute := 10 }, none) := by
  have hmin : Int.tdiv (10 * Minute) Minute = 10 := by decide
  have hns : Int.tmod (10 * Minute) Minute = 0 := by decide
  have rz : Binary64.round ((0 : Int) : ℚ) = 0 := by simp [Binary64.round]
  have rz2 : Binary64.round (0 / (60 * 1000000000)) = 0 := by simp [Binary64.round]
  have r1 : Binary64.round (((10 : Int) : ℚ)) = 10 :=
    Binary64.round_eq _ _ 49 5629499534213120 (by norm_num) (by norm_num) (by norm_num) (by norm_num)
      (by norm_num) (by norm_num) (by norm_num)
  have r2 : Binary64.round (10 + 0) = 10 :=
    Binary64.round_eq _ _ 49 5629499534213120 (by norm_num) (by norm_num) (by norm_num) (by norm_num)
      (by norm_num) (by norm_num) (by norm_num)
  have r3 : Binary64.round (((100 : Int) : ℚ)) = 100 :=
    Binary64.round_eq _ _ 46 7036874417766400 (by norm_num) (by norm_num) (by norm_num) (by norm_num)
      (by norm_num) (by norm_num) (by norm_num)
  have r4 : Binary64.round (100 / 10) = 10 :=
    Binary64.round_eq _ _ 49 5629499534213120 (by norm_num) (by norm_num) (by norm_num) (by norm_num)
      (by norm_num) (by norm_num) (by norm_num)
  unfold Binary64.CalculateVelocity Binary64.Minutes
  rw [if_neg (by decide)]
  simp only [hmin, hns, Binary64.ofInt, Binary64.add, Binary64.div, rz, rz2, r1, r2, r3, r4]

/-- With the `float64` operations of `CalculateVelocity`, 10 lines in 1 second
give 600 lines per minute. -/
theorem CalculateVelocity_float64_10_1s :
    Binary64.CalculateVelocity 10 Second = (some { LOCPerMinute := 600 }, none) := by
  have hmin : Int.tdiv Second Minute = 0 := by decide
  have hns : Int.tmod Second Minute = 1000000000 := by decide
  have rz : Binary64.round ((0 : Int) : ℚ) = 0 := by simp [Binary64.round]
  have r1 : Binary64.round (((1000000000 : Int) : ℚ)) = 1000000000 :=
    Binary64.round_eq _ _ 23 8388608000000000 (by norm_num) (by norm_num) (by norm_num) (by norm_num)
      (by norm_num) (by norm_num) (by norm_num)
  have r2 : Binary64.round (1000000000 / (60 * 1000000000)) = 4803839602528529 / 288230376151711744 :=
    Binary64.round_eq _ _ 58 4803839602528529 (by norm_num) (by norm_num) (by norm_num) (by norm_num)
      (by norm_num) (by norm_num) (by norm_num)
  have r3 : Binary64.round (0 + (4803839602528529 / 288230376151711744)) = 4803839602528529 / 288230376151711744 :=
    Binary64.round_eq _ _ 58 4803839602528529 (by norm_num) (by norm_num) (by norm_num) (by norm_num)
      (by norm_num) (by norm_num) (by norm_num)
  have r4 : Binary64.round (((10 : Int) : ℚ)) = 10 :=
    Binary64.round_eq _ _ 49 5629499534213120 (by norm_num) (by norm_num) (by norm_num) (by norm_num)
      (by norm_num) (by norm_num) (by norm_num)
  have r5 : Binary64.round (10 / (4803839602528529 / 288230376151711744)) = 600 :=
    Binary64.round_eq _ _ 43 5277655813324800 (by norm_num) (by norm_num) (by norm_num) (by norm_num)
      (by norm_num) (by norm_num) (by norm_num)
  unfold Binary64.CalculateVelocity Binary64.Minutes
  rw [if_neg (by decide)]
  simp only [hmin, hns, Binary64.ofInt, Binary64.add, Binary64.div, rz, r1, r2, r3, r4, r5]

/-- With the `float64` operations of `CalculateVelocity`, no lines give the rate
0 over every positive duration. -/
theorem CalculateVelocity_float64_zero (d : Duration) (hd : 0 < d) :
    Binary64.CalculateVelocity 0 d = (some { LOCPerMinute := 0 }, none) := by
  have hnot : ¬ d ≤ 0 := not_le.mpr hd
  have rz : Binary64.round ((0 : Int) : ℚ) = 0 := by simp [Binary64.round]
  have rz2 : ∀ m : ℚ, Binary64.round (0 / m) = 0 := by
    intro m
    simp [Binary64.round]
  simp only [Binary64.CalculateVelocity, if_neg hnot, Binary64.ofInt, Binary64.div, rz, rz2]

/-- C7, amended. In exact arithmetic (every `float64` operation of the source
taken as the exact operation on rationals), for a positive duration
`CalculateVelocity` (and `CalculateVelocityPerMinute`) returns the rate
`n * 60 / d-in-seconds`, for every line count and so for every `n ≥ 0`; the
rate is 0 when `n = 0`; 100 lines in 10 minutes give 10 and 10 lines in 1
second give 600. With the `float64` operations as well the rate is 0 when
`n = 0`, 100 lines in 10 minutes give 10 and 10 lines in 1 second give 600. -/
theorem CalculateVelocity_rate :
    (∀ (n : Int) (d : Duration), 0 < d →
      CalculateVelocity n d = (some { LOCPerMinute := linesPerMinute n d }, none) ∧
      CalculateVelocityPerMinute n d = (linesPerMinute n d, none)) ∧
    (∀ d : Duration, 0 < d →
      CalculateVelocity 0 d = (some { LOCPerMinute := 0 }, none)) ∧
    CalculateVelocity 100 (10 * Minute) = (some { LOCPerMinute := 10 }, none) ∧
    CalculateVelocity 10 Second = (some { LOCPerMinute := 600 }, none) ∧
    (∀ d : Duration, 0 < d →
      Binary64.CalculateVelocity 0 d = (some { LOCPerMinute := 0 }, none)) ∧
    Binary64.CalculateVelocity 100 (10 * Minute) = (some { LOCPerMinute := 10 }, none) ∧
    Binary64.CalculateVelocity 10 Second = (some { LOCPerMinute := 600 }, none) := by
  have gen : ∀ (n : Int) (d : Duration), 0 < d →
      CalculateVelocity n d = (some { LOCPerMinute := linesPerMinute n d }, none) ∧
      CalculateVelocityPerMinute n d = (linesPerMinute n d, none) := by
    intro n d hd
    have hnot : ¬ d ≤ 0 := not_le.mpr hd
    simp only [CalculateVelocity, CalculateVelocityPerMinute, if_neg hnot, velocity_rate n d hd,
      and_self]
  refine ⟨gen, ?_, ?_, ?_, CalculateVelocity_float64_zero,
    CalculateVelocity_float64_100_10min, CalculateVelocity_float64_10_1s⟩
  · intro d hd
    rw [(gen 0 d hd).1]
    simp [linesPerMinute]
  · rw [(gen 100 (10 * Minute) (by decide)).1]
    simp only [linesPerMinute, deltaSeconds, Minute, Second]
    norm_num
  · rw [(gen 10 Second (by decide)).1]
    simp only [linesPerMinute, deltaSeconds, Second]
    norm_num

/-- Witness for C7, amended: in exact arithmetic 50 lines in 90 seconds give
100/3 lines per minute. -/
theorem CalculateVelocity_rate_witness :
    CalculateVelocity 50 (90 * Second) = (some { LOCPerMinute := 100 / 3 }, none) := by
  rw [(CalculateVelocity_rate.1 50 (90 * Second) (by decide)).1]
  simp only [linesPerMinute, deltaSeconds, Second]
  norm_num

/-- C22, amended. In exact arithmetic (every `float64` operation of the source
taken as the exact operation on rationals), for every non-empty list (sorted
or not) and every percentile `p` in
{50, 75, 90, 95, 99}, `percentile` returns the linear interpolation with
`rank = (p/100)*(n-1)`: the element at index `rank` if the rank is an integer,
otherwise `sorted[floor(rank)]*(1-w) + sorted[ceil(rank)]*w` with `w` the
fractional part of the rank; `calculatePercentiles` reports these five values
on the sorted sample; the sample 1..10 gives p50 = 5.5, p75 = 7.75, p90 = 9.1,
p95 = 9.55 and p99 = 9.91. With the `float64` operations the five percentiles
of the sample 1..10 differ from these values by less than 0.01. -/
theorem percentile_linear_interpolation :
    (∀ (sorted : List ℚ) (p : ℚ), sorted ≠ [] →
      (p = 50 ∨ p = 75 ∨ p = 90 ∨ p = 95 ∨ p = 99) →
      percentile sorted p = some (interpolated sorted p)) ∧
    (∀ values : List ℚ, values ≠ [] →
      calculatePercentiles values
        = some { P50 := interpolated (sortFloat64s values) 50
                 P75 := interpolated (sortFloat64s values) 75
                 P90 := interpolated (sortFloat64s values) 90
                 P95 := interpolated (sortFloat64s values) 95
                 P99 := interpolated (sortFloat64s values) 99 }) ∧
    calculatePercentiles sampleOneToTen
      = some { P50 := 11 / 2, P75 := 31 / 4, P90 := 91 / 10, P95 := 191 / 20,
               P99 := 991 / 100 } ∧
    (∃ pc, Binary64.calculatePercentiles sampleOneToTen = some pc ∧
      |pc.P50 - 11 / 2| < 1 / 100 ∧ |pc.P75 - 31 / 4| < 1 / 100 ∧
      |pc.P90 - 91 / 10| < 1 / 100 ∧ |pc.P95 - 191 / 20| < 1 / 100 ∧
      |pc.P99 - 991 / 100| < 1 / 100) := by
  refine ⟨?_, calculatePercentiles_eq, ?_, ?_⟩
  · intro sorted p hn hp
    apply percentile_eq_interpolated sorted p hn
    · rcases hp with rfl | rfl | rfl | rfl | rfl <;> norm_num
    · rcases hp with rfl | rfl | rfl | rfl | rfl <;> norm_num
  · rw [calculatePercentiles_eq sampleOneToTen (by decide), sortFloat64s_sampleOneToTen,
      interpolated_between sampleOneToTen 50 4
        (by norm_num [percentileRank, sampleOneToTen])
        (by norm_num [percentileRank, sampleOneToTen]),
      interpolated_between sampleOneToTen 75 6
        (by norm_num [percentileRank, sampleOneToTen])
        (by norm_num [percentileRank, sampleOneToTen]),
      interpolated_between sampleOneToTen 90 8
        (by norm_num [percentileRank, sampleOneToTen])
        (by norm_num [percentileRank, sampleOneToTen]),
      interpolated_between sampleOneToTen 95 8
        (by norm_num [percentileRank, sampleOneToTen])
        (by norm_num [percentileRank, sampleOneToTen]),
      interpolated_between sampleOneToTen 99 8
        (by norm_num [percentileRank, sampleOneToTen])
        (by norm_num [percentileRank, sampleOneToTen])]
    have e4 : elementAt sampleOneToTen 4 = 5 := rfl
    have e5 : elementAt sampleOneToTen (4 + 1) = 6 := rfl
    have e6 : elementAt sampleOneToTen 6 = 7 := rfl
    have e7 : elementAt sampleOneToTen (6 + 1) = 8 := rfl
    have e8 : elementAt sampleOneToTen 8 = 9 := rfl
    have e9 : elementAt sampleOneToTen (8 + 1) = 10 := rfl
    simp only [e4, e5, e6, e7, e8, e9]
    norm_num [percentileRank, sampleOneToTen]
  · refine ⟨_, calculatePercentiles_float64_oneToTen, ?_, ?_, ?_, ?_, ?_⟩
    · norm_num [abs_lt]
    · norm_num [abs_lt]
    · norm_num [abs_lt]
    · norm_num [abs_lt]
    · norm_num [abs_lt]

/-- Witness for C22, amended: the 50th percentile of the sample 1, 2, 3 has the
integer rank 1 and is the element 2. -/
theorem percentile_linear_interpolation_witness :
    percentile [1, 2, 3] 50 = some (interpolated [1, 2, 3] 50) ∧
    interpolated [1, 2, 3] 50 = 2 := by
  refine ⟨percentile_linear_interpolation.1 [1, 2, 3] 50 (by simp) (Or.inl rfl), ?_⟩
  have hr : percentileRank ([1, 2, 3] : List ℚ).length 50 = ((1 : Int) : ℚ) := by
    norm_num [percentileRank]
  unfold interpolated
  simp only [hr, Int.fract_intCast, Int.floor_intCast, if_true]
  rfl

end Vibector
